import Mathlib

/-!
# SLiM population core: `Population::CrossoverMutation` and `Population::TallyMutationReferences`

A shallow embedding of `core/population.cpp`.

* A mutation handle (`Mutation *`) is the pair of the object identity and the immutable
  `position_` of the object it points to; pointer equality is equality of such pairs.
* A genome is its type tag, its null flag and the sequence of handles it holds.
* The chromosome and the random source are external collaborators: the values they return
  are fields of `Chromosome` and the argument `g_rng_bool`, and every call made to them is
  written to a log of `Draw` events.
* `SLIM_TERMINATION` is the outcome `terminated`, carrying the state at that moment;
  behaviour undefined in C++ (null dereference, signed overflow, index out of range) is
  the outcome `undefined`.
-/

namespace SLiM

/-- The largest value of the C++ type `int` (32 bits). -/
def INT_MAX : Int := 2147483647

inductive GenomeType where
  | kAutosome
  | kXChromosome
  | kYChromosome
deriving DecidableEq

inductive IndividualSex where
  | kUnspecified
  | kHermaphrodite
  | kFemale
  | kMale
deriving DecidableEq

/-- A handle to a mutation object: the identity of the object and its `position_`. -/
structure Mutation where
  id : Nat
  position_ : Int
deriving DecidableEq

/-- Modelled from the spec: the class `Genome` (genome.h is not among the sources): a type tag,
the null flag and the ordered sequence of non-owning mutation handles. -/
structure Genome where
  genome_type_ : GenomeType
  is_null_ : Bool
  mutations_ : List Mutation
deriving DecidableEq

/-- Modelled from the spec: `Genome::clear()` drops every handle and frees nothing. -/
def Genome.clear (g : Genome) : Genome :=
  { g with mutations_ := [] }

/-- Modelled from the spec: `Genome::copy_from_genome`, the bulk copy of the handles
of another genome. -/
def Genome.copy_from_genome (g source : Genome) : Genome :=
  { g with mutations_ := source.mutations_ }

/-- Modelled from the spec: `Genome::insert_sorted_mutation` on the handle sequence; the new
handle goes before the first handle with a larger position, which maintains position order. -/
def insert_sorted_mutation : List Mutation → Mutation → List Mutation
  | [], m => [m]
  | x :: rest, m =>
    if m.position_ < x.position_ then m :: x :: rest
    else x :: insert_sorted_mutation rest m

/-- The chromosome collaborator (chromosome.h is not among the sources), given by the values
its methods return during one call of `CrossoverMutation`. `DrawNewMutation k` is the
handle returned by the call number `k`. -/
structure Chromosome where
  last_position_ : Int
  DrawMutationCount : Nat
  DrawMutationAndBreakpointCounts : Nat × Nat
  DrawBreakpoints : Nat → List Int
  DrawNewMutation : Nat → Int → Int → Mutation

/-- One call to the random source or to the chromosome. -/
inductive Draw where
  | rngBool
  | mutationCount
  | mutationAndBreakpointCounts
  | breakpoints (n : Nat)
  | newMutation
deriving DecidableEq

/-- The `SLIM_TERMINATION` sites: those of `CrossoverMutation` in source order, then those of
`ApplyMateChoiceCallbacks`, `ApplyModifyChildCallbacks`, `SubpopulationWithID` and
`EvolveSubpopulation`, then those of `AddSubpopulation`, `SetSize`, `SetSexRatio`,
`SetSelfing` and `SetMigration`. -/
inductive Termination where
  | childSexUnspecified
  | mismatchCase1
  | hermaphroditeNotAutosomal
  | mismatchCase2
  | mismatchCase3
  | femaleChildY
  | mismatchCase4
  | nullChildCrossoverParentNonNull
  | nullChildStrandNonNull
  | nonNullChildStrandNull
  | nonNullChildParentNull
  | mateChoiceReturnLength
  | mateChoiceReturnType
  | weightNotFinite
  | weightNegative
  | weightsSumNotPositive
  | modifyChildReturn
  | noSubpopulation
  | unisexualChildPopulation
  | tooManyMigrants
  | negativeMigrantsOfOneSex
  | insufficientFemaleMigrants
  | addSubpopulationExists
  | addSubpopulationEmpty
  | setSizeChildGenerationValid
  | setSizeNoSubpopulation
  | setSexRatioChildGenerationValid
  | setSexRatioNoSubpopulation
  | setSelfingRange
  | setMigrationNoSubpopulation
  | setMigrationRange
deriving DecidableEq

/-- What a call can end in: a termination with the state reached, undefined behaviour,
or a normal return with the final state. -/
inductive Outcome (σ : Type) where
  | terminated (e : Termination) (s : σ)
  | undefined
  | returned (s : σ)
deriving DecidableEq

/-- The state `CrossoverMutation` can write: the child genome, the mutation registry,
and the log of the draws made so far. -/
structure CrossoverState where
  child_genome : Genome
  mutation_registry_ : List Mutation
  draws : List Draw
deriving DecidableEq

/-- Lines 817-891: the sex typing. Returns `(use_only_strand_1, do_swap)`. -/
def sexTyping (p_child_sex : IndividualSex)
    (child_genome_type parent1_genome_type parent2_genome_type : GenomeType) :
    Except Termination (Bool × Bool) :=
  if p_child_sex = IndividualSex.kUnspecified then
    .error .childSexUnspecified
  else if child_genome_type = GenomeType.kAutosome then
    if parent1_genome_type ≠ GenomeType.kAutosome ∨ parent2_genome_type ≠ GenomeType.kAutosome then
      .error .mismatchCase1
    else .ok (false, true)
  else if p_child_sex = IndividualSex.kHermaphrodite then
    .error .hermaphroditeNotAutosomal
  else if parent1_genome_type = GenomeType.kAutosome ∨ parent2_genome_type = GenomeType.kAutosome then
    .error .mismatchCase2
  else if child_genome_type = GenomeType.kXChromosome then
    if p_child_sex = IndividualSex.kMale then
      if parent1_genome_type = GenomeType.kYChromosome ∨ parent2_genome_type = GenomeType.kYChromosome then
        .error .mismatchCase3
      else .ok (false, true)
    else if p_child_sex = IndividualSex.kFemale then
      if parent1_genome_type = GenomeType.kYChromosome ∧ parent2_genome_type = GenomeType.kXChromosome then
        .ok (true, true)
      else if parent1_genome_type = GenomeType.kXChromosome ∧ parent2_genome_type = GenomeType.kYChromosome then
        .ok (true, false)
      else .ok (false, true)
    else .ok (false, true)
  else
    if p_child_sex = IndividualSex.kFemale then
      .error .femaleChildY
    else if parent1_genome_type = GenomeType.kYChromosome ∧ parent2_genome_type = GenomeType.kXChromosome then
      .ok (true, false)
    else if parent1_genome_type = GenomeType.kXChromosome ∧ parent2_genome_type = GenomeType.kYChromosome then
      .ok (true, true)
    else .error .mismatchCase4

/-- `std::unique` on a vector of `int`: each run of equal neighbours keeps one element. -/
def unique : List Int → List Int
  | [] => []
  | [a] => [a]
  | a :: b :: rest => if a = b then unique (b :: rest) else a :: unique (b :: rest)

/-- Lines 971-975 and 1034-1037: the drawn breakpoints with the sentinel `last_position_ + 1`
pushed at the back, sorted, neighbours made unique. -/
def all_breakpoints (drawn : List Int) (last_position_ : Int) : List Int :=
  unique (List.insertionSort (fun a b => a ≤ b) (drawn ++ [last_position_ + 1]))

/-- Lines 994-1005: copy the handles of the active strand that lie before the breakpoint.
Returns the cursor and the child. -/
def copyOld (breakpoint : Int) : List Mutation → List Mutation → List Mutation × List Mutation
  | [], child => ([], child)
  | current_mutation :: rest, child =>
    if current_mutation.position_ ≥ breakpoint then (current_mutation :: rest, child)
    else copyOld breakpoint rest (child ++ [current_mutation])

/-- Lines 1013-1014 and 1161-1162: move the cursor of the new strand past every handle before
the breakpoint. -/
def skipOld (breakpoint : Int) : List Mutation → List Mutation
  | [] => []
  | m :: rest => if m.position_ < breakpoint then skipOld breakpoint rest else m :: rest

/-- Lines 989-1015: the loop over the breakpoints when no new mutation was drawn.
`parent_iter` is the cursor of the active strand, `parent2_iter` that of the other. -/
def crossoverLoop : List Int → List Mutation → List Mutation → List Mutation → List Mutation
  | [], _, _, child => child
  | breakpoint :: rest, parent_iter, parent2_iter, child =>
    let r := copyOld breakpoint parent_iter child
    crossoverLoop rest (skipOld breakpoint parent2_iter) r.1 r.2

/-- The cached position of a cursor (lines 1064-1078): that of the handle under it, or
`INT_MAX` at the end of the strand. -/
def iterPos : List Mutation → Int
  | [] => INT_MAX
  | m :: _ => m.position_

/-- Lines 1086-1095: the backward search through the child for the identical handle, made
only when the child is not empty and its last handle has the position `pos`. -/
def present (child : List Mutation) (m : Mutation) (pos : Int) : Bool :=
  match child.getLast? with
  | none => false
  | some back => if back.position_ = pos then decide (m ∈ child) else false

/-- Lines 1097-1102: push the handle unless the search found it. -/
def addUnlessPresent (child : List Mutation) (m : Mutation) : List Mutation :=
  if present child m m.position_ then child else child ++ [m]

/-- Lines 1084-1113: while an old mutation is before the breakpoint and not after the next
new mutation, add it. At the end of the strand the cached handle is `nullptr` with position
`INT_MAX`; entering the body then dereferences it. Returns the cursor and the child. -/
def addOld (breakpoint mutation_iter_pos : Int) :
    List Mutation → List Mutation → Option (List Mutation × List Mutation)
  | [], child =>
    if INT_MAX < breakpoint ∧ INT_MAX ≤ mutation_iter_pos then none else some ([], child)
  | parent_iter_mutation :: rest, child =>
    if parent_iter_mutation.position_ < breakpoint ∧
        parent_iter_mutation.position_ ≤ mutation_iter_pos then
      addOld breakpoint mutation_iter_pos rest (addUnlessPresent child parent_iter_mutation)
    else some (parent_iter_mutation :: rest, child)

/-- Lines 1116-1145: while a new mutation is before the breakpoint and not after the next old
mutation, add it. Returns the cursor and the child. -/
def addNew (breakpoint parent_iter_pos : Int) :
    List Mutation → List Mutation → Option (List Mutation × List Mutation)
  | [], child =>
    if INT_MAX < breakpoint ∧ INT_MAX ≤ parent_iter_pos then none else some ([], child)
  | mutation_iter_mutation :: rest, child =>
    if mutation_iter_mutation.position_ < breakpoint ∧
        mutation_iter_mutation.position_ ≤ parent_iter_pos then
      addNew breakpoint parent_iter_pos rest (addUnlessPresent child mutation_iter_mutation)
    else some (mutation_iter_mutation :: rest, child)

/-- Lines 1081-1146: the loop that runs the two inner loops in turn until both cursors
have reached the breakpoint. Each turn that starts moves a cursor, so
`parent_iter.length + mutation_iter.length + 1` turns are enough; the result is the pair of
cursors and the child. -/
def mergeBefore (breakpoint : Int) :
    Nat → List Mutation → List Mutation → List Mutation →
      Option (List Mutation × List Mutation × List Mutation)
  | 0, _, _, _ => none
  | fuel + 1, parent_iter, mutation_iter, child =>
    if iterPos parent_iter < breakpoint ∨ iterPos mutation_iter < breakpoint then
      match addOld breakpoint (iterPos mutation_iter) parent_iter child with
      | none => none
      | some (parent_iter1, child1) =>
        match addNew breakpoint (iterPos parent_iter1) mutation_iter child1 with
        | none => none
        | some (mutation_iter1, child2) =>
          mergeBefore breakpoint fuel parent_iter1 mutation_iter1 child2
    else some (parent_iter, mutation_iter, child)

/-- Lines 1056-1163: the loop over the breakpoints when new mutations were drawn. The swap of
the strands and the skip happen only when another breakpoint follows. -/
def mergeLoop : List Int → List Mutation → List Mutation → List Mutation → List Mutation →
    Option (List Mutation)
  | [], _, _, _, _ => none
  | breakpoint :: rest, parent_iter, parent2_iter, mutation_iter, child =>
    match mergeBefore breakpoint (parent_iter.length + mutation_iter.length + 1)
        parent_iter mutation_iter child with
    | none => none
    | some (parent_iter1, mutation_iter1, child1) =>
      match rest with
      | [] => some child1
      | _ :: _ =>
        mergeLoop rest (skipOld breakpoint parent2_iter) parent_iter1 mutation_iter1 child1

/-- Lines 1025-1031: the handles returned by the `num_mutations` calls of `DrawNewMutation`,
in call order. -/
def drawnMutations (p_chromosome : Chromosome) (num_mutations : Nat)
    (p_source_subpop_id p_generation : Int) : List Mutation :=
  (List.range num_mutations).map
    (fun k => p_chromosome.DrawNewMutation k p_source_subpop_id p_generation)

/-- Lines 1023-1031: the scratch genome `mutations_to_add`. -/
def mutations_to_add (drawn : List Mutation) : List Mutation :=
  drawn.foldl insert_sorted_mutation []

/-- Lines 946-958: `num_mutations`, from `DrawMutationCount` when only one strand is used and
from the joint draw otherwise. -/
def drawnMutationCount (use_only_strand_1 : Bool) (p_chromosome : Chromosome) : Nat :=
  if use_only_strand_1 then p_chromosome.DrawMutationCount
  else p_chromosome.DrawMutationAndBreakpointCounts.1

/-- Lines 946-958: `num_breakpoints`, set to 0 when only one strand is used and taken from the
joint draw otherwise. -/
def drawnBreakpointCount (use_only_strand_1 : Bool) (p_chromosome : Chromosome) : Nat :=
  if use_only_strand_1 then 0 else p_chromosome.DrawMutationAndBreakpointCounts.2

/-- Line 894: whether the parental strands are swapped; the random source is asked only
when `do_swap` holds and `use_only_strand_1` does not. -/
def swapStrands (use_only_strand_1 do_swap g_rng_bool : Bool) : Bool :=
  do_swap && (use_only_strand_1 || g_rng_bool)

/-- Lines 896-906: `parent_genome_1` after the swap test. -/
def strand_1 (swap : Bool) (parent_genome_1 parent_genome_2 : Genome) : Genome :=
  if swap then parent_genome_2 else parent_genome_1

/-- Lines 896-906: `parent_genome_2` after the swap test. -/
def strand_2 (swap : Bool) (parent_genome_1 parent_genome_2 : Genome) : Genome :=
  if swap then parent_genome_1 else parent_genome_2

/-- Line 894: the draws made by the swap test. -/
def swapDraws (use_only_strand_1 do_swap : Bool) : List Draw :=
  if do_swap && !use_only_strand_1 then [Draw.rngBool] else []

/-- Lines 940-1164: build the non-null child from the strands chosen above. `parent_genome_1`
and `parent_genome_2` are the strands after the swap. -/
def buildChild (use_only_strand_1 : Bool) (child_genome parent_genome_1 parent_genome_2 : Genome)
    (mutation_registry_ : List Mutation) (draws : List Draw) (p_source_subpop_id : Int)
    (p_chromosome : Chromosome) (p_generation : Int) : Outcome CrossoverState :=
  let cleared := child_genome.clear
  let num_mutations := drawnMutationCount use_only_strand_1 p_chromosome
  let num_breakpoints := drawnBreakpointCount use_only_strand_1 p_chromosome
  let draws1 :=
    draws ++ [if use_only_strand_1 then Draw.mutationCount else Draw.mutationAndBreakpointCounts]
  if num_mutations = 0 then
    if num_breakpoints = 0 then
      .returned ⟨cleared.copy_from_genome parent_genome_1, mutation_registry_, draws1⟩
    else if INT_MAX ≤ p_chromosome.last_position_ then .undefined
    else
      let bps := all_breakpoints (p_chromosome.DrawBreakpoints num_breakpoints)
        p_chromosome.last_position_
      let child := crossoverLoop bps parent_genome_1.mutations_ parent_genome_2.mutations_
        cleared.mutations_
      .returned ⟨{ cleared with mutations_ := child }, mutation_registry_,
        draws1 ++ [Draw.breakpoints num_breakpoints]⟩
  else
    let drawn := drawnMutations p_chromosome num_mutations p_source_subpop_id p_generation
    let draws2 := draws1 ++ List.replicate num_mutations Draw.newMutation ++
      [Draw.breakpoints num_breakpoints]
    if INT_MAX ≤ p_chromosome.last_position_ then .undefined
    else
      let bps := all_breakpoints (p_chromosome.DrawBreakpoints num_breakpoints)
        p_chromosome.last_position_
      match mergeLoop bps parent_genome_1.mutations_
          (if num_breakpoints = 0 then [] else parent_genome_2.mutations_)
          (mutations_to_add drawn) cleared.mutations_ with
      | none => .undefined
      | some child => .returned ⟨{ cleared with mutations_ := child },
          mutation_registry_ ++ drawn, draws2⟩

/-- `Population::CrossoverMutation` (lines 806-1165) on the three genomes the indices select:
the child genome, and the two parental genomes before the swap. -/
def CrossoverMutation (child_genome parent_genome_1 parent_genome_2 : Genome)
    (mutation_registry_ : List Mutation) (p_source_subpop_id : Int)
    (p_chromosome : Chromosome) (p_generation : Int) (p_child_sex : IndividualSex)
    (g_rng_bool : Bool) : Outcome CrossoverState :=
  match sexTyping p_child_sex child_genome.genome_type_ parent_genome_1.genome_type_
      parent_genome_2.genome_type_ with
  | .error e => .terminated e ⟨child_genome, mutation_registry_, []⟩
  | .ok (use_only_strand_1, do_swap) =>
    let swap := swapStrands use_only_strand_1 do_swap g_rng_bool
    let draws := swapDraws use_only_strand_1 do_swap
    let strand_1 := strand_1 swap parent_genome_1 parent_genome_2
    let strand_2 := strand_2 swap parent_genome_1 parent_genome_2
    if child_genome.is_null_ then
      if !use_only_strand_1 then
        if !strand_1.is_null_ || !strand_2.is_null_ then
          .terminated .nullChildCrossoverParentNonNull ⟨child_genome, mutation_registry_, draws⟩
        else .returned ⟨child_genome, mutation_registry_, draws⟩
      else
        if !strand_1.is_null_ then
          .terminated .nullChildStrandNonNull ⟨child_genome, mutation_registry_, draws⟩
        else .returned ⟨child_genome, mutation_registry_, draws⟩
    else if use_only_strand_1 && strand_1.is_null_ then
      .terminated .nonNullChildStrandNull ⟨child_genome, mutation_registry_, draws⟩
    else if !use_only_strand_1 && (strand_1.is_null_ || strand_2.is_null_) then
      .terminated .nonNullChildParentNull ⟨child_genome, mutation_registry_, draws⟩
    else
      buildChild use_only_strand_1 child_genome strand_1 strand_2 mutation_registry_ draws
        p_source_subpop_id p_chromosome p_generation

/-- A finite value of the C++ type `double`, kept as the fraction `num / den`: every value of
the type other than an infinity and NaN is such a fraction. The operations `+`, `-` and `*`
below are the exact ones; an operation of the machine is the exact one followed by
`Double.round`. The comparisons of finite values are exact on the machine too. -/
structure Double where
  num : Int
  den : Nat
  den_pos : 0 < den := by decide
deriving DecidableEq

/-- The conversion of an `int` to `double`. -/
def Double.ofInt (n : Int) : Double := ⟨n, 1, by decide⟩

instance : Add Double where
  add a b := ⟨a.num * b.den + b.num * a.den, a.den * b.den, Nat.mul_pos a.den_pos b.den_pos⟩

instance : Sub Double where
  sub a b := ⟨a.num * b.den - b.num * a.den, a.den * b.den, Nat.mul_pos a.den_pos b.den_pos⟩

instance : Mul Double where
  mul a b := ⟨a.num * b.num, a.den * b.den, Nat.mul_pos a.den_pos b.den_pos⟩

instance : LE Double where
  le a b := a.num * b.den ≤ b.num * a.den

instance : LT Double where
  lt a b := a.num * b.den < b.num * a.den

instance (a b : Double) : Decidable (a ≤ b) :=
  inferInstanceAs (Decidable (a.num * b.den ≤ b.num * a.den))

instance (a b : Double) : Decidable (a < b) :=
  inferInstanceAs (Decidable (a.num * b.den < b.num * a.den))

/-- The number of binary digits of `n`, for `n` below `2 ^ 2 ^ levels`: the least `k` with
`n < 2 ^ k`. -/
def binaryDigitsBelow : Nat → Nat → Nat
  | 0, n => if n = 0 then 0 else 1
  | levels + 1, n =>
    if n < 2 ^ 2 ^ levels then binaryDigitsBelow levels n
    else 2 ^ levels + binaryDigitsBelow levels (n / 2 ^ 2 ^ levels)

/-- The least number of levels from `levels` on with `n < 2 ^ 2 ^ levels`, found in at most
`fuel` steps. -/
def digitLevels : Nat → Nat → Nat → Nat
  | 0, levels, _ => levels
  | fuel + 1, levels, n =>
    if n < 2 ^ 2 ^ levels then levels else digitLevels fuel (levels + 1) n

/-- The number of binary digits of `n`: the least `k` with `n < 2 ^ k`. -/
def binaryDigits (n : Nat) : Nat := binaryDigitsBelow (digitLevels n 0 n) n

/-- The binary exponent of the positive fraction `m / d`: the largest `e` with
`2 ^ e ≤ m / d`. -/
def binaryExponent (m d : Nat) : Int :=
  let k : Int := (binaryDigits m : Int) - (binaryDigits d : Int)
  if 0 ≤ k then (if d * 2 ^ k.toNat ≤ m then k else k - 1)
  else (if d ≤ m * 2 ^ (-k).toNat then k else k - 1)

/-- The integer nearest to the fraction `n / d`, the even one of the two when `n / d` lies
half way between them. -/
def nearestEven (n d : Nat) : Nat :=
  if 2 * (n % d) < d then n / d
  else if d < 2 * (n % d) then n / d + 1
  else if n / d % 2 = 0 then n / d else n / d + 1

/-- The value of the type `double` (IEEE 754 binary64) that is nearest to the fraction `x`,
the one with an even significand when `x` lies half way between two of them: what the
machine stores for an operation whose exact result is `x`. The significand has 53 binary
digits and the exponent of the last place is -1074 at least; a result beyond the largest
finite `double`, for which the machine gives an infinity, is outside the model. -/
def Double.round (x : Double) : Double :=
  if x.num = 0 then Double.ofInt 0
  else
    let last_place : Int := max (binaryExponent x.num.natAbs x.den) (-1022) - 52
    if 0 ≤ last_place then
      let significand : Int := nearestEven x.num.natAbs (x.den * 2 ^ last_place.toNat)
      ⟨(if 0 ≤ x.num then significand else -significand) * 2 ^ last_place.toNat, 1, by decide⟩
    else
      let significand : Int := nearestEven (x.num.natAbs * 2 ^ (-last_place).toNat) x.den
      ⟨if 0 ≤ x.num then significand else -significand, 2 ^ (-last_place).toNat,
        Nat.two_pow_pos _⟩

/-- The function `lround` of the C library on a finite value: the nearest integer, a half
going away from zero. -/
def lround (x : Double) : Int :=
  if 0 ≤ x.num then (2 * x.num + x.den) / (2 * x.den)
  else -((2 * (-x.num) + x.den) / (2 * x.den))

/-- Modelled from the spec: the part of the class `Subpopulation` used here (subpopulation.h
is not among the sources): the two genome banks, their sizes in individuals, the sex
configuration, the selfing fraction, the migrant fractions by source id in map order, the
fitness values cached for the parents, the flag `child_generation_valid`, and the sex ratio
and first male index of the parents. -/
structure Subpopulation where
  parent_genomes_ : List Genome
  child_genomes_ : List Genome
  child_subpop_size_ : Nat
  parent_subpop_size_ : Nat := 0
  sex_enabled_ : Bool := false
  child_sex_ratio_ : Double := Double.ofInt 0
  child_first_male_index_ : Nat := 0
  selfing_fraction_ : Double := Double.ofInt 0
  migrant_fractions_ : List (Int × Double) := []
  cached_parental_fitness_ : List Double := []
  cached_male_fitness_ : List Double := []
  child_generation_valid : Bool := false
  parent_sex_ratio_ : Double := Double.ofInt 0
  parent_first_male_index_ : Nat := 0

/-- Modelled from the spec: the class `Substitution` (substitution.h is not among the
sources): the snapshot of a mutation at the moment it fixed, and the generation of the
fixation. -/
structure Substitution where
  mutation : Mutation
  fixation_time_ : Int
deriving DecidableEq

/-- The population: the subpopulations by id in map order, the mutation registry,
`total_genome_count_`, the substitution log and the flag `child_generation_valid`. The field `reference_count_` of the
mutation objects is kept here, as a map from handles to counts. -/
structure Population where
  subpops : List (Int × Subpopulation)
  mutation_registry_ : List Mutation
  reference_count_ : Mutation → Int
  total_genome_count_ : Int
  substitutions_ : List Substitution := []
  child_generation_valid : Bool := false

/-- The population after a write to `child_genomes_[index]` of the subpopulation number
`subpop` and to the registry. -/
def Population.store (pop : Population) (subpop index : Nat) (s : CrossoverState) : Population :=
  match pop.subpops[subpop]? with
  | none => pop
  | some entry =>
    { pop with
      subpops := pop.subpops.set subpop
        (entry.1, { entry.2 with child_genomes_ := entry.2.child_genomes_.set index s.child_genome })
      mutation_registry_ := s.mutation_registry_ }

/-- `Population::CrossoverMutation` with its own arguments: `subpop` and `source_subpop` are
the places of the two subpopulations in the population (they may be the same), and the
three indices select the child genome and the two parental genomes. The result is the
population and the log of the draws. -/
def Population.CrossoverMutation (pop : Population) (subpop source_subpop : Nat)
    (p_child_genome_index : Nat) (p_source_subpop_id : Int)
    (p_parent1_genome_index p_parent2_genome_index : Nat) (p_chromosome : Chromosome)
    (p_generation : Int) (p_child_sex : IndividualSex) (g_rng_bool : Bool) :
    Outcome (Population × List Draw) :=
  match pop.subpops[subpop]?, pop.subpops[source_subpop]? with
  | some target, some source =>
    match target.2.child_genomes_[p_child_genome_index]?,
        source.2.parent_genomes_[p_parent1_genome_index]?,
        source.2.parent_genomes_[p_parent2_genome_index]? with
    | some child_genome, some parent_genome_1, some parent_genome_2 =>
      match SLiM.CrossoverMutation child_genome parent_genome_1 parent_genome_2
          pop.mutation_registry_ p_source_subpop_id p_chromosome p_generation p_child_sex
          g_rng_bool with
      | .terminated e s => .terminated e (pop.store subpop p_child_genome_index s, s.draws)
      | .undefined => .undefined
      | .returned s => .returned (pop.store subpop p_child_genome_index s, s.draws)
    | _, _, _ => .undefined
  | _, _ => .undefined

/-- Lines 1361-1362: one increment of `reference_count_` for every handle of the genome. -/
def tallyGenome (reference_count_ : Mutation → Int) (g : Genome) : Mutation → Int :=
  g.mutations_.foldl (fun rc m => Function.update rc m (rc m + 1)) reference_count_

/-- Lines 1354-1365: the body of the loop over the genomes, on the pair of the counts and
`total_genome_count`; only a non-null genome is tallied and counted. -/
def tallyStep (acc : (Mutation → Int) × Int) (genome : Genome) : (Mutation → Int) × Int :=
  if !genome.is_null_ then (tallyGenome acc.1 genome, acc.2 + 1) else acc

/-- Lines 1352-1366: the loop over the genome indices `0 .. subpop_genome_count - 1` of one
subpopulation; an index outside `child_genomes_` is undefined behaviour. -/
def tallySubpop (sp : Subpopulation) (acc : (Mutation → Int) × Int) :
    Option ((Mutation → Int) × Int) :=
  (List.range (2 * sp.child_subpop_size_)).foldlM
    (fun a i => (sp.child_genomes_[i]?).map (tallyStep a)) acc

/-- `Population::TallyMutationReferences` (lines 1287-1374), outside of SLiMgui. -/
def Population.TallyMutationReferences (pop : Population) : Option Population :=
  let zeroed := pop.mutation_registry_.foldl (fun rc m => Function.update rc m 0)
    pop.reference_count_
  match pop.subpops.foldlM (fun a entry => tallySubpop entry.2 a) (zeroed, 0) with
  | none => none
  | some r => some { pop with reference_count_ := r.1, total_genome_count_ := r.2 }


/-- Modelled from the spec: `Genome::RemoveFixedMutations(total_genome_count)` drops every
handle whose mutation has `reference_count_` equal to `total_genome_count` and keeps the
others in their order. -/
def Genome.RemoveFixedMutations (g : Genome) (reference_count_ : Mutation → Int)
    (total_genome_count : Int) : Genome :=
  { g with mutations_ := g.mutations_.filter (fun m => reference_count_ m ≠ total_genome_count) }

/-- Lines 1388-1452 of `RemoveFixedMutations`: the loop over the registry, from the index
`i` on. `registry_length` is `registry.length` throughout, since every `pop_back` comes with
`--registry_length`; `--i` followed by the `++i` of the loop header leaves `i` as it is.
The result is the registry, `fixed_mutation_accumulator` and
`removed_mutation_accumulator`; the first argument bounds the number of passes. -/
def registryLoop (reference_count_ : Mutation → Int) (total_genome_count_ : Int) :
    Nat → List Mutation → Nat → List Mutation → List Mutation →
      Option (List Mutation × List Mutation × List Mutation)
  | 0, _, _, _, _ => none
  | fuel + 1, registry, i, fixed, removed =>
    if i < registry.length then
      match registry[i]? with
      | none => none
      | some mutation =>
        let reference_count := reference_count_ mutation
        if reference_count = 0 then
          if i = registry.length - 1 then
            registryLoop reference_count_ total_genome_count_ fuel registry.dropLast (i + 1)
              fixed (removed ++ [mutation])
          else
            match registry.getLast? with
            | none => none
            | some last_mutation =>
              registryLoop reference_count_ total_genome_count_ fuel
                (registry.set i last_mutation).dropLast i fixed (removed ++ [mutation])
        else if reference_count = total_genome_count_ then
          if i = registry.length - 1 then
            registryLoop reference_count_ total_genome_count_ fuel registry.dropLast (i + 1)
              (insert_sorted_mutation fixed mutation) (removed ++ [mutation])
          else
            match registry.getLast? with
            | none => none
            | some last_mutation =>
              registryLoop reference_count_ total_genome_count_ fuel
                (registry.set i last_mutation).dropLast i
                (insert_sorted_mutation fixed mutation) (removed ++ [mutation])
        else
          registryLoop reference_count_ total_genome_count_ fuel registry (i + 1) fixed removed
    else some (registry, fixed, removed)

/-- Lines 1459-1466: the loop over the genome indices `0 .. 2 * child_subpop_size_ - 1` of
one subpopulation; a non-null genome drops its fixed handles in place, and an index outside
`child_genomes_` is undefined behaviour. -/
def scrubGenomes (reference_count_ : Mutation → Int) (total_genome_count_ : Int)
    (child_subpop_size_ : Nat) (child_genomes_ : List Genome) : Option (List Genome) :=
  (List.range (2 * child_subpop_size_)).foldlM
    (fun genomes i => (genomes[i]?).map (fun genome =>
      if !genome.is_null_ then
        genomes.set i (genome.RemoveFixedMutations reference_count_ total_genome_count_)
      else genomes))
    child_genomes_

/-- Lines 1457-1467: the loop over the subpopulations. -/
def scrubSubpops (reference_count_ : Mutation → Int) (total_genome_count_ : Int) :
    List (Int × Subpopulation) → Option (List (Int × Subpopulation))
  | [] => some []
  | subpop_pair :: rest =>
    match scrubGenomes reference_count_ total_genome_count_ subpop_pair.2.child_subpop_size_
        subpop_pair.2.child_genomes_ with
    | none => none
    | some genomes =>
      match scrubSubpops reference_count_ total_genome_count_ rest with
      | none => none
      | some rest_scrubbed =>
        some ((subpop_pair.1, { subpop_pair.2 with child_genomes_ := genomes }) :: rest_scrubbed)

/-- `Population::RemoveFixedMutations` (lines 1377-1490), outside of SLiMgui; `generation`
is the value of `sim_.Generation()`. The mutation objects of
`removed_mutation_accumulator` are freed at the end, which no handle of the model shows. -/
def Population.RemoveFixedMutations (pop : Population) (generation : Int) : Option Population :=
  match registryLoop pop.reference_count_ pop.total_genome_count_
      (pop.mutation_registry_.length + 1) pop.mutation_registry_ 0 [] [] with
  | none => none
  | some (registry, fixed_mutation_accumulator, _) =>
    if fixed_mutation_accumulator.length > 0 then
      match scrubSubpops pop.reference_count_ pop.total_genome_count_ pop.subpops with
      | none => none
      | some subpops =>
        some { pop with
          subpops := subpops
          mutation_registry_ := registry
          substitutions_ := pop.substitutions_ ++
            fixed_mutation_accumulator.map (fun m => Substitution.mk m generation) }
    else some { pop with mutation_registry_ := registry }

/-- Lines 1236-1239 of `SwapGenerations`: the tally, then the removal of the lost and of
the fixed mutations. -/
def Population.tallyAndRemoveFixed (pop : Population) (generation : Int) : Option Population :=
  match pop.TallyMutationReferences with
  | none => none
  | some tallied => tallied.RemoveFixedMutations generation


/-- A `double` as a script returns it: a finite value, or an infinity or NaN. -/
inductive ScriptFloat where
  | finite (x : Double)
  | notFinite
deriving DecidableEq

/-- The value of a weight in a sum; the weights summed have passed the test of line 353. -/
def ScriptFloat.value : ScriptFloat → Double
  | .finite x => x
  | .notFinite => Double.ofInt 0

/-- Modelled from the spec: the value that the interpreter returns for a script block
(script_value.h is not among the sources): void, null, or a vector of logicals, integers,
floats or objects. -/
inductive ScriptValue where
  | void
  | null
  | logical (values : List Bool)
  | integer (values : List Int)
  | float (values : List ScriptFloat)
  | object (count : Nat)
deriving DecidableEq

/-- Modelled from the spec: the part of the class `SLiMScriptBlock` used here
(slim_script_block.h is not among the sources). -/
structure SLiMScriptBlock where
  active_ : Bool
  contains_weights_ : Bool := true
deriving DecidableEq

/-- What a call of a callback mediator ends in. -/
inductive CallResult (α : Type) where
  | terminated (e : Termination)
  | returned (value : α)
deriving DecidableEq

/-- The calls that `ApplyMateChoiceCallbacks` makes to the interpreter and to the random
source: the evaluation of the callback number `callback` for the first parent, with the
weights injected as `weights` if the block names them. -/
inductive MateChoiceEvent where
  | evaluated (callback : Nat) (p_parent1_index : Int) (weights : Option (List ScriptFloat))
  | uniformDraw
  | drawMaleParent
  | drawParent
deriving DecidableEq

/-- The answers of the collaborators of one call of `ApplyMateChoiceCallbacks`: the value the
interpreter returns for the callback of a given number shown given weights, the value of
`gsl_rng_uniform_pos`, and what the two fitness draws of the source subpopulation return. -/
structure MateChoiceAnswers where
  EvaluateScriptBlock : Nat → Option (List ScriptFloat) → ScriptValue
  gsl_rng_uniform_pos : Double
  DrawMaleParentUsingFitness : Int
  DrawParentUsingFitness : Int

/-- Lines 351-362: the sum of the weights and the number of positive ones, or the termination
at the first weight that is not finite or is negative. Here and below `round` is the rounding
of the arithmetic: `Double.round` on the machine, the identity in exact arithmetic. -/
def assessWeights (round : Double → Double) :
    List ScriptFloat → Double → Int → CallResult (Double × Int)
  | [], weights_sum, positive_count => .returned (weights_sum, positive_count)
  | .notFinite :: _, _, _ => .terminated .weightNotFinite
  | .finite x :: rest, weights_sum, positive_count =>
    if x < Double.ofInt 0 then .terminated .weightNegative
    else assessWeights round rest (round (weights_sum + x))
      (if Double.ofInt 0 < x then positive_count + 1 else positive_count)

/-- Lines 371-376: the index of the first positive weight, from `weight_index` on, or -1. -/
def firstPositive : List ScriptFloat → Int → Int
  | [], _ => -1
  | w :: rest, weight_index =>
    if Double.ofInt 0 < w.value then weight_index else firstPositive rest (weight_index + 1)

/-- Lines 384-393: the first index at which the running sum reaches the drawn value,
or -1. -/
def roseLoop (round : Double → Double) (the_rose_in_the_teeth : Double) :
    List ScriptFloat → Int → Double → Int
  | [], _, _ => -1
  | w :: rest, weight_index, bachelor_sum =>
    if the_rose_in_the_teeth ≤ round (bachelor_sum + w.value) then weight_index
    else roseLoop round the_rose_in_the_teeth rest (weight_index + 1)
      (round (bachelor_sum + w.value))

/-- Lines 343-400: the draw from weights that a callback supplied. The vector has
`weights_length` entries, a callback replacing the weights only by a vector of that
length. -/
def drawFromWeights (round : Double → Double) (current_weights : List ScriptFloat)
    (weights_length : Nat) (answers : MateChoiceAnswers) :
    CallResult Int × List MateChoiceEvent :=
  match assessWeights round current_weights (Double.ofInt 0) 0 with
  | .terminated e => (.terminated e, [])
  | .returned (weights_sum, positive_count) =>
    if weights_sum ≤ Double.ofInt 0 then (.terminated .weightsSumNotPositive, [])
    else if positive_count = 1 then (.returned (firstPositive current_weights 0), [])
    else
      let drawn_parent :=
        roseLoop round (round (answers.gsl_rng_uniform_pos * weights_sum)) current_weights 0
          (Double.ofInt 0)
      (.returned (if drawn_parent = -1 then (weights_length : Int) - 1 else drawn_parent),
        [.uniformDraw])

/-- Lines 256-403 of `ApplyMateChoiceCallbacks`: the loop over the callbacks from the
callback number `k` on, then the draw. -/
def mateChoiceLoop (round : Double → Double) (p_parent1_index : Int) (sex_enabled : Bool)
    (weights_length : Nat) (answers : MateChoiceAnswers) :
    List SLiMScriptBlock → Nat → List ScriptFloat → Bool → List MateChoiceEvent →
      CallResult Int × List MateChoiceEvent
  | [], _, current_weights, weights_modified, events =>
    if weights_modified then
      let drawn := drawFromWeights round current_weights weights_length answers
      (drawn.1, events ++ drawn.2)
    else if sex_enabled then
      (.returned answers.DrawMaleParentUsingFitness, events ++ [.drawMaleParent])
    else (.returned answers.DrawParentUsingFitness, events ++ [.drawParent])
  | mate_choice_callback :: rest, k, current_weights, weights_modified, events =>
    if mate_choice_callback.active_ then
      let weights :=
        if mate_choice_callback.contains_weights_ then some current_weights else none
      let events := events ++ [.evaluated k p_parent1_index weights]
      match answers.EvaluateScriptBlock k weights with
      | .null =>
        mateChoiceLoop round p_parent1_index sex_enabled weights_length answers rest (k + 1)
          current_weights weights_modified events
      | .float values =>
        if values.length = 0 then (.returned (-1), events)
        else if values.length = weights_length then
          mateChoiceLoop round p_parent1_index sex_enabled weights_length answers rest (k + 1)
            values true events
        else (.terminated .mateChoiceReturnLength, events)
      | _ => (.terminated .mateChoiceReturnType, events)
    else
      mateChoiceLoop round p_parent1_index sex_enabled weights_length answers rest (k + 1)
        current_weights weights_modified events

/-- `Population::ApplyMateChoiceCallbacks` (lines 246-407): the index of the second parent,
or -1 for a redraw of the first, with the log of the calls made. The symbols other than
`weights` that are injected for a callback are inputs of the interpreter only. The call of
the source is the one with `Double.round` for `round`. -/
def ApplyMateChoiceCallbacks (round : Double → Double) (p_parent1_index : Int)
    (p_subpop p_source_subpop : Subpopulation)
    (p_mate_choice_callbacks : List SLiMScriptBlock) (answers : MateChoiceAnswers) :
    CallResult Int × List MateChoiceEvent :=
  let sex_enabled := p_subpop.sex_enabled_
  let standard_weights :=
    if sex_enabled then p_source_subpop.cached_male_fitness_
    else p_source_subpop.cached_parental_fitness_
  mateChoiceLoop round p_parent1_index sex_enabled p_source_subpop.parent_subpop_size_ answers
    p_mate_choice_callbacks 0 (standard_weights.map ScriptFloat.finite) false []

/-- Lines 412-492 of `ApplyModifyChildCallbacks`: the loop over the callbacks from the
callback number `k` on; `events` lists the callbacks evaluated. -/
def modifyChildLoop (EvaluateScriptBlock : Nat → ScriptValue) :
    List SLiMScriptBlock → Nat → List Nat → CallResult Bool × List Nat
  | [], _, events => (.returned true, events)
  | modify_child_callback :: rest, k, events =>
    if modify_child_callback.active_ then
      match EvaluateScriptBlock k with
      | .logical [generate_child] =>
        if !generate_child then (.returned false, events ++ [k])
        else modifyChildLoop EvaluateScriptBlock rest (k + 1) (events ++ [k])
      | _ => (.terminated .modifyChildReturn, events ++ [k])
    else modifyChildLoop EvaluateScriptBlock rest (k + 1) events

/-- `Population::ApplyModifyChildCallbacks` (lines 410-496): whether the child is kept, with
the list of the callbacks evaluated. The child, the parents and the other arguments are
inputs of the interpreter only, whose answers are `EvaluateScriptBlock`. -/
def ApplyModifyChildCallbacks (p_modify_child_callbacks : List SLiMScriptBlock)
    (EvaluateScriptBlock : Nat → ScriptValue) : CallResult Bool × List Nat :=
  modifyChildLoop EvaluateScriptBlock p_modify_child_callbacks 0 []


/-- Modelled from the spec: `Population::SubpopulationWithID` (population.h is not among the
sources), on the list of the subpopulations: the place of the subpopulation with the id,
counted from `place`, or nothing, where the source terminates. -/
def subpopulationPlace (p_subpop_id : Int) : List (Int × Subpopulation) → Nat → Option Nat
  | [], _ => none
  | subpop_pair :: rest, place =>
    if subpop_pair.1 = p_subpop_id then some place
    else subpopulationPlace p_subpop_id rest (place + 1)

/-- Modelled from the spec: `Population::SubpopulationWithID`, the place of the subpopulation
with the id in the population. -/
def Population.SubpopulationWithID (pop : Population) (p_subpop_id : Int) : Option Nat :=
  subpopulationPlace p_subpop_id pop.subpops 0

/-- The answers of the collaborators during one pass through the body of a `do ... while`
loop of `EvolveSubpopulation` and, when the loop is left, the rest of the enclosing pass:
the draw of the first parent, the call of `ApplyMateChoiceCallbacks`, the draw of the second
parent, the draws of the two calls of `CrossoverMutation`, and the interpreter in
`ApplyModifyChildCallbacks`. An answer is read only when the call is made. -/
structure Mating where
  parent1 : Int
  mate_choice : MateChoiceAnswers
  parent2 : Int
  chromosome1 : Chromosome
  g_rng_bool1 : Bool
  chromosome2 : Chromosome
  g_rng_bool2 : Bool
  modify_child : Nat → ScriptValue

/-- The three kinds of loops that generate children: lines 643-675 and 767-799 without
sex, lines 575-607 and 699-731 for the females, lines 610-638 and 734-762 for the males. -/
inductive ChildKind where
  | asexual
  | female
  | male
deriving DecidableEq

/-- The sex passed to `CrossoverMutation` in a loop of the kind. -/
def ChildKind.sex : ChildKind → IndividualSex
  | .asexual => .kHermaphrodite
  | .female => .kFemale
  | .male => .kMale

/-- A child that was generated: its place in the child bank, the id of the source of its
parents, the two parents, whether it was made by selfing, its sex, and whether the
modifyChild() callbacks kept it. -/
structure ChildRecord where
  child_index : Int
  source_subpop_id : Int
  parent1 : Int
  parent2 : Int
  selfed : Bool
  sex : IndividualSex
  accepted : Bool
deriving DecidableEq

/-- What `EvolveSubpopulation` did, in order: the call of `gsl_ran_multinomial` with its
rates and total; a first parent given up because the callbacks returned -1; a child
generated by two calls of `CrossoverMutation`. -/
inductive EvolveEvent where
  | multinomial (migration_rates : List Double) (total_children : Int)
  | redraw (child_index : Int) (source_subpop_id : Int) (parent1 : Int)
  | child (record : ChildRecord)
deriving DecidableEq

/-- The state of a call of `EvolveSubpopulation`: the population, the three counters of
lines 529-530 and the log of the events. -/
structure EvolveState where
  pop : Population
  child_count : Int
  male_child_count : Int
  female_child_count : Int
  events : List EvolveEvent

/-- What a run of `EvolveSubpopulation` over a list of answers ends in: a termination or a
return as for `Outcome`, or `pending` when the run asks for an answer beyond the list. -/
inductive Run (α : Type) where
  | terminated (e : Termination) (s : EvolveState)
  | undefined
  | pending (s : EvolveState)
  | returned (a : α)

/-- A call of `CrossoverMutation` from `EvolveSubpopulation`; a negative index is outside
the bank. -/
def crossoverCall (st : EvolveState) (subpop source_subpop : Nat)
    (p_child_genome_index : Int) (p_source_subpop_id : Int)
    (p_parent1_genome_index p_parent2_genome_index : Int) (p_chromosome : Chromosome)
    (p_generation : Int) (p_child_sex : IndividualSex) (g_rng_bool : Bool) :
    Outcome EvolveState :=
  if p_child_genome_index < 0 ∨ p_parent1_genome_index < 0 ∨ p_parent2_genome_index < 0 then
    .undefined
  else
    match st.pop.CrossoverMutation subpop source_subpop p_child_genome_index.toNat
        p_source_subpop_id p_parent1_genome_index.toNat p_parent2_genome_index.toNat
        p_chromosome p_generation p_child_sex g_rng_bool with
    | .terminated e r => .terminated e { st with pop := r.1 }
    | .undefined => .undefined
    | .returned r => .returned { st with pop := r.1 }

/-- The increments at the end of a pass that keeps its child. -/
def ChildKind.advance (kind : ChildKind) (st : EvolveState) : EvolveState :=
  match kind with
  | .asexual => { st with child_count := st.child_count + 1 }
  | .female => { st with female_child_count := st.female_child_count + 1 }
  | .male => { st with male_child_count := st.male_child_count + 1 }

/-- The place of the child of a pass in the child bank: `child_count` without sex,
`female_child_count` for a female, `male_child_count + child_first_male_index_` for a
male. -/
def ChildKind.child_index (kind : ChildKind) (st : EvolveState)
    (child_first_male_index_ : Nat) : Int :=
  match kind with
  | .asexual => st.child_count
  | .female => st.female_child_count
  | .male => st.male_child_count + child_first_male_index_

/-- How one pass through the body of a `do ... while` loop and what follows it ends: in a
termination or undefined behaviour, with `parent2 == -1` and so in another pass of the
`do ... while`, with the `continue` of a child that a modifyChild() callback rejects, or at
the increments that end the body of the `while` loop. -/
inductive Pass where
  | terminated (e : Termination) (s : EvolveState)
  | undefined
  | redraw (s : EvolveState)
  | rejected (s : EvolveState)
  | kept (s : EvolveState) (selfed : Bool)

/-- One pass of a loop of the kind: the body of the `do ... while` (for the asexual loop of
the migrants lines 649-663), then the two calls of `CrossoverMutation` and the
modifyChild() callbacks (lines 665-671). The males have no selfing branch. -/
def onePass (kind : ChildKind) (subpop source_subpop : Nat) (source_subpop_id : Int)
    (p_generation : Int)
    (p_mate_choice_callbacks p_modify_child_callbacks : List SLiMScriptBlock)
    (m : Mating) (st : EvolveState) (number_to_self : Int) : Pass :=
  match st.pop.subpops[subpop]?, st.pop.subpops[source_subpop]? with
  | some target, some source =>
    let child_index := kind.child_index st target.2.child_first_male_index_
    let parent1 := m.parent1
    let selfed := decide (kind ≠ ChildKind.male) && decide (number_to_self > 0)
    let second : CallResult Int :=
      if selfed then .returned parent1
      else if p_mate_choice_callbacks.length > 0 then
        (ApplyMateChoiceCallbacks Double.round parent1 target.2 source.2
          p_mate_choice_callbacks m.mate_choice).1
      else .returned m.parent2
    match second with
    | .terminated e => .terminated e st
    | .returned parent2 =>
      if parent2 = -1 then
        .redraw { st with
          events := st.events ++ [.redraw child_index source_subpop_id parent1] }
      else
        match crossoverCall st subpop source_subpop (2 * child_index) source_subpop_id
            (2 * parent1) (2 * parent1 + 1) m.chromosome1 p_generation kind.sex
            m.g_rng_bool1 with
        | .terminated e s => .terminated e s
        | .undefined => .undefined
        | .returned st1 =>
          match crossoverCall st1 subpop source_subpop (2 * child_index + 1)
              source_subpop_id (2 * parent2) (2 * parent2 + 1) m.chromosome2 p_generation
              kind.sex m.g_rng_bool2 with
          | .terminated e s => .terminated e s
          | .undefined => .undefined
          | .returned st2 =>
            let verdict : CallResult Bool :=
              if p_modify_child_callbacks.length > 0 then
                (ApplyModifyChildCallbacks p_modify_child_callbacks m.modify_child).1
              else .returned true
            match verdict with
            | .terminated e => .terminated e st2
            | .returned generate_child =>
              let record : ChildRecord :=
                ⟨child_index, source_subpop_id, parent1, parent2, selfed, kind.sex,
                  generate_child⟩
              let st3 : EvolveState := { st2 with events := st2.events ++ [.child record] }
              if generate_child then .kept st3 selfed else .rejected st3
  | _, _ => .undefined

/-- One `while` loop of `EvolveSubpopulation` that generates children of one kind from one
source, the six loops differing in the kind and the source alone: `count` is
`migrant_count` or `native_count`, `limit` its bound. A pass that ends with `parent2 == -1`
or with `continue` is followed by the next pass with the counters as they are. The result
is the state, `count`, `number_to_self` and the answers not yet used. -/
def matingLoop (kind : ChildKind) (subpop source_subpop : Nat) (source_subpop_id : Int)
    (limit : Int) (p_generation : Int)
    (p_mate_choice_callbacks p_modify_child_callbacks : List SLiMScriptBlock) :
    List Mating → EvolveState → Int → Int → Run (EvolveState × Int × Int × List Mating)
  | [], st, count, number_to_self =>
    if count < limit then .pending st else .returned (st, count, number_to_self, [])
  | m :: rest, st, count, number_to_self =>
    if count < limit then
      match onePass kind subpop source_subpop source_subpop_id p_generation
          p_mate_choice_callbacks p_modify_child_callbacks m st number_to_self with
      | .terminated e s => .terminated e s
      | .undefined => .undefined
      | .redraw s =>
        matingLoop kind subpop source_subpop source_subpop_id limit p_generation
          p_mate_choice_callbacks p_modify_child_callbacks rest s count number_to_self
      | .rejected s =>
        matingLoop kind subpop source_subpop source_subpop_id limit p_generation
          p_mate_choice_callbacks p_modify_child_callbacks rest s count number_to_self
      | .kept s selfed =>
        matingLoop kind subpop source_subpop source_subpop_id limit p_generation
          p_mate_choice_callbacks p_modify_child_callbacks rest (kind.advance s) (count + 1)
          (if selfed then number_to_self - 1 else number_to_self)
    else .returned (st, count, number_to_self, m :: rest)

/-- The children of one source: lines 559-677 for a migrant source and lines 682-799 for the
subpopulation itself, which differ in the source alone. With sex the females are generated
first and then the males. -/
def generateFromSource (sex_enabled : Bool) (sex_ratio : Double) (subpop source_subpop : Nat)
    (source_subpop_id : Int) (selfing_fraction : Double) (to_generate : Int)
    (p_generation : Int)
    (p_mate_choice_callbacks p_modify_child_callbacks : List SLiMScriptBlock)
    (matings : List Mating) (st : EvolveState) : Run (EvolveState × List Mating) :=
  let number_to_self := lround (Double.round (Double.ofInt to_generate * selfing_fraction))
  if sex_enabled then
    let male_migrants := lround (Double.round (Double.ofInt to_generate * sex_ratio))
    let female_migrants := to_generate - male_migrants
    if male_migrants < 0 ∨ female_migrants < 0 then .terminated .negativeMigrantsOfOneSex st
    else if female_migrants < number_to_self then .terminated .insufficientFemaleMigrants st
    else
      match matingLoop .female subpop source_subpop source_subpop_id female_migrants
          p_generation p_mate_choice_callbacks p_modify_child_callbacks matings st 0
          number_to_self with
      | .terminated e s => .terminated e s
      | .undefined => .undefined
      | .pending s => .pending s
      | .returned (st1, migrant_count, number_to_self1, matings1) =>
        match matingLoop .male subpop source_subpop source_subpop_id
            (female_migrants + male_migrants) p_generation p_mate_choice_callbacks
            p_modify_child_callbacks matings1 st1 migrant_count number_to_self1 with
        | .terminated e s => .terminated e s
        | .undefined => .undefined
        | .pending s => .pending s
        | .returned (st2, _, _, matings2) => .returned (st2, matings2)
  else
    match matingLoop .asexual subpop source_subpop source_subpop_id to_generate p_generation
        p_mate_choice_callbacks p_modify_child_callbacks matings st 0 number_to_self with
    | .terminated e s => .terminated e s
    | .undefined => .undefined
    | .pending s => .pending s
    | .returned (st1, _, _, matings1) => .returned (st1, matings1)

/-- Lines 555-679: the loop over the migrant sources, from the source number `pop_count`
on. -/
def migrantLoop (sex_enabled : Bool) (sex_ratio : Double) (subpop : Nat)
    (num_migrants : List Nat) (p_generation : Int)
    (p_mate_choice_callbacks p_modify_child_callbacks : List SLiMScriptBlock) :
    List (Int × Double) → Nat → List Mating → EvolveState → Run (EvolveState × List Mating)
  | [], _, matings, st => .returned (st, matings)
  | fractions_pair :: rest, pop_count, matings, st =>
    let source_subpop_id := fractions_pair.1
    match st.pop.SubpopulationWithID source_subpop_id with
    | none => .terminated .noSubpopulation st
    | some source_subpop =>
      match st.pop.subpops[source_subpop]?, num_migrants[pop_count]? with
      | some source, some migrants_to_generate =>
        match generateFromSource sex_enabled sex_ratio subpop source_subpop source_subpop_id
            source.2.selfing_fraction_ migrants_to_generate p_generation
            p_mate_choice_callbacks p_modify_child_callbacks matings st with
        | .terminated e s => .terminated e s
        | .undefined => .undefined
        | .pending s => .pending s
        | .returned (st1, matings1) =>
          migrantLoop sex_enabled sex_ratio subpop num_migrants p_generation
            p_mate_choice_callbacks p_modify_child_callbacks rest (pop_count + 1) matings1 st1
      | _, _ => .undefined

/-- Lines 538-543: the sum of the migrant fractions, added up in map order, each addition
rounded. -/
def migrationRateSum (migrant_fractions_ : List (Int × Double)) : Double :=
  migrant_fractions_.foldl (fun migration_rate_sum fractions_pair =>
    Double.round (migration_rate_sum + fractions_pair.2)) (Double.ofInt 0)

/-- `Population::EvolveSubpopulation` (lines 499-803). `num_migrants` is what
`gsl_ran_multinomial` writes into the array of that name, `matings` the answers of the
other collaborators in the order of the passes. -/
def Population.EvolveSubpopulation (pop : Population) (p_subpop_id : Int)
    (p_generation : Int)
    (p_mate_choice_callbacks p_modify_child_callbacks : List SLiMScriptBlock)
    (num_migrants : List Nat) (matings : List Mating) : Run EvolveState :=
  let st : EvolveState := ⟨pop, 0, 0, 0, []⟩
  match pop.SubpopulationWithID p_subpop_id with
  | none => .terminated .noSubpopulation st
  | some subpop_place =>
    match pop.subpops[subpop_place]? with
    | none => .undefined
    | some subpop =>
      let sex_enabled := subpop.2.sex_enabled_
      let sex_ratio := if sex_enabled then subpop.2.child_sex_ratio_ else Double.ofInt 0
      let total_children : Int := subpop.2.child_subpop_size_
      let total_male_children :=
        if sex_enabled then lround (Double.round (Double.ofInt total_children * sex_ratio))
        else 0
      let total_female_children :=
        if sex_enabled then total_children - total_male_children else 0
      if sex_enabled ∧ (total_male_children ≤ 0 ∨ total_female_children ≤ 0) then
        .terminated .unisexualChildPopulation st
      else
        let migration_rate_sum := migrationRateSum subpop.2.migrant_fractions_
        if migration_rate_sum ≤ Double.ofInt 1 then
          let migration_rates := subpop.2.migrant_fractions_.map (fun fractions_pair =>
            fractions_pair.2) ++ [Double.round (Double.ofInt 1 - migration_rate_sum)]
          let st0 : EvolveState :=
            { st with events := [.multinomial migration_rates total_children] }
          match migrantLoop sex_enabled sex_ratio subpop_place num_migrants p_generation
              p_mate_choice_callbacks p_modify_child_callbacks subpop.2.migrant_fractions_ 0
              matings st0 with
          | .terminated e s => .terminated e s
          | .undefined => .undefined
          | .pending s => .pending s
          | .returned (st1, matings1) =>
            match st1.pop.subpops[subpop_place]?,
                num_migrants[subpop.2.migrant_fractions_.length]? with
            | some target, some natives_to_generate =>
              match generateFromSource sex_enabled sex_ratio subpop_place subpop_place
                  p_subpop_id target.2.selfing_fraction_ natives_to_generate p_generation
                  p_mate_choice_callbacks p_modify_child_callbacks matings1 st1 with
              | .terminated e s => .terminated e s
              | .undefined => .undefined
              | .pending s => .pending s
              | .returned (st2, _) =>
                match st2.pop.subpops[subpop_place]? with
                | none => .undefined
                | some final =>
                  .returned { st2 with pop := { st2.pop with
                    subpops := st2.pop.subpops.set subpop_place
                      (final.1, { final.2 with child_generation_valid := true })
                    child_generation_valid := true } }
            | _, _ => .undefined
        else .terminated .tooManyMigrants st


/-! ## The calls that configure the population (lines 78-225) -/

/-- `std::map::count` for a key, on the entries of the map in key order. -/
def mapCount {α : Type} (key : Int) (entries : List (Int × α)) : Nat :=
  if entries.any (fun e => decide (e.1 = key)) then 1 else 0

/-- `std::map::erase` for a key: the entries with another key stay, in their order. -/
def mapErase {α : Type} (key : Int) (entries : List (Int × α)) : List (Int × α) :=
  entries.filter (fun e => decide (e.1 ≠ key))

/-- `std::map::insert` of a pair: nothing is written if the key is there already, else the
pair goes before the first entry with a greater key. -/
def mapInsert {α : Type} (pair : Int × α) : List (Int × α) → List (Int × α)
  | [] => [pair]
  | e :: rest =>
    if pair.1 < e.1 then pair :: e :: rest
    else if pair.1 = e.1 then e :: rest
    else e :: mapInsert pair rest

/-- Modelled from the spec: what `AddSubpopulation`, `SetSize` and `SetSexRatio` take from
outside population.cpp: `sim_.SexEnabled()`, and the genomes that the class `Subpopulation`
(subpopulation.cpp is not among the sources) makes to fit a bank of a size in individuals
and a sex ratio, with the index of the first male. -/
structure SLiMSim where
  SexEnabled : Bool
  GenerateToFit : Nat → Double → List Genome × Nat

/-- Modelled from the spec: `Subpopulation::GenerateChildrenToFit` with the argument `false`,
which "means generate only new children, not new parents" (lines 180 and 198): the child
bank and the index of its first male are made anew for the child size and the child sex
ratio, and nothing else of the subpopulation is written. -/
def Subpopulation.GenerateChildrenToFit (subpop : Subpopulation) (sim : SLiMSim) :
    Subpopulation :=
  { subpop with
    child_genomes_ := (sim.GenerateToFit subpop.child_subpop_size_ subpop.child_sex_ratio_).1
    child_first_male_index_ :=
      (sim.GenerateToFit subpop.child_subpop_size_ subpop.child_sex_ratio_).2 }

/-- Modelled from the spec: the constructors of `Subpopulation` (subpopulation.cpp is not
among the sources): the parent size and the child size are the size given, both banks are
made to fit the size and the sex ratio, the selfing fraction is 0, there is no migrant
fraction, and all the fitness values are equal. -/
def Subpopulation.construct (sim : SLiMSim) (p_subpop_size : Nat) (p_sex_ratio : Double) :
    Subpopulation :=
  { parent_genomes_ := (sim.GenerateToFit p_subpop_size p_sex_ratio).1
    child_genomes_ := (sim.GenerateToFit p_subpop_size p_sex_ratio).1
    child_subpop_size_ := p_subpop_size
    parent_subpop_size_ := p_subpop_size
    sex_enabled_ := sim.SexEnabled
    child_sex_ratio_ := p_sex_ratio
    child_first_male_index_ := (sim.GenerateToFit p_subpop_size p_sex_ratio).2
    selfing_fraction_ := Double.ofInt 0
    migrant_fractions_ := []
    cached_parental_fitness_ := List.replicate p_subpop_size (Double.ofInt 1)
    cached_male_fitness_ := []
    child_generation_valid := false
    parent_sex_ratio_ := p_sex_ratio
    parent_first_male_index_ := (sim.GenerateToFit p_subpop_size p_sex_ratio).2 }

/-- The subpopulation that `AddSubpopulation` makes (lines 86-93 and 109-116): the one
constructor is given the sex ratio and the other is not, and the flag is that of the
population. -/
def Population.newSubpopulation (pop : Population) (sim : SLiMSim) (p_subpop_size : Nat)
    (p_initial_sex_ratio : Double) : Subpopulation :=
  let new_subpop :=
    if sim.SexEnabled then Subpopulation.construct sim p_subpop_size p_initial_sex_ratio
    else Subpopulation.construct sim p_subpop_size (Double.ofInt 0)
  { new_subpop with child_generation_valid := pop.child_generation_valid }

/-- `Population::AddSubpopulation` without a source (lines 78-98). -/
def Population.AddSubpopulation (pop : Population) (sim : SLiMSim) (p_subpop_id : Int)
    (p_subpop_size : Nat) (p_initial_sex_ratio : Double) : Outcome Population :=
  if mapCount p_subpop_id pop.subpops ≠ 0 then .terminated .addSubpopulationExists pop
  else if p_subpop_size < 1 then .terminated .addSubpopulationEmpty pop
  else
    .returned { pop with
      subpops := mapInsert
        (p_subpop_id, pop.newSubpopulation sim p_subpop_size p_initial_sex_ratio) pop.subpops }

/-- The answers of the source subpopulation in the loop of lines 123-142, by the number of
the pass: the parent that each of its three draws by fitness gives. -/
structure ParentDraws where
  DrawFemaleParentUsingFitness : Nat → Int
  DrawMaleParentUsingFitness : Nat → Int
  DrawParentUsingFitness : Nat → Int

/-- The loop of lines 123-142 from the pass `parent_index` on, for `passes` passes, on the
parent bank of the new subpopulation. There is no result where an index is outside a
bank. -/
def drawParentsLoop (SexEnabled : Bool) (draws : ParentDraws) (p_source_subpop : Subpopulation)
    (parent_first_male_index_ : Nat) :
    Nat → Nat → List Genome → Option (List Genome)
  | 0, _, parent_genomes_ => some parent_genomes_
  | passes + 1, parent_index, parent_genomes_ =>
    let migrant_index : Int :=
      if SexEnabled then
        if parent_index < parent_first_male_index_ then
          draws.DrawFemaleParentUsingFitness parent_index
        else draws.DrawMaleParentUsingFitness parent_index
      else draws.DrawParentUsingFitness parent_index
    if migrant_index < 0 then none
    else
      match parent_genomes_[2 * parent_index]?,
          p_source_subpop.parent_genomes_[2 * migrant_index.toNat]? with
      | some first, some source_first =>
        let written := parent_genomes_.set (2 * parent_index)
          (first.copy_from_genome source_first)
        match written[2 * parent_index + 1]?,
            p_source_subpop.parent_genomes_[2 * migrant_index.toNat + 1]? with
        | some second, some source_second =>
          drawParentsLoop SexEnabled draws p_source_subpop parent_first_male_index_ passes
            (parent_index + 1)
            (written.set (2 * parent_index + 1) (second.copy_from_genome source_second))
        | _, _ => none
      | _, _ => none

/-- `Population::AddSubpopulation` from a source subpopulation (lines 101-148); the source
is not written, so it is taken as it is when the call starts. -/
def Population.AddSubpopulationFrom (pop : Population) (sim : SLiMSim) (p_subpop_id : Int)
    (p_source_subpop : Subpopulation) (p_subpop_size : Nat) (p_initial_sex_ratio : Double)
    (draws : ParentDraws) : Outcome Population :=
  if mapCount p_subpop_id pop.subpops ≠ 0 then .terminated .addSubpopulationExists pop
  else if p_subpop_size < 1 then .terminated .addSubpopulationEmpty pop
  else
    let new_subpop := pop.newSubpopulation sim p_subpop_size p_initial_sex_ratio
    match drawParentsLoop sim.SexEnabled draws p_source_subpop
        new_subpop.parent_first_male_index_ new_subpop.parent_subpop_size_ 0
        new_subpop.parent_genomes_ with
    | none => .undefined
    | some parent_genomes_ =>
      .returned { pop with
        subpops := mapInsert (p_subpop_id, { new_subpop with parent_genomes_ := parent_genomes_ })
          pop.subpops }

/-- `Population::AddSubpopulation` from the id of a source subpopulation (lines 150-155). -/
def Population.AddSubpopulationFromID (pop : Population) (sim : SLiMSim) (p_subpop_id : Int)
    (p_source_subpop_id : Int) (p_subpop_size : Nat) (p_initial_sex_ratio : Double)
    (draws : ParentDraws) : Outcome Population :=
  match pop.SubpopulationWithID p_source_subpop_id with
  | none => .terminated .noSubpopulation pop
  | some place =>
    match pop.subpops[place]? with
    | none => .undefined
    | some source_subpop =>
      pop.AddSubpopulationFrom sim p_subpop_id source_subpop.2 p_subpop_size
        p_initial_sex_ratio draws

/-- `Population::SetSize` (lines 158-182). -/
def Population.SetSize (pop : Population) (sim : SLiMSim) (p_subpop_id : Int)
    (p_subpop_size : Nat) : Outcome Population :=
  if pop.child_generation_valid then .terminated .setSizeChildGenerationValid pop
  else if mapCount p_subpop_id pop.subpops = 0 then .terminated .setSizeNoSubpopulation pop
  else if p_subpop_size = 0 then
    .returned { pop with
      subpops := (mapErase p_subpop_id pop.subpops).map (fun subpop_pair =>
        (subpop_pair.1, { subpop_pair.2 with
          migrant_fractions_ := mapErase p_subpop_id subpop_pair.2.migrant_fractions_ })) }
  else
    match pop.SubpopulationWithID p_subpop_id with
    | none => .terminated .noSubpopulation pop
    | some place =>
      match pop.subpops[place]? with
      | none => .undefined
      | some subpop =>
        .returned { pop with
          subpops := pop.subpops.set place
            (subpop.1, Subpopulation.GenerateChildrenToFit
              { subpop.2 with child_subpop_size_ := p_subpop_size } sim) }

/-- `Population::SetSexRatio` (lines 185-199). -/
def Population.SetSexRatio (pop : Population) (sim : SLiMSim) (p_subpop_id : Int)
    (p_sex_ratio : Double) : Outcome Population :=
  if pop.child_generation_valid then .terminated .setSexRatioChildGenerationValid pop
  else if mapCount p_subpop_id pop.subpops = 0 then
    .terminated .setSexRatioNoSubpopulation pop
  else
    match pop.SubpopulationWithID p_subpop_id with
    | none => .terminated .noSubpopulation pop
    | some place =>
      match pop.subpops[place]? with
      | none => .undefined
      | some subpop =>
        .returned { pop with
          subpops := pop.subpops.set place
            (subpop.1, Subpopulation.GenerateChildrenToFit
              { subpop.2 with child_sex_ratio_ := p_sex_ratio } sim) }

/-- `Population::SetSelfing` (lines 202-208). -/
def Population.SetSelfing (pop : Population) (p_subpop_id : Int) (p_selfing_fraction : Double) :
    Outcome Population :=
  if p_selfing_fraction < Double.ofInt 0 ∨ Double.ofInt 1 < p_selfing_fraction then
    .terminated .setSelfingRange pop
  else
    match pop.SubpopulationWithID p_subpop_id with
    | none => .terminated .noSubpopulation pop
    | some place =>
      match pop.subpops[place]? with
      | none => .undefined
      | some subpop =>
        .returned { pop with
          subpops := pop.subpops.set place
            (subpop.1, { subpop.2 with selfing_fraction_ := p_selfing_fraction }) }

/-- The map `migrant_fractions_` after lines 220-224 of `SetMigration`. -/
def setFraction (p_source_subpop_id : Int) (p_migrant_fraction : Double)
    (migrant_fractions_ : List (Int × Double)) : List (Int × Double) :=
  let erased :=
    if mapCount p_source_subpop_id migrant_fractions_ ≠ 0 then
      mapErase p_source_subpop_id migrant_fractions_
    else migrant_fractions_
  if Double.ofInt 0 < p_migrant_fraction then
    mapInsert (p_source_subpop_id, p_migrant_fraction) erased
  else erased

/-- `Population::SetMigration` (lines 211-225). -/
def Population.SetMigration (pop : Population) (p_subpop_id p_source_subpop_id : Int)
    (p_migrant_fraction : Double) : Outcome Population :=
  if mapCount p_source_subpop_id pop.subpops = 0 then
    .terminated .setMigrationNoSubpopulation pop
  else if p_migrant_fraction < Double.ofInt 0 ∨ Double.ofInt 1 < p_migrant_fraction then
    .terminated .setMigrationRange pop
  else
    match pop.SubpopulationWithID p_subpop_id with
    | none => .terminated .noSubpopulation pop
    | some place =>
      match pop.subpops[place]? with
      | none => .undefined
      | some subpop =>
        .returned { pop with
          subpops := pop.subpops.set place
            (subpop.1, { subpop.2 with
              migrant_fractions_ :=
                setFraction p_source_subpop_id p_migrant_fraction subpop.2.migrant_fractions_ }) }

/-- A call of one of the functions that write the population between two calls of
`SwapGenerations`, with its arguments and the answers of its collaborators. -/
inductive PopulationCall where
  | addSubpopulation (p_subpop_id : Int) (p_subpop_size : Nat) (p_initial_sex_ratio : Double)
  | addSubpopulationFrom (p_subpop_id p_source_subpop_id : Int) (p_subpop_size : Nat)
      (p_initial_sex_ratio : Double) (draws : ParentDraws)
  | setSize (p_subpop_id : Int) (p_subpop_size : Nat)
  | setSexRatio (p_subpop_id : Int) (p_sex_ratio : Double)
  | setSelfing (p_subpop_id : Int) (p_selfing_fraction : Double)
  | setMigration (p_subpop_id p_source_subpop_id : Int) (p_migrant_fraction : Double)
  | evolveSubpopulation (p_subpop_id : Int) (p_generation : Int)
      (p_mate_choice_callbacks p_modify_child_callbacks : List SLiMScriptBlock)
      (num_migrants : List Nat) (matings : List Mating)

/-- The population that a call leaves when it ends, by a return or by a termination. -/
def Outcome.state {σ : Type} : Outcome σ → Option σ
  | .terminated _ s => some s
  | .undefined => none
  | .returned s => some s

/-- The population that a run of `EvolveSubpopulation` leaves when it ends, by a return or by
a termination. -/
def Run.ended : Run EvolveState → Option Population
  | .terminated _ s => some s.pop
  | .undefined => none
  | .pending _ => none
  | .returned s => some s.pop

/-- The population after a call, if the call ends. -/
def Population.call (pop : Population) (sim : SLiMSim) : PopulationCall → Option Population
  | .addSubpopulation p_subpop_id p_subpop_size p_initial_sex_ratio =>
    (pop.AddSubpopulation sim p_subpop_id p_subpop_size p_initial_sex_ratio).state
  | .addSubpopulationFrom p_subpop_id p_source_subpop_id p_subpop_size p_initial_sex_ratio
      draws =>
    (pop.AddSubpopulationFromID sim p_subpop_id p_source_subpop_id p_subpop_size
      p_initial_sex_ratio draws).state
  | .setSize p_subpop_id p_subpop_size => (pop.SetSize sim p_subpop_id p_subpop_size).state
  | .setSexRatio p_subpop_id p_sex_ratio => (pop.SetSexRatio sim p_subpop_id p_sex_ratio).state
  | .setSelfing p_subpop_id p_selfing_fraction =>
    (pop.SetSelfing p_subpop_id p_selfing_fraction).state
  | .setMigration p_subpop_id p_source_subpop_id p_migrant_fraction =>
    (pop.SetMigration p_subpop_id p_source_subpop_id p_migrant_fraction).state
  | .evolveSubpopulation p_subpop_id p_generation p_mate_choice_callbacks
      p_modify_child_callbacks num_migrants matings =>
    (pop.EvolveSubpopulation p_subpop_id p_generation p_mate_choice_callbacks
      p_modify_child_callbacks num_migrants matings).ended

/-- The populations after a sequence of calls, each of them ended. -/
def Population.calls (pop : Population) (sim : SLiMSim) : List PopulationCall → Option Population
  | [] => some pop
  | c :: rest =>
    match pop.call sim c with
    | none => none
    | some next => next.calls sim rest


/-! ## The end of `RemoveFixedMutations` and `SwapGenerations` -/

/-- Lines 1475-1489 of `RemoveFixedMutations`: the mutation objects that the loop over
`removed_mutation_accumulator` deletes, in the order of the calls of `delete`. -/
def deletedMutations (removed_mutation_accumulator : List Mutation) : List Mutation :=
  removed_mutation_accumulator.foldl (fun deleted mutation => deleted ++ [mutation]) []

/-- Lines 1018-1164 of `CrossoverMutation` on the handles, as `buildChild` runs them when
`num_mutations` is not 0: the handles of the child that the merge writes for the new
mutations `drawn`, in the order of their draws; there is no result where the behaviour is
undefined. -/
def mergePath (parent_genome_1 parent_genome_2 : Genome) (p_chromosome : Chromosome)
    (num_breakpoints : Nat) (drawn : List Mutation) : Option (List Mutation) :=
  mergeLoop
    (all_breakpoints (p_chromosome.DrawBreakpoints num_breakpoints) p_chromosome.last_position_)
    parent_genome_1.mutations_
    (if num_breakpoints = 0 then [] else parent_genome_2.mutations_)
    (mutations_to_add drawn) []

/-- Modelled from the spec: `Subpopulation::SwapChildAndParentGenomes` (subpopulation.cpp is
not among the sources): the parent bank and the child bank, their sizes, their sex ratios
and their first male indices change places, and the flag `child_generation_valid` of the
subpopulation is cleared ("each subpop flips its child_generation_valid flag at the end of
this call", line 1246). -/
def Subpopulation.SwapChildAndParentGenomes (subpop : Subpopulation) : Subpopulation :=
  { subpop with
    parent_genomes_ := subpop.child_genomes_
    child_genomes_ := subpop.parent_genomes_
    parent_subpop_size_ := subpop.child_subpop_size_
    child_subpop_size_ := subpop.parent_subpop_size_
    parent_sex_ratio_ := subpop.child_sex_ratio_
    child_sex_ratio_ := subpop.parent_sex_ratio_
    parent_first_male_index_ := subpop.child_first_male_index_
    child_first_male_index_ := subpop.parent_first_male_index_
    child_generation_valid := false }

/-- Modelled from the spec: what `SwapGenerations` reads of a script block that is a
fitness() callback (slim_script_block.h is not among the sources): `subpopulation_id_`,
which is -1 for a callback of every subpopulation; `block` tells the callbacks apart. -/
structure FitnessCallback where
  block : Nat
  subpopulation_id_ : Int
deriving DecidableEq

/-- Lines 1265-1271: the callbacks of the list that apply to the subpopulation, pushed in
the order of the list. -/
def subpopFitnessCallbacks (subpop_id : Int) (fitness_callbacks : List FitnessCallback) :
    List FitnessCallback :=
  fitness_callbacks.foldl (fun subpop_fitness_callbacks callback =>
    if callback.subpopulation_id_ = -1 ∨ callback.subpopulation_id_ = subpop_id then
      subpop_fitness_callbacks ++ [callback]
    else subpop_fitness_callbacks) []

/-- A call of `UpdateFitness` made by `SwapGenerations`: the id of the subpopulation, the
subpopulation as it is when the call is made, the callbacks handed over, and the flag
`child_generation_valid` of the population at that moment. -/
structure FitnessUpdate where
  subpop_id : Int
  subpop : Subpopulation
  subpop_fitness_callbacks : List FitnessCallback
  child_generation_valid : Bool

/-- Lines 1260-1276: the loop over the subpopulations that updates the fitness values.
`UpdateFitness` stands for the method of `Subpopulation` of that name, which is not among
the sources; the result is the subpopulations and the log of the calls. -/
def updateFitnessLoop (UpdateFitness : Subpopulation → List FitnessCallback → Subpopulation)
    (fitness_callbacks : List FitnessCallback) (child_generation_valid : Bool) :
    List (Int × Subpopulation) → List (Int × Subpopulation) × List FitnessUpdate
  | [] => ([], [])
  | subpop_pair :: rest =>
    let subpop_fitness_callbacks := subpopFitnessCallbacks subpop_pair.1 fitness_callbacks
    let updated := updateFitnessLoop UpdateFitness fitness_callbacks child_generation_valid rest
    ((subpop_pair.1, UpdateFitness subpop_pair.2 subpop_fitness_callbacks) :: updated.1,
      ⟨subpop_pair.1, subpop_pair.2, subpop_fitness_callbacks, child_generation_valid⟩ ::
        updated.2)

/-- `Population::SwapGenerations` (lines 1233-1283), outside of SLiMgui. `Generation` is the
value of `sim_.Generation()`, `ScriptBlocksMatching` gives for a generation the fitness()
callbacks that `sim_.ScriptBlocksMatching` returns for it, any subpopulation and any
mutation type. The result is the population and the log of the calls of `UpdateFitness`;
there is none where the tally or the removal of the fixed mutations is undefined. -/
def Population.SwapGenerations (pop : Population) (Generation : Int)
    (ScriptBlocksMatching : Int → List FitnessCallback)
    (UpdateFitness : Subpopulation → List FitnessCallback → Subpopulation) :
    Option (Population × List FitnessUpdate) :=
  match pop.tallyAndRemoveFixed Generation with
  | none => none
  | some purged =>
    let swapped : Population :=
      { purged with
        subpops := purged.subpops.map (fun subpop_pair =>
          (subpop_pair.1, subpop_pair.2.SwapChildAndParentGenomes))
        child_generation_valid := false }
    let fitness_callbacks := ScriptBlocksMatching (Generation + 1)
    let updated := updateFitnessLoop UpdateFitness fitness_callbacks
      swapped.child_generation_valid swapped.subpops
    some ({ swapped with subpops := updated.1 }, updated.2)

/-! ## Definitions used to state and prove the properties -/

/-- The handle sequence is in position order. -/
def PosSorted (l : List Mutation) : Prop :=
  l.Pairwise (fun a b => a.position_ ≤ b.position_)

instance (l : List Mutation) : Decidable (PosSorted l) := by
  unfold PosSorted; infer_instance

/-- The handle lies before the breakpoint. -/
def before (breakpoint : Int) (m : Mutation) : Bool :=
  decide (m.position_ < breakpoint)

/-- The loop test of lines 1084 and 1116 on the handle under the moving cursor, the cached
position of the other cursor being `other_pos`. -/
def runCond (breakpoint other_pos : Int) (m : Mutation) : Bool :=
  decide (m.position_ < breakpoint ∧ m.position_ ≤ other_pos)

/-- The segments of the two strands between successive breakpoints, strand by strand in
turn, starting with `cur`. -/
def crossSegments : List Int → List Mutation → List Mutation → List Mutation
  | [], _, _ => []
  | b :: rest, cur, other =>
    cur.takeWhile (before b) ++
      crossSegments rest (other.dropWhile (before b)) (cur.dropWhile (before b))

/-- The handles that lines 1081-1146 try to add before one breakpoint, in order: a run of old
mutations, a run of new ones, and so on. -/
def segmentOrder (breakpoint : Int) : Nat → List Mutation → List Mutation → List Mutation
  | 0, _, _ => []
  | fuel + 1, cur, muts =>
    if iterPos cur < breakpoint ∨ iterPos muts < breakpoint then
      cur.takeWhile (runCond breakpoint (iterPos muts)) ++
        (muts.takeWhile
            (runCond breakpoint (iterPos (cur.dropWhile (runCond breakpoint (iterPos muts))))) ++
          segmentOrder breakpoint fuel (cur.dropWhile (runCond breakpoint (iterPos muts)))
            (muts.dropWhile
              (runCond breakpoint (iterPos (cur.dropWhile (runCond breakpoint (iterPos muts)))))))
    else []

/-- The handles that lines 1056-1163 try to add over all breakpoints, in order. -/
def emissionOrder : List Int → List Mutation → List Mutation → List Mutation → List Mutation
  | [], _, _, _ => []
  | b :: rest, cur, other, muts =>
    segmentOrder b (cur.length + muts.length + 1) cur muts ++
      emissionOrder rest (other.dropWhile (before b)) (cur.dropWhile (before b))
        (muts.dropWhile (before b))

/-- The number of breakpoints that are at or before the position. -/
def crossings (B : List Int) (position : Int) : Nat :=
  (B.filter (fun b => decide (b ≤ position))).length

/-- The handle lies at a position crossed by an even number of breakpoints. -/
def evenCrossed (B : List Int) (m : Mutation) : Bool :=
  decide (crossings B m.position_ % 2 = 0)

/-- The handle lies at a position crossed by an odd number of breakpoints. -/
def oddCrossed (B : List Int) (m : Mutation) : Bool :=
  decide (crossings B m.position_ % 2 = 1)

/-- The permitted rows of the typing table, in the words of the specification. -/
def permittedRow (child_genome_type : GenomeType) (p_child_sex : IndividualSex)
    (parent1_genome_type parent2_genome_type : GenomeType) : Prop :=
  (child_genome_type = .kAutosome ∧ parent1_genome_type = .kAutosome ∧
      parent2_genome_type = .kAutosome) ∨
  (child_genome_type = .kXChromosome ∧ p_child_sex = .kFemale ∧
      parent1_genome_type = .kXChromosome ∧ parent2_genome_type = .kXChromosome) ∨
  (child_genome_type = .kXChromosome ∧ p_child_sex = .kFemale ∧
      ((parent1_genome_type = .kXChromosome ∧ parent2_genome_type = .kYChromosome) ∨
       (parent1_genome_type = .kYChromosome ∧ parent2_genome_type = .kXChromosome))) ∨
  (child_genome_type = .kXChromosome ∧ p_child_sex = .kMale ∧
      parent1_genome_type = .kXChromosome ∧ parent2_genome_type = .kXChromosome) ∨
  (child_genome_type = .kYChromosome ∧ p_child_sex = .kMale ∧
      ((parent1_genome_type = .kXChromosome ∧ parent2_genome_type = .kYChromosome) ∨
       (parent1_genome_type = .kYChromosome ∧ parent2_genome_type = .kXChromosome)))

instance (c : GenomeType) (s : IndividualSex) (a b : GenomeType) :
    Decidable (permittedRow c s a b) := by
  unfold permittedRow; infer_instance

/-- The child genomes of all subpopulations, in map order. -/
def allChildGenomes (pop : Population) : List Genome :=
  (pop.subpops.map (fun e => e.2.child_genomes_)).flatten

/-- The non-null child genomes of all subpopulations. -/
def nonNullChildGenomes (pop : Population) : List Genome :=
  (allChildGenomes pop).filter (fun g => !g.is_null_)

/-- The number of handles to the mutation over all non-null child genomes. -/
def handleCount (pop : Population) (m : Mutation) : Nat :=
  ((nonNullChildGenomes pop).map (fun g => g.mutations_.count m)).sum


/-- The position-ordered merge in the words of the specification: on equal positions the
handle of the first list (the parental one) goes before the handle of the second. This
function places one handle `o` of the first list, `merged` being the merge of the rest
of the first list with a second list. -/
def mergeOne (o : Mutation) (old : List Mutation) (merged : List Mutation → List Mutation) :
    List Mutation → List Mutation
  | [] => o :: old
  | n :: new =>
    if o.position_ ≤ n.position_ then o :: merged (n :: new)
    else n :: mergeOne o old merged new

/-- The position-ordered merge of the parental handles `old` with the new mutations `new`,
a parental handle before a new mutation on equal positions. -/
def mergeByPosition : List Mutation → List Mutation → List Mutation
  | [], new => new
  | o :: old, new => mergeOne o old (mergeByPosition old) new

/-- The child genome in the words of the specification: the merge of the new mutations `M`
with the handles of `p1` at positions crossed by an even number of breakpoints and the
handles of `p2` at positions crossed by an odd number. -/
def specifiedChild (B : List Int) (p1 p2 M : List Mutation) : List Mutation :=
  mergeByPosition (mergeByPosition (p1.filter (evenCrossed B)) (p2.filter (oddCrossed B))) M

/-! ### Concrete inputs -/

/-- Scenario S6: the mutation `m` at position 10. -/
def exM : Mutation := ⟨1, 10⟩

/-- Scenario S6: the mutation `n` at position 20. -/
def exN : Mutation := ⟨2, 20⟩

/-- Scenario S6: the mutation `q` at position 30. -/
def exQ : Mutation := ⟨3, 30⟩

/-- An autosomal non-null genome with the given handles. -/
def autosome (l : List Mutation) : Genome := ⟨.kAutosome, false, l⟩

/-- A chromosome of last position 100 that draws `nm` new mutations, the one numbered `k` at
position `15 + 10 * k`, and `nb` breakpoints, all at position 25. -/
def exChromosome (nm nb : Nat) : Chromosome :=
  ⟨100, nm, (nm, nb), fun n => List.replicate n 25, fun k _ _ => ⟨100 + k, 15 + 10 * k⟩⟩

/-- A chromosome of last position 100 that draws no breakpoint and the new mutations with
the given positions. -/
def exChromosomeNew (positions : List Int) : Chromosome :=
  ⟨100, positions.length, (positions.length, 0), fun _ => [],
    fun k _ _ => ⟨100 + k, positions.getD k 0⟩⟩

/-- A population of one subpopulation with one individual in each bank; `c0` and `c1` are the
two child genomes. -/
def exPopulation (c0 c1 : Genome) : Population :=
  { subpops := [(1, { parent_genomes_ := [autosome [exM, exN], autosome [exM, exQ]],
                      child_genomes_ := [c0, c1], child_subpop_size_ := 1 })],
    mutation_registry_ := [exM, exN, exQ],
    reference_count_ := fun _ => 7,
    total_genome_count_ := 0 }

/-- A sex-chromosome population modelling X: the first parent is a male with an X strand and
a null Y strand, the child is a male whose second genome is the null Y. -/
def exPopulationX : Population :=
  { subpops := [(1, { parent_genomes_ := [⟨.kXChromosome, false, [exM]⟩,
                        ⟨.kYChromosome, true, []⟩],
                      child_genomes_ := [⟨.kXChromosome, false, []⟩, ⟨.kYChromosome, true, []⟩],
                      child_subpop_size_ := 1 })],
    mutation_registry_ := [exM],
    reference_count_ := fun _ => 0,
    total_genome_count_ := 0 }



/-- The test of lines 1394 and 1408: the mutation leaves the registry. -/
def leavesRegistry (reference_count_ : Mutation → Int) (total_genome_count_ : Int)
    (m : Mutation) : Bool :=
  decide (reference_count_ m = 0) || decide (reference_count_ m = total_genome_count_)

/-- The test of line 1408, reached when that of line 1394 fails: the mutation is fixed. -/
def isFixed (reference_count_ : Mutation → Int) (total_genome_count_ : Int)
    (m : Mutation) : Bool :=
  !decide (reference_count_ m = 0) && decide (reference_count_ m = total_genome_count_)

/-- Every subpopulation holds `2 * child_subpop_size_` child genomes. -/
def ChildBanksSized (pop : Population) : Prop :=
  ∀ e ∈ pop.subpops, e.2.child_genomes_.length = 2 * e.2.child_subpop_size_

instance (pop : Population) : Decidable (ChildBanksSized pop) := by
  unfold ChildBanksSized; infer_instance

/-- The body of the loop of lines 1459-1466 on one genome. -/
def scrubGenome (reference_count_ : Mutation → Int) (total_genome_count_ : Int)
    (genome : Genome) : Genome :=
  if !genome.is_null_ then genome.RemoveFixedMutations reference_count_ total_genome_count_
  else genome

/-- The subpopulations after the loops of lines 1457-1467. -/
def scrubbed (reference_count_ : Mutation → Int) (total_genome_count_ : Int)
    (subpops : List (Int × Subpopulation)) : List (Int × Subpopulation) :=
  subpops.map (fun e => (e.1, { e.2 with
    child_genomes_ := e.2.child_genomes_.map (scrubGenome reference_count_ total_genome_count_) }))


/-- The mutation of scenario S1, at position 100. -/
def exS : Mutation := ⟨7, 100⟩

/-- Scenario S1 with the first child genome left open: one subpopulation of 4 individuals,
the other 7 child genomes hold the mutation at position 100, which is the whole registry. -/
def exFixation (g0 : Genome) : Population :=
  { subpops := [(1, { parent_genomes_ := [],
                      child_genomes_ := g0 :: List.replicate 7 (autosome [exS]),
                      child_subpop_size_ := 4 })],
    mutation_registry_ := [exS],
    reference_count_ := fun _ => 0,
    total_genome_count_ := 0 }

/-- Scenario S1 after the tally, with one earlier entry in the substitution log. -/
def exTallied : Population :=
  { subpops := [(1, { parent_genomes_ := [],
                      child_genomes_ := List.replicate 8 (autosome [exS]),
                      child_subpop_size_ := 4 })],
    mutation_registry_ := [exS],
    reference_count_ := fun _ => 8,
    total_genome_count_ := 8,
    substitutions_ := [⟨exM, 1⟩] }

/-- A population after the tally with four mutations in the registry and 2 genomes: `m` is in
no genome, `n` and `s` are in both, `q` is in one. -/
def exMixedRegistry : Population :=
  { subpops := [(1, { parent_genomes_ := [],
                      child_genomes_ := [autosome [exN, exQ, exS], autosome [exN, exS]],
                      child_subpop_size_ := 1 })],
    mutation_registry_ := [exM, exN, exQ, exS],
    reference_count_ := fun m => if m = exM then 0 else if m = exQ then 1 else 2,
    total_genome_count_ := 2 }


/-- The state that a run had reached when it ended, if it ended with one. -/
def Run.reached {α : Type} (state : α → EvolveState) : Run α → Option EvolveState
  | .terminated _ s => some s
  | .undefined => none
  | .pending s => some s
  | .returned a => some (state a)

/-- The ids of the subpopulations with their selfing fractions, in map order. -/
def Population.census (pop : Population) : List (Int × Double) :=
  pop.subpops.map (fun e => (e.1, e.2.selfing_fraction_))

/-- The counters of the second state are those of the first, and the populations have the
same subpopulations with the same selfing fractions. -/
def SameCounters (st s : EvolveState) : Prop :=
  s.child_count = st.child_count ∧ s.male_child_count = st.male_child_count ∧
    s.female_child_count = st.female_child_count ∧ s.pop.census = st.pop.census

/-- The children generated, in the order of the log. -/
def childRecords : List EvolveEvent → List ChildRecord
  | [] => []
  | .child record :: rest => record :: childRecords rest
  | .multinomial _ _ :: rest => childRecords rest
  | .redraw _ _ _ :: rest => childRecords rest

/-- The children that were kept, in the order of the log. -/
def acceptedChildren (events : List EvolveEvent) : List ChildRecord :=
  (childRecords events).filter (fun r => r.accepted)

/-- The selfing fraction of the subpopulation with the id (0 when there is none). -/
def selfingOf (census : List (Int × Double)) (id : Int) : Double :=
  match census.find? (fun e => e.1 = id) with
  | some e => e.2
  | none => Double.ofInt 0

/-- For the child number `i` of a group of `n` with selfing fraction `s`: whether `i` is
below `lround (n * s)`, the product being the rounded one of the machine. -/
def selfedFlags (n : Nat) (s : Double) : List Bool :=
  (List.range n).map (fun (i : Nat) =>
    decide ((i : Int) < lround (Double.round (Double.ofInt n * s))))

/-- The place in the child bank, the source and the selfing flag of the children of the
groups `(source_subpop_id, n)`, the first child being at the place `start`. -/
def expectedChildren (census : List (Int × Double)) :
    List (Int × Nat) → Int → List (Int × Int × Bool)
  | [], _ => []
  | group :: rest, start =>
    (List.range group.2).map (fun (i : Nat) => (start + (i : Int), group.1,
        decide ((i : Int) <
          lround (Double.round (Double.ofInt group.2 * selfingOf census group.1))))) ++
      expectedChildren census rest (start + group.2)

/-- The second parent of the child is a parent, not the -1 of a redraw, and it is the first
parent when the child was made by selfing. -/
def SecondParent (r : ChildRecord) : Prop :=
  r.parent2 ≠ -1 ∧ (r.selfed = true → r.parent2 = r.parent1)

/-- A child that was kept is followed by children at later places only. -/
def KeptStay (records : List ChildRecord) : Prop :=
  records.Pairwise (fun r later => r.accepted = true → r.child_index < later.child_index)

/-- The value of `total_male_children` at line 520. -/
def totalMaleChildren (subpop : Subpopulation) : Int :=
  lround (Double.round (Double.ofInt subpop.child_subpop_size_ * subpop.child_sex_ratio_))

/-- The value of `total_female_children` at line 521. -/
def totalFemaleChildren (subpop : Subpopulation) : Int :=
  subpop.child_subpop_size_ - totalMaleChildren subpop

/-- The array `migration_rates` passed to `gsl_ran_multinomial` at line 550. -/
def migrationRates (subpop : Subpopulation) : List Double :=
  subpop.migrant_fractions_.map (fun fractions_pair => fractions_pair.2) ++
    [Double.round (Double.ofInt 1 - migrationRateSum subpop.migrant_fractions_)]

/-- The state at the start of a call of `EvolveSubpopulation`. -/
def startOf (pop : Population) : EvolveState := ⟨pop, 0, 0, 0, []⟩

/-- The termination sites that lie after the call of `gsl_ran_multinomial` at line 550, or
in a function called from there. -/
def Termination.afterDraw : Termination → Bool
  | .unisexualChildPopulation => false
  | .tooManyMigrants => false
  | .addSubpopulationExists => false
  | .addSubpopulationEmpty => false
  | .setSizeChildGenerationValid => false
  | .setSizeNoSubpopulation => false
  | .setSexRatioChildGenerationValid => false
  | .setSexRatioNoSubpopulation => false
  | .setSelfingRange => false
  | .setMigrationNoSubpopulation => false
  | .setMigrationRange => false
  | _ => true

/-- The run ended with a normal return. -/
def Run.isReturned {α : Type} : Run α → Bool
  | .returned _ => true
  | _ => false

/-- Every genome of the bank is a non-null autosome. -/
def Autosomal (genomes : List Genome) : Prop :=
  ∀ g ∈ genomes, g.genome_type_ = GenomeType.kAutosome ∧ g.is_null_ = false

instance (genomes : List Genome) : Decidable (Autosomal genomes) := by
  unfold Autosomal; infer_instance

/-- The chromosome ends before `INT_MAX` and draws no breakpoint beyond `INT_MAX`. -/
def DrawsInRange (c : Chromosome) : Prop :=
  c.last_position_ < INT_MAX ∧ ∀ n, ∀ b ∈ c.DrawBreakpoints n, b ≤ INT_MAX

/-- The answers of a pass whose two parents drawn are among the first `parents` individuals
and whose chromosome draws are in range. -/
def Mating.InRange (parents : Nat) (m : Mating) : Prop :=
  0 ≤ m.parent1 ∧ m.parent1 < parents ∧ 0 ≤ m.parent2 ∧ m.parent2 < parents ∧
    DrawsInRange m.chromosome1 ∧ DrawsInRange m.chromosome2

/-- Every subpopulation has `parents` parents at least, and all the genomes of its two banks
are non-null autosomes. -/
def Hermaphrodites (pop : Population) (parents : Nat) : Prop :=
  ∀ e ∈ pop.subpops, Autosomal e.2.parent_genomes_ ∧ Autosomal e.2.child_genomes_ ∧
    2 * parents ≤ e.2.parent_genomes_.length

instance (pop : Population) (parents : Nat) : Decidable (Hermaphrodites pop parents) := by
  unfold Hermaphrodites; infer_instance

/-- The child bank of the subpopulation at the place has room for `size` children. -/
def ChildBank (pop : Population) (place size : Nat) : Prop :=
  ∃ t, pop.subpops[place]? = some t ∧ 2 * size ≤ t.2.child_genomes_.length

/-- What a run for the subpopulation, without sex and without callbacks, is given when
nothing stops it: migrant fractions that sum to at most 1 and name subpopulations of the
population, a count in `num_migrants` for each of them and for the subpopulation itself, a
child bank of `2 * child_subpop_size_` genomes at least, answers for `child_subpop_size_`
passes at least, and for some number of parents that every subpopulation has, banks of
non-null autosomes and answers in range. -/
def ReadyToEvolve (pop : Population) (subpop : Subpopulation) (num_migrants : List Nat)
    (matings : List Mating) : Prop :=
  migrationRateSum subpop.migrant_fractions_ ≤ Double.ofInt 1 ∧
  (∀ f ∈ subpop.migrant_fractions_, ∃ p, pop.SubpopulationWithID f.1 = some p) ∧
  subpop.migrant_fractions_.length + 1 ≤ num_migrants.length ∧
  2 * subpop.child_subpop_size_ ≤ subpop.child_genomes_.length ∧
  subpop.child_subpop_size_ ≤ matings.length ∧
  ∃ parents, Hermaphrodites pop parents ∧ ∀ m ∈ matings, m.InRange parents


/-- The fraction `num / den` as a `double`. -/
def frac (num : Int) (den : Nat) (h : 0 < den := by decide) : Double := ⟨num, den, h⟩

/-- Answers for `ApplyMateChoiceCallbacks`: every callback returns `value`, both fitness
draws return `standard`. -/
def exAnswers (value : ScriptValue) (standard : Int) : MateChoiceAnswers :=
  ⟨fun _ _ => value, frac 1 2, standard, standard⟩

/-- The answers of one pass: the two parents drawn, what the mateChoice() callbacks return,
and whether the modifyChild() callbacks keep the child; no mutation and no breakpoint is
drawn. -/
def exMating (parent1 parent2 : Int) (mate : ScriptValue) (accept : Bool) : Mating :=
  { parent1 := parent1, mate_choice := exAnswers mate parent2, parent2 := parent2,
    chromosome1 := exChromosome 0 0, g_rng_bool1 := false,
    chromosome2 := exChromosome 0 0, g_rng_bool2 := false,
    modify_child := fun _ => .logical [accept] }

/-- Two subpopulations of two parents each: A with id 1, and B with id 2, of `size`
children, the selfing fraction `selfing` and the migrant fractions `fractions`. -/
def exTwo (size : Nat) (selfing : Double) (fractions : List (Int × Double)) : Population :=
  { subpops := [(1, { parent_genomes_ := [autosome [exM], autosome [], autosome [exN],
                        autosome []],
                      child_genomes_ := [], child_subpop_size_ := 0,
                      parent_subpop_size_ := 2 }),
                (2, { parent_genomes_ := [autosome [exQ], autosome [], autosome [],
                        autosome []],
                      child_genomes_ := List.replicate (2 * size) (autosome []),
                      child_subpop_size_ := size, parent_subpop_size_ := 2,
                      selfing_fraction_ := selfing, migrant_fractions_ := fractions })],
    mutation_registry_ := [exM, exN, exQ],
    reference_count_ := fun _ => 0,
    total_genome_count_ := 0 }

/-- A subpopulation of 10 children with sex enabled: the sex ratio `ratio`, the first male
at place 5, and the migrant fractions `fractions`. -/
def exSexedSubpop (ratio : Double) (fractions : List (Int × Double)) : Subpopulation :=
  { parent_genomes_ := [autosome [exQ], autosome [], autosome [], autosome []],
    child_genomes_ := List.replicate 20 (autosome []),
    child_subpop_size_ := 10, parent_subpop_size_ := 2,
    sex_enabled_ := true, child_sex_ratio_ := ratio, child_first_male_index_ := 5,
    migrant_fractions_ := fractions }

/-- The population of `exTwo` with `exSexedSubpop` as the subpopulation with id 2. -/
def exSexed (ratio : Double) (fractions : List (Int × Double)) : Population :=
  { subpops := [(1, { parent_genomes_ := [autosome [exM], autosome [], autosome [exN],
                        autosome []],
                      child_genomes_ := [], child_subpop_size_ := 0,
                      parent_subpop_size_ := 2, sex_enabled_ := true }),
                (2, exSexedSubpop ratio fractions)],
    mutation_registry_ := [exM, exN, exQ],
    reference_count_ := fun _ => 0,
    total_genome_count_ := 0 }

/-- A source subpopulation of two parents with the cached fitness values 1 and 1. -/
def exSource : Subpopulation :=
  { parent_genomes_ := [autosome [exM], autosome [], autosome [exN], autosome []],
    child_genomes_ := [autosome [], autosome []], child_subpop_size_ := 1,
    parent_subpop_size_ := 2,
    cached_parental_fitness_ := [Double.ofInt 1, Double.ofInt 1] }

/-- Answers for three mateChoice() callbacks: the first returns the weights 1/2 and 3/2, the
second an empty float vector, the third NULL. -/
def exRedrawAnswers : MateChoiceAnswers :=
  ⟨fun k _ => if k = 0 then .float [.finite (frac 1 2), .finite (frac 3 2)]
      else if k = 1 then .float [] else .null,
    frac 1 2, 0, 0⟩

/-! ### The callbacks, read from the log of a call -/

/-- The value that the interpreter returned at an evaluation of the log. -/
def MateChoiceEvent.answer (answers : MateChoiceAnswers) : MateChoiceEvent → Option ScriptValue
  | .evaluated callback _ weights => some (answers.EvaluateScriptBlock callback weights)
  | _ => none

/-- The number of the callback evaluated. -/
def MateChoiceEvent.callback : MateChoiceEvent → Option Nat
  | .evaluated callback _ _ => some callback
  | _ => none

/-- The weights that a returned value puts in the place of the current ones: a float vector
of the length of the source, which is not the empty vector. -/
def replacesWeights (weights_length : Nat) : ScriptValue → Option (List ScriptFloat)
  | .float values =>
    if values.length ≠ 0 ∧ values.length = weights_length then some values else none
  | _ => none

/-- The weight vectors that the evaluations of a log returned, in the order of the log. -/
def replacements (answers : MateChoiceAnswers) (weights_length : Nat)
    (log : List MateChoiceEvent) : List (List ScriptFloat) :=
  log.filterMap (fun ev => (ev.answer answers).bind (replacesWeights weights_length))

/-- The float vector returned by the last evaluation of the log that returned a vector of the
length of the source, or `standard` if there is none. -/
def weightsAfter (answers : MateChoiceAnswers) (weights_length : Nat)
    (standard : List ScriptFloat) (log : List MateChoiceEvent) : List ScriptFloat :=
  (replacements answers weights_length log).getLast?.getD standard

/-- No evaluation of the log ended the chain: each returned NULL or new weights. -/
def ChainCompleted (answers : MateChoiceAnswers) (weights_length : Nat)
    (log : List MateChoiceEvent) : Prop :=
  ∀ ev ∈ log, ∀ v, ev.answer answers = some v →
    v = .null ∨ (replacesWeights weights_length v).isSome = true

/-- The numbers of the active callbacks of a list, the first callback having the number
`k`. -/
def activeCallbacks : List SLiMScriptBlock → Nat → List Nat
  | [], _ => []
  | callback :: rest, k =>
    if callback.active_ then k :: activeCallbacks rest (k + 1) else activeCallbacks rest (k + 1)

/-- The weights from which the call starts: the cached fitness values of the males of the
source when sex is enabled, of its parents otherwise. -/
def standardWeights (p_subpop p_source_subpop : Subpopulation) : List ScriptFloat :=
  (if p_subpop.sex_enabled_ then p_source_subpop.cached_male_fitness_
    else p_source_subpop.cached_parental_fitness_).map ScriptFloat.finite

/-- The sum of the weights, added up from the first on with the rounding `round` of each
addition: `weights_sum` of line 362. -/
def weightsSum (round : Double → Double) (weights : List ScriptFloat) : Double :=
  weights.foldl (fun sum w => round (sum + w.value)) (Double.ofInt 0)

/-- Some weight is not finite, some weight is negative, or the weights sum to 0 or less. -/
def InvalidWeights (round : Double → Double) (weights : List ScriptFloat) : Prop :=
  ScriptFloat.notFinite ∈ weights ∨ (∃ x, ScriptFloat.finite x ∈ weights ∧ x < Double.ofInt 0) ∨
    weightsSum round weights ≤ Double.ofInt 0

/-- The weight is positive. -/
def ScriptFloat.positive (w : ScriptFloat) : Bool := decide (Double.ofInt 0 < w.value)

/-- Every weight is finite and none is negative. -/
def WeightsInRange (weights : List ScriptFloat) : Prop :=
  ∀ w ∈ weights, ∃ x, w = ScriptFloat.finite x ∧ ¬ x < Double.ofInt 0

/-- The sum `w_0 + ... + w_i` of the first weights, added up as `weightsSum` does:
`bachelor_sum` of line 386 at the index `i`. -/
def prefixSum (round : Double → Double) (weights : List ScriptFloat) (i : Nat) : Double :=
  weightsSum round (weights.take (i + 1))

/-- The weight is finite and negative. -/
def ScriptFloat.negative : ScriptFloat → Bool
  | .finite x => decide (x < Double.ofInt 0)
  | .notFinite => false

instance (round : Double → Double) (weights : List ScriptFloat) :
    Decidable (InvalidWeights round weights) :=
  decidable_of_iff (ScriptFloat.notFinite ∈ weights ∨ (∃ w ∈ weights, w.negative = true) ∨
      weightsSum round weights ≤ Double.ofInt 0) (by
    unfold InvalidWeights
    constructor
    · rintro (h | ⟨w, hw, hn⟩ | h)
      · exact Or.inl h
      · cases w with
        | finite x => exact Or.inr (Or.inl ⟨x, hw, by simpa [ScriptFloat.negative] using hn⟩)
        | notFinite => cases hn
      · exact Or.inr (Or.inr h)
    · rintro (h | ⟨x, hw, hn⟩ | h)
      · exact Or.inl h
      · exact Or.inr (Or.inl ⟨_, hw, by simpa [ScriptFloat.negative] using hn⟩)
      · exact Or.inr (Or.inr h))

/-- The evaluation did not end the chain, or the event is no evaluation. -/
def MateChoiceEvent.goesOn (answers : MateChoiceAnswers) (weights_length : Nat)
    (ev : MateChoiceEvent) : Bool :=
  match ev.answer answers with
  | none => true
  | some v => decide (v = .null) || (replacesWeights weights_length v).isSome

instance (answers : MateChoiceAnswers) (weights_length : Nat) (log : List MateChoiceEvent) :
    Decidable (ChainCompleted answers weights_length log) :=
  decidable_of_iff (∀ ev ∈ log, ev.goesOn answers weights_length = true) (by
    unfold ChainCompleted
    constructor
    · intro h ev hev v hv
      have := h ev hev
      unfold MateChoiceEvent.goesOn at this
      rw [hv] at this
      simpa using this
    · intro h ev hev
      unfold MateChoiceEvent.goesOn
      cases hv : ev.answer answers with
      | none => rfl
      | some v => simpa using h ev hev v hv)

/-- Answers for two mateChoice() callbacks, of which the first returns `first` and the
second `second`; the uniform draw is `uniform`, the fitness draw of the males 0 and that of
the parents 1. -/
def exChainAnswers (first second : ScriptValue) (uniform : Double) : MateChoiceAnswers :=
  ⟨fun k _ => if k = 0 then first else second, uniform, 0, 1⟩

/-- The entry of a subpopulation without what a call of `EvolveSubpopulation` for it writes:
its child bank and its flag `child_generation_valid`. -/
def outsideChildBank (entry : Int × Subpopulation) : Int × Subpopulation :=
  (entry.1, { entry.2 with child_genomes_ := [], child_generation_valid := false })

/-- The population `b` differs from `a` at most in the child bank and the flag of the
subpopulation at the place, in the mutation registry and in the flag of the population. -/
def WritesChildBankOnly (place : Nat) (a b : Population) : Prop :=
  b.subpops.length = a.subpops.length ∧
  (∀ i, i ≠ place → b.subpops[i]? = a.subpops[i]?) ∧
  (b.subpops[place]?).map outsideChildBank = (a.subpops[place]?).map outsideChildBank ∧
  b.reference_count_ = a.reference_count_ ∧ b.total_genome_count_ = a.total_genome_count_ ∧
  b.substitutions_ = a.substitutions_


/-! ## Definitions for the calls that configure the population -/

/-- The id names a subpopulation of the population. -/
def Population.Names (pop : Population) (id : Int) : Prop := ∃ e ∈ pop.subpops, e.1 = id

instance (pop : Population) (id : Int) : Decidable (pop.Names id) := by
  unfold Population.Names; infer_instance

/-- The id of a subpopulation with the size and the sex ratio of its child generation. -/
def childSetting (entry : Int × Subpopulation) : Int × Nat × Double :=
  (entry.1, entry.2.child_subpop_size_, entry.2.child_sex_ratio_)

/-- The call is one of `AddSubpopulation`, `SetMigration` and `SetSize`. -/
def PopulationCall.configures : PopulationCall → Bool
  | .addSubpopulation _ _ _ => true
  | .addSubpopulationFrom _ _ _ _ _ => true
  | .setMigration _ _ _ => true
  | .setSize _ _ => true
  | _ => false

/-- Every fraction of the map is in (0, 1]. -/
def FractionsInRange (migrant_fractions_ : List (Int × Double)) : Prop :=
  ∀ pair ∈ migrant_fractions_, Double.ofInt 0 < pair.2 ∧ pair.2 ≤ Double.ofInt 1

instance (migrant_fractions_ : List (Int × Double)) :
    Decidable (FractionsInRange migrant_fractions_) := by
  unfold FractionsInRange; infer_instance

/-- The entries of a map with the key. -/
def entriesFor {α : Type} (key : Int) (entries : List (Int × α)) : List (Int × α) :=
  entries.filter (fun e => decide (e.1 = key))

/-- The entries of a map with another key. -/
def entriesBeside {α : Type} (key : Int) (entries : List (Int × α)) : List (Int × α) :=
  entries.filter (fun e => decide (e.1 ≠ key))

/-- A simulation without sex whose banks are made of empty autosomes. -/
def exSim : SLiMSim := ⟨false, fun size _ => (List.replicate (2 * size) (autosome []), 0)⟩

/-- A population without a subpopulation. -/
def exEmpty : Population := ⟨[], [], fun _ => 0, 0, [], false⟩

/-- Three subpopulations of 10 individuals are added, then the second is given the migrant
fractions 3/4 from the first and 1/2 from the third. -/
def exCalls : List PopulationCall :=
  [.addSubpopulation 1 10 (Double.ofInt 0), .addSubpopulation 2 10 (Double.ofInt 0),
    .addSubpopulation 3 10 (Double.ofInt 0), .setMigration 2 1 (frac 3 4),
    .setMigration 2 3 (frac 1 2)]

/-- The subpopulation without the entries of its `migrant_fractions_` for the source `id`. -/
def withoutSource (id : Int) (entry : Int × Subpopulation) : Int × Subpopulation :=
  (entry.1, { entry.2 with migrant_fractions_ := entriesBeside id entry.2.migrant_fractions_ })

/-- The population of `exTwo` with 3 children in subpopulation 2, which takes the fraction
1/4 of them from subpopulation 1, when the child generation is valid. -/
def exValid : Population :=
  { exTwo 3 (Double.ofInt 0) [(1, frac 1 4)] with child_generation_valid := true }


/-! ## Definitions for the remaining properties -/

/-- The test of line 1394: the mutation is lost. -/
def isLost (reference_count_ : Mutation → Int) (m : Mutation) : Bool :=
  decide (reference_count_ m = 0)

/-- A simulation with sex whose banks are made of empty autosomes, the first male being at
the place 1. -/
def exSimSexed : SLiMSim := ⟨true, fun size _ => (List.replicate (2 * size) (autosome []), 1)⟩

/-- Every key of every map `migrant_fractions_` names a subpopulation of the population. -/
def KeysNamed (pop : Population) : Prop :=
  ∀ e ∈ pop.subpops, ∀ pair ∈ e.2.migrant_fractions_, pop.Names pair.1

instance (pop : Population) : Decidable (KeysNamed pop) := by
  unfold KeysNamed; infer_instance

/-- The termination sites inside the generation of the children of one source (lines
559-677 and 682-799): those of `CrossoverMutation` and of the callbacks, and the two tests
on the numbers of each sex. -/
def Termination.whileGenerating : Termination → Bool
  | .childSexUnspecified => true
  | .mismatchCase1 => true
  | .hermaphroditeNotAutosomal => true
  | .mismatchCase2 => true
  | .mismatchCase3 => true
  | .femaleChildY => true
  | .mismatchCase4 => true
  | .nullChildCrossoverParentNonNull => true
  | .nullChildStrandNonNull => true
  | .nonNullChildStrandNull => true
  | .nonNullChildParentNull => true
  | .mateChoiceReturnLength => true
  | .mateChoiceReturnType => true
  | .weightNotFinite => true
  | .weightNegative => true
  | .weightsSumNotPositive => true
  | .modifyChildReturn => true
  | .negativeMigrantsOfOneSex => true
  | .insufficientFemaleMigrants => true
  | _ => false

/-- The individual of the source that is drawn for the parent `parent_index` of a new
subpopulation: by the draw of a female for a parent before the first male and by the draw
of a male otherwise when sex is enabled, by the draw of a parent when it is not. -/
def drawnMigrant (SexEnabled : Bool) (draws : ParentDraws) (parent_first_male_index_ : Nat)
    (parent_index : Nat) : Int :=
  if SexEnabled then
    if parent_index < parent_first_male_index_ then
      draws.DrawFemaleParentUsingFitness parent_index
    else draws.DrawMaleParentUsingFitness parent_index
  else draws.DrawParentUsingFitness parent_index

/-- The draws of `AddSubpopulation` that all return the same individual. -/
def exDraws (parent : Int) : ParentDraws := ⟨fun _ => parent, fun _ => parent, fun _ => parent⟩

/-- The callback applies to the subpopulation: its `subpopulation_id_` is -1 or the id. -/
def FitnessCallback.appliesTo (subpop_id : Int) (callback : FitnessCallback) : Bool :=
  decide (callback.subpopulation_id_ = -1 ∨ callback.subpopulation_id_ = subpop_id)

/-- The fitness() callbacks of the examples: for the generation 6 one for every
subpopulation, one for the subpopulation 2 and one for the subpopulation 1, and none for
another generation. -/
def exFitnessCallbacks (generation : Int) : List FitnessCallback :=
  if generation = 6 then [⟨0, -1⟩, ⟨1, 2⟩, ⟨2, 1⟩] else []

/-- The run ended in undefined behaviour. -/
def Run.isUndefined {α : Type} : Run α → Bool
  | .undefined => true
  | _ => false

/-- Two subpopulations with sex enabled: the source 1 of two parents, and the subpopulation
2 of 2 children with the sex ratio 1/2, so one female and one male, the first male at the
place 1, the migrant fraction 1/2 from the source 1, and `bank` child genomes. -/
def exUnbalanced (bank : Nat) : Population :=
  { subpops := [(1, { parent_genomes_ := [autosome [exM], autosome [], autosome [exN],
                        autosome []],
                      child_genomes_ := [], child_subpop_size_ := 0,
                      parent_subpop_size_ := 2, sex_enabled_ := true }),
                (2, { parent_genomes_ := [autosome [exQ], autosome [], autosome [],
                        autosome []],
                      child_genomes_ := List.replicate bank (autosome []),
                      child_subpop_size_ := 2, parent_subpop_size_ := 2,
                      sex_enabled_ := true, child_sex_ratio_ := frac 1 2,
                      child_first_male_index_ := 1,
                      migrant_fractions_ := [(1, frac 1 2)] })],
    mutation_registry_ := [exM, exN, exQ],
    reference_count_ := fun _ => 0,
    total_genome_count_ := 0 }

/-! ### The child bank after a run -/

/-- The child genome that `CrossoverMutation` leaves in the place of `child_genome` for the
two parental genomes, or nothing when the call does not return. The call reads the type and
the null flag of the child genome alone, and the registry receives the new mutations and is
not read, so the registry from which the call starts is left empty here. -/
def builtGenome (child_genome parent_genome_1 parent_genome_2 : Genome)
    (p_source_subpop_id : Int) (p_chromosome : Chromosome) (p_generation : Int)
    (p_child_sex : IndividualSex) (g_rng_bool : Bool) : Option Genome :=
  match CrossoverMutation child_genome parent_genome_1 parent_genome_2 [] p_source_subpop_id
      p_chromosome p_generation p_child_sex g_rng_bool with
  | .returned s => some s.child_genome
  | _ => none

/-- The genome that the call of `CrossoverMutation` for the child of the record builds in the
slot `slot` of the child bank of the subpopulation at `place`, in a run that starts from the
population `start`: from the genome that the slot holds at the start and the two genomes of
the parent `parent` of the source of the record, with the draws of `p_chromosome` and the
coin `g_rng_bool`. -/
def builtSlot (start : Population) (place : Nat) (p_generation : Int) (r : ChildRecord)
    (parent : Int) (slot : Nat) (p_chromosome : Chromosome) (g_rng_bool : Bool) :
    Option Genome :=
  match start.SubpopulationWithID r.source_subpop_id with
  | none => none
  | some source_place =>
    match start.subpops[place]?, start.subpops[source_place]? with
    | some target, some source =>
      match target.2.child_genomes_[slot]?, source.2.parent_genomes_[(2 * parent).toNat]?,
          source.2.parent_genomes_[(2 * parent + 1).toNat]? with
      | some child_genome, some parent_genome_1, some parent_genome_2 =>
        builtGenome child_genome parent_genome_1 parent_genome_2 r.source_subpop_id
          p_chromosome p_generation r.sex g_rng_bool
      | _, _, _ => none
    | _, _ => none

/-- The bank holds the child of the record: its genomes `2 * child_index` and
`2 * child_index + 1` are the two genomes that `CrossoverMutation` builds from the first
parent and from the second parent of the record with the answers `m` of the pass. -/
def HoldsChild (start : Population) (place : Nat) (p_generation : Int) (bank : List Genome)
    (r : ChildRecord) (m : Mating) : Prop :=
  ∃ g1 g2,
    builtSlot start place p_generation r r.parent1 (2 * r.child_index.toNat) m.chromosome1
      m.g_rng_bool1 = some g1 ∧
    builtSlot start place p_generation r r.parent2 (2 * r.child_index.toNat + 1)
      m.chromosome2 m.g_rng_bool2 = some g2 ∧
    bank[2 * r.child_index.toNat]? = some g1 ∧ bank[2 * r.child_index.toNat + 1]? = some g2

/-- Every child that the log of the run records as kept is held by the bank when the run
returns: the entry 0 of the log is no child (it is the call of `gsl_ran_multinomial`), and
the child of the entry number `j + 1` has been built with the answers number `j` of
`matings`. -/
def BankHoldsKeptChildren (start : Population) (place : Nat) (p_generation : Int)
    (matings : List Mating) (s : EvolveState) : Prop :=
  ∃ final, s.pop.subpops[place]? = some final ∧
    (∀ (r : ChildRecord), s.events[0]? ≠ some (.child r)) ∧
    ∀ (j : Nat) (r : ChildRecord), s.events[j + 1]? = some (.child r) →
      r.accepted = true →
      ∃ m, matings[j]? = some m ∧
        HoldsChild start place p_generation final.2.child_genomes_ r m

/-- What a pass that generates a child does to the state: the two calls of
`CrossoverMutation` return `s1` and `s2` for the genomes `2 * c` and `2 * c + 1` of the child
bank and the genomes of the two parents in the source, the second call starting from the
registry that the first leaves, and the state after the pass has the two child genomes in
the bank and the record of the child at the end of the log. -/
def PassWrote (kind : ChildKind) (subpop source_subpop : Nat) (id gen : Int) (m : Mating)
    (st s : EvolveState) (accepted : Bool) : Prop :=
  ∃ (target source : Int × Subpopulation) (c p1 p2 : Nat) (b1 b2 g11 g12 g21 g22 : Genome)
    (s1 s2 : CrossoverState) (r : ChildRecord),
    st.pop.subpops[subpop]? = some target ∧ st.pop.subpops[source_subpop]? = some source ∧
    (c : Int) = kind.child_index st target.2.child_first_male_index_ ∧
    r.child_index = (c : Int) ∧ r.parent1 = (p1 : Int) ∧ r.parent2 = (p2 : Int) ∧
    m.parent1 = (p1 : Int) ∧ r.source_subpop_id = id ∧ r.sex = kind.sex ∧
    r.accepted = accepted ∧
    target.2.child_genomes_[2 * c]? = some b1 ∧
    target.2.child_genomes_[2 * c + 1]? = some b2 ∧
    source.2.parent_genomes_[2 * p1]? = some g11 ∧
    source.2.parent_genomes_[2 * p1 + 1]? = some g12 ∧
    source.2.parent_genomes_[2 * p2]? = some g21 ∧
    source.2.parent_genomes_[2 * p2 + 1]? = some g22 ∧
    CrossoverMutation b1 g11 g12 st.pop.mutation_registry_ id m.chromosome1 gen kind.sex
      m.g_rng_bool1 = .returned s1 ∧
    CrossoverMutation b2 g21 g22 s1.mutation_registry_ id m.chromosome2 gen kind.sex
      m.g_rng_bool2 = .returned s2 ∧
    s.pop.subpops = st.pop.subpops.set subpop
      (target.1, { target.2 with
        child_genomes_ := (target.2.child_genomes_.set (2 * c) s1.child_genome).set
          (2 * c + 1) s2.child_genome }) ∧
    s.events = st.events ++ [.child r] ∧ s.child_count = st.child_count

/-- The child bank of the subpopulation at the place has in `pop` the length it has in
`start`, and each of its genomes has the type and the null flag of the genome of `start` in
its slot, a null genome being that genome itself. -/
def Tagged (start : Population) (place : Nat) (pop : Population) : Prop :=
  ∀ (t0 t : Int × Subpopulation), start.subpops[place]? = some t0 → pop.subpops[place]? = some t →
    t.2.child_genomes_.length = t0.2.child_genomes_.length ∧
    ∀ (i : Nat) (b0 b : Genome), t0.2.child_genomes_[i]? = some b0 →
      t.2.child_genomes_[i]? = some b →
      b.genome_type_ = b0.genome_type_ ∧ b.is_null_ = b0.is_null_ ∧
        (b0.is_null_ = true → b = b0)

/-- What holds of the state of a run without sex that started from `start` after the passes
that read the answers `used`: the log has one entry for each pass after its first, which
is no child; the
population differs from `start` in the child bank of the subpopulation and in the registry
only; and the bank holds each child kept so far, at a place below `child_count`. -/
def BankInvariant (start : Population) (place : Nat) (p_generation : Int)
    (used : List Mating) (st : EvolveState) : Prop :=
  (∀ (r : ChildRecord), st.events[0]? ≠ some (.child r)) ∧
  st.events.length = used.length + 1 ∧ 0 ≤ st.child_count ∧
  WritesChildBankOnly place start st.pop ∧ Tagged start place st.pop ∧
  ∀ (j : Nat) (r : ChildRecord), st.events[j + 1]? = some (.child r) → r.accepted = true →
    0 ≤ r.child_index ∧ r.child_index < st.child_count ∧
    ∃ m t, used[j]? = some m ∧ st.pop.subpops[place]? = some t ∧
      HoldsChild start place p_generation t.2.child_genomes_ r m


/-! ## The loops as functions of the cursors -/

theorem dropWhile_dropWhile_of_imp {α : Type} (c p : α → Bool) (h : ∀ x, c x = true → p x = true) :
    ∀ l : List α, (l.dropWhile c).dropWhile p = l.dropWhile p
  | [] => rfl
  | x :: rest => by
    by_cases hc : c x = true
    · have hp := h x hc
      simp [List.dropWhile, hc, hp, dropWhile_dropWhile_of_imp c p h rest]
    · simp [List.dropWhile, hc]

theorem takeWhile_append_of_imp {α : Type} (c p : α → Bool) (h : ∀ x, c x = true → p x = true) :
    ∀ l : List α, l.takeWhile c ++ (l.dropWhile c).takeWhile p = l.takeWhile p
  | [] => rfl
  | x :: rest => by
    by_cases hc : c x = true
    · have hp := h x hc
      simp [List.takeWhile, List.dropWhile, hc, hp, takeWhile_append_of_imp c p h rest]
    · simp [List.takeWhile, List.dropWhile, hc]

theorem copyOld_eq (bp : Int) : ∀ (p child : List Mutation),
    copyOld bp p child = (p.dropWhile (before bp), child ++ p.takeWhile (before bp))
  | [], child => by simp [copyOld]
  | m :: rest, child => by
    by_cases h : m.position_ < bp
    · have h' : ¬ m.position_ ≥ bp := by omega
      simp [copyOld, h', before, h, copyOld_eq bp rest]
    · have h' : m.position_ ≥ bp := by omega
      simp [copyOld, h', before, h]

theorem skipOld_eq (bp : Int) : ∀ p : List Mutation, skipOld bp p = p.dropWhile (before bp)
  | [] => rfl
  | m :: rest => by
    by_cases h : m.position_ < bp
    · simp [skipOld, before, h, skipOld_eq bp rest]
    · simp [skipOld, before, h]

theorem crossoverLoop_eq : ∀ (B : List Int) (cur other child : List Mutation),
    crossoverLoop B cur other child = child ++ crossSegments B cur other
  | [], _, _, child => by simp [crossoverLoop, crossSegments]
  | b :: rest, cur, other, child => by
    simp [crossoverLoop, crossSegments, copyOld_eq, skipOld_eq, crossoverLoop_eq rest]

theorem addOld_eq (bp mp : Int) : ∀ (cur child : List Mutation),
    addOld bp mp cur child =
      if cur.dropWhile (runCond bp mp) = [] ∧ INT_MAX < bp ∧ INT_MAX ≤ mp then none
      else some (cur.dropWhile (runCond bp mp),
        (cur.takeWhile (runCond bp mp)).foldl addUnlessPresent child)
  | [], child => by simp [addOld]
  | m :: rest, child => by
    by_cases h : m.position_ < bp ∧ m.position_ ≤ mp
    · simp [addOld, runCond, h, addOld_eq bp mp rest]
    · simp [addOld, runCond, h]

theorem addNew_eq (bp pp : Int) : ∀ (muts child : List Mutation),
    addNew bp pp muts child =
      if muts.dropWhile (runCond bp pp) = [] ∧ INT_MAX < bp ∧ INT_MAX ≤ pp then none
      else some (muts.dropWhile (runCond bp pp),
        (muts.takeWhile (runCond bp pp)).foldl addUnlessPresent child)
  | [], child => by simp [addNew]
  | m :: rest, child => by
    by_cases h : m.position_ < bp ∧ m.position_ ≤ pp
    · simp [addNew, runCond, h, addNew_eq bp pp rest]
    · simp [addNew, runCond, h]

theorem runCond_imp_before (bp mp : Int) (x : Mutation) (h : runCond bp mp x = true) :
    before bp x = true := by
  simp [runCond, before] at *
  exact h.1

theorem dropWhile_before_of_not (bp : Int) (l : List Mutation) (h : ¬ iterPos l < bp) :
    l.dropWhile (before bp) = l := by
  cases l with
  | nil => rfl
  | cons m rest =>
    simp [iterPos] at h
    have hb : before bp m = false := by simp [before]; omega
    simp [List.dropWhile, hb]

theorem mergeBefore_eq_of_some (bp : Int) : ∀ (fuel : Nat) (cur muts child : List Mutation)
    (r : List Mutation × List Mutation × List Mutation),
    mergeBefore bp fuel cur muts child = some r →
      r = (cur.dropWhile (before bp), muts.dropWhile (before bp),
        (segmentOrder bp fuel cur muts).foldl addUnlessPresent child)
  | 0, _, _, _, r => by simp [mergeBefore]
  | fuel + 1, cur, muts, child, r => by
    intro h
    unfold mergeBefore at h
    by_cases hc : iterPos cur < bp ∨ iterPos muts < bp
    · simp only [hc, if_true] at h
      cases hA : addOld bp (iterPos muts) cur child with
      | none => simp [hA] at h
      | some a =>
        obtain ⟨cur1, child1⟩ := a
        simp only [hA] at h
        cases hN : addNew bp (iterPos cur1) muts child1 with
        | none => simp [hN] at h
        | some n =>
          obtain ⟨muts1, child2⟩ := n
          simp only [hN] at h
          have ih := mergeBefore_eq_of_some bp fuel _ _ _ r h
          rw [addOld_eq] at hA
          split at hA
          · cases hA
          · simp only [Option.some.injEq, Prod.mk.injEq] at hA
            obtain ⟨hcur1, hchild1⟩ := hA
            rw [addNew_eq] at hN
            split at hN
            · cases hN
            · simp only [Option.some.injEq, Prod.mk.injEq] at hN
              obtain ⟨hmuts1, hchild2⟩ := hN
              subst hcur1 hchild1 hmuts1 hchild2
              rw [ih, dropWhile_dropWhile_of_imp _ _ (runCond_imp_before bp _),
                dropWhile_dropWhile_of_imp _ _ (runCond_imp_before bp _)]
              simp [segmentOrder, hc, List.foldl_append]
    · simp only [hc, if_false] at h
      simp at h
      subst h
      have h1 : ¬ iterPos cur < bp := fun h => hc (Or.inl h)
      have h2 : ¬ iterPos muts < bp := fun h => hc (Or.inr h)
      simp [segmentOrder, hc, dropWhile_before_of_not bp cur h1, dropWhile_before_of_not bp muts h2]

theorem length_dropWhile_le {α : Type} (p : α → Bool) (l : List α) :
    (l.dropWhile p).length ≤ l.length :=
  (List.dropWhile_sublist p).length_le

theorem segment_progress (bp : Int) (hbp : bp ≤ INT_MAX) (cur muts : List Mutation)
    (hc : iterPos cur < bp ∨ iterPos muts < bp) :
    (cur.dropWhile (runCond bp (iterPos muts))).length +
      (muts.dropWhile
        (runCond bp (iterPos (cur.dropWhile (runCond bp (iterPos muts)))))).length <
      cur.length + muts.length := by
  have h1 := length_dropWhile_le (runCond bp (iterPos muts)) cur
  have h2 := length_dropWhile_le
    (runCond bp (iterPos (List.dropWhile (runCond bp (iterPos muts)) cur))) muts
  cases cur with
  | nil =>
    cases muts with
    | nil => simp [iterPos] at hc; omega
    | cons y ms =>
      simp only [iterPos, List.dropWhile_nil] at hc ⊢
      have hy : y.position_ < bp := by
        rcases hc with hc | hc
        · omega
        · exact hc
      have hr : runCond bp INT_MAX y = true := by simp [runCond]; omega
      have h3 := length_dropWhile_le (runCond bp INT_MAX) ms
      simp only [List.dropWhile_cons, hr, if_true, List.length_nil, List.length_cons]
      omega
  | cons x cs =>
    by_cases hx : runCond bp (iterPos muts) x = true
    · have h3 := length_dropWhile_le (runCond bp (iterPos muts)) cs
      simp only [List.dropWhile_cons, hx, if_true, List.length_cons] at h2 ⊢
      omega
    · have hx2 : ¬ (x.position_ < bp ∧ x.position_ ≤ iterPos muts) := by
        simpa [runCond] using hx
      have hx3 : runCond bp (iterPos muts) x = false := by simpa using hx
      have e1 : (x :: cs).dropWhile (runCond bp (iterPos muts)) = x :: cs := by
        simp [List.dropWhile, hx3]
      rw [e1]
      cases muts with
      | nil =>
        simp only [iterPos] at hc hx2
        exfalso
        rcases hc with hc | hc <;> omega
      | cons y ms =>
        simp only [iterPos] at hc hx2 ⊢
        have hr : runCond bp x.position_ y = true := by simp [runCond]; omega
        have h3 := length_dropWhile_le (runCond bp x.position_) ms
        have e2 : (y :: ms).dropWhile (runCond bp x.position_) =
            ms.dropWhile (runCond bp x.position_) := by
          simp [List.dropWhile, hr]
        rw [e2]
        simp only [List.length_cons]
        omega

theorem mergeBefore_isSome (bp : Int) (hbp : bp ≤ INT_MAX) :
    ∀ (fuel : Nat) (cur muts child : List Mutation), cur.length + muts.length < fuel →
      ∃ r, mergeBefore bp fuel cur muts child = some r
  | 0, _, _, _, h => by omega
  | fuel + 1, cur, muts, child, h => by
    unfold mergeBefore
    by_cases hc : iterPos cur < bp ∨ iterPos muts < bp
    · simp only [hc, if_true]
      have hnot : ¬ INT_MAX < bp := by omega
      rw [addOld_eq]
      simp only [hnot, false_and, and_false, if_false]
      rw [addNew_eq]
      simp only [hnot, false_and, and_false, if_false]
      apply mergeBefore_isSome bp hbp fuel
      have := segment_progress bp hbp cur muts hc
      omega
    · simp [hc]

theorem mergeLoop_eq_of_some : ∀ (B : List Int) (cur other muts child r : List Mutation),
    mergeLoop B cur other muts child = some r →
      r = (emissionOrder B cur other muts).foldl addUnlessPresent child
  | [], _, _, _, _, r => by simp [mergeLoop]
  | b :: rest, cur, other, muts, child, r => by
    intro h
    unfold mergeLoop at h
    cases hM : mergeBefore b (cur.length + muts.length + 1) cur muts child with
    | none => simp [hM] at h
    | some t =>
      have ht := mergeBefore_eq_of_some b _ _ _ _ t hM
      simp only [hM] at h
      cases rest with
      | nil =>
        simp only [Option.some.injEq] at h
        subst h
        rw [ht]
        simp [emissionOrder]
      | cons b2 rest2 =>
        simp only at h
        have ih := mergeLoop_eq_of_some (b2 :: rest2) _ _ _ _ r h
        rw [ih, ht, skipOld_eq]
        conv_rhs => rw [emissionOrder, List.foldl_append]

theorem mergeLoop_isSome : ∀ (B : List Int) (cur other muts child : List Mutation),
    B ≠ [] → (∀ b ∈ B, b ≤ INT_MAX) → ∃ r, mergeLoop B cur other muts child = some r
  | [], _, _, _, _, h, _ => absurd rfl h
  | b :: rest, cur, other, muts, child, _, hB => by
    unfold mergeLoop
    obtain ⟨t, ht⟩ := mergeBefore_isSome b (hB b (by simp)) (cur.length + muts.length + 1)
      cur muts child (by omega)
    rw [ht]
    cases rest with
    | nil => exact ⟨_, rfl⟩
    | cons b2 rest2 =>
      simp only
      exact mergeLoop_isSome (b2 :: rest2) _ _ _ _ (by simp)
        (fun x hx => hB x (List.mem_cons_of_mem _ hx))



/-! ## The duplicate search -/

theorem present_mem (child : List Mutation) (m : Mutation) (h : present child m m.position_ = true) :
    m ∈ child := by
  unfold present at h
  split at h
  · simp at h
  · split at h
    · simpa using h
    · simp at h

theorem posSorted_le_getLast : ∀ (l : List Mutation) (back : Mutation), PosSorted l →
    l.getLast? = some back → ∀ x ∈ l, x.position_ ≤ back.position_
  | [], _, _, h => by simp at h
  | [a], back, _, h => by
    simp at h
    subst h
    simp
  | a :: b :: rest, back, hs, h => by
    intro x hx
    have hs2 : PosSorted (b :: rest) := (List.pairwise_cons.mp hs).2
    have h2 : (b :: rest).getLast? = some back := by simpa [List.getLast?_cons_cons] using h
    have ih := posSorted_le_getLast (b :: rest) back hs2 h2
    rcases List.mem_cons.mp hx with rfl | hx
    · have hb : back ∈ b :: rest := List.mem_of_getLast?_eq_some h2
      exact (List.pairwise_cons.mp hs).1 back hb
    · exact ih x hx

theorem not_mem_of_not_present (child : List Mutation) (m : Mutation) (hs : PosSorted child)
    (hle : ∀ c ∈ child, c.position_ ≤ m.position_)
    (h : present child m m.position_ = false) : m ∉ child := by
  intro hm
  unfold present at h
  split at h
  · rename_i hnone
    simp at hnone
    subst hnone
    simp at hm
  · rename_i back hback
    split at h
    · simp at h
      exact h hm
    · rename_i hne
      have h1 := posSorted_le_getLast child back hs hback m hm
      have h2 := hle back (List.mem_of_getLast?_eq_some hback)
      omega

theorem foldl_addUnlessPresent_sorted : ∀ (es child : List Mutation),
    PosSorted (child ++ es) → child.Nodup →
      PosSorted (es.foldl addUnlessPresent child) ∧ (es.foldl addUnlessPresent child).Nodup ∧
        ∀ x, x ∈ es.foldl addUnlessPresent child ↔ x ∈ child ∨ x ∈ es
  | [], child, hs, hn => by
    rw [List.append_nil] at hs
    simpa using ⟨hs, hn⟩
  | e :: rest, child, hs, hn => by
    have hs' : PosSorted ((child ++ [e]) ++ rest) := by simpa using hs
    have hce : PosSorted (child ++ [e]) := (List.pairwise_append.mp hs').1
    have hc : PosSorted child := (List.pairwise_append.mp hce).1
    have hle : ∀ c ∈ child, c.position_ ≤ e.position_ := fun c hcm =>
      (List.pairwise_append.mp hce).2.2 c hcm e (by simp)
    simp only [List.foldl_cons]
    by_cases hp : present child e e.position_ = true
    · have hmem := present_mem child e hp
      have hsub : PosSorted (child ++ rest) := by
        refine List.Pairwise.sublist ?_ hs
        exact List.Sublist.append_left (List.sublist_cons_self e rest) child
      have ih := foldl_addUnlessPresent_sorted rest child hsub hn
      simp only [addUnlessPresent, hp, if_true]
      refine ⟨ih.1, ih.2.1, fun x => ?_⟩
      rw [ih.2.2 x]
      constructor
      · rintro (h | h)
        · exact Or.inl h
        · exact Or.inr (List.mem_cons_of_mem _ h)
      · rintro (h | h)
        · exact Or.inl h
        · rcases List.mem_cons.mp h with rfl | h
          · exact Or.inl hmem
          · exact Or.inr h
    · have hp' : present child e e.position_ = false := by simpa using hp
      have hnot := not_mem_of_not_present child e hc hle hp'
      have hn' : (child ++ [e]).Nodup := by
        rw [List.nodup_append]
        refine ⟨hn, by simp, ?_⟩
        intro a ha hb
        simp at hb
        subst hb
        exact hnot ha
      have ih := foldl_addUnlessPresent_sorted rest (child ++ [e]) hs' hn'
      simp only [addUnlessPresent, hp', Bool.false_eq_true, if_false]
      refine ⟨ih.1, ih.2.1, fun x => ?_⟩
      rw [ih.2.2 x]
      simp only [List.mem_append, List.mem_singleton, List.mem_cons]
      tauto

theorem foldl_addUnlessPresent_nodup : ∀ (es child : List Mutation),
    (child ++ es).Nodup → es.foldl addUnlessPresent child = child ++ es
  | [], child, _ => by simp
  | e :: rest, child, hn => by
    have hn' : ((child ++ [e]) ++ rest).Nodup := by simpa using hn
    have hnot : e ∉ child := by
      intro h
      have := (List.nodup_append.mp hn).2.2
      exact this h (by simp)
    have hp : present child e e.position_ = false := by
      by_contra hp
      exact hnot (present_mem child e (by simpa using hp))
    simp only [List.foldl_cons, addUnlessPresent, hp, Bool.false_eq_true, if_false]
    rw [foldl_addUnlessPresent_nodup rest (child ++ [e]) hn']
    simp

theorem foldl_addUnlessPresent_count (m : Mutation) : ∀ (es child : List Mutation),
    child.count m + es.count m ≤ 1 →
      (es.foldl addUnlessPresent child).count m = child.count m + es.count m
  | [], child, _ => by simp
  | e :: rest, child, h => by
    simp only [List.foldl_cons]
    by_cases he : e = m
    · subst he
      simp only [List.count_cons_self] at h ⊢
      have hc : child.count e = 0 := by omega
      have hr : rest.count e = 0 := by omega
      have hnot : e ∉ child := List.count_eq_zero.mp hc
      have hp : present child e e.position_ = false := by
        by_contra hp
        exact hnot (present_mem child e (by simpa using hp))
      simp only [addUnlessPresent, hp, Bool.false_eq_true, if_false]
      rw [foldl_addUnlessPresent_count e rest (child ++ [e]) (by simp [hc, hr])]
      simp [hc, hr]
    · have hcount : (addUnlessPresent child e).count m = child.count m := by
        unfold addUnlessPresent
        split
        · rfl
        · simp [List.count_append, List.count_cons, he]
      have hrest : (e :: rest).count m = rest.count m := by simp [List.count_cons, he]
      rw [hrest] at h ⊢
      rw [foldl_addUnlessPresent_count m rest _ (by rw [hcount]; exact h), hcount]



/-! ## Order of the handles the merge tries to add -/

theorem posSorted_iterPos_le (l : List Mutation) (hs : PosSorted l) :
    ∀ x ∈ l, iterPos l ≤ x.position_ := by
  cases l with
  | nil => simp
  | cons a rest =>
    intro x hx
    rcases List.mem_cons.mp hx with rfl | hx
    · simp [iterPos]
    · exact (List.pairwise_cons.mp hs).1 x hx

theorem posSorted_takeWhile_le_dropWhile (p : Mutation → Bool) (l : List Mutation)
    (hs : PosSorted l) (a b : Mutation) (ha : a ∈ l.takeWhile p) (hb : b ∈ l.dropWhile p) :
    a.position_ ≤ b.position_ := by
  have h : PosSorted (l.takeWhile p ++ l.dropWhile p) := by
    rw [List.takeWhile_append_dropWhile]; exact hs
  exact (List.pairwise_append.mp h).2.2 a ha b hb

theorem posSorted_dropWhile_before (bp : Int) : ∀ (l : List Mutation), PosSorted l →
    ∀ x ∈ l.dropWhile (before bp), bp ≤ x.position_
  | [], _ => by simp
  | a :: rest, hs => by
    by_cases ha : before bp a = true
    · simp only [List.dropWhile_cons, ha, if_true]
      exact posSorted_dropWhile_before bp rest (List.pairwise_cons.mp hs).2
    · have ha' : before bp a = false := by simpa using ha
      have hge : bp ≤ a.position_ := by simp [before] at ha'; exact ha'
      have e : (a :: rest).dropWhile (before bp) = a :: rest := by simp [List.dropWhile, ha']
      rw [e]
      intro x hx
      rcases List.mem_cons.mp hx with rfl | hx
      · exact hge
      · have := (List.pairwise_cons.mp hs).1 x hx
        omega

theorem takeWhile_before_of_not (bp : Int) (l : List Mutation) (h : ¬ iterPos l < bp) :
    l.takeWhile (before bp) = [] := by
  cases l with
  | nil => rfl
  | cons m rest =>
    simp [iterPos] at h
    have hb : before bp m = false := by simp [before]; omega
    simp [List.takeWhile, hb]

theorem segmentOrder_mem (bp : Int) : ∀ (fuel : Nat) (cur muts : List Mutation) (x : Mutation),
    x ∈ segmentOrder bp fuel cur muts → (x ∈ cur ∨ x ∈ muts) ∧ x.position_ < bp
  | 0, _, _, _ => by simp [segmentOrder]
  | fuel + 1, cur, muts, x => by
    intro hx
    unfold segmentOrder at hx
    split at hx
    · rcases List.mem_append.mp hx with h | h
      · have h1 := List.mem_takeWhile_imp h
        simp only [runCond, decide_eq_true_eq] at h1
        exact ⟨Or.inl ((List.takeWhile_sublist _).subset h), h1.1⟩
      · rcases List.mem_append.mp h with h | h
        · have h1 := List.mem_takeWhile_imp h
          simp only [runCond, decide_eq_true_eq] at h1
          exact ⟨Or.inr ((List.takeWhile_sublist _).subset h), h1.1⟩
        · have ih := segmentOrder_mem bp fuel _ _ x h
          refine ⟨?_, ih.2⟩
          rcases ih.1 with h | h
          · exact Or.inl ((List.dropWhile_sublist _).subset h)
          · exact Or.inr ((List.dropWhile_sublist _).subset h)
    · simp at hx

theorem segmentOrder_sorted (bp : Int) : ∀ (fuel : Nat) (cur muts : List Mutation),
    PosSorted cur → PosSorted muts → PosSorted (segmentOrder bp fuel cur muts)
  | 0, _, _, _, _ => by simp [segmentOrder, PosSorted]
  | fuel + 1, cur, muts, hcur, hmuts => by
    unfold segmentOrder
    split
    · have hcur1 : PosSorted (cur.dropWhile (runCond bp (iterPos muts))) :=
        List.Pairwise.sublist (List.dropWhile_sublist _) hcur
      have hmuts1 : PosSorted (muts.dropWhile
          (runCond bp (iterPos (cur.dropWhile (runCond bp (iterPos muts)))))) :=
        List.Pairwise.sublist (List.dropWhile_sublist _) hmuts
      have ih := segmentOrder_sorted bp fuel _ _ hcur1 hmuts1
      unfold PosSorted
      rw [List.pairwise_append]
      refine ⟨List.Pairwise.sublist (List.takeWhile_sublist _) hcur, ?_, ?_⟩
      · rw [List.pairwise_append]
        refine ⟨List.Pairwise.sublist (List.takeWhile_sublist _) hmuts, ih, ?_⟩
        intro a ha b hb
        have ha1 := List.mem_takeWhile_imp ha
        simp only [runCond, decide_eq_true_eq] at ha1
        rcases (segmentOrder_mem bp fuel _ _ b hb).1 with h | h
        · have := posSorted_iterPos_le _ hcur1 b h
          omega
        · exact posSorted_takeWhile_le_dropWhile _ muts hmuts a b ha h
      · intro a ha b hb
        have ha1 := List.mem_takeWhile_imp ha
        simp only [runCond, decide_eq_true_eq] at ha1
        rcases List.mem_append.mp hb with h | h
        · have := posSorted_iterPos_le _ hmuts b ((List.takeWhile_sublist _).subset h)
          omega
        · rcases (segmentOrder_mem bp fuel _ _ b h).1 with h | h
          · exact posSorted_takeWhile_le_dropWhile _ cur hcur a b ha h
          · have := posSorted_iterPos_le _ hmuts b ((List.dropWhile_sublist _).subset h)
            omega
    · simp [PosSorted]

theorem segmentOrder_filter (bp : Int) (hbp : bp ≤ INT_MAX) (q : Mutation → Bool) :
    ∀ (fuel : Nat) (cur muts : List Mutation), cur.length + muts.length < fuel →
      (∀ x ∈ muts, q x = true) → (∀ x ∈ cur, q x = false) →
        (segmentOrder bp fuel cur muts).filter q = muts.takeWhile (before bp) ∧
        (segmentOrder bp fuel cur muts).filter (fun x => !q x) = cur.takeWhile (before bp)
  | 0, _, _, h, _, _ => by omega
  | fuel + 1, cur, muts, h, hm, hc => by
    unfold segmentOrder
    split
    · rename_i hcond
      have hprog := segment_progress bp hbp cur muts hcond
      have hm1 : ∀ x ∈ muts.dropWhile
          (runCond bp (iterPos (cur.dropWhile (runCond bp (iterPos muts))))), q x = true :=
        fun x hx => hm x ((List.dropWhile_sublist _).subset hx)
      have hc1 : ∀ x ∈ cur.dropWhile (runCond bp (iterPos muts)), q x = false :=
        fun x hx => hc x ((List.dropWhile_sublist _).subset hx)
      have ih := segmentOrder_filter bp hbp q fuel _ _ (by omega) hm1 hc1
      have e1 : (cur.takeWhile (runCond bp (iterPos muts))).filter q = [] := by
        rw [List.filter_eq_nil_iff]
        intro a ha
        simp [hc a ((List.takeWhile_sublist _).subset ha)]
      have e2 : (muts.takeWhile (runCond bp
          (iterPos (cur.dropWhile (runCond bp (iterPos muts)))))).filter q =
          muts.takeWhile (runCond bp
            (iterPos (cur.dropWhile (runCond bp (iterPos muts))))) := by
        rw [List.filter_eq_self]
        intro a ha
        exact hm a ((List.takeWhile_sublist _).subset ha)
      have e3 : (cur.takeWhile (runCond bp (iterPos muts))).filter (fun x => !q x) =
          cur.takeWhile (runCond bp (iterPos muts)) := by
        rw [List.filter_eq_self]
        intro a ha
        simp [hc a ((List.takeWhile_sublist _).subset ha)]
      have e4 : (muts.takeWhile (runCond bp
          (iterPos (cur.dropWhile (runCond bp (iterPos muts)))))).filter (fun x => !q x) =
          [] := by
        rw [List.filter_eq_nil_iff]
        intro a ha
        simp [hm a ((List.takeWhile_sublist _).subset ha)]
      simp only [List.filter_append, e1, e2, e3, e4, ih.1, ih.2, List.nil_append,
        List.append_nil]
      exact ⟨takeWhile_append_of_imp _ _ (runCond_imp_before bp _) muts,
        takeWhile_append_of_imp _ _ (runCond_imp_before bp _) cur⟩
    · rename_i hcond
      have h1 : ¬ iterPos cur < bp := fun h => hcond (Or.inl h)
      have h2 : ¬ iterPos muts < bp := fun h => hcond (Or.inr h)
      simp [takeWhile_before_of_not bp cur h1, takeWhile_before_of_not bp muts h2]



/-! ## The segments of the strands and the emission order over all breakpoints -/

theorem crossSegments_mem : ∀ (B : List Int) (cur other : List Mutation) (x : Mutation),
    x ∈ crossSegments B cur other → x ∈ cur ∨ x ∈ other
  | [], _, _, _ => by simp [crossSegments]
  | b :: rest, cur, other, x => by
    intro hx
    unfold crossSegments at hx
    rcases List.mem_append.mp hx with h | h
    · exact Or.inl ((List.takeWhile_sublist _).subset h)
    · rcases crossSegments_mem rest _ _ x h with h | h
      · exact Or.inr ((List.dropWhile_sublist _).subset h)
      · exact Or.inl ((List.dropWhile_sublist _).subset h)

theorem crossSegments_ge (b : Int) (rest : List Int) (cur other : List Mutation)
    (hcur : PosSorted cur) (hother : PosSorted other) (x : Mutation)
    (hx : x ∈ crossSegments rest (other.dropWhile (before b)) (cur.dropWhile (before b))) :
    b ≤ x.position_ := by
  rcases crossSegments_mem rest _ _ x hx with h | h
  · exact posSorted_dropWhile_before b other hother x h
  · exact posSorted_dropWhile_before b cur hcur x h

theorem mem_takeWhile_before (bp : Int) (l : List Mutation) (x : Mutation)
    (hx : x ∈ l.takeWhile (before bp)) : x.position_ < bp := by
  have := List.mem_takeWhile_imp hx
  simpa [before] using this

theorem crossSegments_sorted : ∀ (B : List Int) (cur other : List Mutation),
    PosSorted cur → PosSorted other → PosSorted (crossSegments B cur other)
  | [], _, _, _, _ => by simp [crossSegments, PosSorted]
  | b :: rest, cur, other, hcur, hother => by
    unfold crossSegments PosSorted
    rw [List.pairwise_append]
    refine ⟨List.Pairwise.sublist (List.takeWhile_sublist _) hcur,
      crossSegments_sorted rest _ _ (List.Pairwise.sublist (List.dropWhile_sublist _) hother)
        (List.Pairwise.sublist (List.dropWhile_sublist _) hcur), ?_⟩
    intro x hx y hy
    have h1 := mem_takeWhile_before b cur x hx
    have h2 := crossSegments_ge b rest cur other hcur hother y hy
    omega

theorem crossSegments_nodup : ∀ (B : List Int) (cur other : List Mutation),
    PosSorted cur → PosSorted other → cur.Nodup → other.Nodup →
      (crossSegments B cur other).Nodup
  | [], _, _, _, _, _, _ => by simp [crossSegments]
  | b :: rest, cur, other, hcur, hother, ncur, nother => by
    unfold crossSegments
    rw [List.nodup_append]
    refine ⟨List.Nodup.sublist (List.takeWhile_sublist _) ncur,
      crossSegments_nodup rest _ _ (List.Pairwise.sublist (List.dropWhile_sublist _) hother)
        (List.Pairwise.sublist (List.dropWhile_sublist _) hcur)
        (List.Nodup.sublist (List.dropWhile_sublist _) nother)
        (List.Nodup.sublist (List.dropWhile_sublist _) ncur), ?_⟩
    intro x hx hy
    have h1 := mem_takeWhile_before b cur x hx
    have h2 := crossSegments_ge b rest cur other hcur hother x hy
    omega

theorem emissionOrder_mem : ∀ (B : List Int) (cur other muts : List Mutation) (x : Mutation),
    x ∈ emissionOrder B cur other muts → x ∈ cur ∨ x ∈ other ∨ x ∈ muts
  | [], _, _, _, _ => by simp [emissionOrder]
  | b :: rest, cur, other, muts, x => by
    intro hx
    unfold emissionOrder at hx
    rcases List.mem_append.mp hx with h | h
    · rcases (segmentOrder_mem b _ _ _ x h).1 with h | h
      · exact Or.inl h
      · exact Or.inr (Or.inr h)
    · rcases emissionOrder_mem rest _ _ _ x h with h | h | h
      · exact Or.inr (Or.inl ((List.dropWhile_sublist _).subset h))
      · exact Or.inl ((List.dropWhile_sublist _).subset h)
      · exact Or.inr (Or.inr ((List.dropWhile_sublist _).subset h))

theorem emissionOrder_sorted : ∀ (B : List Int) (cur other muts : List Mutation),
    PosSorted cur → PosSorted other → PosSorted muts → PosSorted (emissionOrder B cur other muts)
  | [], _, _, _, _, _, _ => by simp [emissionOrder, PosSorted]
  | b :: rest, cur, other, muts, hcur, hother, hmuts => by
    unfold emissionOrder PosSorted
    rw [List.pairwise_append]
    refine ⟨segmentOrder_sorted b _ cur muts hcur hmuts,
      emissionOrder_sorted rest _ _ _ (List.Pairwise.sublist (List.dropWhile_sublist _) hother)
        (List.Pairwise.sublist (List.dropWhile_sublist _) hcur)
        (List.Pairwise.sublist (List.dropWhile_sublist _) hmuts), ?_⟩
    intro x hx y hy
    have h1 := (segmentOrder_mem b _ _ _ x hx).2
    have h2 : b ≤ y.position_ := by
      rcases emissionOrder_mem rest _ _ _ y hy with h | h | h
      · exact posSorted_dropWhile_before b other hother y h
      · exact posSorted_dropWhile_before b cur hcur y h
      · exact posSorted_dropWhile_before b muts hmuts y h
    omega

theorem emissionOrder_filter (q : Mutation → Bool) : ∀ (B : List Int)
    (cur other muts : List Mutation), B.Pairwise (fun a b => a ≤ b) → (∀ b ∈ B, b ≤ INT_MAX) →
      (∀ x ∈ muts, q x = true) → (∀ x ∈ cur, q x = false) → (∀ x ∈ other, q x = false) →
        (emissionOrder B cur other muts).filter (fun x => !q x) = crossSegments B cur other ∧
        ∀ hB : B ≠ [],
          (emissionOrder B cur other muts).filter q = muts.takeWhile (before (B.getLast hB))
  | [], _, _, _, _, _, _, _, _ => by simp [emissionOrder, crossSegments]
  | b :: rest, cur, other, muts, hB, hmax, hm, hc, ho => by
    have hseg := segmentOrder_filter b (hmax b (by simp)) q (cur.length + muts.length + 1)
      cur muts (by omega) hm hc
    have ih := emissionOrder_filter q rest (other.dropWhile (before b))
      (cur.dropWhile (before b)) (muts.dropWhile (before b)) (List.pairwise_cons.mp hB).2
      (fun x hx => hmax x (List.mem_cons_of_mem _ hx))
      (fun x hx => hm x ((List.dropWhile_sublist _).subset hx))
      (fun x hx => ho x ((List.dropWhile_sublist _).subset hx))
      (fun x hx => hc x ((List.dropWhile_sublist _).subset hx))
    unfold emissionOrder crossSegments
    simp only [List.filter_append, hseg.1, hseg.2, ih.1, true_and]
    intro _
    cases rest with
    | nil => simp [emissionOrder]
    | cons b2 rest2 =>
      have hne : b2 :: rest2 ≠ [] := by simp
      rw [ih.2 hne, List.getLast_cons hne]
      apply takeWhile_append_of_imp
      intro x hx
      have hle : b ≤ (b2 :: rest2).getLast hne :=
        (List.pairwise_cons.mp hB).1 _ (List.getLast_mem hne)
      simp only [before, decide_eq_true_eq] at hx ⊢
      omega



/-! ## Which handles the segments hold, by the number of breakpoints crossed -/

theorem crossings_eq_zero (B : List Int) (p : Int) (h : ∀ b ∈ B, p < b) : crossings B p = 0 := by
  unfold crossings
  rw [List.length_eq_zero, List.filter_eq_nil_iff]
  intro b hb
  have := h b hb
  simp only [decide_eq_true_eq]
  omega

theorem crossings_cons_of_le (b : Int) (R : List Int) (p : Int) (h : b ≤ p) :
    crossings (b :: R) p = crossings R p + 1 := by
  simp [crossings, List.filter_cons, h]

theorem evenCrossed_cons_of_le (b : Int) (R : List Int) (x : Mutation) (h : b ≤ x.position_) :
    evenCrossed (b :: R) x = oddCrossed R x := by
  simp only [evenCrossed, oddCrossed, crossings_cons_of_le b R _ h]
  congr 1
  apply propext
  omega

theorem oddCrossed_cons_of_le (b : Int) (R : List Int) (x : Mutation) (h : b ≤ x.position_) :
    oddCrossed (b :: R) x = evenCrossed R x := by
  simp only [evenCrossed, oddCrossed, crossings_cons_of_le b R _ h]
  congr 1
  apply propext
  omega

theorem evenCrossed_of_lt (B : List Int) (x : Mutation) (h : ∀ b ∈ B, x.position_ < b) :
    evenCrossed B x = true ∧ oddCrossed B x = false := by
  simp [evenCrossed, oddCrossed, crossings_eq_zero B _ h]

theorem filter_congr_mem {α : Type} (p q : α → Bool) (l : List α) (h : ∀ x ∈ l, p x = q x) :
    l.filter p = l.filter q :=
  List.filter_congr h

theorem crossSegments_parity : ∀ (B : List Int) (cur other : List Mutation),
    B.Pairwise (fun x y => x < y) → PosSorted cur → PosSorted other → ∀ hB : B ≠ [],
      (∀ x ∈ cur, x.position_ < B.getLast hB) → (∀ x ∈ other, x.position_ < B.getLast hB) →
        (crossSegments B cur other).filter (evenCrossed B) = cur.filter (evenCrossed B) ∧
        (crossSegments B cur other).filter (oddCrossed B) = other.filter (oddCrossed B)
  | [], _, _, _, _, _, hB, _, _ => absurd rfl hB
  | [b], cur, other, _, _, _, _, hc, ho => by
    simp only [List.getLast_singleton] at hc ho
    have e : cur.takeWhile (before b) = cur := by
      rw [List.takeWhile_eq_self_iff]
      intro x hx
      simpa [before] using hc x hx
    have hcz : ∀ x ∈ cur, oddCrossed [b] x = false := fun x hx =>
      (evenCrossed_of_lt [b] x (by simpa using hc x hx)).2
    have hoz : ∀ x ∈ other, oddCrossed [b] x = false := fun x hx =>
      (evenCrossed_of_lt [b] x (by simpa using ho x hx)).2
    simp only [crossSegments, e, List.append_nil, true_and]
    rw [List.filter_eq_nil_iff.mpr (fun x hx => by simp [hcz x hx]),
      List.filter_eq_nil_iff.mpr (fun x hx => by simp [hoz x hx])]
  | b :: b2 :: rest, cur, other, hP, hcur, hother, _, hc, ho => by
    have hne : b2 :: rest ≠ [] := by simp
    rw [List.getLast_cons hne] at hc ho
    have ih := crossSegments_parity (b2 :: rest) (other.dropWhile (before b))
      (cur.dropWhile (before b)) (List.pairwise_cons.mp hP).2
      (List.Pairwise.sublist (List.dropWhile_sublist _) hother)
      (List.Pairwise.sublist (List.dropWhile_sublist _) hcur) hne
      (fun x hx => ho x ((List.dropWhile_sublist _).subset hx))
      (fun x hx => hc x ((List.dropWhile_sublist _).subset hx))
    have hlt : ∀ x : Mutation, x.position_ < b →
        evenCrossed (b :: b2 :: rest) x = true ∧ oddCrossed (b :: b2 :: rest) x = false := by
      intro x hx
      apply evenCrossed_of_lt
      intro c hcm
      rcases List.mem_cons.mp hcm with rfl | hcm
      · exact hx
      · have := (List.pairwise_cons.mp hP).1 c hcm
        omega
    have hseg := crossSegments_ge b (b2 :: rest) cur other hcur hother
    have hcd := posSorted_dropWhile_before b cur hcur
    have hod := posSorted_dropWhile_before b other hother
    unfold crossSegments
    simp only [List.filter_append]
    constructor
    · rw [filter_congr_mem (evenCrossed (b :: b2 :: rest)) (oddCrossed (b2 :: rest)) _
          (fun x hx => evenCrossed_cons_of_le b _ x (hseg x hx)), ih.2,
        filter_congr_mem (oddCrossed (b2 :: rest)) (evenCrossed (b :: b2 :: rest)) _
          (fun x hx => (evenCrossed_cons_of_le b _ x (hcd x hx)).symm),
        ← List.filter_append, List.takeWhile_append_dropWhile]
    · have e1 : (cur.takeWhile (before b)).filter (oddCrossed (b :: b2 :: rest)) = [] :=
        List.filter_eq_nil_iff.mpr (fun x hx => by
          simp [(hlt x (mem_takeWhile_before b cur x hx)).2])
      have e2 : (other.takeWhile (before b)).filter (oddCrossed (b :: b2 :: rest)) = [] :=
        List.filter_eq_nil_iff.mpr (fun x hx => by
          simp [(hlt x (mem_takeWhile_before b other x hx)).2])
      have e3 : other.filter (oddCrossed (b :: b2 :: rest)) =
          (other.dropWhile (before b)).filter (oddCrossed (b :: b2 :: rest)) := by
        conv_lhs => rw [← List.takeWhile_append_dropWhile (before b) other, List.filter_append]
        rw [e2, List.nil_append]
      rw [e1, e3, List.nil_append,
        filter_congr_mem (oddCrossed (b :: b2 :: rest)) (evenCrossed (b2 :: rest)) _
          (fun x hx => oddCrossed_cons_of_le b _ x (hseg x hx)), ih.1,
        filter_congr_mem (evenCrossed (b2 :: rest)) (oddCrossed (b :: b2 :: rest)) _
          (fun x hx => (oddCrossed_cons_of_le b _ x (hod x hx)).symm)]



/-! ## The scratch genome and the breakpoint list -/

theorem insert_sorted_mutation_perm : ∀ (l : List Mutation) (m : Mutation),
    (insert_sorted_mutation l m).Perm (m :: l)
  | [], m => by simp [insert_sorted_mutation]
  | x :: rest, m => by
    unfold insert_sorted_mutation
    split
    · exact List.Perm.refl _
    · exact ((insert_sorted_mutation_perm rest m).cons x).trans (List.Perm.swap m x rest)

theorem insert_sorted_mutation_sorted : ∀ (l : List Mutation) (m : Mutation),
    PosSorted l → PosSorted (insert_sorted_mutation l m)
  | [], m, _ => by simp [insert_sorted_mutation, PosSorted]
  | x :: rest, m, hs => by
    unfold insert_sorted_mutation
    split
    · rename_i hlt
      unfold PosSorted
      rw [List.pairwise_cons]
      refine ⟨?_, hs⟩
      intro y hy
      rcases List.mem_cons.mp hy with rfl | hy
      · omega
      · have := (List.pairwise_cons.mp hs).1 y hy
        omega
    · rename_i hge
      unfold PosSorted
      rw [List.pairwise_cons]
      refine ⟨?_, insert_sorted_mutation_sorted rest m (List.pairwise_cons.mp hs).2⟩
      intro y hy
      have hy' := (insert_sorted_mutation_perm rest m).subset hy
      rcases List.mem_cons.mp hy' with rfl | hy'
      · omega
      · exact (List.pairwise_cons.mp hs).1 y hy'

theorem foldl_insert_sorted : ∀ (drawn acc : List Mutation), PosSorted acc →
    (drawn.foldl insert_sorted_mutation acc).Perm (acc ++ drawn) ∧
      PosSorted (drawn.foldl insert_sorted_mutation acc)
  | [], acc, hs => by simpa using hs
  | d :: rest, acc, hs => by
    have ih := foldl_insert_sorted rest (insert_sorted_mutation acc d)
      (insert_sorted_mutation_sorted acc d hs)
    refine ⟨?_, ih.2⟩
    simp only [List.foldl_cons]
    refine ih.1.trans ?_
    have h1 : (insert_sorted_mutation acc d ++ rest).Perm ((d :: acc) ++ rest) :=
      (insert_sorted_mutation_perm acc d).append_right rest
    refine h1.trans ?_
    simp only [List.cons_append]
    exact List.perm_middle.symm

theorem mutations_to_add_perm (drawn : List Mutation) : (mutations_to_add drawn).Perm drawn := by
  simpa [mutations_to_add] using (foldl_insert_sorted drawn [] (by simp [PosSorted])).1

theorem mutations_to_add_sorted (drawn : List Mutation) : PosSorted (mutations_to_add drawn) :=
  (foldl_insert_sorted drawn [] (by simp [PosSorted])).2

theorem unique_mem : ∀ (l : List Int) (x : Int), x ∈ unique l ↔ x ∈ l
  | [], _ => by simp [unique]
  | [a], _ => by simp [unique]
  | a :: b :: rest, x => by
    unfold unique
    split
    · rename_i hab
      subst hab
      rw [unique_mem (a :: rest) x]
      simp
    · rw [List.mem_cons, unique_mem (b :: rest) x]
      simp

theorem unique_strict : ∀ (l : List Int), l.Pairwise (fun a b => a ≤ b) →
    (unique l).Pairwise (fun a b => a < b)
  | [], _ => by simp [unique]
  | [a], _ => by simp [unique]
  | a :: b :: rest, hs => by
    have hs2 := (List.pairwise_cons.mp hs).2
    unfold unique
    split
    · exact unique_strict (b :: rest) hs2
    · rename_i hab
      rw [List.pairwise_cons]
      refine ⟨?_, unique_strict (b :: rest) hs2⟩
      intro y hy
      rw [unique_mem] at hy
      have h1 := (List.pairwise_cons.mp hs).1 b (by simp)
      rcases List.mem_cons.mp hy with rfl | hy
      · omega
      · have := (List.pairwise_cons.mp hs2).1 y hy
        omega

theorem all_breakpoints_mem (drawn : List Int) (last_position_ x : Int) :
    x ∈ all_breakpoints drawn last_position_ ↔ x ∈ drawn ∨ x = last_position_ + 1 := by
  unfold all_breakpoints
  rw [unique_mem, (List.perm_insertionSort _ _).mem_iff]
  simp

theorem all_breakpoints_strict (drawn : List Int) (last_position_ : Int) :
    (all_breakpoints drawn last_position_).Pairwise (fun a b => a < b) :=
  unique_strict _ (List.sorted_insertionSort _ _)

theorem all_breakpoints_ne_nil (drawn : List Int) (last_position_ : Int) :
    all_breakpoints drawn last_position_ ≠ [] := by
  intro h
  have := (all_breakpoints_mem drawn last_position_ (last_position_ + 1)).mpr (Or.inr rfl)
  rw [h] at this
  simp at this

theorem strict_le_getLast : ∀ (B : List Int) (hB : B ≠ []), B.Pairwise (fun a b => a < b) →
    ∀ x ∈ B, x ≤ B.getLast hB
  | [], hB, _ => absurd rfl hB
  | [a], _, _ => by simp
  | a :: b :: rest, _, hP => by
    intro x hx
    have hne : b :: rest ≠ [] := by simp
    rw [List.getLast_cons hne]
    rcases List.mem_cons.mp hx with rfl | hx
    · have := (List.pairwise_cons.mp hP).1 _ (List.getLast_mem hne)
      omega
    · exact strict_le_getLast (b :: rest) hne (List.pairwise_cons.mp hP).2 x hx

theorem all_breakpoints_getLast_ge (drawn : List Int) (last_position_ : Int) :
    last_position_ + 1 ≤
      (all_breakpoints drawn last_position_).getLast (all_breakpoints_ne_nil _ _) :=
  strict_le_getLast _ _ (all_breakpoints_strict _ _) _
    ((all_breakpoints_mem _ _ _).mpr (Or.inr rfl))

theorem all_breakpoints_getLast (drawn : List Int) (last_position_ : Int)
    (h : ∀ b ∈ drawn, b ≤ last_position_ + 1) :
    (all_breakpoints drawn last_position_).getLast (all_breakpoints_ne_nil _ _) =
      last_position_ + 1 := by
  have h1 := all_breakpoints_getLast_ge drawn last_position_
  have h2 := (all_breakpoints_mem drawn last_position_ _).mp
    (List.getLast_mem (all_breakpoints_ne_nil drawn last_position_))
  rcases h2 with h2 | h2
  · have := h _ h2
    omega
  · exact h2

theorem all_breakpoints_le_max (drawn : List Int) (last_position_ : Int)
    (hd : ∀ b ∈ drawn, b ≤ INT_MAX) (hl : last_position_ < INT_MAX) :
    ∀ b ∈ all_breakpoints drawn last_position_, b ≤ INT_MAX := by
  intro b hb
  rcases (all_breakpoints_mem _ _ _).mp hb with h | h
  · exact hd b h
  · omega



/-! ## What `buildChild` and `CrossoverMutation` return -/

theorem buildChild_returned (u : Bool) (child s1 s2 : Genome) (reg : List Mutation)
    (draws : List Draw) (sid : Int) (chrom : Chromosome) (gen : Int) (s : CrossoverState)
    (h : buildChild u child s1 s2 reg draws sid chrom gen = .returned s) :
    s.child_genome.genome_type_ = child.genome_type_ ∧
    s.child_genome.is_null_ = child.is_null_ ∧
    s.mutation_registry_ =
      reg ++ drawnMutations chrom (drawnMutationCount u chrom) sid gen ∧
    ((drawnMutationCount u chrom = 0 ∧ drawnBreakpointCount u chrom = 0) ∨
      chrom.last_position_ < INT_MAX) ∧
    s.child_genome.mutations_ =
      (if drawnMutationCount u chrom = 0 then
        (if drawnBreakpointCount u chrom = 0 then s1.mutations_
         else crossSegments
          (all_breakpoints (chrom.DrawBreakpoints (drawnBreakpointCount u chrom))
            chrom.last_position_) s1.mutations_ s2.mutations_)
       else (emissionOrder
          (all_breakpoints (chrom.DrawBreakpoints (drawnBreakpointCount u chrom))
            chrom.last_position_) s1.mutations_
          (if drawnBreakpointCount u chrom = 0 then [] else s2.mutations_)
          (mutations_to_add
            (drawnMutations chrom (drawnMutationCount u chrom) sid gen))).foldl
        addUnlessPresent []) := by
  unfold buildChild at h
  simp only at h
  by_cases hm : drawnMutationCount u chrom = 0
  · simp only [hm, if_true] at h ⊢
    have hd : drawnMutations chrom 0 sid gen = [] := by simp [drawnMutations]
    by_cases hb : drawnBreakpointCount u chrom = 0
    · simp only [hb, if_true, Outcome.returned.injEq] at h ⊢
      subst h
      simp [Genome.clear, Genome.copy_from_genome, hd]
    · simp only [hb, if_false] at h ⊢
      split at h
      · cases h
      · rename_i hl
        simp only [Outcome.returned.injEq] at h
        subst h
        simp only [Genome.clear, crossoverLoop_eq, List.nil_append, hd, List.append_nil,
          true_and]
        exact ⟨Or.inr (by omega), trivial⟩
  · simp only [hm, if_false] at h ⊢
    split at h
    · cases h
    · rename_i hl
      split at h
      · cases h
      · rename_i r hr
        simp only [Outcome.returned.injEq] at h
        subst h
        have := mergeLoop_eq_of_some _ _ _ _ _ r hr
        simp only [Genome.clear] at this
        simp only [Genome.clear, this, true_and]
        exact ⟨Or.inr (by omega), trivial⟩

theorem buildChild_isReturned (u : Bool) (child s1 s2 : Genome) (reg : List Mutation)
    (draws : List Draw) (sid : Int) (chrom : Chromosome) (gen : Int)
    (hl : chrom.last_position_ < INT_MAX)
    (hb : ∀ b ∈ chrom.DrawBreakpoints (drawnBreakpointCount u chrom), b ≤ INT_MAX) :
    ∃ s, buildChild u child s1 s2 reg draws sid chrom gen = .returned s := by
  unfold buildChild
  simp only
  have hl' : ¬ INT_MAX ≤ chrom.last_position_ := by omega
  split
  · split
    · exact ⟨_, rfl⟩
    · exact ⟨_, rfl⟩
  · obtain ⟨r, hr⟩ := mergeLoop_isSome
      (all_breakpoints (chrom.DrawBreakpoints (drawnBreakpointCount u chrom))
        chrom.last_position_) s1.mutations_
      (if drawnBreakpointCount u chrom = 0 then [] else s2.mutations_)
      (mutations_to_add (drawnMutations chrom (drawnMutationCount u chrom) sid gen))
      child.clear.mutations_ (all_breakpoints_ne_nil _ _)
      (all_breakpoints_le_max _ _ hb hl)
    rw [hr]
    exact ⟨_, rfl⟩

theorem crossover_returned (child p1 p2 : Genome) (reg : List Mutation) (sid : Int)
    (chrom : Chromosome) (gen : Int) (sex : IndividualSex) (coin : Bool) (s : CrossoverState)
    (hnn : child.is_null_ = false)
    (h : CrossoverMutation child p1 p2 reg sid chrom gen sex coin = .returned s) :
    ∃ u d, sexTyping sex child.genome_type_ p1.genome_type_ p2.genome_type_ = .ok (u, d) ∧
      buildChild u child (strand_1 (swapStrands u d coin) p1 p2)
        (strand_2 (swapStrands u d coin) p1 p2) reg (swapDraws u d) sid chrom gen =
          .returned s := by
  unfold CrossoverMutation at h
  split at h
  · cases h
  · rename_i u d htyping
    refine ⟨u, d, htyping, ?_⟩
    simp only [hnn, Bool.false_eq_true, if_false] at h
    split at h
    · cases h
    · split at h
      · cases h
      · exact h

theorem crossover_eq_buildChild (child p1 p2 : Genome) (reg : List Mutation) (sid : Int)
    (chrom : Chromosome) (gen : Int) (sex : IndividualSex) (coin u d : Bool)
    (htyping : sexTyping sex child.genome_type_ p1.genome_type_ p2.genome_type_ = .ok (u, d))
    (hnn : child.is_null_ = false)
    (h1 : (strand_1 (swapStrands u d coin) p1 p2).is_null_ = false)
    (h2 : u = false → (strand_2 (swapStrands u d coin) p1 p2).is_null_ = false) :
    CrossoverMutation child p1 p2 reg sid chrom gen sex coin =
      buildChild u child (strand_1 (swapStrands u d coin) p1 p2)
        (strand_2 (swapStrands u d coin) p1 p2) reg (swapDraws u d) sid chrom gen := by
  unfold CrossoverMutation
  rw [htyping]
  cases u <;> simp_all

theorem strand_cases (swap : Bool) (p1 p2 : Genome) :
    (strand_1 swap p1 p2 = p1 ∧ strand_2 swap p1 p2 = p2) ∨
    (strand_1 swap p1 p2 = p2 ∧ strand_2 swap p1 p2 = p1) := by
  cases swap <;> simp [strand_1, strand_2]

theorem returned_child_sorted_nodup (child p1 p2 : Genome) (reg : List Mutation) (sid : Int)
    (chrom : Chromosome) (gen : Int) (sex : IndividualSex) (coin : Bool) (s : CrossoverState)
    (hret : CrossoverMutation child p1 p2 reg sid chrom gen sex coin = .returned s)
    (hnn : child.is_null_ = false)
    (hs1 : PosSorted p1.mutations_) (hs2 : PosSorted p2.mutations_)
    (hn1 : p1.mutations_.Nodup) (hn2 : p2.mutations_.Nodup) :
    s.child_genome.is_null_ = false ∧ PosSorted s.child_genome.mutations_ ∧
      s.child_genome.mutations_.Nodup := by
  obtain ⟨u, d, _, hb⟩ := crossover_returned _ _ _ _ _ _ _ _ _ s hnn hret
  have hr := buildChild_returned _ _ _ _ _ _ _ _ _ s hb
  have hall : PosSorted (strand_1 (swapStrands u d coin) p1 p2).mutations_ ∧
      PosSorted (strand_2 (swapStrands u d coin) p1 p2).mutations_ ∧
      (strand_1 (swapStrands u d coin) p1 p2).mutations_.Nodup ∧
      (strand_2 (swapStrands u d coin) p1 p2).mutations_.Nodup := by
    rcases strand_cases (swapStrands u d coin) p1 p2 with ⟨e1, e2⟩ | ⟨e1, e2⟩ <;>
      rw [e1, e2] <;> simp [*]
  obtain ⟨a1, a2, b1, b2⟩ := hall
  refine ⟨by rw [hr.2.1, hnn], ?_⟩
  rw [hr.2.2.2.2]
  split
  · split
    · exact ⟨a1, b1⟩
    · exact ⟨crossSegments_sorted _ _ _ a1 a2, crossSegments_nodup _ _ _ a1 a2 b1 b2⟩
  · have hother : PosSorted (if drawnBreakpointCount u chrom = 0 then []
        else (strand_2 (swapStrands u d coin) p1 p2).mutations_) := by
      split
      · simp [PosSorted]
      · exact a2
    have hEO := emissionOrder_sorted
      (all_breakpoints (chrom.DrawBreakpoints (drawnBreakpointCount u chrom))
        chrom.last_position_) _ _ _ a1 hother
      (mutations_to_add_sorted (drawnMutations chrom (drawnMutationCount u chrom) sid gen))
    have := foldl_addUnlessPresent_sorted _ [] (by simpa using hEO) (by simp)
    exact ⟨this.1, this.2.1⟩



theorem takeWhile_before_eq_filter (b : Int) : ∀ (l : List Mutation), PosSorted l →
    l.takeWhile (before b) = l.filter (before b)
  | [], _ => rfl
  | a :: rest, hs => by
    by_cases ha : before b a = true
    · simp [List.takeWhile, List.filter, ha,
        takeWhile_before_eq_filter b rest (List.pairwise_cons.mp hs).2]
    · have ha' : before b a = false := by simpa using ha
      have hge : b ≤ a.position_ := by simp [before] at ha'; exact ha'
      have : rest.filter (before b) = [] := by
        rw [List.filter_eq_nil_iff]
        intro x hx
        have := (List.pairwise_cons.mp hs).1 x hx
        simp only [before, decide_eq_true_eq]
        omega
      simp [List.takeWhile, List.filter, ha', this]

theorem nodup_of_filter {α : Type} (q : α → Bool) : ∀ (l : List α),
    (l.filter q).Nodup → (l.filter (fun x => !q x)).Nodup → l.Nodup
  | [], _, _ => by simp
  | a :: rest, h1, h2 => by
    rw [List.nodup_cons]
    by_cases ha : q a = true
    · simp only [List.filter_cons, ha, if_true, Bool.not_true, Bool.false_eq_true, if_false,
        List.nodup_cons] at h1 h2
      refine ⟨fun hmem => h1.1 (List.mem_filter.mpr ⟨hmem, ha⟩), nodup_of_filter q rest h1.2 h2⟩
    · have ha' : q a = false := by simpa using ha
      simp only [List.filter_cons, ha', Bool.false_eq_true, if_false, Bool.not_false, if_true,
        List.nodup_cons] at h1 h2
      refine ⟨fun hmem => h2.1 (List.mem_filter.mpr ⟨hmem, by simp [ha']⟩),
        nodup_of_filter q rest h1 h2.2⟩

theorem buildChild_interleaving (u : Bool) (child s1 s2 : Genome) (reg : List Mutation) (draws : List Draw)
    (sid : Int) (chrom : Chromosome) (gen : Int) (M : List Mutation) (B : List Int)
    (hM : M = mutations_to_add (drawnMutations chrom (drawnMutationCount u chrom) sid gen))
    (hB : B = all_breakpoints (chrom.DrawBreakpoints (drawnBreakpointCount u chrom))
      chrom.last_position_)
    (hs1 : PosSorted s1.mutations_) (hs2 : PosSorted s2.mutations_)
    (hn1 : s1.mutations_.Nodup) (hn2 : s2.mutations_.Nodup)
    (hp1 : ∀ x ∈ s1.mutations_, x.position_ ≤ chrom.last_position_)
    (hp2 : ∀ x ∈ s2.mutations_, x.position_ ≤ chrom.last_position_)
    (hl : chrom.last_position_ < INT_MAX)
    (hsent : ∀ b ∈ chrom.DrawBreakpoints (drawnBreakpointCount u chrom),
      b ≤ chrom.last_position_ + 1)
    (hzero : drawnBreakpointCount u chrom = 0 → chrom.DrawBreakpoints 0 = [])
    (hfresh : ∀ m ∈ M, m ∉ s1.mutations_ ∧ m ∉ s2.mutations_) (hMn : M.Nodup) :
    ∃ s, buildChild u child s1 s2 reg draws sid chrom gen = .returned s ∧
      PosSorted s.child_genome.mutations_ ∧
      s.child_genome.mutations_.filter (fun x => decide (x ∈ M)) =
        M.filter (fun x => decide (x.position_ ≤ chrom.last_position_)) ∧
      s.child_genome.mutations_.filter (fun x => evenCrossed B x && !decide (x ∈ M)) =
        s1.mutations_.filter (evenCrossed B) ∧
      s.child_genome.mutations_.filter (fun x => oddCrossed B x && !decide (x ∈ M)) =
        s2.mutations_.filter (oddCrossed B) := by
  have hBmax : ∀ b ∈ chrom.DrawBreakpoints (drawnBreakpointCount u chrom), b ≤ INT_MAX := by
    intro b hb
    have := hsent b hb
    omega
  obtain ⟨s, hs⟩ := buildChild_isReturned u child s1 s2 reg draws sid chrom gen hl hBmax
  have hr := buildChild_returned _ _ _ _ _ _ _ _ _ s hs
  refine ⟨s, hs, ?_⟩
  have hBne : B ≠ [] := by rw [hB]; exact all_breakpoints_ne_nil _ _
  have hBstrict : B.Pairwise (fun a b => a < b) := by rw [hB]; exact all_breakpoints_strict _ _
  have hBle : B.Pairwise (fun a b => a ≤ b) := hBstrict.imp (fun h => by omega)
  have hBlast : B.getLast hBne = chrom.last_position_ + 1 := by
    subst hB; exact all_breakpoints_getLast _ _ hsent
  have hB0 : drawnBreakpointCount u chrom = 0 → B = [chrom.last_position_ + 1] := by
    intro h0
    rw [hB, h0, hzero h0]
    simp [all_breakpoints, unique]
  have hlt1 : ∀ x ∈ s1.mutations_, x.position_ < B.getLast hBne := by
    intro x hx; rw [hBlast]; have := hp1 x hx; omega
  have hlt2 : ∀ x ∈ s2.mutations_, x.position_ < B.getLast hBne := by
    intro x hx; rw [hBlast]; have := hp2 x hx; omega
  have hodd0 : drawnBreakpointCount u chrom = 0 → ∀ l : List Mutation,
      (∀ x ∈ l, x.position_ ≤ chrom.last_position_) → l.filter (oddCrossed B) = [] := by
    intro h0 l hl2
    rw [List.filter_eq_nil_iff]
    intro x hx
    have := (evenCrossed_of_lt B x (by
      rw [hB0 h0]; intro b hb; simp at hb; subst hb; have := hl2 x hx; omega)).2
    simp [this]
  -- the strand whose cursor stands by
  have hpar := crossSegments_parity B s1.mutations_
    (if drawnBreakpointCount u chrom = 0 then [] else s2.mutations_) hBstrict hs1
    (by split; simp [PosSorted]; exact hs2) hBne hlt1
    (by split; simp; exact hlt2)
  have hodd : (if drawnBreakpointCount u chrom = 0 then [] else s2.mutations_).filter
      (oddCrossed B) = s2.mutations_.filter (oddCrossed B) := by
    split
    · rename_i h0
      rw [hodd0 h0 _ hp2]; rfl
    · rfl
  rw [hodd] at hpar
  rw [hr.2.2.2.2, ← hM, ← hB]
  by_cases hm : drawnMutationCount u chrom = 0
  · have hM0 : M = [] := by rw [hM, hm]; simp [drawnMutations, mutations_to_add]
    simp only [hm, if_true, hM0, List.not_mem_nil, decide_False, Bool.not_false, Bool.and_true,
      List.filter_nil]
    by_cases hb : drawnBreakpointCount u chrom = 0
    · simp only [hb, if_true]
      refine ⟨hs1, by simp, trivial, ?_⟩
      have e1 := hodd0 hb _ hp1
      have e2 := hodd0 hb _ hp2
      exact e1.trans e2.symm
    · simp only [hb, if_false] at hpar ⊢
      exact ⟨crossSegments_sorted _ _ _ hs1 hs2, by simp, hpar.1, hpar.2⟩
  · simp only [hm, if_false]
    have hMs : PosSorted M := by rw [hM]; exact mutations_to_add_sorted _
    have hother : PosSorted (if drawnBreakpointCount u chrom = 0 then []
        else s2.mutations_) := by
      split
      · simp [PosSorted]
      · exact hs2
    have hothern : (if drawnBreakpointCount u chrom = 0 then []
        else s2.mutations_).Nodup := by
      split
      · simp
      · exact hn2
    have hfil := emissionOrder_filter (fun x => decide (x ∈ M)) B s1.mutations_
      (if drawnBreakpointCount u chrom = 0 then [] else s2.mutations_) M hBle
      (by rw [hB]; exact all_breakpoints_le_max _ _ hBmax hl)
      (fun x hx => by simpa using hx)
      (fun x hx => by
        simp only [decide_eq_false_iff_not]
        exact fun hxm => (hfresh x hxm).1 hx)
      (fun x hx => by
        simp only [decide_eq_false_iff_not]
        intro hxm
        split at hx
        · simp at hx
        · exact (hfresh x hxm).2 hx)
    have hq := hfil.2 hBne
    have hEOn : (emissionOrder B s1.mutations_
        (if drawnBreakpointCount u chrom = 0 then [] else s2.mutations_) M).Nodup := by
      apply nodup_of_filter (fun x => decide (x ∈ M))
      · rw [hq]; exact List.Nodup.sublist (List.takeWhile_sublist _) hMn
      · rw [hfil.1]; exact crossSegments_nodup _ _ _ hs1 hother hn1 hothern
    rw [foldl_addUnlessPresent_nodup _ [] (by simpa using hEOn), List.nil_append]
    refine ⟨emissionOrder_sorted _ _ _ _ hs1 hother hMs, ?_, ?_, ?_⟩
    · rw [hq, hBlast, takeWhile_before_eq_filter _ M hMs]
      apply List.filter_congr
      intro x _
      simp only [before, decide_eq_decide]
      omega
    · rw [← List.filter_filter, hfil.1]
      exact hpar.1
    · rw [← List.filter_filter, hfil.1]
      exact hpar.2



/-! ## New mutations: registry and child genome -/

theorem new_mutation_count (u : Bool) (child s1 s2 : Genome) (reg : List Mutation)
    (draws : List Draw) (sid : Int) (chrom : Chromosome) (gen : Int) (s : CrossoverState)
    (hret : buildChild u child s1 s2 reg draws sid chrom gen = .returned s)
    (hBmax : ∀ b ∈ chrom.DrawBreakpoints (drawnBreakpointCount u chrom), b ≤ INT_MAX)
    (hfresh : ∀ m ∈ drawnMutations chrom (drawnMutationCount u chrom) sid gen,
      m ∉ s1.mutations_ ∧ m ∉ s2.mutations_)
    (hdn : (drawnMutations chrom (drawnMutationCount u chrom) sid gen).Nodup) :
    s.mutation_registry_ =
      reg ++ drawnMutations chrom (drawnMutationCount u chrom) sid gen ∧
    ∀ m ∈ drawnMutations chrom (drawnMutationCount u chrom) sid gen,
      m.position_ ≤ chrom.last_position_ → s.child_genome.mutations_.count m = 1 := by
  have hr := buildChild_returned _ _ _ _ _ _ _ _ _ s hret
  refine ⟨hr.2.2.1, ?_⟩
  intro m hm hpos
  by_cases hz : drawnMutationCount u chrom = 0
  · rw [hz] at hm
    simp [drawnMutations] at hm
  · have hl : chrom.last_position_ < INT_MAX := by
      rcases hr.2.2.2.1 with h | h
      · exact absurd h.1 hz
      · exact h
    rw [hr.2.2.2.2]
    simp only [hz, if_false]
    generalize hMdef : mutations_to_add
      (drawnMutations chrom (drawnMutationCount u chrom) sid gen) = M
    generalize hBdef : all_breakpoints
      (chrom.DrawBreakpoints (drawnBreakpointCount u chrom)) chrom.last_position_ = B
    have hperm : M.Perm (drawnMutations chrom (drawnMutationCount u chrom) sid gen) := by
      rw [← hMdef]; exact mutations_to_add_perm _
    have hMn : M.Nodup := hperm.nodup_iff.mpr hdn
    have hMs : PosSorted M := by rw [← hMdef]; exact mutations_to_add_sorted _
    have hmM : m ∈ M := hperm.mem_iff.mpr hm
    have hBne : B ≠ [] := by rw [← hBdef]; exact all_breakpoints_ne_nil _ _
    have hBle : B.Pairwise (fun a b => a ≤ b) := by
      rw [← hBdef]
      exact (all_breakpoints_strict _ _).imp (fun h => by omega)
    have hBlast : chrom.last_position_ + 1 ≤ B.getLast hBne := by
      subst hBdef; exact all_breakpoints_getLast_ge _ _
    have hfil := emissionOrder_filter (fun x => decide (x ∈ M)) B s1.mutations_
      (if drawnBreakpointCount u chrom = 0 then [] else s2.mutations_) M hBle
      (by rw [← hBdef]; exact all_breakpoints_le_max _ _ hBmax hl)
      (fun x hx => by simpa using hx)
      (fun x hx => by
        simp only [decide_eq_false_iff_not]
        exact fun hxm => (hfresh x (hperm.mem_iff.mp hxm)).1 hx)
      (fun x hx => by
        simp only [decide_eq_false_iff_not]
        intro hxm
        split at hx
        · simp at hx
        · exact (hfresh x (hperm.mem_iff.mp hxm)).2 hx)
    have hq := hfil.2 hBne
    have hcount : (emissionOrder B s1.mutations_
        (if drawnBreakpointCount u chrom = 0 then [] else s2.mutations_) M).count m = 1 := by
      rw [← List.count_filter (p := fun x => decide (x ∈ M)) (by simpa using hmM), hq]
      apply List.count_eq_one_of_mem (List.Nodup.sublist (List.takeWhile_sublist _) hMn)
      rw [takeWhile_before_eq_filter _ M hMs, List.mem_filter]
      refine ⟨hmM, ?_⟩
      simp only [before, decide_eq_true_eq]
      omega
    rw [foldl_addUnlessPresent_count m _ [] (by simp [hcount]), hcount]
    simp



/-! ## Typing, null checks and the frame of the call -/

theorem typing_error_outside_table (child p1 p2 : Genome) (reg : List Mutation) (sid : Int)
    (chrom : Chromosome) (gen : Int) (sex : IndividualSex) (coin : Bool)
    (hrow : ¬ permittedRow child.genome_type_ sex p1.genome_type_ p2.genome_type_)
    (hyy : ¬ (child.genome_type_ = .kXChromosome ∧ sex = .kFemale ∧
      p1.genome_type_ = .kYChromosome ∧ p2.genome_type_ = .kYChromosome)) :
    ∃ e, CrossoverMutation child p1 p2 reg sid chrom gen sex coin =
      .terminated e ⟨child, reg, []⟩ := by
  unfold CrossoverMutation
  obtain ⟨ct, cn, cm⟩ := child
  obtain ⟨t1, n1, m1⟩ := p1
  obtain ⟨t2, n2, m2⟩ := p2
  cases ct <;> cases sex <;> cases t1 <;> cases t2 <;>
    first
      | (exfalso; revert hrow; simp [permittedRow]; done)
      | (exfalso; revert hyy; simp; done)
      | simp [sexTyping]

theorem buildChild_not_terminated (u : Bool) (child s1 s2 : Genome) (reg : List Mutation)
    (draws : List Draw) (sid : Int) (chrom : Chromosome) (gen : Int) (e : Termination)
    (s : CrossoverState) :
    buildChild u child s1 s2 reg draws sid chrom gen ≠ .terminated e s := by
  unfold buildChild
  simp only
  split
  · split
    · simp
    · split <;> simp
  · split
    · simp
    · split <;> simp

theorem list_set_of_getElem? {α : Type} : ∀ (l : List α) (i : Nat) (a : α),
    l[i]? = some a → l.set i a = l
  | [], _, _, _ => by simp
  | x :: rest, 0, a, h => by simp at h; simp [h]
  | x :: rest, i + 1, a, h => by
    simp at h
    simp [list_set_of_getElem? rest i a h]

theorem store_unchanged (pop : Population) (subpop index : Nat) (target : Int × Subpopulation)
    (g : Genome) (draws : List Draw) (ht : pop.subpops[subpop]? = some target)
    (hg : target.2.child_genomes_[index]? = some g) :
    pop.store subpop index ⟨g, pop.mutation_registry_, draws⟩ = pop := by
  unfold Population.store
  rw [ht]
  simp only
  rw [list_set_of_getElem? _ _ _ hg]
  have : ((target.1, ({ target.2 with child_genomes_ := target.2.child_genomes_ } : Subpopulation)) : Int × Subpopulation) = target := rfl
  rw [this, list_set_of_getElem? _ _ _ ht]

theorem null_child_returned (child p1 p2 : Genome) (reg : List Mutation) (sid : Int)
    (chrom : Chromosome) (gen : Int) (sex : IndividualSex) (coin : Bool) (s : CrossoverState)
    (hnull : child.is_null_ = true)
    (hret : CrossoverMutation child p1 p2 reg sid chrom gen sex coin = .returned s) :
    s.child_genome = child ∧ s.mutation_registry_ = reg ∧ ∀ dr ∈ s.draws, dr = Draw.rngBool := by
  unfold CrossoverMutation at hret
  split at hret
  · simp at hret
  · rename_i u d _
    simp only [hnull, if_true] at hret
    have hd : ∀ dr ∈ swapDraws u d, dr = Draw.rngBool := by
      intro dr hdr
      unfold swapDraws at hdr
      split at hdr <;> simp_all
    split at hret <;> split at hret <;> simp at hret <;> subst hret <;> exact ⟨rfl, rfl, hd⟩

theorem getElem?_lt_length {α : Type} (l : List α) (i : Nat) (a : α) (h : l[i]? = some a) :
    i < l.length := by
  by_contra hlt
  have : l[i]? = none := List.getElem?_eq_none (by omega)
  rw [this] at h
  cases h

/-! ## The tally of the mutation references -/

theorem tallyGenome_foldl (m : Mutation) : ∀ (l : List Mutation) (rc : Mutation → Int),
    (l.foldl (fun rc x => Function.update rc x (rc x + 1)) rc) m = rc m + (l.count m : Int)
  | [], rc => by simp
  | x :: rest, rc => by
    rw [List.foldl_cons, tallyGenome_foldl m rest]
    by_cases h : x = m
    · subst h
      simp [Function.update_same]
      omega
    · have h2 : m ≠ x := fun e => h e.symm
      simp [Function.update_noteq h2, List.count_cons, h]

theorem tallyGenome_apply (rc : Mutation → Int) (g : Genome) (m : Mutation) :
    tallyGenome rc g m = rc m + (g.mutations_.count m : Int) :=
  tallyGenome_foldl m g.mutations_ rc

theorem zero_foldl (m : Mutation) : ∀ (reg : List Mutation) (rc : Mutation → Int), m ∈ reg →
    (reg.foldl (fun rc x => Function.update rc x 0) rc) m = 0
  | [], _, h => by simp at h
  | x :: rest, rc, h => by
    rw [List.foldl_cons]
    by_cases hr : m ∈ rest
    · exact zero_foldl m rest _ hr
    · have hx : m = x := by
        rcases List.mem_cons.mp h with h | h
        · exact h
        · exact absurd h hr
      subst hx
      have : ∀ (l : List Mutation) (rc : Mutation → Int), m ∉ l →
          (l.foldl (fun rc x => Function.update rc x 0) rc) m = rc m := by
        intro l
        induction l with
        | nil => intro rc _; rfl
        | cons y ys ih =>
          intro rc hy
          rw [List.foldl_cons, ih _ (fun h => hy (List.mem_cons_of_mem _ h))]
          have : m ≠ y := fun e => hy (by simp [e])
          simp [Function.update_noteq this]
      rw [this rest _ hr]
      simp

theorem foldlM_congr_mem {α β : Type} (f g : β → α → Option β) : ∀ (l : List α) (acc : β),
    (∀ x ∈ l, ∀ a, f a x = g a x) → l.foldlM f acc = l.foldlM g acc
  | [], _, _ => rfl
  | x :: rest, acc, h => by
    simp only [List.foldlM_cons]
    rw [h x (by simp) acc]
    cases g acc x with
    | none => rfl
    | some b =>
      simp only [Option.bind_eq_bind, Option.some_bind]
      exact foldlM_congr_mem f g rest b (fun y hy a => h y (List.mem_cons_of_mem _ hy) a)

theorem range_foldlM_getElem? {α β : Type} (f : β → α → β) (l : List α) : ∀ (acc : β),
    (List.range l.length).foldlM (fun a i => (l[i]?).map (f a)) acc = some (l.foldl f acc) := by
  induction l using List.reverseRecOn with
  | nil => intro acc; rfl
  | append_singleton l x ih =>
    intro acc
    rw [List.length_append, List.length_singleton, List.range_succ, List.foldlM_append]
    have hcongr := foldlM_congr_mem
      (fun a i => ((l ++ [x])[i]?).map (f a)) (fun a i => (l[i]?).map (f a))
      (List.range l.length) acc (by
        intro i hi a
        rw [List.mem_range] at hi
        simp only
        rw [List.getElem?_append_left hi])
    rw [hcongr, ih acc]
    simp [List.foldl_append]

theorem tallySubpop_eq (sp : Subpopulation) (acc : (Mutation → Int) × Int)
    (h : sp.child_genomes_.length = 2 * sp.child_subpop_size_) :
    tallySubpop sp acc = some (sp.child_genomes_.foldl tallyStep acc) := by
  unfold tallySubpop
  rw [← h]
  exact range_foldlM_getElem? tallyStep sp.child_genomes_ acc

theorem tally_foldlM : ∀ (subpops : List (Int × Subpopulation)) (acc : (Mutation → Int) × Int),
    (∀ e ∈ subpops, e.2.child_genomes_.length = 2 * e.2.child_subpop_size_) →
      subpops.foldlM (fun a entry => tallySubpop entry.2 a) acc =
        some (((subpops.map (fun e => e.2.child_genomes_)).flatten).foldl tallyStep acc)
  | [], _, _ => rfl
  | e :: rest, acc, h => by
    simp only [List.foldlM_cons, List.map_cons, List.flatten_cons, List.foldl_append]
    rw [tallySubpop_eq e.2 acc (h e (by simp))]
    simp only [Option.bind_eq_bind, Option.some_bind]
    exact tally_foldlM rest _ (fun x hx => h x (List.mem_cons_of_mem _ hx))

theorem foldl_tallyStep (m : Mutation) : ∀ (gs : List Genome) (acc : (Mutation → Int) × Int),
    (gs.foldl tallyStep acc).1 m =
        acc.1 m + ((((gs.filter (fun g => !g.is_null_)).map
          (fun g => g.mutations_.count m)).sum : Nat) : Int) ∧
      (gs.foldl tallyStep acc).2 = acc.2 + ((gs.filter (fun g => !g.is_null_)).length : Int)
  | [], acc => by simp
  | g :: rest, acc => by
    rw [List.foldl_cons]
    have ih := foldl_tallyStep m rest (tallyStep acc g)
    rw [ih.1, ih.2]
    by_cases hn : g.is_null_ = true
    · simp [tallyStep, hn, List.filter_cons]
    · have hn' : g.is_null_ = false := by simpa using hn
      simp only [tallyStep, hn', Bool.not_false, if_true, tallyGenome_apply,
        List.filter_cons, List.map_cons, List.sum_cons, List.length_cons]
      constructor <;> push_cast <;> omega

/-! ## New mutations in the population -/

theorem placed_once_of_returned (pop : Population) (subpop source_subpop p_child_genome_index : Nat)
    (p_source_subpop_id : Int) (p_parent1_genome_index p_parent2_genome_index : Nat)
    (p_chromosome : Chromosome) (p_generation : Int) (p_child_sex : IndividualSex)
    (g_rng_bool : Bool) (target source : Int × Subpopulation)
    (child_genome parent_genome_1 parent_genome_2 : Genome) (u d : Bool)
    (r : Population × List Draw)
    (htarget : pop.subpops[subpop]? = some target)
    (hsource : pop.subpops[source_subpop]? = some source)
    (hchild : target.2.child_genomes_[p_child_genome_index]? = some child_genome)
    (hparent1 : source.2.parent_genomes_[p_parent1_genome_index]? = some parent_genome_1)
    (hparent2 : source.2.parent_genomes_[p_parent2_genome_index]? = some parent_genome_2)
    (hnn : child_genome.is_null_ = false)
    (htyping : sexTyping p_child_sex child_genome.genome_type_ parent_genome_1.genome_type_
      parent_genome_2.genome_type_ = .ok (u, d))
    (hret : pop.CrossoverMutation subpop source_subpop p_child_genome_index p_source_subpop_id
      p_parent1_genome_index p_parent2_genome_index p_chromosome p_generation p_child_sex
      g_rng_bool = .returned r)
    (hint : ∀ b ∈ p_chromosome.DrawBreakpoints (drawnBreakpointCount u p_chromosome),
      b ≤ INT_MAX)
    (hfresh : ∀ m ∈ drawnMutations p_chromosome (drawnMutationCount u p_chromosome)
        p_source_subpop_id p_generation,
      ∀ e ∈ pop.subpops, ∀ g ∈ e.2.parent_genomes_ ++ e.2.child_genomes_, m ∉ g.mutations_)
    (hdistinct : (drawnMutations p_chromosome (drawnMutationCount u p_chromosome)
      p_source_subpop_id p_generation).Nodup) :
    r.1.mutation_registry_ = pop.mutation_registry_ ++
      drawnMutations p_chromosome (drawnMutationCount u p_chromosome) p_source_subpop_id
        p_generation ∧
    ∀ m ∈ drawnMutations p_chromosome (drawnMutationCount u p_chromosome) p_source_subpop_id
        p_generation,
      m.position_ ≤ p_chromosome.last_position_ →
        (∃ e g, r.1.subpops[subpop]? = some e ∧
          e.2.child_genomes_[p_child_genome_index]? = some g ∧ g.mutations_.count m = 1) ∧
        ∀ j e, r.1.subpops[j]? = some e →
          (∀ g ∈ e.2.parent_genomes_, m ∉ g.mutations_) ∧
          ∀ i g, e.2.child_genomes_[i]? = some g →
            ¬ (j = subpop ∧ i = p_child_genome_index) → m ∉ g.mutations_ := by
  unfold Population.CrossoverMutation at hret
  rw [htarget, hsource] at hret
  simp only [hchild, hparent1, hparent2] at hret
  cases hcore : SLiM.CrossoverMutation child_genome parent_genome_1 parent_genome_2
      pop.mutation_registry_ p_source_subpop_id p_chromosome p_generation p_child_sex
      g_rng_bool with
  | terminated e s => rw [hcore] at hret; cases hret
  | undefined => rw [hcore] at hret; cases hret
  | returned s =>
    rw [hcore] at hret
    simp only [Outcome.returned.injEq] at hret
    subst hret
    obtain ⟨u2, d2, ht2, hb⟩ := crossover_returned _ _ _ _ _ _ _ _ _ s hnn hcore
    rw [htyping] at ht2
    simp only [Except.ok.injEq, Prod.mk.injEq] at ht2
    obtain ⟨hu, hd⟩ := ht2
    subst hu hd
    have hsrc : source ∈ pop.subpops := List.getElem?_mem hsource
    have htgt : target ∈ pop.subpops := List.getElem?_mem htarget
    have hf1 : ∀ m ∈ drawnMutations p_chromosome (drawnMutationCount u p_chromosome)
        p_source_subpop_id p_generation, m ∉ parent_genome_1.mutations_ := fun m hm =>
      hfresh m hm source hsrc parent_genome_1
        (List.mem_append_left _ (List.getElem?_mem hparent1))
    have hf2 : ∀ m ∈ drawnMutations p_chromosome (drawnMutationCount u p_chromosome)
        p_source_subpop_id p_generation, m ∉ parent_genome_2.mutations_ := fun m hm =>
      hfresh m hm source hsrc parent_genome_2
        (List.mem_append_left _ (List.getElem?_mem hparent2))
    have hfs : ∀ m ∈ drawnMutations p_chromosome (drawnMutationCount u p_chromosome)
        p_source_subpop_id p_generation,
        m ∉ (strand_1 (swapStrands u d g_rng_bool) parent_genome_1
          parent_genome_2).mutations_ ∧
        m ∉ (strand_2 (swapStrands u d g_rng_bool) parent_genome_1
          parent_genome_2).mutations_ := by
      intro m hm
      rcases strand_cases (swapStrands u d g_rng_bool) parent_genome_1 parent_genome_2 with
        ⟨e1, e2⟩ | ⟨e1, e2⟩ <;> rw [e1, e2]
      · exact ⟨hf1 m hm, hf2 m hm⟩
      · exact ⟨hf2 m hm, hf1 m hm⟩
    have hcount := new_mutation_count u _ _ _ _ _ _ _ _ s hb hint hfs hdistinct
    have hstore : pop.store subpop p_child_genome_index s =
        { pop with
          subpops := pop.subpops.set subpop
            (target.1, { target.2 with
              child_genomes_ := target.2.child_genomes_.set p_child_genome_index
                s.child_genome })
          mutation_registry_ := s.mutation_registry_ } := by
      unfold Population.store
      rw [htarget]
    simp only [hstore]
    refine ⟨hcount.1, ?_⟩
    intro m hm hpos
    have hlt := getElem?_lt_length _ _ _ htarget
    have hlt2 := getElem?_lt_length _ _ _ hchild
    constructor
    · refine ⟨_, s.child_genome, List.getElem?_set_self hlt, ?_, hcount.2 m hm hpos⟩
      exact List.getElem?_set_self hlt2
    · intro j e hje
      rw [List.getElem?_set] at hje
      by_cases hj : subpop = j
      · simp only [hj, if_true] at hje
        subst hj
        simp only [hlt, if_true, Option.some.injEq] at hje
        subst hje
        refine ⟨fun g hg => hfresh m hm target htgt g (List.mem_append_left _ hg), ?_⟩
        intro i g hig hne
        rw [List.getElem?_set] at hig
        by_cases hi : p_child_genome_index = i
        · exact absurd ⟨rfl, hi.symm⟩ hne
        · simp only [hi, if_false] at hig
          exact hfresh m hm target htgt g (List.mem_append_right _ (List.getElem?_mem hig))
      · simp only [hj, if_false] at hje
        have he : e ∈ pop.subpops := List.getElem?_mem hje
        refine ⟨fun g hg => hfresh m hm e he g (List.mem_append_left _ hg), ?_⟩
        intro i g hig _
        exact hfresh m hm e he g (List.mem_append_right _ (List.getElem?_mem hig))

/-! ## The rounding of the arithmetic -/

theorem binaryDigitsBelow_spec : ∀ (levels n : Nat), n < 2 ^ 2 ^ levels →
    n < 2 ^ binaryDigitsBelow levels n ∧ (n ≠ 0 → 2 ^ (binaryDigitsBelow levels n - 1) ≤ n)
  | 0, n, h => by
    have h2 : n < 2 := by simpa using h
    unfold binaryDigitsBelow
    by_cases h0 : n = 0
    · rw [if_pos h0]; subst h0; simp
    · rw [if_neg h0]
      have : n = 1 := by omega
      subst this; simp
  | levels + 1, n, h => by
    unfold binaryDigitsBelow
    by_cases hlt : n < 2 ^ 2 ^ levels
    · rw [if_pos hlt]
      exact binaryDigitsBelow_spec levels n hlt
    · rw [if_neg hlt]
      have hge : 2 ^ 2 ^ levels ≤ n := Nat.le_of_not_lt hlt
      have hPpos : 0 < 2 ^ 2 ^ levels := Nat.two_pow_pos _
      have hsq : 2 ^ 2 ^ (levels + 1) = 2 ^ 2 ^ levels * 2 ^ 2 ^ levels := by
        rw [← pow_add]; congr 1; rw [pow_succ]; omega
      have hq : n / 2 ^ 2 ^ levels < 2 ^ 2 ^ levels := by
        rw [Nat.div_lt_iff_lt_mul hPpos, ← hsq]; exact h
      obtain ⟨h1, h2⟩ := binaryDigitsBelow_spec levels (n / 2 ^ 2 ^ levels) hq
      have hq0 : n / 2 ^ 2 ^ levels ≠ 0 := by
        have := Nat.div_pos hge hPpos; omega
      have h3 := h2 hq0
      have hmod := Nat.div_add_mod n (2 ^ 2 ^ levels)
      have hmodlt := Nat.mod_lt n hPpos
      constructor
      · rw [pow_add]
        have h4 : (n / 2 ^ 2 ^ levels + 1) ≤ 2 ^ binaryDigitsBelow levels (n / 2 ^ 2 ^ levels) := h1
        have h5 := Nat.mul_le_mul_left (2 ^ 2 ^ levels) h4
        rw [Nat.mul_add, Nat.mul_one] at h5
        exact Nat.lt_of_lt_of_le (by omega) h5
      · intro _
        have hD : 1 ≤ binaryDigitsBelow levels (n / 2 ^ 2 ^ levels) := by
          by_contra hc
          have : binaryDigitsBelow levels (n / 2 ^ 2 ^ levels) = 0 := by omega
          rw [this] at h1
          simp at h1
          exact hq0 h1
        rw [Nat.add_sub_assoc hD, pow_add]
        exact Nat.le_trans (Nat.mul_le_mul_left (2 ^ 2 ^ levels) h3) (Nat.le.intro hmod)

theorem digitLevels_spec : ∀ (fuel levels n : Nat), n < 2 ^ 2 ^ (levels + fuel) →
    n < 2 ^ 2 ^ digitLevels fuel levels n
  | 0, levels, n, h => by simpa [digitLevels] using h
  | fuel + 1, levels, n, h => by
    unfold digitLevels
    by_cases hlt : n < 2 ^ 2 ^ levels
    · rw [if_pos hlt]; exact hlt
    · rw [if_neg hlt]
      exact digitLevels_spec fuel (levels + 1) n (by
        rw [show levels + 1 + fuel = levels + (fuel + 1) by omega]; exact h)

theorem binaryDigits_spec (n : Nat) :
    n < 2 ^ binaryDigits n ∧ (n ≠ 0 → 2 ^ (binaryDigits n - 1) ≤ n) := by
  unfold binaryDigits
  apply binaryDigitsBelow_spec
  apply digitLevels_spec
  rw [Nat.zero_add]
  calc n < 2 ^ n := Nat.lt_two_pow n
    _ ≤ 2 ^ 2 ^ n := Nat.pow_le_pow_right (by decide) (Nat.lt_two_pow n).le


theorem binaryExponent_le (m d : Nat) (hm : 0 < m) :
    (0 ≤ binaryExponent m d → d * 2 ^ (binaryExponent m d).toNat ≤ m) ∧
    (binaryExponent m d < 0 → d ≤ m * 2 ^ (-binaryExponent m d).toNat) := by
  obtain ⟨_, ha⟩ := binaryDigits_spec m
  obtain ⟨hb, _⟩ := binaryDigits_spec d
  have ha := ha (by omega)
  have ha1 : 1 ≤ binaryDigits m := by
    by_contra hc
    have h0 : binaryDigits m = 0 := by omega
    have := (binaryDigits_spec m).1
    rw [h0] at this
    simp at this
    omega
  unfold binaryExponent
  simp only
  by_cases hk : (0 : Int) ≤ (binaryDigits m : Int) - (binaryDigits d : Int)
  · rw [if_pos hk]
    by_cases ht : d * 2 ^ ((binaryDigits m : Int) - (binaryDigits d : Int)).toNat ≤ m
    · rw [if_pos ht]
      exact ⟨fun _ => ht, fun h => by omega⟩
    · rw [if_neg ht]
      constructor
      · intro h0
        have e : ((binaryDigits m : Int) - (binaryDigits d : Int) - 1).toNat + binaryDigits d =
            binaryDigits m - 1 := by omega
        have h1 : d * 2 ^ ((binaryDigits m : Int) - (binaryDigits d : Int) - 1).toNat ≤
            2 ^ binaryDigits d * 2 ^ ((binaryDigits m : Int) - (binaryDigits d : Int) - 1).toNat :=
          Nat.mul_le_mul_right _ hb.le
        rw [← pow_add, Nat.add_comm, e] at h1
        exact Nat.le_trans h1 ha
      · intro hneg
        have e0 : binaryDigits m = binaryDigits d := by omega
        have e1 : (-((binaryDigits m : Int) - (binaryDigits d : Int) - 1)).toNat = 1 := by omega
        rw [e1, pow_one]
        have h2 : 2 ^ binaryDigits d = 2 ^ (binaryDigits m - 1) * 2 := by
          rw [← pow_succ, ← e0]; congr 1; omega
        have : d < 2 ^ (binaryDigits m - 1) * 2 := h2 ▸ hb
        have := Nat.mul_le_mul_right 2 ha
        omega
  · rw [if_neg hk]
    by_cases ht : d ≤ m * 2 ^ (-((binaryDigits m : Int) - (binaryDigits d : Int))).toNat
    · rw [if_pos ht]
      exact ⟨fun h => by omega, fun _ => ht⟩
    · rw [if_neg ht]
      constructor
      · intro h; omega
      · intro _
        have e : binaryDigits m - 1 +
            (-((binaryDigits m : Int) - (binaryDigits d : Int) - 1)).toNat = binaryDigits d := by
          omega
        have h1 := Nat.mul_le_mul_right
          (2 ^ (-((binaryDigits m : Int) - (binaryDigits d : Int) - 1)).toNat) ha
        rw [← pow_add, e] at h1
        exact Nat.le_trans hb.le h1

theorem nearestEven_le (n d k : Nat) (hd : 0 < d) (h : n ≤ k * d) : nearestEven n d ≤ k := by
  have hq : n / d ≤ k := Nat.div_le_of_le_mul (by rw [Nat.mul_comm]; exact h)
  have hmod := Nat.div_add_mod n d
  unfold nearestEven
  by_cases h1 : 2 * (n % d) < d
  · rw [if_pos h1]; exact hq
  · rw [if_neg h1]
    have hlt : n / d < k := by
      by_contra hc
      have heq : n / d = k := by omega
      rw [heq] at hmod
      have : d * k = k * d := Nat.mul_comm d k
      have hr : n % d = 0 := by omega
      rw [hr] at h1
      omega
    split
    · omega
    · split <;> omega

theorem round_nonneg (x : Double) (h : 0 ≤ x.num) : 0 ≤ (Double.round x).num := by
  unfold Double.round
  by_cases h0 : x.num = 0
  · rw [if_pos h0]; decide
  · rw [if_neg h0]
    simp only
    split
    · exact mul_nonneg (Int.natCast_nonneg _) (by positivity)
    · exact Int.natCast_nonneg _

theorem round_le_int (x : Double) (n : Nat) (hn : n < 2 ^ 53) (h0 : 0 ≤ x.num)
    (h : x ≤ Double.ofInt n) : Double.round x ≤ Double.ofInt n := by
  have hle : x.num * 1 ≤ (n : Int) * x.den := h
  have hd := x.den_pos
  unfold Double.round
  by_cases hz : x.num = 0
  · rw [if_pos hz]
    show (0 : Int) * 1 ≤ (n : Int) * 1
    omega
  · rw [if_neg hz]
    have hm : 0 < x.num.natAbs := Int.natAbs_pos.mpr hz
    have habs : (x.num.natAbs : Int) = x.num := Int.natAbs_of_nonneg h0
    have hmle : x.num.natAbs ≤ n * x.den := by
      have : (x.num.natAbs : Int) ≤ ((n * x.den : Nat) : Int) := by
        rw [habs]; push_cast; omega
      exact_mod_cast this
    obtain ⟨he1, _⟩ := binaryExponent_le x.num.natAbs x.den hm
    have he : binaryExponent x.num.natAbs x.den ≤ 52 := by
      by_contra hc
      have h53 : 53 ≤ (binaryExponent x.num.natAbs x.den).toNat := by omega
      have h1 := he1 (by omega)
      have h2 : x.den * 2 ^ 53 ≤ x.den * 2 ^ (binaryExponent x.num.natAbs x.den).toNat :=
        Nat.mul_le_mul_left _ (Nat.pow_le_pow_right (by decide) h53)
      have h3 : n * x.den < 2 ^ 53 * x.den := Nat.mul_lt_mul_of_pos_right hn hd
      have h4 : x.den * 2 ^ 53 = 2 ^ 53 * x.den := Nat.mul_comm _ _
      omega
    simp only
    by_cases hl : (0 : Int) ≤ max (binaryExponent x.num.natAbs x.den) (-1022) - 52
    · rw [if_pos hl, if_pos h0]
      have e0 : (max (binaryExponent x.num.natAbs x.den) (-1022) - 52).toNat = 0 := by omega
      rw [e0]
      have := nearestEven_le x.num.natAbs (x.den * 2 ^ 0) n (by simpa using hd)
        (by simpa using hmle)
      show ((nearestEven x.num.natAbs (x.den * 2 ^ 0) : Nat) : Int) * 2 ^ 0 * 1 ≤ (n : Int) * 1
      have : ((nearestEven x.num.natAbs (x.den * 2 ^ 0) : Nat) : Int) ≤ n := by
        exact_mod_cast this
      simpa using this
    · rw [if_neg hl, if_pos h0]
      have := nearestEven_le
        (x.num.natAbs * 2 ^ (-(max (binaryExponent x.num.natAbs x.den) (-1022) - 52)).toNat)
        x.den (n * 2 ^ (-(max (binaryExponent x.num.natAbs x.den) (-1022) - 52)).toNat) hd (by
          have := Nat.mul_le_mul_right
            (2 ^ (-(max (binaryExponent x.num.natAbs x.den) (-1022) - 52)).toNat) hmle
          calc _ ≤ _ := this
            _ = _ := by ring)
      show ((nearestEven (x.num.natAbs *
          2 ^ (-(max (binaryExponent x.num.natAbs x.den) (-1022) - 52)).toNat) x.den : Nat) :
            Int) * 1 ≤ (n : Int) *
          ((2 ^ (-(max (binaryExponent x.num.natAbs x.den) (-1022) - 52)).toNat : Nat) : Int)
      rw [mul_one]
      exact_mod_cast this

theorem lround_nonneg (x : Double) (h : 0 ≤ x.num) : 0 ≤ lround x := by
  have hd : (0 : Int) < x.den := by exact_mod_cast x.den_pos
  unfold lround
  rw [if_pos h]
  apply Int.ediv_nonneg <;> omega

theorem lround_le_int (x : Double) (n : Nat) (h0 : 0 ≤ x.num) (h : x ≤ Double.ofInt n) :
    lround x ≤ n := by
  have hd : (0 : Int) < x.den := by exact_mod_cast x.den_pos
  have hle : x.num * 1 ≤ (n : Int) * x.den := h
  unfold lround
  rw [if_pos h0]
  have : (2 * x.num + x.den) / (2 * x.den) < n + 1 := by
    apply Int.ediv_lt_of_lt_mul (by omega)
    nlinarith
  omega


/-! ## The properties of the specification -/

/-- C1 (counterexample): scenario S6. With the initial strand `[m@10, m@10, n@20]`, the other
strand `[m@10, q@30]`, one breakpoint at 25 and no new mutation, the child genome written is
`[m@10, m@10, n@20, q@30]`: the path without new mutations makes no duplicate search, and the
handle `m` occurs twice at position 10. -/
theorem S6_child_holds_m_twice :
    CrossoverMutation (autosome []) (autosome [exM, exM, exN]) (autosome [exM, exQ]) [] 1
        (exChromosome 0 1) 5 IndividualSex.kHermaphrodite false =
      .returned ⟨autosome [exM, exM, exN, exQ], [],
        [Draw.rngBool, Draw.mutationAndBreakpointCounts, Draw.breakpoints 1]⟩ ∧
    PosSorted [exM, exM, exN] ∧ PosSorted [exM, exQ] ∧
    List.count exM [exM, exM, exN, exQ] = 2 ∧
    autosome [exM, exM, exN, exQ] ≠ autosome [exM, exN, exQ] := by
  decide

/-- C1 (amended): for position-sorted non-null parental strands that hold no repeated handle,
`CrossoverMutation` in crossover mode with zero new mutations and at least one breakpoint
returns, and no handle occurs twice in the child genome it wrote. -/
theorem crossover_without_new_mutations_keeps_handles_distinct (child p1 p2 : Genome) (reg : List Mutation) (sid : Int)
    (chrom : Chromosome) (gen : Int) (sex : IndividualSex) (coin d : Bool)
    (htyping : sexTyping sex child.genome_type_ p1.genome_type_ p2.genome_type_ = .ok (false, d))
    (hnn : child.is_null_ = false) (hnn1 : p1.is_null_ = false) (hnn2 : p2.is_null_ = false)
    (hm : chrom.DrawMutationAndBreakpointCounts.1 = 0)
    (hb : chrom.DrawMutationAndBreakpointCounts.2 ≠ 0)
    (hl : chrom.last_position_ < INT_MAX)
    (hs1 : PosSorted p1.mutations_) (hs2 : PosSorted p2.mutations_)
    (hn1 : p1.mutations_.Nodup) (hn2 : p2.mutations_.Nodup) :
    ∃ s, CrossoverMutation child p1 p2 reg sid chrom gen sex coin = .returned s ∧
      s.child_genome.mutations_.Nodup := by
  have hst : (strand_1 (swapStrands false d coin) p1 p2).is_null_ = false ∧
      (strand_2 (swapStrands false d coin) p1 p2).is_null_ = false := by
    rcases strand_cases (swapStrands false d coin) p1 p2 with ⟨e1, e2⟩ | ⟨e1, e2⟩ <;>
      rw [e1, e2] <;> simp [*]
  have heq := crossover_eq_buildChild child p1 p2 reg sid chrom gen sex coin false d htyping hnn
    hst.1 (fun _ => hst.2)
  obtain ⟨s, hs⟩ : ∃ s, buildChild false child (strand_1 (swapStrands false d coin) p1 p2)
      (strand_2 (swapStrands false d coin) p1 p2) reg (swapDraws false d) sid chrom gen =
        .returned s := by
    have hl' : ¬ INT_MAX ≤ chrom.last_position_ := by omega
    simp only [buildChild, drawnMutationCount, drawnBreakpointCount, hm, hb, hl',
      Bool.false_eq_true, if_false, if_true]
    exact ⟨_, rfl⟩
  refine ⟨s, heq.trans hs, ?_⟩
  exact (returned_child_sorted_nodup child p1 p2 reg sid chrom gen sex coin s (heq.trans hs) hnn
    hs1 hs2 hn1 hn2).2.2

/-- C1 (witness): the strands `[m@10, n@20]` and `[m@10, q@30]` with one breakpoint at 25. -/
theorem crossover_without_new_mutations_keeps_handles_distinct_witness :
    ∃ s, CrossoverMutation (autosome [exQ]) (autosome [exM, exN]) (autosome [exM, exQ]) [] 1
        (exChromosome 0 1) 5 IndividualSex.kHermaphrodite false = .returned s ∧
      s.child_genome.mutations_.Nodup :=
  crossover_without_new_mutations_keeps_handles_distinct (autosome [exQ]) (autosome [exM, exN])
    (autosome [exM, exQ]) [] 1 (exChromosome 0 1) 5 IndividualSex.kHermaphrodite false true
    rfl rfl rfl rfl rfl (by decide) (by decide) (by decide) (by decide) (by decide) (by decide)

/-- C2 (counterexample): with the strand `[a@5]`, no breakpoint and the new mutations `x@3` and
`y@5`, the child genome written is `[x@3, y@5, a@5]`: the run of new mutations, once
started, takes `y` at position 5 before the parental handle `a` at position 5, whereas the
merge with the parental handle first gives `[x@3, a@5, y@5]`. With a new mutation at
position 200, beyond `last_position_ = 100`, the child is `[a@5]` and does not hold it. -/
theorem merge_takes_new_mutation_before_parental_handle :
    (CrossoverMutation (autosome []) (autosome [⟨7, 5⟩]) (autosome []) [] 1
        (exChromosomeNew [3, 5]) 5 IndividualSex.kHermaphrodite false =
      .returned ⟨autosome [⟨100, 3⟩, ⟨101, 5⟩, ⟨7, 5⟩], [⟨100, 3⟩, ⟨101, 5⟩],
        [Draw.rngBool, Draw.mutationAndBreakpointCounts, Draw.newMutation, Draw.newMutation,
          Draw.breakpoints 0]⟩ ∧
      specifiedChild (all_breakpoints ((exChromosomeNew [3, 5]).DrawBreakpoints 0) 100)
          [⟨7, 5⟩] [] (mutations_to_add (drawnMutations (exChromosomeNew [3, 5]) 2 1 5)) =
        [⟨100, 3⟩, ⟨7, 5⟩, ⟨101, 5⟩]) ∧
    (CrossoverMutation (autosome []) (autosome [⟨7, 5⟩]) (autosome []) [] 1
        (exChromosomeNew [200]) 5 IndividualSex.kHermaphrodite false =
      .returned ⟨autosome [⟨7, 5⟩], [⟨100, 200⟩],
        [Draw.rngBool, Draw.mutationAndBreakpointCounts, Draw.newMutation,
          Draw.breakpoints 0]⟩ ∧
      specifiedChild (all_breakpoints ((exChromosomeNew [200]).DrawBreakpoints 0) 100)
          [⟨7, 5⟩] [] (mutations_to_add (drawnMutations (exChromosomeNew [200]) 1 1 5)) =
        [⟨7, 5⟩, ⟨100, 200⟩]) := by
  decide

/-- C2 (amended): let `s1` (the initial strand after assortment) and `s2` be position-sorted
non-null parental strands that hold no repeated handle, with all positions at most
`last_position_`; let `M` be the scratch genome of the freshly drawn mutations and `B` the
sorted, de-duplicated breakpoint list ending with the sentinel `last_position_ + 1`. Then
`CrossoverMutation` returns, and the child genome it wrote is position-sorted and is an
order-keeping interleaving of three sequences: its new mutations are, in order, the
handles of `M` at positions at most `last_position_`; its other handles at positions
crossed by an even number of breakpoints are, in order, the handles of `s1` at such
positions; its other handles at positions crossed by an odd number of breakpoints are, in
order, the handles of `s2` at such positions. Which of a parental handle and a new mutation
comes first on equal positions is not fixed. -/
theorem child_genome_is_ordered_interleaving (child p1 p2 : Genome) (reg : List Mutation)
    (sid : Int) (chrom : Chromosome) (gen : Int) (sex : IndividualSex) (coin u d : Bool)
    (s1 s2 : Genome) (M : List Mutation) (B : List Int)
    (htyping : sexTyping sex child.genome_type_ p1.genome_type_ p2.genome_type_ = .ok (u, d))
    (hs1def : s1 = strand_1 (swapStrands u d coin) p1 p2)
    (hs2def : s2 = strand_2 (swapStrands u d coin) p1 p2)
    (hM : M = mutations_to_add (drawnMutations chrom (drawnMutationCount u chrom) sid gen))
    (hB : B = all_breakpoints (chrom.DrawBreakpoints (drawnBreakpointCount u chrom))
      chrom.last_position_)
    (hnn : child.is_null_ = false) (hnn1 : s1.is_null_ = false) (hnn2 : s2.is_null_ = false)
    (hs1 : PosSorted s1.mutations_) (hs2 : PosSorted s2.mutations_)
    (hn1 : s1.mutations_.Nodup) (hn2 : s2.mutations_.Nodup)
    (hp1 : ∀ x ∈ s1.mutations_, x.position_ ≤ chrom.last_position_)
    (hp2 : ∀ x ∈ s2.mutations_, x.position_ ≤ chrom.last_position_)
    (hl : chrom.last_position_ < INT_MAX)
    (hsent : ∀ b ∈ chrom.DrawBreakpoints (drawnBreakpointCount u chrom),
      b ≤ chrom.last_position_ + 1)
    (hzero : drawnBreakpointCount u chrom = 0 → chrom.DrawBreakpoints 0 = [])
    (hfresh : ∀ m ∈ M, m ∉ s1.mutations_ ∧ m ∉ s2.mutations_) (hMn : M.Nodup) :
    ∃ s, CrossoverMutation child p1 p2 reg sid chrom gen sex coin = .returned s ∧
      PosSorted s.child_genome.mutations_ ∧
      s.child_genome.mutations_.filter (fun x => decide (x ∈ M)) =
        M.filter (fun x => decide (x.position_ ≤ chrom.last_position_)) ∧
      s.child_genome.mutations_.filter (fun x => evenCrossed B x && !decide (x ∈ M)) =
        s1.mutations_.filter (evenCrossed B) ∧
      s.child_genome.mutations_.filter (fun x => oddCrossed B x && !decide (x ∈ M)) =
        s2.mutations_.filter (oddCrossed B) := by
  subst hs1def hs2def
  rw [crossover_eq_buildChild child p1 p2 reg sid chrom gen sex coin u d htyping hnn hnn1
    (fun _ => hnn2)]
  exact buildChild_interleaving u child _ _ reg _ sid chrom gen M B hM hB hs1 hs2 hn1 hn2 hp1 hp2
    hl hsent hzero hfresh hMn

/-- C2 (witness): the strands `[m@10, n@20]` and `[m@10, q@30]`, one breakpoint at 25 and one
new mutation at position 15. -/
theorem child_genome_is_ordered_interleaving_witness :
    ∃ s, CrossoverMutation (autosome [exQ]) (autosome [exM, exN]) (autosome [exM, exQ]) [] 1
        (exChromosome 1 1) 5 IndividualSex.kHermaphrodite false = .returned s ∧
      PosSorted s.child_genome.mutations_ ∧
      s.child_genome.mutations_.filter (fun x => decide (x ∈ [(⟨100, 15⟩ : Mutation)])) =
        [(⟨100, 15⟩ : Mutation)].filter (fun x => decide (x.position_ ≤ 100)) ∧
      s.child_genome.mutations_.filter
          (fun x => evenCrossed [25, 101] x && !decide (x ∈ [(⟨100, 15⟩ : Mutation)])) =
        [exM, exN].filter (evenCrossed [25, 101]) ∧
      s.child_genome.mutations_.filter
          (fun x => oddCrossed [25, 101] x && !decide (x ∈ [(⟨100, 15⟩ : Mutation)])) =
        [exM, exQ].filter (oddCrossed [25, 101]) :=
  child_genome_is_ordered_interleaving (autosome [exQ]) (autosome [exM, exN])
    (autosome [exM, exQ]) [] 1 (exChromosome 1 1) 5 IndividualSex.kHermaphrodite false false
    true (autosome [exM, exN]) (autosome [exM, exQ]) [⟨100, 15⟩] [25, 101]
    rfl rfl rfl rfl rfl rfl rfl rfl (by decide) (by decide) (by decide) (by decide)
    (by decide) (by decide) (by decide) (by decide) (by decide) (by decide) (by decide)

/-- C3: whenever `CrossoverMutation` returns on a non-null child and position-sorted parental
strands that hold no repeated handle, the child genome it wrote is non-null, has
non-decreasing positions and holds no handle twice, whatever number of new mutations and of
breakpoints was drawn. -/
theorem child_genome_sorted_without_repeats (child p1 p2 : Genome) (reg : List Mutation)
    (sid : Int) (chrom : Chromosome) (gen : Int) (sex : IndividualSex) (coin : Bool)
    (s : CrossoverState)
    (hret : CrossoverMutation child p1 p2 reg sid chrom gen sex coin = .returned s)
    (hnn : child.is_null_ = false)
    (hs1 : PosSorted p1.mutations_) (hs2 : PosSorted p2.mutations_)
    (hn1 : p1.mutations_.Nodup) (hn2 : p2.mutations_.Nodup) :
    s.child_genome.is_null_ = false ∧ PosSorted s.child_genome.mutations_ ∧
      s.child_genome.mutations_.Nodup :=
  returned_child_sorted_nodup child p1 p2 reg sid chrom gen sex coin s hret hnn hs1 hs2 hn1 hn2

/-- C3 (witness): two breakpoints at 25 and two new mutations, at positions 15 and 25. -/
theorem child_genome_sorted_without_repeats_witness :
    CrossoverMutation (autosome [exQ]) (autosome [exM, exN]) (autosome [exM, exQ]) [] 1
        (exChromosome 2 2) 5 IndividualSex.kHermaphrodite false =
      .returned ⟨autosome [exM, ⟨100, 15⟩, exN, ⟨101, 25⟩, exQ], [⟨100, 15⟩, ⟨101, 25⟩],
        [Draw.rngBool, Draw.mutationAndBreakpointCounts, Draw.newMutation, Draw.newMutation,
          Draw.breakpoints 2]⟩ ∧
    PosSorted [exM, ⟨100, 15⟩, exN, ⟨101, 25⟩, exQ] ∧
    [exM, ⟨100, 15⟩, exN, ⟨101, 25⟩, exQ].Nodup :=
  ⟨by decide,
    (child_genome_sorted_without_repeats (autosome [exQ]) (autosome [exM, exN])
      (autosome [exM, exQ]) [] 1 (exChromosome 2 2) 5 IndividualSex.kHermaphrodite false
      ⟨autosome [exM, ⟨100, 15⟩, exN, ⟨101, 25⟩, exQ], [⟨100, 15⟩, ⟨101, 25⟩],
        [Draw.rngBool, Draw.mutationAndBreakpointCounts, Draw.newMutation, Draw.newMutation,
          Draw.breakpoints 2]⟩
      (by decide) rfl (by decide) (by decide) (by decide) (by decide)).2⟩

/-- C4: when the typing has succeeded, the child and the strands to be read are non-null, and
the chromosome draws zero new mutations and zero breakpoints, `CrossoverMutation` returns
and the child genome holds, element for element, the handles of the strand selected as
`parent_genome_1` after the swap test, whatever it held before; its type tag and null flag
and the registry are unchanged. -/
theorem no_draws_child_copies_strand_1
    (child p1 p2 : Genome) (reg : List Mutation) (sid : Int) (chrom : Chromosome) (gen : Int)
    (sex : IndividualSex) (coin u d : Bool)
    (htyping : sexTyping sex child.genome_type_ p1.genome_type_ p2.genome_type_ = .ok (u, d))
    (hchild : child.is_null_ = false)
    (h1 : (strand_1 (swapStrands u d coin) p1 p2).is_null_ = false)
    (h2 : u = false → (strand_2 (swapStrands u d coin) p1 p2).is_null_ = false)
    (hm : drawnMutationCount u chrom = 0) (hb : drawnBreakpointCount u chrom = 0) :
    CrossoverMutation child p1 p2 reg sid chrom gen sex coin =
      .returned ⟨{ child with mutations_ := (strand_1 (swapStrands u d coin) p1 p2).mutations_ },
        reg, swapDraws u d ++
          [if u then Draw.mutationCount else Draw.mutationAndBreakpointCounts]⟩ := by
  unfold CrossoverMutation
  rw [htyping]
  cases u <;> simp_all [buildChild, Genome.clear, Genome.copy_from_genome]

/-- C4 (witness): a child that held `[q@30]` becomes the copy of the strand `[m@10, n@20]`. -/
theorem no_draws_child_copies_strand_1_witness :
    CrossoverMutation (autosome [exQ]) (autosome [exM, exN]) (autosome [exM, exQ]) [] 1
        (exChromosome 0 0) 5 IndividualSex.kHermaphrodite false =
      .returned ⟨autosome [exM, exN], [], [Draw.rngBool, Draw.mutationAndBreakpointCounts]⟩ :=
  no_draws_child_copies_strand_1 (autosome [exQ]) (autosome [exM, exN]) (autosome [exM, exQ])
    [] 1 (exChromosome 0 0) 5 IndividualSex.kHermaphrodite false false true rfl rfl rfl
    (fun _ => rfl) rfl rfl

/-- C5: for a combination of child genome type, child sex and parental genome types that is
not a permitted row of the typing table: (1) when the two parental strands are not both Y
strands (the two genomes of one individual never are: a female holds two X, a male an X and
a Y, a hermaphrodite two autosomes), `CrossoverMutation` terminates at the typing test, with
the child genome and the registry as they were and no draw made; (2) two Y strands offered
for the X genome of a female child pass the typing test, which looks for one Y in the pair
(lines 855-868), and the call then terminates at the null checks of lines 909-931 whenever
the null flag of both Y strands is the opposite of that of the child genome, as it is where
one of X and Y is modelled and the genomes of the other type are null; for every other child
the pair of Y strands terminates at the typing test. In each case the child genome and the
registry are as they were. -/
theorem off_table_combination_terminates (child p1 p2 : Genome) (reg : List Mutation)
    (sid : Int) (chrom : Chromosome) (gen : Int) (sex : IndividualSex) (coin : Bool)
    (hrow : ¬ permittedRow child.genome_type_ sex p1.genome_type_ p2.genome_type_) :
    (¬ (p1.genome_type_ = .kYChromosome ∧ p2.genome_type_ = .kYChromosome) →
      ∃ e, CrossoverMutation child p1 p2 reg sid chrom gen sex coin =
        .terminated e ⟨child, reg, []⟩) ∧
    (p1.genome_type_ = .kYChromosome → p2.genome_type_ = .kYChromosome →
      p1.is_null_ = !child.is_null_ → p2.is_null_ = !child.is_null_ →
      ∃ e draws, CrossoverMutation child p1 p2 reg sid chrom gen sex coin =
        .terminated e ⟨child, reg, draws⟩) := by
  constructor
  · intro hyy
    exact typing_error_outside_table child p1 p2 reg sid chrom gen sex coin hrow
      (fun h => hyy ⟨h.2.2.1, h.2.2.2⟩)
  · intro h1 h2 n1 n2
    by_cases hx : child.genome_type_ = .kXChromosome ∧ sex = .kFemale
    · unfold CrossoverMutation
      obtain ⟨ct, cn, cm⟩ := child
      obtain ⟨t1, m1, l1⟩ := p1
      obtain ⟨t2, m2, l2⟩ := p2
      simp only at h1 h2 n1 n2 hx
      obtain ⟨rfl, rfl⟩ := hx
      subst h1 h2 n1 n2
      cases cn <;> cases coin <;>
        simp [sexTyping, swapStrands, strand_1, strand_2]
    · obtain ⟨e, he⟩ := typing_error_outside_table child p1 p2 reg sid chrom gen sex coin hrow
        (fun h => hx ⟨h.1, h.2.1⟩)
      exact ⟨e, [], he⟩

/-- C5 (witness): an autosomal child genome with an X strand for the first parent terminates
at the typing test; the X genome of a female child with two null Y strands terminates at the
null check, the child genome and the registry being as they were. -/
theorem off_table_combination_terminates_witness :
    (∃ e, CrossoverMutation ⟨.kAutosome, false, []⟩ ⟨.kXChromosome, false, [exM]⟩
        ⟨.kAutosome, false, [exN]⟩ [] 1 (exChromosome 0 0) 5 IndividualSex.kHermaphrodite
        false = .terminated e ⟨⟨.kAutosome, false, []⟩, [], []⟩) ∧
    (∃ e draws, CrossoverMutation ⟨.kXChromosome, false, []⟩ ⟨.kYChromosome, true, []⟩
        ⟨.kYChromosome, true, []⟩ [] 1 (exChromosome 0 0) 5 IndividualSex.kFemale false =
      .terminated e ⟨⟨.kXChromosome, false, []⟩, [], draws⟩) :=
  ⟨(off_table_combination_terminates ⟨.kAutosome, false, []⟩ ⟨.kXChromosome, false, [exM]⟩
      ⟨.kAutosome, false, [exN]⟩ [] 1 (exChromosome 0 0) 5 IndividualSex.kHermaphrodite false
      (by decide)).1 (by decide),
    (off_table_combination_terminates ⟨.kXChromosome, false, []⟩ ⟨.kYChromosome, true, []⟩
      ⟨.kYChromosome, true, []⟩ [] 1 (exChromosome 0 0) 5 IndividualSex.kFemale false
      (by decide)).2 rfl rfl rfl rfl⟩

/-- C7: once the sex typing has succeeded with `(use_only_strand_1, do_swap) = (u, d)`,
`CrossoverMutation` terminates with an error if and only if the nullness of the child
disagrees with the strands it would read: for a null child, iff the selected strand (single
strand mode) or one of the two strands (crossover mode) is non-null; for a non-null child,
iff the selected strand, or one of the two strands, is null. -/
theorem terminates_iff_nullness_disagrees (child p1 p2 : Genome) (reg : List Mutation) (sid : Int) (chrom : Chromosome)
    (gen : Int) (sex : IndividualSex) (coin u d : Bool)
    (htyping : sexTyping sex child.genome_type_ p1.genome_type_ p2.genome_type_ = .ok (u, d)) :
    (∃ e s, CrossoverMutation child p1 p2 reg sid chrom gen sex coin = .terminated e s) ↔
      (if child.is_null_ then
        (if u then (strand_1 (swapStrands u d coin) p1 p2).is_null_ = false
         else ((strand_1 (swapStrands u d coin) p1 p2).is_null_ = false ∨
               (strand_2 (swapStrands u d coin) p1 p2).is_null_ = false))
       else
        (if u then (strand_1 (swapStrands u d coin) p1 p2).is_null_ = true
         else ((strand_1 (swapStrands u d coin) p1 p2).is_null_ = true ∨
               (strand_2 (swapStrands u d coin) p1 p2).is_null_ = true))) := by
  unfold CrossoverMutation
  rw [htyping]
  simp only
  generalize strand_1 (swapStrands u d coin) p1 p2 = s1
  generalize strand_2 (swapStrands u d coin) p1 p2 = s2
  have hb := buildChild_not_terminated u child s1 s2 reg (swapDraws u d) sid chrom gen
  cases hc : child.is_null_ <;> cases u <;> cases h1 : s1.is_null_ <;> cases h2 : s2.is_null_ <;>
    simp_all

/-- C7 (witness): a non-null autosomal child with a null second parental strand. -/
theorem terminates_iff_nullness_disagrees_witness :
    ∃ e s, CrossoverMutation (autosome [exQ]) (autosome [exM, exN]) ⟨.kAutosome, true, []⟩ [] 1
      (exChromosome 0 0) 5 IndividualSex.kHermaphrodite false = .terminated e s :=
  (terminates_iff_nullness_disagrees (autosome [exQ]) (autosome [exM, exN])
    ⟨.kAutosome, true, []⟩ [] 1 (exChromosome 0 0) 5 IndividualSex.kHermaphrodite false false
    true rfl).mpr (by decide)

/-- C8: when the child genome is null and `Population::CrossoverMutation` returns, the
population (every genome of every subpopulation, the registry, the counts) is exactly as
before the call, and the only draw that can have been made is the coin of the swap test:
no mutation count, breakpoint or new mutation has been drawn from the chromosome. -/
theorem null_child_leaves_population_unchanged (pop : Population) (subpop source_subpop p_child_genome_index : Nat)
    (p_source_subpop_id : Int) (p_parent1_genome_index p_parent2_genome_index : Nat)
    (p_chromosome : Chromosome) (p_generation : Int) (p_child_sex : IndividualSex)
    (g_rng_bool : Bool) (target : Int × Subpopulation) (child_genome : Genome)
    (r : Population × List Draw)
    (htarget : pop.subpops[subpop]? = some target)
    (hchild : target.2.child_genomes_[p_child_genome_index]? = some child_genome)
    (hnull : child_genome.is_null_ = true)
    (hret : pop.CrossoverMutation subpop source_subpop p_child_genome_index p_source_subpop_id
      p_parent1_genome_index p_parent2_genome_index p_chromosome p_generation p_child_sex
      g_rng_bool = .returned r) :
    r.1 = pop ∧ ∀ dr ∈ r.2, dr = Draw.rngBool := by
  unfold Population.CrossoverMutation at hret
  rw [htarget] at hret
  split at hret
  · rename_i t src ht hs
    simp at ht
    subst ht
    rw [hchild] at hret
    split at hret
    · rename_i c g1 g2 hc h1 h2
      simp at hc
      subst hc
      split at hret
      · simp at hret
      · simp at hret
      · rename_i s hs
        simp at hret
        obtain ⟨hc, hr, hd⟩ := null_child_returned _ _ _ _ _ _ _ _ _ s hnull hs
        subst hret
        refine ⟨?_, hd⟩
        simp only
        have : s = ⟨child_genome, pop.mutation_registry_, s.draws⟩ := by
          cases s; simp_all
        rw [this]
        exact store_unchanged pop subpop p_child_genome_index target child_genome _ htarget hchild
    · simp at hret
  · simp at hret

/-- C8 (witness): the null Y genome of a male child, from a father with an X strand and a
null Y strand. -/
theorem null_child_leaves_population_unchanged_witness :
    exPopulationX.CrossoverMutation 0 0 1 1 0 1 (exChromosome 1 1) 5 IndividualSex.kMale false =
      .returned (exPopulationX, []) ∧
    (exPopulationX, ([] : List Draw)).1 = exPopulationX :=
  ⟨rfl, (null_child_leaves_population_unchanged exPopulationX 0 0 1 1 0 1 (exChromosome 1 1) 5
    IndividualSex.kMale false
    (1, { parent_genomes_ := [⟨.kXChromosome, false, [exM]⟩, ⟨.kYChromosome, true, []⟩],
          child_genomes_ := [⟨.kXChromosome, false, []⟩, ⟨.kYChromosome, true, []⟩],
          child_subpop_size_ := 1 })
    ⟨.kYChromosome, true, []⟩ (exPopulationX, []) rfl rfl rfl rfl).1⟩

/-- C9: a `Population::CrossoverMutation` call on a non-null child that passes the typing and
the null checks, for which the chromosome draws `k` new mutations, fresh (held by no genome
before the call) and distinct, returns and leaves the registry as the earlier entries
followed by those `k` mutations in draw order; and each of them whose position is at most
`last_position_` occurs exactly once in the child genome and in no other genome of any
subpopulation. The drawn breakpoints and `last_position_ + 1` are values of the C++ type
`int`. -/
theorem new_mutations_registered_and_placed_once (pop : Population)
    (subpop source_subpop p_child_genome_index : Nat)
    (p_source_subpop_id : Int) (p_parent1_genome_index p_parent2_genome_index : Nat)
    (p_chromosome : Chromosome) (p_generation : Int) (p_child_sex : IndividualSex)
    (g_rng_bool : Bool) (target source : Int × Subpopulation)
    (child_genome parent_genome_1 parent_genome_2 : Genome) (u d : Bool)
    (htarget : pop.subpops[subpop]? = some target)
    (hsource : pop.subpops[source_subpop]? = some source)
    (hchild : target.2.child_genomes_[p_child_genome_index]? = some child_genome)
    (hparent1 : source.2.parent_genomes_[p_parent1_genome_index]? = some parent_genome_1)
    (hparent2 : source.2.parent_genomes_[p_parent2_genome_index]? = some parent_genome_2)
    (hnn : child_genome.is_null_ = false)
    (htyping : sexTyping p_child_sex child_genome.genome_type_ parent_genome_1.genome_type_
      parent_genome_2.genome_type_ = .ok (u, d))
    (hnn1 : (strand_1 (swapStrands u d g_rng_bool) parent_genome_1
      parent_genome_2).is_null_ = false)
    (hnn2 : u = false → (strand_2 (swapStrands u d g_rng_bool) parent_genome_1
      parent_genome_2).is_null_ = false)
    (hlast : p_chromosome.last_position_ < INT_MAX)
    (hint : ∀ b ∈ p_chromosome.DrawBreakpoints (drawnBreakpointCount u p_chromosome),
      b ≤ INT_MAX)
    (hfresh : ∀ m ∈ drawnMutations p_chromosome (drawnMutationCount u p_chromosome)
        p_source_subpop_id p_generation,
      ∀ e ∈ pop.subpops, ∀ g ∈ e.2.parent_genomes_ ++ e.2.child_genomes_, m ∉ g.mutations_)
    (hdistinct : (drawnMutations p_chromosome (drawnMutationCount u p_chromosome)
      p_source_subpop_id p_generation).Nodup) :
    ∃ r, pop.CrossoverMutation subpop source_subpop p_child_genome_index p_source_subpop_id
        p_parent1_genome_index p_parent2_genome_index p_chromosome p_generation p_child_sex
        g_rng_bool = .returned r ∧
      r.1.mutation_registry_ = pop.mutation_registry_ ++
        drawnMutations p_chromosome (drawnMutationCount u p_chromosome) p_source_subpop_id
          p_generation ∧
      ∀ m ∈ drawnMutations p_chromosome (drawnMutationCount u p_chromosome) p_source_subpop_id
          p_generation,
        m.position_ ≤ p_chromosome.last_position_ →
          (∃ e g, r.1.subpops[subpop]? = some e ∧
            e.2.child_genomes_[p_child_genome_index]? = some g ∧ g.mutations_.count m = 1) ∧
          ∀ j e, r.1.subpops[j]? = some e →
            (∀ g ∈ e.2.parent_genomes_, m ∉ g.mutations_) ∧
            ∀ i g, e.2.child_genomes_[i]? = some g →
              ¬ (j = subpop ∧ i = p_child_genome_index) → m ∉ g.mutations_ := by
  have hcore := crossover_eq_buildChild child_genome parent_genome_1 parent_genome_2
    pop.mutation_registry_ p_source_subpop_id p_chromosome p_generation p_child_sex g_rng_bool
    u d htyping hnn hnn1 hnn2
  obtain ⟨s, hs⟩ := buildChild_isReturned u child_genome
    (strand_1 (swapStrands u d g_rng_bool) parent_genome_1 parent_genome_2)
    (strand_2 (swapStrands u d g_rng_bool) parent_genome_1 parent_genome_2)
    pop.mutation_registry_ (swapDraws u d) p_source_subpop_id p_chromosome p_generation hlast
    hint
  have hpop : pop.CrossoverMutation subpop source_subpop p_child_genome_index
      p_source_subpop_id p_parent1_genome_index p_parent2_genome_index p_chromosome
      p_generation p_child_sex g_rng_bool =
        .returned (pop.store subpop p_child_genome_index s, s.draws) := by
    unfold Population.CrossoverMutation
    rw [htarget, hsource]
    simp only [hchild, hparent1, hparent2]
    rw [hcore, hs]
  exact ⟨_, hpop, placed_once_of_returned pop subpop source_subpop p_child_genome_index
    p_source_subpop_id p_parent1_genome_index p_parent2_genome_index p_chromosome p_generation
    p_child_sex g_rng_bool target source child_genome parent_genome_1 parent_genome_2 u d _
    htarget hsource hchild hparent1 hparent2 hnn htyping hpop hint hfresh hdistinct⟩

/-- C9 (witness): one new mutation at position 15 and one breakpoint at 25; the registry
`[m, n, q]` becomes `[m, n, q, new]`. -/
theorem new_mutations_registered_and_placed_once_witness :
    ∃ r, (exPopulation (autosome [exQ]) (autosome [])).CrossoverMutation 0 0 0 1 0 1
        (exChromosome 1 1) 5 IndividualSex.kHermaphrodite false = .returned r ∧
      r.1.mutation_registry_ = [exM, exN, exQ, ⟨100, 15⟩] :=
  match new_mutations_registered_and_placed_once (exPopulation (autosome [exQ]) (autosome []))
      0 0 0 1 0 1 (exChromosome 1 1) 5 IndividualSex.kHermaphrodite false
      (1, { parent_genomes_ := [autosome [exM, exN], autosome [exM, exQ]],
            child_genomes_ := [autosome [exQ], autosome []], child_subpop_size_ := 1 })
      (1, { parent_genomes_ := [autosome [exM, exN], autosome [exM, exQ]],
            child_genomes_ := [autosome [exQ], autosome []], child_subpop_size_ := 1 })
      (autosome [exQ]) (autosome [exM, exN]) (autosome [exM, exQ]) false true
      rfl rfl rfl rfl rfl rfl rfl rfl (fun _ => rfl) (by decide) (by decide) (by decide)
      (by decide) with
  | ⟨r, h1, h2, _⟩ => ⟨r, h1, h2⟩

/-- C10: when every subpopulation holds `2 * child_subpop_size_` child genomes,
`TallyMutationReferences` returns, and afterwards `reference_count_` of each registry
mutation is the number of handles to it over all non-null child genomes of all
subpopulations, and `total_genome_count_` is the number of non-null child genomes; null
genomes add to neither. The genomes and the registry are unchanged. (The assumption that the
handles point into the registry is not needed for the counts of the registry entries; the
counts are taken without the 32-bit bound.) -/
theorem tally_counts_handles_of_non_null_genomes (pop : Population)
    (hsize : ∀ e ∈ pop.subpops, e.2.child_genomes_.length = 2 * e.2.child_subpop_size_) :
    ∃ tallied, pop.TallyMutationReferences = some tallied ∧
      (∀ m ∈ pop.mutation_registry_, tallied.reference_count_ m = (handleCount pop m : Int)) ∧
      tallied.total_genome_count_ = ((nonNullChildGenomes pop).length : Int) ∧
      tallied.subpops = pop.subpops ∧ tallied.mutation_registry_ = pop.mutation_registry_ := by
  unfold Population.TallyMutationReferences
  simp only
  rw [tally_foldlM pop.subpops _ hsize]
  refine ⟨_, rfl, ?_, ?_, rfl, rfl⟩
  · intro m hm
    simp only
    rw [(foldl_tallyStep m _ _).1]
    simp only
    rw [zero_foldl m _ _ hm]
    simp [handleCount, nonNullChildGenomes, allChildGenomes]
  · simp only
    rw [(foldl_tallyStep ⟨0, 0⟩ _ _).2]
    simp [nonNullChildGenomes, allChildGenomes]

/-- C10 (witness): child genomes `[m, n]` and `[m]`. -/
theorem tally_counts_handles_of_non_null_genomes_witness :
    ∃ tallied, (exPopulation (autosome [exM, exN]) (autosome [exM])).TallyMutationReferences =
        some tallied ∧
      (∀ m ∈ (exPopulation (autosome [exM, exN]) (autosome [exM])).mutation_registry_,
        tallied.reference_count_ m =
          (handleCount (exPopulation (autosome [exM, exN]) (autosome [exM])) m : Int)) ∧
      tallied.total_genome_count_ =
        ((nonNullChildGenomes (exPopulation (autosome [exM, exN]) (autosome [exM]))).length :
          Int) ∧
      tallied.subpops = (exPopulation (autosome [exM, exN]) (autosome [exM])).subpops ∧
      tallied.mutation_registry_ =
        (exPopulation (autosome [exM, exN]) (autosome [exM])).mutation_registry_ :=
  tally_counts_handles_of_non_null_genomes (exPopulation (autosome [exM, exN]) (autosome [exM]))
    (by decide)


/-! ## The removal of the lost and of the fixed mutations -/

theorem registryLoop_done (rc : Mutation → Int) (total : Int) (fuel : Nat)
    (registry : List Mutation) (i : Nat) (fixed removed : List Mutation)
    (h : ¬ i < registry.length) :
    registryLoop rc total (fuel + 1) registry i fixed removed = some (registry, fixed, removed) := by
  unfold registryLoop
  rw [if_neg h]

theorem getLast?_append_cons (pre : List Mutation) (x : Mutation) (rest : List Mutation)
    (h : rest ≠ []) : (pre ++ x :: rest).getLast? = some (rest.getLast h) := by
  cases rest with
  | nil => exact absurd rfl h
  | cons a t =>
    rw [List.getLast?_eq_getLast _ (by simp)]
    simp

theorem set_dropLast_append (pre : List Mutation) (x y : Mutation) (rest : List Mutation)
    (h : rest ≠ []) :
    ((pre ++ x :: rest).set pre.length y).dropLast = pre ++ y :: rest.dropLast := by
  have e : (pre ++ x :: rest).set pre.length y = pre ++ y :: rest := by
    simp [List.set_append]
  rw [e]
  cases rest with
  | nil => exact absurd rfl h
  | cons a t => simp [List.dropLast_append_cons]

theorem getLast_dropLast_perm (rest : List Mutation) (h : rest ≠ []) :
    (rest.getLast h :: rest.dropLast).Perm rest := by
  have e : rest.dropLast ++ [rest.getLast h] = rest := List.dropLast_append_getLast h
  have p : (rest.getLast h :: rest.dropLast).Perm (rest.dropLast ++ [rest.getLast h]) :=
    (List.perm_append_singleton _ _).symm
  rw [e] at p
  exact p

theorem registryLoop_keep (rc : Mutation → Int) (total : Int) (fuel : Nat)
    (pre : List Mutation) (x : Mutation) (rest fixed removed : List Mutation)
    (h : leavesRegistry rc total x = false) :
    registryLoop rc total (fuel + 1) (pre ++ x :: rest) pre.length fixed removed =
      registryLoop rc total fuel ((pre ++ [x]) ++ rest) (pre ++ [x]).length fixed removed := by
  have h0 : rc x ≠ 0 := by
    intro e; simp [leavesRegistry, e] at h
  have h1 : rc x ≠ total := by
    intro e; simp [leavesRegistry, e] at h
  have hi : pre.length < (pre ++ x :: rest).length := by simp
  have hx : (pre ++ x :: rest)[pre.length]? = some x := by
    rw [List.getElem?_append_right (le_refl _)]; simp
  rw [registryLoop, if_pos hi, hx]
  simp only [if_neg h0, if_neg h1]
  simp

theorem registryLoop_remove_last (rc : Mutation → Int) (total : Int) (fuel : Nat)
    (pre : List Mutation) (x : Mutation) (fixed removed : List Mutation)
    (h : leavesRegistry rc total x = true) :
    registryLoop rc total (fuel + 2) (pre ++ [x]) pre.length fixed removed =
      some (pre, if isFixed rc total x then insert_sorted_mutation fixed x else fixed,
        removed ++ [x]) := by
  have hi : pre.length < (pre ++ [x]).length := by simp
  have hx : (pre ++ [x])[pre.length]? = some x := by simp
  have hl : pre.length = (pre ++ [x]).length - 1 := by simp
  have hd : (pre ++ [x]).dropLast = pre := by simp
  rw [registryLoop, if_pos hi, hx]
  simp only [if_pos hl, hd]
  by_cases h0 : rc x = 0
  · rw [if_pos h0, registryLoop_done _ _ _ _ _ _ _ (by omega)]
    simp [isFixed, h0]
  · have h1 : rc x = total := by
      simpa [leavesRegistry, h0] using h
    rw [if_neg h0, if_pos h1, registryLoop_done _ _ _ _ _ _ _ (by omega)]
    have ht : ¬ total = 0 := fun e => h0 (h1.trans e)
    simp [isFixed, h1, ht]

theorem registryLoop_remove_inner (rc : Mutation → Int) (total : Int) (fuel : Nat)
    (pre : List Mutation) (x : Mutation) (rest fixed removed : List Mutation)
    (hne : rest ≠ []) (h : leavesRegistry rc total x = true) :
    registryLoop rc total (fuel + 1) (pre ++ x :: rest) pre.length fixed removed =
      registryLoop rc total fuel (pre ++ rest.getLast hne :: rest.dropLast) pre.length
        (if isFixed rc total x then insert_sorted_mutation fixed x else fixed)
        (removed ++ [x]) := by
  have hi : pre.length < (pre ++ x :: rest).length := by simp
  have hx : (pre ++ x :: rest)[pre.length]? = some x := by
    rw [List.getElem?_append_right (le_refl _)]; simp
  have hl : ¬ pre.length = (pre ++ x :: rest).length - 1 := by
    cases rest with
    | nil => exact absurd rfl hne
    | cons a t => simp
  rw [registryLoop, if_pos hi, hx]
  simp only [if_neg hl, getLast?_append_cons pre x rest hne, set_dropLast_append pre x _ rest hne]
  by_cases h0 : rc x = 0
  · rw [if_pos h0]
    simp [isFixed, h0]
  · have h1 : rc x = total := by
      simpa [leavesRegistry, h0] using h
    rw [if_neg h0, if_pos h1]
    have ht : ¬ total = 0 := fun e => h0 (h1.trans e)
    simp [isFixed, h1, ht]

theorem registryLoop_spec (rc : Mutation → Int) (total : Int) : ∀ (fuel : Nat)
    (pre u fixed removed : List Mutation), u.length < fuel →
    ∃ kept fx rm,
      registryLoop rc total fuel (pre ++ u) pre.length fixed removed =
        some (pre ++ kept, fx, removed ++ rm) ∧
      (kept ++ rm).Perm u ∧
      (∀ m ∈ kept, leavesRegistry rc total m = false) ∧
      (∀ m ∈ rm, leavesRegistry rc total m = true) ∧
      fx.Perm (fixed ++ rm.filter (isFixed rc total)) ∧
      (PosSorted fixed → PosSorted fx)
  | 0, _, _, _, _, h => absurd h (Nat.not_lt_zero _)
  | fuel + 1, pre, [], fixed, removed, _ => by
    refine ⟨[], fixed, [], ?_, by simp, by simp, by simp, by simp, fun h => h⟩
    rw [registryLoop_done _ _ _ _ _ _ _ (by simp)]
    simp
  | fuel + 1, pre, x :: rest, fixed, removed, h => by
    cases hx : leavesRegistry rc total x with
    | false =>
      obtain ⟨kept, fx, rm, e, hp, hk, hr, hf, hs⟩ :=
        registryLoop_spec rc total fuel (pre ++ [x]) rest fixed removed
          (by simp only [List.length_cons] at h; omega)
      refine ⟨x :: kept, fx, rm, ?_, ?_, ?_, hr, hf, hs⟩
      · rw [registryLoop_keep rc total fuel pre x rest fixed removed hx, e]
        simp
      · simpa using hp
      · intro m hm
        rcases List.mem_cons.mp hm with hm | hm
        · rw [hm]; exact hx
        · exact hk m hm
    | true =>
      by_cases hne : rest = []
      · subst hne
        cases fuel with
        | zero => simp at h
        | succ fuel =>
          refine ⟨[], if isFixed rc total x then insert_sorted_mutation fixed x else fixed, [x],
            ?_, by simp, by simp, by simpa using hx, ?_, ?_⟩
          · rw [registryLoop_remove_last rc total fuel pre x fixed removed hx]
            simp
          · by_cases hfx : isFixed rc total x
            · simp only [hfx, if_true, List.filter_cons_of_pos, List.filter_nil]
              exact (insert_sorted_mutation_perm fixed x).trans
                (List.perm_append_singleton x fixed).symm
            · simp [hfx]
          · intro hsorted
            by_cases hfx : isFixed rc total x
            · simp only [hfx, if_true]
              exact insert_sorted_mutation_sorted fixed x hsorted
            · simpa [hfx] using hsorted
      · obtain ⟨kept, fx, rm, e, hp, hk, hr, hf, hs⟩ :=
          registryLoop_spec rc total fuel pre (rest.getLast hne :: rest.dropLast)
            (if isFixed rc total x then insert_sorted_mutation fixed x else fixed)
            (removed ++ [x])
            (by
              have := (getLast_dropLast_perm rest hne).length_eq
              simp only [List.length_cons] at h this ⊢
              omega)
        refine ⟨kept, fx, x :: rm, ?_, ?_, hk, ?_, ?_, ?_⟩
        · rw [registryLoop_remove_inner rc total fuel pre x rest fixed removed hne hx, e]
          simp
        · exact List.perm_middle.trans ((hp.trans (getLast_dropLast_perm rest hne)).cons x)
        · intro m hm
          rcases List.mem_cons.mp hm with hm | hm
          · rw [hm]; exact hx
          · exact hr m hm
        · refine hf.trans ?_
          by_cases hfx : isFixed rc total x
          · simp only [hfx, if_true, List.filter_cons_of_pos]
            exact ((insert_sorted_mutation_perm fixed x).append_right _).trans
              (List.perm_middle.symm)
          · simp [hfx]
        · intro hsorted
          apply hs
          by_cases hfx : isFixed rc total x
          · simp only [hfx, if_true]
            exact insert_sorted_mutation_sorted fixed x hsorted
          · simpa [hfx] using hsorted

theorem range_foldlM_set {α : Type} (c : α → Bool) (h : α → α) (l : List α) :
    ∀ n, n ≤ l.length →
      (List.range n).foldlM
          (fun s i => (s[i]?).map (fun a => if c a then s.set i (h a) else s)) l =
        some ((l.take n).map (fun a => if c a then h a else a) ++ l.drop n)
  | 0, _ => by simp
  | n + 1, hn => by
    rw [List.range_succ, List.foldlM_append, range_foldlM_set c h l n (by omega)]
    have hlt : n < l.length := by omega
    have hlen : ((l.take n).map (fun a => if c a then h a else a)).length = n := by
      simp; omega
    have hd : l.drop n = l[n] :: l.drop (n + 1) := List.drop_eq_getElem_cons hlt
    have ht : l.take (n + 1) = l.take n ++ [l[n]] := by
      rw [List.take_succ, List.getElem?_eq_getElem hlt]; rfl
    have hget : ((l.take n).map (fun a => if c a then h a else a) ++ l.drop n)[n]? =
        some l[n] := by
      rw [List.getElem?_append_right (by omega), hlen, hd]; simp
    have hset : ∀ b, ((l.take n).map (fun a => if c a then h a else a) ++ l.drop n).set n b =
        (l.take n).map (fun a => if c a then h a else a) ++ b :: l.drop (n + 1) := by
      intro b
      rw [List.set_append, if_neg (by omega), hlen, hd]
      simp only [Nat.sub_self, List.set_cons_zero]
    simp only [Option.bind_eq_bind, Option.some_bind, List.foldlM_cons, List.foldlM_nil, hget,
      Option.map_some', Option.pure_def]
    rw [ht, List.map_append, List.append_assoc]
    by_cases hc : c l[n]
    · simp only [hc, if_true, hset]
      simp [hc]
    · simp only [hc, Bool.false_eq_true, if_false]
      rw [hd]
      simp [hc]

theorem scrubGenomes_eq (rc : Mutation → Int) (total : Int) (size : Nat) (genomes : List Genome)
    (h : genomes.length = 2 * size) :
    scrubGenomes rc total size genomes = some (genomes.map (scrubGenome rc total)) := by
  unfold scrubGenomes
  have := range_foldlM_set (fun g : Genome => !g.is_null_)
    (fun g => g.RemoveFixedMutations rc total) genomes genomes.length (le_refl _)
  rw [h] at this
  rw [this, ← h]
  simp only [List.take_length, List.drop_length, List.append_nil]
  rfl

theorem scrubSubpops_eq (rc : Mutation → Int) (total : Int) :
    ∀ (subpops : List (Int × Subpopulation)),
      (∀ e ∈ subpops, e.2.child_genomes_.length = 2 * e.2.child_subpop_size_) →
      scrubSubpops rc total subpops = some (subpops.map (fun e =>
        (e.1, { e.2 with child_genomes_ := e.2.child_genomes_.map (scrubGenome rc total) })))
  | [], _ => rfl
  | e :: rest, h => by
    unfold scrubSubpops
    rw [scrubGenomes_eq rc total _ _ (h e (by simp)),
      scrubSubpops_eq rc total rest (fun e he => h e (List.mem_cons_of_mem _ he))]
    rfl

theorem isFixed_leaves (rc : Mutation → Int) (total : Int) (m : Mutation)
    (h : isFixed rc total m = true) : leavesRegistry rc total m = true := by
  simp only [isFixed, Bool.and_eq_true, Bool.not_eq_true', decide_eq_false_iff_not,
    decide_eq_true_eq] at h
  simp [leavesRegistry, h.2]

theorem removeFixed_returns (pop : Population) (generation : Int) (hsize : ChildBanksSized pop) :
    ∃ kept fixed removed result,
      pop.RemoveFixedMutations generation = some result ∧
      (kept ++ removed).Perm pop.mutation_registry_ ∧
      (∀ m ∈ kept, leavesRegistry pop.reference_count_ pop.total_genome_count_ m = false) ∧
      (∀ m ∈ removed, leavesRegistry pop.reference_count_ pop.total_genome_count_ m = true) ∧
      fixed.Perm (pop.mutation_registry_.filter
        (isFixed pop.reference_count_ pop.total_genome_count_)) ∧
      PosSorted fixed ∧
      result.mutation_registry_ = kept ∧
      result.substitutions_ =
        pop.substitutions_ ++ fixed.map (fun m => Substitution.mk m generation) ∧
      result.subpops = (if fixed = [] then pop.subpops
        else scrubbed pop.reference_count_ pop.total_genome_count_ pop.subpops) ∧
      result.reference_count_ = pop.reference_count_ ∧
      result.total_genome_count_ = pop.total_genome_count_ := by
  obtain ⟨kept, fx, rm, e, hp, hk, hr, hf, hs⟩ :=
    registryLoop_spec pop.reference_count_ pop.total_genome_count_
      (pop.mutation_registry_.length + 1) [] pop.mutation_registry_ [] [] (by omega)
  simp only [List.nil_append, List.length_nil] at e hf
  have hfx : fx.Perm (pop.mutation_registry_.filter
      (isFixed pop.reference_count_ pop.total_genome_count_)) := by
    refine hf.trans ?_
    have h1 : (kept.filter (isFixed pop.reference_count_ pop.total_genome_count_)) = [] := by
      rw [List.filter_eq_nil_iff]
      intro m hm hfx
      have := hk m hm
      rw [isFixed_leaves _ _ m hfx] at this
      cases this
    have h2 := hp.filter (isFixed pop.reference_count_ pop.total_genome_count_)
    rw [List.filter_append, h1, List.nil_append] at h2
    exact h2
  unfold Population.RemoveFixedMutations
  rw [e]
  simp only
  by_cases hnil : fx = []
  · subst hnil
    exact ⟨kept, [], rm, _, rfl, hp, hk, hr, hfx, hs (by simp [PosSorted]), rfl, by simp,
      by simp, rfl, rfl⟩
  · have hpos : fx.length > 0 := List.length_pos.mpr hnil
    rw [if_pos hpos, scrubSubpops_eq _ _ _ hsize]
    exact ⟨kept, fx, rm, _, rfl, hp, hk, hr, hfx, hs (by simp [PosSorted]), rfl, rfl,
      by simp [hnil, scrubbed], rfl, rfl⟩

theorem tally_returns (pop : Population) (hsize : ChildBanksSized pop) :
    ∃ tallied, pop.TallyMutationReferences = some tallied ∧
      (∀ m ∈ pop.mutation_registry_, tallied.reference_count_ m = (handleCount pop m : Int)) ∧
      tallied.total_genome_count_ = ((nonNullChildGenomes pop).length : Int) ∧
      tallied.subpops = pop.subpops ∧ tallied.mutation_registry_ = pop.mutation_registry_ ∧
      tallied.substitutions_ = pop.substitutions_ := by
  unfold Population.TallyMutationReferences
  simp only
  rw [tally_foldlM pop.subpops _ hsize]
  refine ⟨_, rfl, ?_, ?_, rfl, rfl, rfl⟩
  · intro m hm
    simp only
    rw [(foldl_tallyStep m _ _).1]
    simp only
    rw [zero_foldl m _ _ hm]
    simp [handleCount, nonNullChildGenomes, allChildGenomes]
  · simp only
    rw [(foldl_tallyStep ⟨0, 0⟩ _ _).2]
    simp [nonNullChildGenomes, allChildGenomes]

theorem sum_count_le (m : Mutation) : ∀ (gs : List Genome),
    (∀ g ∈ gs, g.mutations_.Nodup) → (gs.map (fun g => g.mutations_.count m)).sum ≤ gs.length
  | [], _ => by simp
  | g :: rest, h => by
    have h1 : g.mutations_.count m ≤ 1 :=
      List.nodup_iff_count_le_one.mp (h g (by simp)) m
    have h2 := sum_count_le m rest (fun g hg => h g (List.mem_cons_of_mem _ hg))
    simp only [List.map_cons, List.sum_cons, List.length_cons]
    omega

theorem sum_count_pos (m : Mutation) : ∀ (gs : List Genome),
    0 < (gs.map (fun g => g.mutations_.count m)).sum ↔ ∃ g ∈ gs, m ∈ g.mutations_
  | [] => by simp
  | g :: rest => by
    have ih := sum_count_pos m rest
    simp only [List.map_cons, List.sum_cons, List.mem_cons, exists_eq_or_imp]
    rw [← ih, ← List.count_pos_iff]
    omega

theorem sum_count_one (m : Mutation) : ∀ (gs : List Genome),
    (∀ g ∈ gs, g.mutations_.count m = 1) → (gs.map (fun g => g.mutations_.count m)).sum = gs.length
  | [], _ => by simp
  | g :: rest, h => by
    have h1 := h g (by simp)
    have h2 := sum_count_one m rest (fun g hg => h g (List.mem_cons_of_mem _ hg))
    simp only [List.map_cons, List.sum_cons, List.length_cons]
    omega

theorem scrubGenome_is_null (rc : Mutation → Int) (total : Int) (g : Genome) :
    (scrubGenome rc total g).is_null_ = g.is_null_ := by
  unfold scrubGenome Genome.RemoveFixedMutations
  split <;> rfl

theorem nonNull_scrubbed (rc : Mutation → Int) (total : Int) (pop result : Population)
    (h : result.subpops = scrubbed rc total pop.subpops) :
    nonNullChildGenomes result = (nonNullChildGenomes pop).map (scrubGenome rc total) := by
  unfold nonNullChildGenomes allChildGenomes
  rw [h, scrubbed, List.map_map]
  have e : ∀ (l : List (Int × Subpopulation)),
      (l.map ((fun e : Int × Subpopulation => e.2.child_genomes_) ∘
        (fun e => (e.1, { e.2 with
          child_genomes_ := e.2.child_genomes_.map (scrubGenome rc total) })))).flatten =
        ((l.map (fun e => e.2.child_genomes_)).flatten).map (scrubGenome rc total) := by
    intro l
    induction l with
    | nil => rfl
    | cons x rest ih => simp [ih]
  rw [e, List.filter_map]
  congr 1
  apply List.filter_congr
  intro g _
  simp [scrubGenome_is_null]

theorem tallyAndRemoveFixed_returns (pop : Population) (generation : Int)
    (hsize : ChildBanksSized pop) :
    ∃ result fixed,
      pop.tallyAndRemoveFixed generation = some result ∧
      (∀ m ∈ pop.mutation_registry_, result.reference_count_ m = (handleCount pop m : Int)) ∧
      result.total_genome_count_ = ((nonNullChildGenomes pop).length : Int) ∧
      (∀ m, m ∈ result.mutation_registry_ ↔ (m ∈ pop.mutation_registry_ ∧
        leavesRegistry result.reference_count_ result.total_genome_count_ m = false)) ∧
      fixed.Perm (pop.mutation_registry_.filter
        (isFixed result.reference_count_ result.total_genome_count_)) ∧
      PosSorted fixed ∧
      result.substitutions_ =
        pop.substitutions_ ++ fixed.map (fun m => Substitution.mk m generation) ∧
      result.subpops = (if fixed = [] then pop.subpops
        else scrubbed result.reference_count_ result.total_genome_count_ pop.subpops) := by
  obtain ⟨tallied, ht, hrc, htot, hsub, hreg, hlog⟩ := tally_returns pop hsize
  have hsize2 : ChildBanksSized tallied := by
    unfold ChildBanksSized; rw [hsub]; exact hsize
  obtain ⟨kept, fixed, removed, result, hr, hp, hk, hrm, hf, hs, e1, e2, e3, e4, e5⟩ :=
    removeFixed_returns tallied generation hsize2
  refine ⟨result, fixed, ?_, ?_, ?_, ?_, ?_, hs, ?_, ?_⟩
  · unfold Population.tallyAndRemoveFixed
    rw [ht]
    exact hr
  · rw [e4]; exact hrc
  · rw [e5]; exact htot
  · intro m
    rw [e1, e4, e5, ← hreg]
    constructor
    · intro hm
      exact ⟨hp.subset (List.mem_append_left _ hm), hk m hm⟩
    · rintro ⟨hm, hl⟩
      rcases List.mem_append.mp (hp.symm.subset hm) with h | h
      · exact h
      · rw [hrm m h] at hl; cases hl
  · rw [e4, e5, ← hreg]; exact hf
  · rw [e2, hlog]
  · rw [e3, e4, e5, hsub]

theorem mem_nonNull_is_null (pop : Population) (g : Genome) (h : g ∈ nonNullChildGenomes pop) :
    g.is_null_ = false := by
  unfold nonNullChildGenomes at h
  have := (List.mem_filter.mp h).2
  simpa using this

theorem nonNull_of_subpops_eq (pop result : Population) (h : result.subpops = pop.subpops) :
    nonNullChildGenomes result = nonNullChildGenomes pop := by
  unfold nonNullChildGenomes allChildGenomes
  rw [h]

theorem scrubGenome_mutations (rc : Mutation → Int) (total : Int) (g : Genome)
    (h : g.is_null_ = false) :
    (scrubGenome rc total g).mutations_ = g.mutations_.filter (fun m => rc m ≠ total) := by
  unfold scrubGenome Genome.RemoveFixedMutations
  simp [h]


/-! ## The generation of the children -/

theorem store_census (pop : Population) (subpop index : Nat) (s : CrossoverState) :
    (pop.store subpop index s).census = pop.census := by
  unfold Population.store
  cases h : pop.subpops[subpop]? with
  | none => rfl
  | some entry =>
    simp only [Population.census]
    rw [List.map_set]
    exact list_set_of_getElem? _ _ _ (by simp [h])

theorem crossover_census (pop : Population) (subpop source_subpop c : Nat) (sid : Int)
    (p1 p2 : Nat) (chrom : Chromosome) (gen : Int) (sex : IndividualSex) (coin : Bool) :
    (∀ r, pop.CrossoverMutation subpop source_subpop c sid p1 p2 chrom gen sex coin =
      .returned r → r.1.census = pop.census) ∧
    (∀ e r, pop.CrossoverMutation subpop source_subpop c sid p1 p2 chrom gen sex coin =
      .terminated e r → r.1.census = pop.census) := by
  unfold Population.CrossoverMutation
  cases pop.subpops[subpop]? with
  | none => simp
  | some target =>
    cases pop.subpops[source_subpop]? with
    | none => simp
    | some source =>
      simp only
      cases target.2.child_genomes_[c]? with
      | none => simp
      | some child =>
        cases source.2.parent_genomes_[p1]? with
        | none => simp
        | some g1 =>
          cases source.2.parent_genomes_[p2]? with
          | none => simp
          | some g2 =>
            simp only
            cases SLiM.CrossoverMutation child g1 g2 pop.mutation_registry_ sid chrom gen sex
                coin with
            | terminated e s =>
              refine ⟨fun r h => (by cases h), fun e r h => ?_⟩
              cases h
              exact store_census _ _ _ _
            | undefined => exact ⟨fun r h => (by cases h), fun e r h => (by cases h)⟩
            | returned s =>
              refine ⟨fun r h => ?_, fun e r h => (by cases h)⟩
              cases h
              exact store_census _ _ _ _

theorem crossoverCall_same (st : EvolveState) (subpop source_subpop : Nat) (c sid p1 p2 : Int)
    (chrom : Chromosome) (gen : Int) (sex : IndividualSex) (coin : Bool) :
    (∀ s, crossoverCall st subpop source_subpop c sid p1 p2 chrom gen sex coin = .returned s →
      s.events = st.events ∧ SameCounters st s) ∧
    (∀ e s, crossoverCall st subpop source_subpop c sid p1 p2 chrom gen sex coin =
      .terminated e s → s.events = st.events ∧ SameCounters st s) := by
  unfold crossoverCall
  split
  · exact ⟨fun s h => (by cases h), fun e s h => (by cases h)⟩
  · have hc := crossover_census st.pop subpop source_subpop c.toNat sid p1.toNat p2.toNat chrom
      gen sex coin
    cases hx : st.pop.CrossoverMutation subpop source_subpop c.toNat sid p1.toNat p2.toNat
        chrom gen sex coin with
    | terminated e r =>
      refine ⟨fun s h => (by cases h), fun e' s h => ?_⟩
      cases h
      exact ⟨rfl, rfl, rfl, rfl, hc.2 e r hx⟩
    | undefined => exact ⟨fun s h => (by cases h), fun e s h => (by cases h)⟩
    | returned r =>
      refine ⟨fun s h => ?_, fun e s h => (by cases h)⟩
      cases h
      exact ⟨rfl, rfl, rfl, rfl, hc.1 r hx⟩

theorem sameCounters_refl (st : EvolveState) : SameCounters st st := ⟨rfl, rfl, rfl, rfl⟩

theorem sameCounters_trans {a b c : EvolveState} (h1 : SameCounters a b)
    (h2 : SameCounters b c) : SameCounters a c :=
  ⟨h2.1.trans h1.1, h2.2.1.trans h1.2.1, h2.2.2.1.trans h1.2.2.1, h2.2.2.2.trans h1.2.2.2⟩

theorem onePass_facts (kind : ChildKind) (subpop source_subpop : Nat) (id gen : Int)
    (mcb ccb : List SLiMScriptBlock) (m : Mating) (st : EvolveState) (nts : Int) :
    match onePass kind subpop source_subpop id gen mcb ccb m st nts with
    | .terminated _ s => s.events = st.events ∧ SameCounters st s
    | .undefined => True
    | .redraw s => SameCounters st s ∧ s.pop = st.pop ∧
        ∃ c p, s.events = st.events ++ [.redraw c id p]
    | .rejected s => SameCounters st s ∧
        ∃ r, s.events = st.events ++ [.child r] ∧ r.accepted = false ∧
          r.source_subpop_id = id ∧ SecondParent r ∧
          (kind = .asexual → r.child_index = st.child_count) ∧
          r.selfed = (decide (kind ≠ ChildKind.male) && decide (nts > 0))
    | .kept s selfed => SameCounters st s ∧
        selfed = (decide (kind ≠ ChildKind.male) && decide (nts > 0)) ∧
        ∃ r, s.events = st.events ++ [.child r] ∧ r.accepted = true ∧
          r.source_subpop_id = id ∧ SecondParent r ∧
          (kind = .asexual → r.child_index = st.child_count) ∧
          r.selfed = selfed := by
  unfold onePass
  cases h1 : st.pop.subpops[subpop]? with
  | none => trivial
  | some target =>
    cases h2 : st.pop.subpops[source_subpop]? with
    | none => trivial
    | some source =>
      simp only
      generalize hsecond : (if (decide (kind ≠ ChildKind.male) && decide (nts > 0)) = true then
          CallResult.returned m.parent1
        else if mcb.length > 0 then
          (ApplyMateChoiceCallbacks Double.round m.parent1 target.2 source.2 mcb m.mate_choice).1
        else CallResult.returned m.parent2) = second
      cases second with
      | terminated e => exact ⟨rfl, sameCounters_refl st⟩
      | returned parent2 =>
        have hself : (decide (kind ≠ ChildKind.male) && decide (nts > 0)) = true →
            parent2 = m.parent1 := by
          intro hsel
          rw [if_pos hsel] at hsecond
          cases hsecond
          rfl
        simp only
        by_cases hp : parent2 = -1
        · rw [if_pos hp]
          exact ⟨sameCounters_refl st, rfl, _, _, rfl⟩
        · rw [if_neg hp]
          generalize hci : kind.child_index st target.2.child_first_male_index_ = child_index
          have hidx : kind = .asexual → child_index = st.child_count := by
            intro hk; subst hk; exact hci.symm
          have c1 := crossoverCall_same st subpop source_subpop (2 * child_index) id
            (2 * m.parent1) (2 * m.parent1 + 1) m.chromosome1 gen kind.sex m.g_rng_bool1
          cases hx1 : crossoverCall st subpop source_subpop (2 * child_index) id
              (2 * m.parent1) (2 * m.parent1 + 1) m.chromosome1 gen kind.sex m.g_rng_bool1 with
          | terminated e s => exact c1.2 e s hx1
          | undefined => trivial
          | returned st1 =>
            obtain ⟨he1, hs1⟩ := c1.1 st1 hx1
            simp only
            have c2 := crossoverCall_same st1 subpop source_subpop (2 * child_index + 1) id
              (2 * parent2) (2 * parent2 + 1) m.chromosome2 gen kind.sex m.g_rng_bool2
            cases hx2 : crossoverCall st1 subpop source_subpop (2 * child_index + 1) id
                (2 * parent2) (2 * parent2 + 1) m.chromosome2 gen kind.sex m.g_rng_bool2 with
            | terminated e s =>
              obtain ⟨he2, hs2⟩ := c2.2 e s hx2
              exact ⟨he2.trans he1, sameCounters_trans hs1 hs2⟩
            | undefined => trivial
            | returned st2 =>
              obtain ⟨he2, hs2⟩ := c2.1 st2 hx2
              have hs := sameCounters_trans hs1 hs2
              simp only
              generalize (if ccb.length > 0 then (ApplyModifyChildCallbacks ccb m.modify_child).1
                else CallResult.returned true) = verdict
              cases verdict with
              | terminated e => exact ⟨he2.trans he1, hs⟩
              | returned generate_child =>
                simp only
                cases generate_child with
                | false =>
                  rw [if_neg (by simp)]
                  refine ⟨hs, ⟨child_index, id, m.parent1, parent2,
                    decide (kind ≠ ChildKind.male) && decide (nts > 0), kind.sex, false⟩,
                    ?_, rfl, rfl, ⟨hp, hself⟩, hidx, rfl⟩
                  simp only [he2, he1]
                | true =>
                  rw [if_pos rfl]
                  refine ⟨hs, rfl, ⟨child_index, id, m.parent1, parent2,
                    decide (kind ≠ ChildKind.male) && decide (nts > 0), kind.sex, true⟩,
                    ?_, rfl, rfl, ⟨hp, hself⟩, hidx, rfl⟩
                  simp only [he2, he1]

theorem onePass_extends (kind : ChildKind) (subpop source_subpop : Nat) (id gen : Int)
    (mcb ccb : List SLiMScriptBlock) (m : Mating) (st : EvolveState) (nts : Int) :
    match onePass kind subpop source_subpop id gen mcb ccb m st nts with
    | .terminated _ s => st.events <+: s.events
    | .undefined => True
    | .redraw s => st.events <+: s.events
    | .rejected s => st.events <+: s.events
    | .kept s _ => st.events <+: s.events := by
  have h := onePass_facts kind subpop source_subpop id gen mcb ccb m st nts
  cases hx : onePass kind subpop source_subpop id gen mcb ccb m st nts with
  | terminated e s => rw [hx] at h; simp only at h ⊢; rw [h.1]
  | undefined => trivial
  | redraw s =>
    rw [hx] at h; simp only at h ⊢
    obtain ⟨_, _, c, p, he⟩ := h
    rw [he]; exact List.prefix_append _ _
  | rejected s =>
    rw [hx] at h; simp only at h ⊢
    obtain ⟨_, r, he, _⟩ := h
    rw [he]; exact List.prefix_append _ _
  | kept s selfed =>
    rw [hx] at h; simp only at h ⊢
    obtain ⟨_, _, r, he, _⟩ := h
    rw [he]; exact List.prefix_append _ _

theorem advance_events (kind : ChildKind) (s : EvolveState) :
    (kind.advance s).events = s.events := by
  cases kind <;> rfl

theorem matingLoop_extends (kind : ChildKind) (subpop source_subpop : Nat) (id limit gen : Int)
    (mcb ccb : List SLiMScriptBlock) : ∀ (matings : List Mating) (st : EvolveState)
    (count nts : Int) (s : EvolveState),
    (matingLoop kind subpop source_subpop id limit gen mcb ccb matings st count nts).reached
      (fun a => a.1) = some s → st.events <+: s.events
  | [], st, count, nts, s, h => by
    unfold matingLoop at h
    split at h <;> simp only [Run.reached, Option.some.injEq] at h <;> rw [← h]
  | m :: rest, st, count, nts, s, h => by
    unfold matingLoop at h
    split at h
    · have hp := onePass_extends kind subpop source_subpop id gen mcb ccb m st nts
      cases hx : onePass kind subpop source_subpop id gen mcb ccb m st nts with
      | terminated e s1 =>
        rw [hx] at h hp
        simp only [Run.reached, Option.some.injEq] at h hp
        rw [← h]; exact hp
      | undefined =>
        rw [hx] at h
        simp [Run.reached] at h
      | redraw s1 =>
        rw [hx] at h hp
        simp only at h hp
        exact hp.trans (matingLoop_extends kind subpop source_subpop id limit gen mcb ccb rest
          s1 count nts s h)
      | rejected s1 =>
        rw [hx] at h hp
        simp only at h hp
        exact hp.trans (matingLoop_extends kind subpop source_subpop id limit gen mcb ccb rest
          s1 count nts s h)
      | kept s1 selfed =>
        rw [hx] at h hp
        simp only at h hp
        have := matingLoop_extends kind subpop source_subpop id limit gen mcb ccb rest
          (kind.advance s1) (count + 1) (if selfed then nts - 1 else nts) s h
        rw [advance_events] at this
        exact hp.trans this
    · simp only [Run.reached, Option.some.injEq] at h
      rw [← h]

theorem generateFromSource_extends (sex_enabled : Bool) (sex_ratio : Double)
    (subpop source_subpop : Nat) (id : Int) (selfing_fraction : Double) (n gen : Int)
    (mcb ccb : List SLiMScriptBlock) (matings : List Mating) (st s : EvolveState)
    (h : (generateFromSource sex_enabled sex_ratio subpop source_subpop id selfing_fraction n
      gen mcb ccb matings st).reached (fun a => a.1) = some s) :
    st.events <+: s.events := by
  unfold generateFromSource at h
  simp only at h
  split at h
  · split at h
    · simp only [Run.reached, Option.some.injEq] at h; rw [← h]
    · split at h
      · simp only [Run.reached, Option.some.injEq] at h; rw [← h]
      · cases hx : matingLoop .female subpop source_subpop id
            (n - lround (Double.round (Double.ofInt n * sex_ratio))) gen mcb ccb matings st 0
            (lround (Double.round (Double.ofInt n * selfing_fraction))) with
        | terminated e s1 =>
          rw [hx] at h
          simp only [Run.reached, Option.some.injEq] at h
          exact matingLoop_extends _ _ _ _ _ _ _ _ _ _ _ _ s (by rw [hx]; simp [Run.reached, h])
        | undefined => rw [hx] at h; simp [Run.reached] at h
        | pending s1 =>
          rw [hx] at h
          simp only [Run.reached, Option.some.injEq] at h
          exact matingLoop_extends _ _ _ _ _ _ _ _ _ _ _ _ s (by rw [hx]; simp [Run.reached, h])
        | returned a =>
          obtain ⟨st1, migrant_count, nts1, matings1⟩ := a
          rw [hx] at h
          simp only at h
          have p1 : st.events <+: st1.events :=
            matingLoop_extends _ _ _ _ _ _ _ _ _ _ _ _ st1 (by rw [hx]; simp [Run.reached])
          cases hy : matingLoop .male subpop source_subpop id
              (n - lround (Double.round (Double.ofInt n * sex_ratio)) + lround (Double.round (Double.ofInt n * sex_ratio)))
              gen mcb ccb matings1 st1 migrant_count nts1 with
          | terminated e s2 =>
            rw [hy] at h
            simp only [Run.reached, Option.some.injEq] at h
            exact p1.trans (matingLoop_extends _ _ _ _ _ _ _ _ _ _ _ _ s
              (by rw [hy]; simp [Run.reached, h]))
          | undefined => rw [hy] at h; simp [Run.reached] at h
          | pending s2 =>
            rw [hy] at h
            simp only [Run.reached, Option.some.injEq] at h
            exact p1.trans (matingLoop_extends _ _ _ _ _ _ _ _ _ _ _ _ s
              (by rw [hy]; simp [Run.reached, h]))
          | returned b =>
            obtain ⟨st2, c2, n2, matings2⟩ := b
            rw [hy] at h
            simp only [Run.reached, Option.some.injEq] at h
            exact p1.trans (matingLoop_extends _ _ _ _ _ _ _ _ _ _ _ _ s
              (by rw [hy]; simp [Run.reached, h]))
  · cases hx : matingLoop .asexual subpop source_subpop id n gen mcb ccb matings st 0
        (lround (Double.round (Double.ofInt n * selfing_fraction))) with
    | terminated e s1 =>
      rw [hx] at h
      simp only [Run.reached, Option.some.injEq] at h
      exact matingLoop_extends _ _ _ _ _ _ _ _ _ _ _ _ s (by rw [hx]; simp [Run.reached, h])
    | undefined => rw [hx] at h; simp [Run.reached] at h
    | pending s1 =>
      rw [hx] at h
      simp only [Run.reached, Option.some.injEq] at h
      exact matingLoop_extends _ _ _ _ _ _ _ _ _ _ _ _ s (by rw [hx]; simp [Run.reached, h])
    | returned a =>
      obtain ⟨st1, c1, n1, matings1⟩ := a
      rw [hx] at h
      simp only [Run.reached, Option.some.injEq] at h
      exact matingLoop_extends _ _ _ _ _ _ _ _ _ _ _ _ s (by rw [hx]; simp [Run.reached, h])

theorem migrantLoop_extends (sex_enabled : Bool) (sex_ratio : Double) (subpop : Nat)
    (num_migrants : List Nat) (gen : Int) (mcb ccb : List SLiMScriptBlock) :
    ∀ (fractions : List (Int × Double)) (pop_count : Nat) (matings : List Mating)
      (st s : EvolveState),
      (migrantLoop sex_enabled sex_ratio subpop num_migrants gen mcb ccb fractions pop_count
        matings st).reached (fun a => a.1) = some s → st.events <+: s.events
  | [], _, _, st, s, h => by
    simp only [migrantLoop, Run.reached, Option.some.injEq] at h
    rw [← h]
  | pair :: rest, pop_count, matings, st, s, h => by
    unfold migrantLoop at h
    simp only at h
    cases hp : st.pop.SubpopulationWithID pair.1 with
    | none =>
      rw [hp] at h
      simp only [Run.reached, Option.some.injEq] at h
      rw [← h]
    | some source_subpop =>
      rw [hp] at h
      simp only at h
      cases hs : st.pop.subpops[source_subpop]? with
      | none => rw [hs] at h; simp [Run.reached] at h
      | some source =>
        cases hn : num_migrants[pop_count]? with
        | none => rw [hs, hn] at h; simp [Run.reached] at h
        | some n =>
          rw [hs, hn] at h
          simp only at h
          cases hx : generateFromSource sex_enabled sex_ratio subpop source_subpop pair.1
              source.2.selfing_fraction_ n gen mcb ccb matings st with
          | terminated e s1 =>
            rw [hx] at h
            simp only [Run.reached, Option.some.injEq] at h
            exact generateFromSource_extends _ _ _ _ _ _ _ _ _ _ _ _ s
              (by rw [hx]; simp [Run.reached, h])
          | undefined => rw [hx] at h; simp [Run.reached] at h
          | pending s1 =>
            rw [hx] at h
            simp only [Run.reached, Option.some.injEq] at h
            exact generateFromSource_extends _ _ _ _ _ _ _ _ _ _ _ _ s
              (by rw [hx]; simp [Run.reached, h])
          | returned a =>
            obtain ⟨st1, matings1⟩ := a
            rw [hx] at h
            simp only at h
            have p1 : st.events <+: st1.events :=
              generateFromSource_extends _ _ _ _ _ _ _ _ _ _ _ _ st1
                (by rw [hx]; simp [Run.reached])
            exact p1.trans (migrantLoop_extends sex_enabled sex_ratio subpop num_migrants gen
              mcb ccb rest (pop_count + 1) matings1 st1 s h)

theorem evolve_start (pop : Population) (id gen : Int) (mcb ccb : List SLiMScriptBlock)
    (num_migrants : List Nat) (matings : List Mating) (place : Nat)
    (subpop : Int × Subpopulation)
    (h1 : pop.SubpopulationWithID id = some place) (h2 : pop.subpops[place]? = some subpop) :
    ((subpop.2.sex_enabled_ = true ∧
        (totalMaleChildren subpop.2 ≤ 0 ∨ totalFemaleChildren subpop.2 ≤ 0)) →
      pop.EvolveSubpopulation id gen mcb ccb num_migrants matings =
        .terminated .unisexualChildPopulation (startOf pop)) ∧
    (¬ (subpop.2.sex_enabled_ = true ∧
        (totalMaleChildren subpop.2 ≤ 0 ∨ totalFemaleChildren subpop.2 ≤ 0)) →
      ¬ migrationRateSum subpop.2.migrant_fractions_ ≤ Double.ofInt 1 →
      pop.EvolveSubpopulation id gen mcb ccb num_migrants matings =
        .terminated .tooManyMigrants (startOf pop)) ∧
    (¬ (subpop.2.sex_enabled_ = true ∧
        (totalMaleChildren subpop.2 ≤ 0 ∨ totalFemaleChildren subpop.2 ≤ 0)) →
      migrationRateSum subpop.2.migrant_fractions_ ≤ Double.ofInt 1 →
      ∀ s, (pop.EvolveSubpopulation id gen mcb ccb num_migrants matings).reached
          (fun a => a) = some s →
        [EvolveEvent.multinomial (migrationRates subpop.2) subpop.2.child_subpop_size_] <+:
          s.events) := by
  have hcond : (subpop.2.sex_enabled_ = true ∧
      ((if subpop.2.sex_enabled_ = true then
          lround (Double.round (Double.ofInt subpop.2.child_subpop_size_ *
            (if subpop.2.sex_enabled_ = true then subpop.2.child_sex_ratio_
              else Double.ofInt 0)))
        else 0) ≤ 0 ∨
       (if subpop.2.sex_enabled_ = true then
          (subpop.2.child_subpop_size_ : Int) -
            (if subpop.2.sex_enabled_ = true then
              lround (Double.round (Double.ofInt subpop.2.child_subpop_size_ *
                (if subpop.2.sex_enabled_ = true then subpop.2.child_sex_ratio_
                  else Double.ofInt 0)))
            else 0)
        else 0) ≤ 0)) ↔
      (subpop.2.sex_enabled_ = true ∧
        (totalMaleChildren subpop.2 ≤ 0 ∨ totalFemaleChildren subpop.2 ≤ 0)) := by
    cases hsex : subpop.2.sex_enabled_ with
    | false => simp
    | true => simp [totalMaleChildren, totalFemaleChildren]
  unfold Population.EvolveSubpopulation
  simp only [h1, h2]
  rw [if_congr hcond rfl rfl]
  refine ⟨fun hc => ?_, fun hc hs => ?_, fun hc hs s hr => ?_⟩
  · rw [if_pos hc]; rfl
  · rw [if_neg hc, if_neg hs]; rfl
  · rw [if_neg hc, if_pos hs] at hr
    cases hx : migrantLoop subpop.2.sex_enabled_
        (if subpop.2.sex_enabled_ = true then subpop.2.child_sex_ratio_ else Double.ofInt 0)
        place num_migrants gen mcb ccb subpop.2.migrant_fractions_ 0 matings
        { pop := pop, child_count := 0, male_child_count := 0, female_child_count := 0,
          events := [EvolveEvent.multinomial (subpop.2.migrant_fractions_.map
            (fun fractions_pair => fractions_pair.2) ++
              [Double.round (Double.ofInt 1 - migrationRateSum subpop.2.migrant_fractions_)])
            subpop.2.child_subpop_size_] } with
    | terminated e s1 =>
      rw [hx] at hr
      simp only [Run.reached, Option.some.injEq] at hr
      exact migrantLoop_extends _ _ _ _ _ _ _ _ _ _ _ s (by rw [hx]; simp [Run.reached, hr])
    | undefined => rw [hx] at hr; simp [Run.reached] at hr
    | pending s1 =>
      rw [hx] at hr
      simp only [Run.reached, Option.some.injEq] at hr
      exact migrantLoop_extends _ _ _ _ _ _ _ _ _ _ _ s (by rw [hx]; simp [Run.reached, hr])
    | returned a =>
      obtain ⟨st1, matings1⟩ := a
      rw [hx] at hr
      simp only at hr
      have p1 := migrantLoop_extends _ _ _ _ _ _ _ _ _ _ _ st1
        (show (migrantLoop _ _ _ _ _ _ _ _ _ _ _).reached (fun a => a.1) = some st1 by
          rw [hx]; simp [Run.reached])
      cases ht : st1.pop.subpops[place]? with
      | none => rw [ht] at hr; simp [Run.reached] at hr
      | some target =>
        cases hn : num_migrants[subpop.2.migrant_fractions_.length]? with
        | none => rw [ht, hn] at hr; simp [Run.reached] at hr
        | some n =>
          rw [ht, hn] at hr
          simp only at hr
          cases hy : generateFromSource subpop.2.sex_enabled_
              (if subpop.2.sex_enabled_ = true then subpop.2.child_sex_ratio_
                else Double.ofInt 0)
              place place id target.2.selfing_fraction_ n gen mcb ccb matings1 st1 with
          | terminated e s2 =>
            rw [hy] at hr
            simp only [Run.reached, Option.some.injEq] at hr
            exact p1.trans (generateFromSource_extends _ _ _ _ _ _ _ _ _ _ _ _ s
              (by rw [hy]; simp [Run.reached, hr]))
          | undefined => rw [hy] at hr; simp [Run.reached] at hr
          | pending s2 =>
            rw [hy] at hr
            simp only [Run.reached, Option.some.injEq] at hr
            exact p1.trans (generateFromSource_extends _ _ _ _ _ _ _ _ _ _ _ _ s
              (by rw [hy]; simp [Run.reached, hr]))
          | returned b =>
            obtain ⟨st2, matings2⟩ := b
            rw [hy] at hr
            simp only at hr
            have p2 := generateFromSource_extends _ _ _ _ _ _ _ _ _ _ _ _ st2
              (show (generateFromSource _ _ _ _ _ _ _ _ _ _ _ _).reached (fun a => a.1) =
                some st2 by rw [hy]; simp [Run.reached])
            cases hf : st2.pop.subpops[place]? with
            | none => rw [hf] at hr; simp [Run.reached] at hr
            | some final =>
              rw [hf] at hr
              simp only [Run.reached, Option.some.injEq] at hr
              rw [← hr]
              exact p1.trans p2

theorem sexTyping_afterDraw (sex : IndividualSex) (c p1 p2 : GenomeType) (e : Termination)
    (h : sexTyping sex c p1 p2 = .error e) : e.afterDraw = true := by
  cases sex <;> cases c <;> cases p1 <;> cases p2 <;> simp [sexTyping] at h <;> subst h <;> rfl

theorem crossoverMutation_afterDraw (child g1 g2 : Genome) (reg : List Mutation) (sid : Int)
    (chrom : Chromosome) (gen : Int) (sex : IndividualSex) (coin : Bool) (e : Termination)
    (s : CrossoverState)
    (h : SLiM.CrossoverMutation child g1 g2 reg sid chrom gen sex coin = .terminated e s) :
    e.afterDraw = true := by
  unfold SLiM.CrossoverMutation at h
  cases ht : sexTyping sex child.genome_type_ g1.genome_type_ g2.genome_type_ with
  | error e1 =>
    rw [ht] at h
    simp only [Outcome.terminated.injEq] at h
    rw [← h.1]
    exact sexTyping_afterDraw _ _ _ _ _ ht
  | ok r =>
    obtain ⟨u, d⟩ := r
    rw [ht] at h
    simp only at h
    split at h
    · split at h
      · split at h
        · cases h; rfl
        · cases h
      · split at h
        · cases h; rfl
        · cases h
    · split at h
      · cases h; rfl
      · split at h
        · cases h; rfl
        · exact absurd h (buildChild_not_terminated _ _ _ _ _ _ _ _ _ _ _)

theorem populationCrossover_afterDraw (pop : Population) (subpop source_subpop c : Nat)
    (sid : Int) (p1 p2 : Nat) (chrom : Chromosome) (gen : Int) (sex : IndividualSex)
    (coin : Bool) (e : Termination) (r : Population × List Draw)
    (h : pop.CrossoverMutation subpop source_subpop c sid p1 p2 chrom gen sex coin =
      .terminated e r) : e.afterDraw = true := by
  unfold Population.CrossoverMutation at h
  cases h1 : pop.subpops[subpop]? with
  | none => rw [h1] at h; cases h
  | some target =>
    cases h2 : pop.subpops[source_subpop]? with
    | none => rw [h1, h2] at h; cases h
    | some source =>
      rw [h1, h2] at h
      simp only at h
      cases h3 : target.2.child_genomes_[c]? with
      | none => rw [h3] at h; cases h
      | some child =>
        cases h4 : source.2.parent_genomes_[p1]? with
        | none => rw [h3, h4] at h; cases h
        | some g1 =>
          cases h5 : source.2.parent_genomes_[p2]? with
          | none => rw [h3, h4, h5] at h; cases h
          | some g2 =>
            rw [h3, h4, h5] at h
            simp only at h
            cases hx : SLiM.CrossoverMutation child g1 g2 pop.mutation_registry_ sid chrom gen
                sex coin with
            | terminated e1 s =>
              rw [hx] at h
              simp only [Outcome.terminated.injEq] at h
              rw [← h.1]
              exact crossoverMutation_afterDraw _ _ _ _ _ _ _ _ _ _ _ hx
            | undefined => rw [hx] at h; cases h
            | returned s => rw [hx] at h; cases h

theorem crossoverCall_afterDraw (st : EvolveState) (subpop source_subpop : Nat)
    (c sid p1 p2 : Int) (chrom : Chromosome) (gen : Int) (sex : IndividualSex) (coin : Bool)
    (e : Termination) (s : EvolveState)
    (h : crossoverCall st subpop source_subpop c sid p1 p2 chrom gen sex coin =
      .terminated e s) : e.afterDraw = true := by
  unfold crossoverCall at h
  split at h
  · cases h
  · cases hx : st.pop.CrossoverMutation subpop source_subpop c.toNat sid p1.toNat p2.toNat
        chrom gen sex coin with
    | terminated e1 r =>
      rw [hx] at h
      simp only [Outcome.terminated.injEq] at h
      rw [← h.1]
      exact populationCrossover_afterDraw _ _ _ _ _ _ _ _ _ _ _ _ _ hx
    | undefined => rw [hx] at h; cases h
    | returned r => rw [hx] at h; cases h

theorem assessWeights_afterDraw {round : Double → Double} : ∀ (w : List ScriptFloat) (sum : Double) (pc : Int)
    (e : Termination), assessWeights round w sum pc = .terminated e → e.afterDraw = true
  | [], _, _, _, h => by simp [assessWeights] at h
  | .notFinite :: _, _, _, _, h => by
    simp only [assessWeights, CallResult.terminated.injEq] at h
    rw [← h]; rfl
  | .finite x :: rest, sum, pc, e, h => by
    unfold assessWeights at h
    split at h
    · simp only [CallResult.terminated.injEq] at h
      rw [← h]; rfl
    · exact assessWeights_afterDraw rest _ _ e h

theorem drawFromWeights_afterDraw {round : Double → Double} (w : List ScriptFloat) (n : Nat) (answers : MateChoiceAnswers)
    (e : Termination) (h : (drawFromWeights round w n answers).1 = .terminated e) :
    e.afterDraw = true := by
  unfold drawFromWeights at h
  cases hx : assessWeights round w (Double.ofInt 0) 0 with
  | terminated e1 =>
    rw [hx] at h
    simp only [CallResult.terminated.injEq] at h
    rw [← h]
    exact assessWeights_afterDraw _ _ _ _ hx
  | returned r =>
    obtain ⟨sum, pc⟩ := r
    rw [hx] at h
    simp only at h
    split at h
    · simp only [CallResult.terminated.injEq] at h
      rw [← h]; rfl
    · split at h <;> cases h

theorem mateChoiceLoop_afterDraw {round : Double → Double} (p1 : Int) (sex_enabled : Bool) (n : Nat)
    (answers : MateChoiceAnswers) : ∀ (cbs : List SLiMScriptBlock) (k : Nat)
    (w : List ScriptFloat) (modified : Bool) (events : List MateChoiceEvent) (e : Termination),
    (mateChoiceLoop round p1 sex_enabled n answers cbs k w modified events).1 = .terminated e →
      e.afterDraw = true
  | [], k, w, modified, events, e, h => by
    unfold mateChoiceLoop at h
    split at h
    · exact drawFromWeights_afterDraw _ _ _ _ h
    · split at h <;> cases h
  | cb :: rest, k, w, modified, events, e, h => by
    unfold mateChoiceLoop at h
    split at h
    · simp only at h
      split at h
      · exact mateChoiceLoop_afterDraw p1 sex_enabled n answers rest _ _ _ _ e h
      · split at h
        · cases h
        · split at h
          · exact mateChoiceLoop_afterDraw p1 sex_enabled n answers rest _ _ _ _ e h
          · simp only [CallResult.terminated.injEq] at h
            rw [← h]; rfl
      · simp only [CallResult.terminated.injEq] at h
        rw [← h]; rfl
    · exact mateChoiceLoop_afterDraw p1 sex_enabled n answers rest _ _ _ _ e h

theorem modifyChildLoop_afterDraw (answers : Nat → ScriptValue) :
    ∀ (cbs : List SLiMScriptBlock) (k : Nat) (events : List Nat) (e : Termination),
    (modifyChildLoop answers cbs k events).1 = .terminated e → e.afterDraw = true
  | [], _, _, _, h => by simp [modifyChildLoop] at h
  | cb :: rest, k, events, e, h => by
    unfold modifyChildLoop at h
    split at h
    · split at h
      · split at h
        · cases h
        · exact modifyChildLoop_afterDraw answers rest _ _ e h
      · simp only [CallResult.terminated.injEq] at h
        rw [← h]; rfl
    · exact modifyChildLoop_afterDraw answers rest _ _ e h

theorem onePass_afterDraw (kind : ChildKind) (subpop source_subpop : Nat) (id gen : Int)
    (mcb ccb : List SLiMScriptBlock) (m : Mating) (st : EvolveState) (nts : Int)
    (e : Termination) (s : EvolveState)
    (h : onePass kind subpop source_subpop id gen mcb ccb m st nts = .terminated e s) :
    e.afterDraw = true := by
  unfold onePass at h
  cases h1 : st.pop.subpops[subpop]? with
  | none => rw [h1] at h; cases h
  | some target =>
    cases h2 : st.pop.subpops[source_subpop]? with
    | none => rw [h1, h2] at h; cases h
    | some source =>
      rw [h1, h2] at h
      simp only at h
      split at h
      · rename_i e1 hsec
        simp only [Pass.terminated.injEq] at h
        rw [← h.1]
        split at hsec
        · cases hsec
        · split at hsec
          · exact mateChoiceLoop_afterDraw _ _ _ _ _ _ _ _ _ _ hsec
          · cases hsec
      · split at h
        · cases h
        · split at h
          · rename_i e1 s1 hx
            simp only [Pass.terminated.injEq] at h
            rw [← h.1]
            exact crossoverCall_afterDraw _ _ _ _ _ _ _ _ _ _ _ _ _ hx
          · cases h
          · split at h
            · rename_i e1 s1 hx
              simp only [Pass.terminated.injEq] at h
              rw [← h.1]
              exact crossoverCall_afterDraw _ _ _ _ _ _ _ _ _ _ _ _ _ hx
            · cases h
            · split at h
              · rename_i e1 hv
                simp only [Pass.terminated.injEq] at h
                rw [← h.1]
                split at hv
                · exact modifyChildLoop_afterDraw _ _ _ _ _ hv
                · cases hv
              · split at h <;> cases h

theorem matingLoop_afterDraw (kind : ChildKind) (subpop source_subpop : Nat)
    (id limit gen : Int) (mcb ccb : List SLiMScriptBlock) : ∀ (matings : List Mating)
    (st : EvolveState) (count nts : Int) (e : Termination) (s : EvolveState),
    matingLoop kind subpop source_subpop id limit gen mcb ccb matings st count nts =
      .terminated e s → e.afterDraw = true
  | [], st, count, nts, e, s, h => by
    unfold matingLoop at h
    split at h <;> cases h
  | m :: rest, st, count, nts, e, s, h => by
    unfold matingLoop at h
    split at h
    · cases hx : onePass kind subpop source_subpop id gen mcb ccb m st nts with
      | terminated e1 s1 =>
        rw [hx] at h
        simp only [Run.terminated.injEq] at h
        rw [← h.1]
        exact onePass_afterDraw _ _ _ _ _ _ _ _ _ _ _ _ hx
      | undefined => rw [hx] at h; cases h
      | redraw s1 =>
        rw [hx] at h
        exact matingLoop_afterDraw kind subpop source_subpop id limit gen mcb ccb rest _ _ _ e
          s h
      | rejected s1 =>
        rw [hx] at h
        exact matingLoop_afterDraw kind subpop source_subpop id limit gen mcb ccb rest _ _ _ e
          s h
      | kept s1 selfed =>
        rw [hx] at h
        exact matingLoop_afterDraw kind subpop source_subpop id limit gen mcb ccb rest _ _ _ e
          s h
    · cases h

theorem generateFromSource_afterDraw (sex_enabled : Bool) (sex_ratio : Double)
    (subpop source_subpop : Nat) (id : Int) (selfing_fraction : Double) (n gen : Int)
    (mcb ccb : List SLiMScriptBlock) (matings : List Mating) (st : EvolveState)
    (e : Termination) (s : EvolveState)
    (h : generateFromSource sex_enabled sex_ratio subpop source_subpop id selfing_fraction n
      gen mcb ccb matings st = .terminated e s) : e.afterDraw = true := by
  unfold generateFromSource at h
  simp only at h
  split at h
  · split at h
    · simp only [Run.terminated.injEq] at h
      rw [← h.1]; rfl
    · split at h
      · simp only [Run.terminated.injEq] at h
        rw [← h.1]; rfl
      · split at h
        · rename_i e1 s1 hx
          simp only [Run.terminated.injEq] at h
          rw [← h.1]
          exact matingLoop_afterDraw _ _ _ _ _ _ _ _ _ _ _ _ _ _ hx
        · cases h
        · cases h
        · split at h
          · rename_i e1 s1 hx
            simp only [Run.terminated.injEq] at h
            rw [← h.1]
            exact matingLoop_afterDraw _ _ _ _ _ _ _ _ _ _ _ _ _ _ hx
          · cases h
          · cases h
          · cases h
  · split at h
    · rename_i e1 s1 hx
      simp only [Run.terminated.injEq] at h
      rw [← h.1]
      exact matingLoop_afterDraw _ _ _ _ _ _ _ _ _ _ _ _ _ _ hx
    · cases h
    · cases h
    · cases h

theorem migrantLoop_afterDraw (sex_enabled : Bool) (sex_ratio : Double) (subpop : Nat)
    (num_migrants : List Nat) (gen : Int) (mcb ccb : List SLiMScriptBlock) :
    ∀ (fractions : List (Int × Double)) (pop_count : Nat) (matings : List Mating)
      (st : EvolveState) (e : Termination) (s : EvolveState),
      migrantLoop sex_enabled sex_ratio subpop num_migrants gen mcb ccb fractions pop_count
        matings st = .terminated e s → e.afterDraw = true
  | [], _, _, _, _, _, h => by simp [migrantLoop] at h
  | pair :: rest, pop_count, matings, st, e, s, h => by
    unfold migrantLoop at h
    simp only at h
    split at h
    · simp only [Run.terminated.injEq] at h
      rw [← h.1]; rfl
    · split at h
      · split at h
        · rename_i e1 s1 hx
          simp only [Run.terminated.injEq] at h
          rw [← h.1]
          exact generateFromSource_afterDraw _ _ _ _ _ _ _ _ _ _ _ _ _ _ hx
        · cases h
        · cases h
        · exact migrantLoop_afterDraw sex_enabled sex_ratio subpop num_migrants gen mcb ccb
            rest _ _ _ e s h
      · cases h

theorem evolve_terminated (pop : Population) (id gen : Int) (mcb ccb : List SLiMScriptBlock)
    (num_migrants : List Nat) (matings : List Mating) (place : Nat)
    (subpop : Int × Subpopulation)
    (h1 : pop.SubpopulationWithID id = some place) (h2 : pop.subpops[place]? = some subpop)
    (e : Termination) (s : EvolveState)
    (h : pop.EvolveSubpopulation id gen mcb ccb num_migrants matings = .terminated e s) :
    (e = .unisexualChildPopulation ∧ s = startOf pop ∧ subpop.2.sex_enabled_ = true ∧
      (totalMaleChildren subpop.2 ≤ 0 ∨ totalFemaleChildren subpop.2 ≤ 0)) ∨
    (e = .tooManyMigrants ∧ s = startOf pop ∧
      ¬ migrationRateSum subpop.2.migrant_fractions_ ≤ Double.ofInt 1) ∨
    (e.afterDraw = true ∧ migrationRateSum subpop.2.migrant_fractions_ ≤ Double.ofInt 1) := by
  have hcond : (subpop.2.sex_enabled_ = true ∧
      ((if subpop.2.sex_enabled_ = true then
          lround (Double.round (Double.ofInt subpop.2.child_subpop_size_ *
            (if subpop.2.sex_enabled_ = true then subpop.2.child_sex_ratio_
              else Double.ofInt 0)))
        else 0) ≤ 0 ∨
       (if subpop.2.sex_enabled_ = true then
          (subpop.2.child_subpop_size_ : Int) -
            (if subpop.2.sex_enabled_ = true then
              lround (Double.round (Double.ofInt subpop.2.child_subpop_size_ *
                (if subpop.2.sex_enabled_ = true then subpop.2.child_sex_ratio_
                  else Double.ofInt 0)))
            else 0)
        else 0) ≤ 0)) ↔
      (subpop.2.sex_enabled_ = true ∧
        (totalMaleChildren subpop.2 ≤ 0 ∨ totalFemaleChildren subpop.2 ≤ 0)) := by
    cases hsex : subpop.2.sex_enabled_ with
    | false => simp
    | true => simp [totalMaleChildren, totalFemaleChildren]
  unfold Population.EvolveSubpopulation at h
  simp only [h1, h2] at h
  rw [if_congr hcond rfl rfl] at h
  by_cases hc : (subpop.2.sex_enabled_ = true ∧
        (totalMaleChildren subpop.2 ≤ 0 ∨ totalFemaleChildren subpop.2 ≤ 0))
  · rw [if_pos hc] at h
    simp only [Run.terminated.injEq] at h
    exact Or.inl ⟨h.1.symm, h.2.symm, hc⟩
  · rw [if_neg hc] at h
    by_cases hs : migrationRateSum subpop.2.migrant_fractions_ ≤ Double.ofInt 1
    · rw [if_pos hs] at h
      refine Or.inr (Or.inr ⟨?_, hs⟩)
      split at h
      · rename_i e1 s1 hx
        simp only [Run.terminated.injEq] at h
        rw [← h.1]
        exact migrantLoop_afterDraw _ _ _ _ _ _ _ _ _ _ _ _ _ hx
      · cases h
      · cases h
      · split at h
        · split at h
          · rename_i e1 s1 hx
            simp only [Run.terminated.injEq] at h
            rw [← h.1]
            exact generateFromSource_afterDraw _ _ _ _ _ _ _ _ _ _ _ _ _ _ hx
          · cases h
          · cases h
          · split at h <;> cases h
        · cases h
    · rw [if_neg hs] at h
      simp only [Run.terminated.injEq] at h
      exact Or.inr (Or.inl ⟨h.1.symm, h.2.symm, hs⟩)

theorem subpopulationPlace_getElem? (id : Int) : ∀ (l : List (Int × Subpopulation))
    (start place : Nat), subpopulationPlace id l start = some place →
    start ≤ place ∧ ∃ e, l[place - start]? = some e ∧ e.1 = id
  | [], _, _, h => by simp [subpopulationPlace] at h
  | x :: rest, start, place, h => by
    unfold subpopulationPlace at h
    split at h
    · rename_i hx
      simp only [Option.some.injEq] at h
      subst h
      exact ⟨le_refl _, x, by simp, hx⟩
    · obtain ⟨hle, e, he, hid⟩ := subpopulationPlace_getElem? id rest (start + 1) place h
      refine ⟨by omega, e, ?_, hid⟩
      have : place - start = (place - (start + 1)) + 1 := by omega
      rw [this, List.getElem?_cons_succ]
      exact he

theorem subpopulationWithID_getElem? (pop : Population) (id : Int) (place : Nat)
    (h : pop.SubpopulationWithID id = some place) :
    ∃ e, pop.subpops[place]? = some e ∧ e.1 = id := by
  obtain ⟨_, e, he, hid⟩ := subpopulationPlace_getElem? id pop.subpops 0 place h
  exact ⟨e, by simpa using he, hid⟩

theorem lround_nearest (x : Double) :
    (0 ≤ x.num → 2 * x.num - x.den < 2 * lround x * x.den ∧
      2 * lround x * x.den ≤ 2 * x.num + x.den) ∧
    (x.num < 0 → 2 * x.num - x.den ≤ 2 * lround x * x.den ∧
      2 * lround x * x.den < 2 * x.num + x.den) := by
  have hd : (0 : Int) < 2 * x.den := by
    have := x.den_pos
    omega
  constructor
  · intro h0
    have e : lround x = (2 * x.num + x.den) / (2 * x.den) := by
      unfold lround; rw [if_pos h0]
    have l1 := Int.ediv_mul_le (2 * x.num + x.den) (ne_of_gt hd)
    have l2 := Int.lt_ediv_add_one_mul_self (2 * x.num + x.den) hd
    rw [e]
    constructor <;> nlinarith
  · intro h0
    have e : lround x = -((2 * (-x.num) + x.den) / (2 * x.den)) := by
      unfold lround; rw [if_neg (by omega)]
    have l1 := Int.ediv_mul_le (2 * (-x.num) + x.den) (ne_of_gt hd)
    have l2 := Int.lt_ediv_add_one_mul_self (2 * (-x.num) + x.den) hd
    rw [e]
    constructor <;> nlinarith

theorem childRecords_append : ∀ (a b : List EvolveEvent),
    childRecords (a ++ b) = childRecords a ++ childRecords b
  | [], b => rfl
  | .child r :: rest, b => by
    show r :: childRecords (rest ++ b) = r :: childRecords rest ++ childRecords b
    rw [childRecords_append rest b]; rfl
  | .multinomial _ _ :: rest, b => by
    show childRecords (rest ++ b) = childRecords rest ++ childRecords b
    exact childRecords_append rest b
  | .redraw _ _ _ :: rest, b => by
    show childRecords (rest ++ b) = childRecords rest ++ childRecords b
    exact childRecords_append rest b

theorem acceptedChildren_append (a b : List EvolveEvent) :
    acceptedChildren (a ++ b) = acceptedChildren a ++ acceptedChildren b := by
  simp [acceptedChildren, childRecords_append]

theorem matingLoop_asexual (subpop source_subpop : Nat) (id limit gen : Int)
    (mcb ccb : List SLiMScriptBlock) : ∀ (matings : List Mating) (st : EvolveState)
    (count nts : Int) (st' : EvolveState) (count' nts' : Int) (rest : List Mating),
    matingLoop .asexual subpop source_subpop id limit gen mcb ccb matings st count nts =
      .returned (st', count', nts', rest) → count ≤ limit →
    st'.child_count = st.child_count + (limit - count) ∧
    st'.male_child_count = st.male_child_count ∧
    st'.female_child_count = st.female_child_count ∧
    st'.pop.census = st.pop.census ∧
    ∃ added, st'.events = st.events ++ added ∧
      (acceptedChildren added).map (fun r => (r.child_index, r.source_subpop_id, r.selfed)) =
        (List.range (limit - count).toNat).map
          (fun (i : Nat) => (st.child_count + (i : Int), id, decide ((i : Int) < nts))) ∧
      (∀ r ∈ childRecords added, st.child_count ≤ r.child_index ∧
        r.child_index < st.child_count + (limit - count) ∧ SecondParent r ∧
        r.source_subpop_id = id) ∧
      KeptStay (childRecords added)
  | [], st, count, nts, st', count', nts', rest, h, hle => by
    unfold matingLoop at h
    split at h
    · cases h
    · simp only [Run.returned.injEq, Prod.mk.injEq] at h
      obtain ⟨rfl, _, _, _⟩ := h
      have e : limit - count = 0 := by omega
      refine ⟨by omega, rfl, rfl, rfl, [], by simp, ?_, by simp [childRecords],
        by simp [childRecords, KeptStay]⟩
      simp [e, acceptedChildren, childRecords]
  | m :: tail, st, count, nts, st', count', nts', rest, h, hle => by
    unfold matingLoop at h
    split at h
    · rename_i hlt
      have hf := onePass_facts .asexual subpop source_subpop id gen mcb ccb m st nts
      cases hx : onePass .asexual subpop source_subpop id gen mcb ccb m st nts with
      | terminated e s => rw [hx] at h; cases h
      | undefined => rw [hx] at h; cases h
      | redraw s =>
        rw [hx] at h hf
        simp only at h hf
        obtain ⟨hs, _, c, p, hev⟩ := hf
        obtain ⟨h1, h2, h3, h4, added, h5, h6, h7, h8⟩ := matingLoop_asexual subpop
          source_subpop id limit gen mcb ccb tail s count nts st' count' nts' rest h hle
        refine ⟨by rw [h1, hs.1], by rw [h2, hs.2.1], by rw [h3, hs.2.2.1],
          by rw [h4, hs.2.2.2], .redraw c id p :: added, by rw [h5, hev]; simp, ?_, ?_, ?_⟩
        · rw [hs.1] at h6
          simpa [acceptedChildren, childRecords] using h6
        · rw [hs.1] at h7
          simpa [childRecords] using h7
        · simpa [childRecords] using h8
      | rejected s =>
        rw [hx] at h hf
        simp only at h hf
        obtain ⟨hs, r, hev, hacc, hsrc, hp2, hidx, _⟩ := hf
        obtain ⟨h1, h2, h3, h4, added, h5, h6, h7, h8⟩ := matingLoop_asexual subpop
          source_subpop id limit gen mcb ccb tail s count nts st' count' nts' rest h hle
        rw [hs.1] at h1 h6 h7
        refine ⟨h1, by rw [h2, hs.2.1], by rw [h3, hs.2.2.1],
          by rw [h4, hs.2.2.2], .child r :: added, by rw [h5, hev]; simp, ?_, ?_, ?_⟩
        · simpa [acceptedChildren, childRecords, hacc] using h6
        · intro x hm
          simp only [childRecords, List.mem_cons] at hm
          rcases hm with hm | hm
          · subst hm
            exact ⟨by rw [hidx trivial], by rw [hidx trivial]; omega, hp2, hsrc⟩
          · exact h7 x hm
        · simp only [childRecords, KeptStay, List.pairwise_cons]
          exact ⟨fun later _ ha => (by rw [hacc] at ha; cases ha), h8⟩
      | kept s selfed =>
        rw [hx] at h hf
        simp only at h hf
        obtain ⟨hs, hselfed, r, hev, hacc, hsrc, hp2, hidx, hrs⟩ := hf
        obtain ⟨h1, h2, h3, h4, added, h5, h6, h7, h8⟩ := matingLoop_asexual subpop
          source_subpop id limit gen mcb ccb tail (ChildKind.asexual.advance s) (count + 1)
          (if selfed then nts - 1 else nts) st' count' nts' rest h (by omega)
        have hadv : (ChildKind.asexual.advance s).child_count = st.child_count + 1 := by
          simp [ChildKind.advance, hs.1]
        rw [hadv] at h1 h6 h7
        have hsel : selfed = decide (nts > 0) := by
          rw [hselfed]; simp
        obtain ⟨n, hn⟩ : ∃ n : Nat, (limit - (count + 1)).toNat = n := ⟨_, rfl⟩
        have hn1 : (limit - count).toNat = n + 1 := by omega
        refine ⟨by rw [h1]; omega, by rw [h2]; exact hs.2.1, by rw [h3]; exact hs.2.2.1,
          by rw [h4]; exact hs.2.2.2, .child r :: added, ?_, ?_, ?_, ?_⟩
        · rw [h5]
          show (ChildKind.asexual.advance s).events ++ added = _
          rw [advance_events, hev]; simp
        · simp only [acceptedChildren, childRecords, List.filter_cons, hacc, if_true,
            List.map_cons]
          rw [hn1, List.range_succ_eq_map, List.map_cons, List.map_map]
          congr 1
          · rw [hidx trivial, hrs, hsel, hsrc]; simp
          · have h6' := h6
            simp only [acceptedChildren] at h6'
            rw [h6', hn]
            apply List.map_congr_left
            intro i _
            simp only [Function.comp, Prod.mk.injEq, true_and]
            refine ⟨by push_cast; omega, ?_⟩
            rw [hsel]
            by_cases hpos : nts > 0
            · simp only [hpos, decide_True, if_true, decide_eq_decide]
              push_cast; omega
            · simp only [hpos, decide_False, Bool.false_eq_true, if_false, decide_eq_decide]
              push_cast; omega
        · intro x hm
          simp only [childRecords, List.mem_cons] at hm
          rcases hm with hm | hm
          · subst hm
            exact ⟨by rw [hidx trivial], by rw [hidx trivial]; omega, hp2, hsrc⟩
          · obtain ⟨b1, b2, b3, b4⟩ := h7 x hm
            exact ⟨by omega, by omega, b3, b4⟩
        · simp only [childRecords, KeptStay, List.pairwise_cons]
          refine ⟨fun later hl _ => ?_, h8⟩
          have := (h7 later hl).1
          rw [hidx trivial]; omega
    · rename_i hlt
      simp only [Run.returned.injEq, Prod.mk.injEq] at h
      obtain ⟨rfl, _, _, _⟩ := h
      have e : limit - count = 0 := by omega
      refine ⟨by omega, rfl, rfl, rfl, [], by simp, ?_, by simp [childRecords],
        by simp [childRecords, KeptStay]⟩
      simp [e, acceptedChildren, childRecords]

theorem find?_census (id : Int) : ∀ (l : List (Int × Subpopulation)) (start place : Nat)
    (e : Int × Subpopulation), subpopulationPlace id l start = some place →
    l[place - start]? = some e →
    (l.map (fun e => (e.1, e.2.selfing_fraction_))).find? (fun x => x.1 = id) =
      some (e.1, e.2.selfing_fraction_)
  | [], _, _, _, h, _ => by simp [subpopulationPlace] at h
  | x :: rest, start, place, e, h, he => by
    unfold subpopulationPlace at h
    split at h
    · rename_i hx
      simp only [Option.some.injEq] at h
      subst h
      simp only [Nat.sub_self, List.getElem?_cons_zero, Option.some.injEq] at he
      subst he
      simp [hx]
    · rename_i hx
      have hle := (subpopulationPlace_getElem? id rest (start + 1) place h).1
      have : place - start = (place - (start + 1)) + 1 := by omega
      rw [this, List.getElem?_cons_succ] at he
      simp only [List.map_cons, List.find?_cons]
      rw [show decide (x.1 = id) = false by simpa using hx]
      exact find?_census id rest (start + 1) place e h he

theorem selfingOf_eq (pop : Population) (id : Int) (place : Nat) (e : Int × Subpopulation)
    (h : pop.SubpopulationWithID id = some place) (he : pop.subpops[place]? = some e) :
    selfingOf pop.census id = e.2.selfing_fraction_ := by
  unfold selfingOf Population.census
  rw [find?_census id pop.subpops 0 place e h (by simpa using he)]

theorem subpopulationPlace_congr (id : Int) : ∀ (l l' : List (Int × Subpopulation))
    (start : Nat), l.map (fun e => (e.1, e.2.selfing_fraction_)) =
      l'.map (fun e => (e.1, e.2.selfing_fraction_)) →
    subpopulationPlace id l start = subpopulationPlace id l' start
  | [], [], _, _ => rfl
  | [], _ :: _, _, h => by simp at h
  | _ :: _, [], _, h => by simp at h
  | x :: rest, y :: rest', start, h => by
    simp only [List.map_cons, List.cons.injEq, Prod.mk.injEq] at h
    unfold subpopulationPlace
    rw [h.1.1, subpopulationPlace_congr id rest rest' (start + 1) h.2]

theorem subpopulationWithID_congr (pop pop' : Population) (id : Int)
    (h : pop.census = pop'.census) :
    pop.SubpopulationWithID id = pop'.SubpopulationWithID id :=
  subpopulationPlace_congr id pop.subpops pop'.subpops 0 h

theorem keptStay_append (a b : List ChildRecord) (bound : Int) (ha : KeptStay a)
    (hb : KeptStay b) (hlow : ∀ r ∈ a, r.child_index < bound)
    (hhigh : ∀ r ∈ b, bound ≤ r.child_index) : KeptStay (a ++ b) := by
  unfold KeptStay at *
  rw [List.pairwise_append]
  refine ⟨ha, hb, fun r hr later hl _ => ?_⟩
  have := hlow r hr
  have := hhigh later hl
  omega

theorem generateFromSource_asexual (sex_ratio : Double) (subpop source_subpop : Nat)
    (id : Int) (selfing_fraction : Double) (n : Nat) (gen : Int)
    (mcb ccb : List SLiMScriptBlock) (matings : List Mating) (st st' : EvolveState)
    (rest : List Mating)
    (h : generateFromSource false sex_ratio subpop source_subpop id selfing_fraction n gen
      mcb ccb matings st = .returned (st', rest)) :
    st'.child_count = st.child_count + n ∧
    st'.male_child_count = st.male_child_count ∧
    st'.female_child_count = st.female_child_count ∧
    st'.pop.census = st.pop.census ∧
    ∃ added, st'.events = st.events ++ added ∧
      (acceptedChildren added).map (fun r => (r.child_index, r.source_subpop_id, r.selfed)) =
        (List.range n).map (fun (i : Nat) => (st.child_count + (i : Int), id,
          decide ((i : Int) < lround (Double.round (Double.ofInt n * selfing_fraction))))) ∧
      (∀ r ∈ childRecords added, st.child_count ≤ r.child_index ∧
        r.child_index < st.child_count + n ∧ SecondParent r ∧ r.source_subpop_id = id) ∧
      KeptStay (childRecords added) := by
  unfold generateFromSource at h
  simp only [Bool.false_eq_true, if_false] at h
  cases hx : matingLoop .asexual subpop source_subpop id n gen mcb ccb matings st 0
      (lround (Double.round (Double.ofInt n * selfing_fraction))) with
  | terminated e s => rw [hx] at h; cases h
  | undefined => rw [hx] at h; cases h
  | pending s => rw [hx] at h; cases h
  | returned a =>
    obtain ⟨st1, c1, n1, matings1⟩ := a
    rw [hx] at h
    simp only [Run.returned.injEq, Prod.mk.injEq] at h
    obtain ⟨rfl, rfl⟩ := h
    have := matingLoop_asexual subpop source_subpop id n gen mcb ccb matings st 0
      (lround (Double.round (Double.ofInt n * selfing_fraction))) st1 c1 n1 matings1 hx (by omega)
    simpa using this

theorem drop_take_succ (num : List Nat) (k len n : Nat) (h : num[k]? = some n) :
    (num.drop k).take (len + 1) = n :: (num.drop (k + 1)).take len := by
  have hlt : k < num.length := getElem?_lt_length num k n h
  rw [List.drop_eq_getElem_cons hlt, List.take_succ_cons]
  congr 1
  rw [List.getElem?_eq_getElem hlt] at h
  exact Option.some.inj h

theorem migrantLoop_asexual (sex_ratio : Double) (subpop : Nat) (num : List Nat) (gen : Int)
    (mcb ccb : List SLiMScriptBlock) : ∀ (fractions : List (Int × Double)) (pop_count : Nat)
    (matings : List Mating) (st st' : EvolveState) (rest : List Mating),
    migrantLoop false sex_ratio subpop num gen mcb ccb fractions pop_count matings st =
      .returned (st', rest) →
    ((num.drop pop_count).take fractions.length).length = fractions.length ∧
    st'.child_count =
      st.child_count + (((num.drop pop_count).take fractions.length).sum : Nat) ∧
    st'.male_child_count = st.male_child_count ∧
    st'.female_child_count = st.female_child_count ∧
    st'.pop.census = st.pop.census ∧
    ∃ added, st'.events = st.events ++ added ∧
      (acceptedChildren added).map (fun r => (r.child_index, r.source_subpop_id, r.selfed)) =
        expectedChildren st.pop.census
          ((fractions.map Prod.fst).zip ((num.drop pop_count).take fractions.length))
          st.child_count ∧
      (∀ r ∈ childRecords added, st.child_count ≤ r.child_index ∧
        r.child_index < st'.child_count ∧ SecondParent r) ∧
      KeptStay (childRecords added)
  | [], pop_count, matings, st, st', rest, h => by
    simp only [migrantLoop, Run.returned.injEq, Prod.mk.injEq] at h
    obtain ⟨rfl, _⟩ := h
    exact ⟨by simp, by simp, rfl, rfl, rfl, [], by simp, by simp [acceptedChildren,
      childRecords, expectedChildren], by simp [childRecords], by simp [childRecords, KeptStay]⟩
  | pair :: tail, pop_count, matings, st, st', rest, h => by
    unfold migrantLoop at h
    simp only at h
    cases hp : st.pop.SubpopulationWithID pair.1 with
    | none => rw [hp] at h; cases h
    | some source_subpop =>
      rw [hp] at h
      simp only at h
      cases hs : st.pop.subpops[source_subpop]? with
      | none => rw [hs] at h; cases h
      | some source =>
        cases hn : num[pop_count]? with
        | none => rw [hs, hn] at h; cases h
        | some n =>
          rw [hs, hn] at h
          simp only at h
          cases hx : generateFromSource false sex_ratio subpop source_subpop pair.1
              source.2.selfing_fraction_ n gen mcb ccb matings st with
          | terminated e s => rw [hx] at h; cases h
          | undefined => rw [hx] at h; cases h
          | pending s => rw [hx] at h; cases h
          | returned a =>
            obtain ⟨st1, matings1⟩ := a
            rw [hx] at h
            simp only at h
            obtain ⟨g1, g2, g3, g4, added1, g5, g6, g7, g8⟩ :=
              generateFromSource_asexual sex_ratio subpop source_subpop pair.1
                source.2.selfing_fraction_ n gen mcb ccb matings st st1 matings1 hx
            obtain ⟨i1, i2, i3, i4, i5, added2, i6, i7, i8, i9⟩ :=
              migrantLoop_asexual sex_ratio subpop num gen mcb ccb tail (pop_count + 1)
                matings1 st1 st' rest h
            have hdt := drop_take_succ num pop_count tail.length n hn
            simp only [List.length_cons]
            rw [hdt]
            refine ⟨by simp [i1], ?_, by rw [i3, g2], by rw [i4, g3], by rw [i5, g4],
              added1 ++ added2, by rw [i6, g5, List.append_assoc], ?_, ?_, ?_⟩
            · rw [i2, g1]; simp only [List.sum_cons]; push_cast; omega
            · rw [acceptedChildren_append, List.map_append, g6, i7, g4, g1]
              simp only [List.map_cons, List.zip_cons_cons, expectedChildren]
              rw [selfingOf_eq st.pop pair.1 source_subpop source hp hs]
              rfl
            · intro r hr
              rw [childRecords_append] at hr
              rcases List.mem_append.mp hr with hr | hr
              · obtain ⟨b1, b2, b3, _⟩ := g7 r hr
                have : st'.child_count ≥ st1.child_count := by rw [i2]; omega
                exact ⟨b1, by omega, b3⟩
              · obtain ⟨b1, b2, b3⟩ := i8 r hr
                exact ⟨by omega, b2, b3⟩
            · rw [childRecords_append]
              exact keptStay_append _ _ st1.child_count g8 i9
                (fun r hr => by rw [g1]; exact (g7 r hr).2.1) (fun r hr => (i8 r hr).1)

theorem expectedChildren_append (census : List (Int × Double)) :
    ∀ (a b : List (Int × Nat)) (start : Int),
    expectedChildren census (a ++ b) start =
      expectedChildren census a start ++
        expectedChildren census b (start + ((a.map Prod.snd).sum : Nat))
  | [], b, start => by simp [expectedChildren]
  | g :: rest, b, start => by
    have e : start + (g.2 : Int) + (((rest.map Prod.snd).sum : Nat) : Int) =
        start + (((g.2 + (rest.map Prod.snd).sum : Nat)) : Int) := by
      push_cast; ring
    show expectedChildren census (g :: (rest ++ b)) start =
      expectedChildren census (g :: rest) start ++
        expectedChildren census b (start + ((((g :: rest).map Prod.snd).sum : Nat) : Int))
    rw [expectedChildren, expectedChildren, expectedChildren_append census rest b,
      List.append_assoc, List.map_cons, List.sum_cons, e]

theorem take_succ_of_getElem? (num : List Nat) (k n : Nat) (h : num[k]? = some n) :
    num.take (k + 1) = num.take k ++ [n] := by
  rw [List.take_succ, h]; rfl

theorem evolve_asexual (pop : Population) (id gen : Int) (mcb ccb : List SLiMScriptBlock)
    (num : List Nat) (matings : List Mating) (place : Nat) (subpop : Int × Subpopulation)
    (s : EvolveState)
    (h1 : pop.SubpopulationWithID id = some place) (h2 : pop.subpops[place]? = some subpop)
    (hsex : subpop.2.sex_enabled_ = false)
    (hrun : pop.EvolveSubpopulation id gen mcb ccb num matings = .returned s) :
    (num.take (subpop.2.migrant_fractions_.length + 1)).length =
      subpop.2.migrant_fractions_.length + 1 ∧
    s.child_count = ((num.take (subpop.2.migrant_fractions_.length + 1)).sum : Nat) ∧
    (acceptedChildren s.events).map (fun r => (r.child_index, r.source_subpop_id, r.selfed)) =
      expectedChildren pop.census
        ((subpop.2.migrant_fractions_.map Prod.fst ++ [id]).zip
          (num.take (subpop.2.migrant_fractions_.length + 1))) 0 ∧
    (∀ r ∈ childRecords s.events, 0 ≤ r.child_index ∧ r.child_index < s.child_count ∧
      SecondParent r) ∧
    KeptStay (childRecords s.events) := by
  unfold Population.EvolveSubpopulation at hrun
  simp only [h1, h2, hsex, Bool.false_eq_true, false_and, if_false] at hrun
  by_cases hs : migrationRateSum subpop.2.migrant_fractions_ ≤ Double.ofInt 1
  · rw [if_pos hs] at hrun
    cases hx : migrantLoop false (Double.ofInt 0) place num gen mcb ccb
        subpop.2.migrant_fractions_ 0 matings
        { pop := pop, child_count := 0, male_child_count := 0, female_child_count := 0,
          events := [EvolveEvent.multinomial (subpop.2.migrant_fractions_.map
            (fun fractions_pair => fractions_pair.2) ++
              [Double.round (Double.ofInt 1 - migrationRateSum subpop.2.migrant_fractions_)])
            subpop.2.child_subpop_size_] } with
    | terminated e s1 => rw [hx] at hrun; cases hrun
    | undefined => rw [hx] at hrun; cases hrun
    | pending s1 => rw [hx] at hrun; cases hrun
    | returned a =>
      obtain ⟨st1, matings1⟩ := a
      rw [hx] at hrun
      simp only at hrun
      obtain ⟨g1, g2, g3, g4, g5, added1, g6, g7, g8, g9⟩ :=
        migrantLoop_asexual _ _ _ _ _ _ _ _ _ _ _ _ hx
      simp only [List.drop_zero, zero_add] at g1 g2 g3 g4 g5 g6 g7 g8
      cases ht : st1.pop.subpops[place]? with
      | none => rw [ht] at hrun; cases hrun
      | some target =>
        cases hn : num[subpop.2.migrant_fractions_.length]? with
        | none => rw [ht, hn] at hrun; cases hrun
        | some n =>
          rw [ht, hn] at hrun
          simp only at hrun
          cases hy : generateFromSource false (Double.ofInt 0) place place id
              target.2.selfing_fraction_ n gen mcb ccb matings1 st1 with
          | terminated e s2 => rw [hy] at hrun; cases hrun
          | undefined => rw [hy] at hrun; cases hrun
          | pending s2 => rw [hy] at hrun; cases hrun
          | returned b =>
            obtain ⟨st2, matings2⟩ := b
            rw [hy] at hrun
            simp only at hrun
            obtain ⟨i1, i2, i3, i4, added2, i5, i6, i7, i8⟩ :=
              generateFromSource_asexual _ _ _ _ _ _ _ _ _ _ _ _ _ hy
            cases hf : st2.pop.subpops[place]? with
            | none => rw [hf] at hrun; cases hrun
            | some final =>
              rw [hf] at hrun
              simp only [Run.returned.injEq] at hrun
              subst hrun
              simp only
              have htake := take_succ_of_getElem? num _ n hn
              have hself : selfingOf pop.census id = target.2.selfing_fraction_ := by
                have hc : st1.pop.census = pop.census := g5
                rw [← hc]
                refine selfingOf_eq st1.pop id place target ?_ ht
                rw [subpopulationWithID_congr st1.pop pop id hc]
                exact h1
              rw [htake]
              have hev : st2.events = [EvolveEvent.multinomial (subpop.2.migrant_fractions_.map
                  (fun fractions_pair => fractions_pair.2) ++
                    [Double.round (Double.ofInt 1 - migrationRateSum subpop.2.migrant_fractions_)])
                  subpop.2.child_subpop_size_] ++ (added1 ++ added2) := by
                rw [i5, g6]; simp
              have hrec : childRecords st2.events =
                  childRecords added1 ++ childRecords added2 := by
                rw [hev, childRecords_append, childRecords_append]; rfl
              have hacc : acceptedChildren st2.events =
                  acceptedChildren added1 ++ acceptedChildren added2 := by
                simp only [acceptedChildren, hrec, List.filter_append]
              refine ⟨by simp [g1], ?_, ?_, ?_, ?_⟩
              · rw [i1, g2]; simp
              · rw [hacc, List.map_append, g7, i6,
                  List.zip_append (by simp [g1]), expectedChildren_append]
                congr 1
                have hsum : ((((subpop.2.migrant_fractions_.map Prod.fst).zip
                    (num.take subpop.2.migrant_fractions_.length)).map Prod.snd).sum) =
                    (num.take subpop.2.migrant_fractions_.length).sum := by
                  rw [List.map_snd_zip]
                  simp [g1]
                rw [hsum, g2]
                simp [expectedChildren, hself]
              · intro r hr
                rw [hrec] at hr
                rcases List.mem_append.mp hr with hr | hr
                · obtain ⟨b1, b2, b3⟩ := g8 r hr
                  exact ⟨b1, by rw [i1]; omega, b3⟩
                · obtain ⟨b1, b2, b3, _⟩ := i7 r hr
                  refine ⟨?_, by rw [i1]; exact b2, b3⟩
                  have : (0 : Int) ≤ st1.child_count := by rw [g2]; exact Int.natCast_nonneg _
                  omega
              · rw [hrec]
                exact keptStay_append _ _ st1.child_count g9 i8 (fun r hr => (g8 r hr).2.1)
                  (fun r hr => (i7 r hr).1)
  · rw [if_neg hs] at hrun
    cases hrun

/-- Every child in the log was generated with a second parent other than -1. -/
theorem onePass_parent2 (kind : ChildKind) (subpop source_subpop : Nat) (id gen : Int)
    (mcb ccb : List SLiMScriptBlock) (m : Mating) (st : EvolveState) (nts : Int)
    (hst : ∀ r ∈ childRecords st.events, SecondParent r) :
    match onePass kind subpop source_subpop id gen mcb ccb m st nts with
    | .terminated _ s => ∀ r ∈ childRecords s.events, SecondParent r
    | .undefined => True
    | .redraw s => ∀ r ∈ childRecords s.events, SecondParent r
    | .rejected s => ∀ r ∈ childRecords s.events, SecondParent r
    | .kept s _ => ∀ r ∈ childRecords s.events, SecondParent r := by
  have h := onePass_facts kind subpop source_subpop id gen mcb ccb m st nts
  cases hx : onePass kind subpop source_subpop id gen mcb ccb m st nts with
  | terminated e s => rw [hx] at h; simp only at h ⊢; rw [h.1]; exact hst
  | undefined => trivial
  | redraw s =>
    rw [hx] at h; simp only at h ⊢
    obtain ⟨_, _, c, p, he⟩ := h
    rw [he, childRecords_append]
    simpa [childRecords] using hst
  | rejected s =>
    rw [hx] at h; simp only at h ⊢
    obtain ⟨_, r, he, _, _, hp2, _⟩ := h
    rw [he, childRecords_append]
    intro x hm
    rcases List.mem_append.mp hm with hm | hm
    · exact hst x hm
    · simp only [childRecords, List.mem_singleton] at hm
      rw [hm]; exact hp2
  | kept s selfed =>
    rw [hx] at h; simp only at h ⊢
    obtain ⟨_, _, r, he, _, _, hp2, _⟩ := h
    rw [he, childRecords_append]
    intro x hm
    rcases List.mem_append.mp hm with hm | hm
    · exact hst x hm
    · simp only [childRecords, List.mem_singleton] at hm
      rw [hm]; exact hp2

theorem matingLoop_parent2 (kind : ChildKind) (subpop source_subpop : Nat)
    (id limit gen : Int) (mcb ccb : List SLiMScriptBlock) : ∀ (matings : List Mating)
    (st : EvolveState) (count nts : Int) (s : EvolveState),
    (∀ r ∈ childRecords st.events, SecondParent r) →
    (matingLoop kind subpop source_subpop id limit gen mcb ccb matings st count nts).reached
      (fun a => a.1) = some s → ∀ r ∈ childRecords s.events, SecondParent r
  | [], st, count, nts, s, hst, h => by
    unfold matingLoop at h
    split at h <;> simp only [Run.reached, Option.some.injEq] at h <;> rw [← h] <;> exact hst
  | m :: rest, st, count, nts, s, hst, h => by
    unfold matingLoop at h
    split at h
    · have hp := onePass_parent2 kind subpop source_subpop id gen mcb ccb m st nts hst
      cases hx : onePass kind subpop source_subpop id gen mcb ccb m st nts with
      | terminated e s1 =>
        rw [hx] at h hp
        simp only [Run.reached, Option.some.injEq] at h hp
        rw [← h]; exact hp
      | undefined =>
        rw [hx] at h
        simp [Run.reached] at h
      | redraw s1 =>
        rw [hx] at h hp
        simp only at h hp
        exact matingLoop_parent2 kind subpop source_subpop id limit gen mcb ccb rest
          s1 count nts s hp h
      | rejected s1 =>
        rw [hx] at h hp
        simp only at h hp
        exact matingLoop_parent2 kind subpop source_subpop id limit gen mcb ccb rest
          s1 count nts s hp h
      | kept s1 selfed =>
        rw [hx] at h hp
        simp only at h hp
        exact matingLoop_parent2 kind subpop source_subpop id limit gen mcb ccb rest
          (kind.advance s1) (count + 1) (if selfed then nts - 1 else nts) s
          (by rw [advance_events]; exact hp) h
    · simp only [Run.reached, Option.some.injEq] at h
      rw [← h]; exact hst

theorem generateFromSource_parent2 (sex_enabled : Bool) (sex_ratio : Double)
    (subpop source_subpop : Nat) (id : Int) (selfing_fraction : Double) (n gen : Int)
    (mcb ccb : List SLiMScriptBlock) (matings : List Mating) (st s : EvolveState)
    (hst : ∀ r ∈ childRecords st.events, SecondParent r)
    (h : (generateFromSource sex_enabled sex_ratio subpop source_subpop id selfing_fraction n
      gen mcb ccb matings st).reached (fun a => a.1) = some s) :
    ∀ r ∈ childRecords s.events, SecondParent r := by
  unfold generateFromSource at h
  simp only at h
  split at h
  · split at h
    · simp only [Run.reached, Option.some.injEq] at h; rw [← h]; exact hst
    · split at h
      · simp only [Run.reached, Option.some.injEq] at h; rw [← h]; exact hst
      · cases hx : matingLoop .female subpop source_subpop id
            (n - lround (Double.round (Double.ofInt n * sex_ratio))) gen mcb ccb matings st 0
            (lround (Double.round (Double.ofInt n * selfing_fraction))) with
        | terminated e s1 =>
          rw [hx] at h
          simp only [Run.reached, Option.some.injEq] at h
          exact matingLoop_parent2 _ _ _ _ _ _ _ _ _ _ _ _ s hst
            (by rw [hx]; simp [Run.reached, h])
        | undefined => rw [hx] at h; simp [Run.reached] at h
        | pending s1 =>
          rw [hx] at h
          simp only [Run.reached, Option.some.injEq] at h
          exact matingLoop_parent2 _ _ _ _ _ _ _ _ _ _ _ _ s hst
            (by rw [hx]; simp [Run.reached, h])
        | returned a =>
          obtain ⟨st1, migrant_count, nts1, matings1⟩ := a
          rw [hx] at h
          simp only at h
          have p1 : ∀ r ∈ childRecords st1.events, SecondParent r :=
            matingLoop_parent2 _ _ _ _ _ _ _ _ _ _ _ _ st1 hst
              (by rw [hx]; simp [Run.reached])
          cases hy : matingLoop .male subpop source_subpop id
              (n - lround (Double.round (Double.ofInt n * sex_ratio)) + lround (Double.round (Double.ofInt n * sex_ratio)))
              gen mcb ccb matings1 st1 migrant_count nts1 with
          | terminated e s2 =>
            rw [hy] at h
            simp only [Run.reached, Option.some.injEq] at h
            exact matingLoop_parent2 _ _ _ _ _ _ _ _ _ _ _ _ s p1
              (by rw [hy]; simp [Run.reached, h])
          | undefined => rw [hy] at h; simp [Run.reached] at h
          | pending s2 =>
            rw [hy] at h
            simp only [Run.reached, Option.some.injEq] at h
            exact matingLoop_parent2 _ _ _ _ _ _ _ _ _ _ _ _ s p1
              (by rw [hy]; simp [Run.reached, h])
          | returned b =>
            obtain ⟨st2, c2, n2, matings2⟩ := b
            rw [hy] at h
            simp only [Run.reached, Option.some.injEq] at h
            exact matingLoop_parent2 _ _ _ _ _ _ _ _ _ _ _ _ s p1
              (by rw [hy]; simp [Run.reached, h])
  · cases hx : matingLoop .asexual subpop source_subpop id n gen mcb ccb matings st 0
        (lround (Double.round (Double.ofInt n * selfing_fraction))) with
    | terminated e s1 =>
      rw [hx] at h
      simp only [Run.reached, Option.some.injEq] at h
      exact matingLoop_parent2 _ _ _ _ _ _ _ _ _ _ _ _ s hst
        (by rw [hx]; simp [Run.reached, h])
    | undefined => rw [hx] at h; simp [Run.reached] at h
    | pending s1 =>
      rw [hx] at h
      simp only [Run.reached, Option.some.injEq] at h
      exact matingLoop_parent2 _ _ _ _ _ _ _ _ _ _ _ _ s hst
        (by rw [hx]; simp [Run.reached, h])
    | returned a =>
      obtain ⟨st1, c1, n1, matings1⟩ := a
      rw [hx] at h
      simp only [Run.reached, Option.some.injEq] at h
      exact matingLoop_parent2 _ _ _ _ _ _ _ _ _ _ _ _ s hst
        (by rw [hx]; simp [Run.reached, h])

theorem migrantLoop_parent2 (sex_enabled : Bool) (sex_ratio : Double) (subpop : Nat)
    (num_migrants : List Nat) (gen : Int) (mcb ccb : List SLiMScriptBlock) :
    ∀ (fractions : List (Int × Double)) (pop_count : Nat) (matings : List Mating)
      (st s : EvolveState), (∀ r ∈ childRecords st.events, SecondParent r) →
      (migrantLoop sex_enabled sex_ratio subpop num_migrants gen mcb ccb fractions pop_count
        matings st).reached (fun a => a.1) = some s →
      ∀ r ∈ childRecords s.events, SecondParent r
  | [], _, _, st, s, hst, h => by
    simp only [migrantLoop, Run.reached, Option.some.injEq] at h
    rw [← h]; exact hst
  | pair :: rest, pop_count, matings, st, s, hst, h => by
    unfold migrantLoop at h
    simp only at h
    cases hp : st.pop.SubpopulationWithID pair.1 with
    | none =>
      rw [hp] at h
      simp only [Run.reached, Option.some.injEq] at h
      rw [← h]; exact hst
    | some source_subpop =>
      rw [hp] at h
      simp only at h
      cases hs : st.pop.subpops[source_subpop]? with
      | none => rw [hs] at h; simp [Run.reached] at h
      | some source =>
        cases hn : num_migrants[pop_count]? with
        | none => rw [hs, hn] at h; simp [Run.reached] at h
        | some n =>
          rw [hs, hn] at h
          simp only at h
          cases hx : generateFromSource sex_enabled sex_ratio subpop source_subpop pair.1
              source.2.selfing_fraction_ n gen mcb ccb matings st with
          | terminated e s1 =>
            rw [hx] at h
            simp only [Run.reached, Option.some.injEq] at h
            exact generateFromSource_parent2 _ _ _ _ _ _ _ _ _ _ _ _ s hst
              (by rw [hx]; simp [Run.reached, h])
          | undefined => rw [hx] at h; simp [Run.reached] at h
          | pending s1 =>
            rw [hx] at h
            simp only [Run.reached, Option.some.injEq] at h
            exact generateFromSource_parent2 _ _ _ _ _ _ _ _ _ _ _ _ s hst
              (by rw [hx]; simp [Run.reached, h])
          | returned a =>
            obtain ⟨st1, matings1⟩ := a
            rw [hx] at h
            simp only at h
            have p1 : ∀ r ∈ childRecords st1.events, SecondParent r :=
              generateFromSource_parent2 _ _ _ _ _ _ _ _ _ _ _ _ st1 hst
                (by rw [hx]; simp [Run.reached])
            exact migrantLoop_parent2 sex_enabled sex_ratio subpop num_migrants gen
              mcb ccb rest (pop_count + 1) matings1 st1 s p1 h

theorem evolve_parent2 (pop : Population) (id gen : Int) (mcb ccb : List SLiMScriptBlock)
    (num_migrants : List Nat) (matings : List Mating) (s : EvolveState)
    (h : (pop.EvolveSubpopulation id gen mcb ccb num_migrants matings).reached (fun a => a) =
      some s) : ∀ r ∈ childRecords s.events, SecondParent r := by
  cases h1 : pop.SubpopulationWithID id with
  | none =>
    unfold Population.EvolveSubpopulation at h
    simp only [h1, Run.reached, Option.some.injEq] at h
    rw [← h]; simp [childRecords]
  | some place =>
    obtain ⟨subpop, h2, _⟩ := subpopulationWithID_getElem? pop id place h1
    have hcond : (subpop.2.sex_enabled_ = true ∧
        ((if subpop.2.sex_enabled_ = true then
            lround (Double.round (Double.ofInt subpop.2.child_subpop_size_ *
              (if subpop.2.sex_enabled_ = true then subpop.2.child_sex_ratio_
                else Double.ofInt 0)))
          else 0) ≤ 0 ∨
         (if subpop.2.sex_enabled_ = true then
            (subpop.2.child_subpop_size_ : Int) -
              (if subpop.2.sex_enabled_ = true then
                lround (Double.round (Double.ofInt subpop.2.child_subpop_size_ *
                  (if subpop.2.sex_enabled_ = true then subpop.2.child_sex_ratio_
                    else Double.ofInt 0)))
              else 0)
          else 0) ≤ 0)) ↔
        (subpop.2.sex_enabled_ = true ∧
          (totalMaleChildren subpop.2 ≤ 0 ∨ totalFemaleChildren subpop.2 ≤ 0)) := by
      cases hsex : subpop.2.sex_enabled_ with
      | false => simp
      | true => simp [totalMaleChildren, totalFemaleChildren]
    unfold Population.EvolveSubpopulation at h
    simp only [h1, h2] at h
    rw [if_congr hcond rfl rfl] at h
    by_cases hc : (subpop.2.sex_enabled_ = true ∧
          (totalMaleChildren subpop.2 ≤ 0 ∨ totalFemaleChildren subpop.2 ≤ 0))
    · rw [if_pos hc] at h
      simp only [Run.reached, Option.some.injEq] at h
      rw [← h]; simp [childRecords]
    · rw [if_neg hc] at h
      by_cases hs : migrationRateSum subpop.2.migrant_fractions_ ≤ Double.ofInt 1
      · rw [if_pos hs] at h
        have h0 : ∀ r ∈ childRecords
            ({ pop := pop, child_count := 0, male_child_count := 0, female_child_count := 0,
               events := [EvolveEvent.multinomial (subpop.2.migrant_fractions_.map
                (fun fractions_pair => fractions_pair.2) ++
                  [Double.round (Double.ofInt 1 - migrationRateSum subpop.2.migrant_fractions_)])
                subpop.2.child_subpop_size_] } : EvolveState).events, SecondParent r := by
          simp [childRecords]
        cases hx : migrantLoop subpop.2.sex_enabled_
            (if subpop.2.sex_enabled_ = true then subpop.2.child_sex_ratio_
              else Double.ofInt 0)
            place num_migrants gen mcb ccb subpop.2.migrant_fractions_ 0 matings
            { pop := pop, child_count := 0, male_child_count := 0, female_child_count := 0,
              events := [EvolveEvent.multinomial (subpop.2.migrant_fractions_.map
                (fun fractions_pair => fractions_pair.2) ++
                  [Double.round (Double.ofInt 1 - migrationRateSum subpop.2.migrant_fractions_)])
                subpop.2.child_subpop_size_] } with
        | terminated e s1 =>
          rw [hx] at h
          simp only [Run.reached, Option.some.injEq] at h
          exact migrantLoop_parent2 _ _ _ _ _ _ _ _ _ _ _ s h0
            (by rw [hx]; simp [Run.reached, h])
        | undefined => rw [hx] at h; simp [Run.reached] at h
        | pending s1 =>
          rw [hx] at h
          simp only [Run.reached, Option.some.injEq] at h
          exact migrantLoop_parent2 _ _ _ _ _ _ _ _ _ _ _ s h0
            (by rw [hx]; simp [Run.reached, h])
        | returned a =>
          obtain ⟨st1, matings1⟩ := a
          rw [hx] at h
          simp only at h
          have p1 := migrantLoop_parent2 _ _ _ _ _ _ _ _ _ _ _ st1 h0
            (show (migrantLoop _ _ _ _ _ _ _ _ _ _ _).reached (fun a => a.1) = some st1 by
              rw [hx]; simp [Run.reached])
          cases ht : st1.pop.subpops[place]? with
          | none => rw [ht] at h; simp [Run.reached] at h
          | some target =>
            cases hn : num_migrants[subpop.2.migrant_fractions_.length]? with
            | none => rw [ht, hn] at h; simp [Run.reached] at h
            | some n =>
              rw [ht, hn] at h
              simp only at h
              cases hy : generateFromSource subpop.2.sex_enabled_
                  (if subpop.2.sex_enabled_ = true then subpop.2.child_sex_ratio_
                    else Double.ofInt 0)
                  place place id target.2.selfing_fraction_ n gen mcb ccb matings1 st1 with
              | terminated e s2 =>
                rw [hy] at h
                simp only [Run.reached, Option.some.injEq] at h
                exact generateFromSource_parent2 _ _ _ _ _ _ _ _ _ _ _ _ s p1
                  (by rw [hy]; simp [Run.reached, h])
              | undefined => rw [hy] at h; simp [Run.reached] at h
              | pending s2 =>
                rw [hy] at h
                simp only [Run.reached, Option.some.injEq] at h
                exact generateFromSource_parent2 _ _ _ _ _ _ _ _ _ _ _ _ s p1
                  (by rw [hy]; simp [Run.reached, h])
              | returned b =>
                obtain ⟨st2, matings2⟩ := b
                rw [hy] at h
                simp only at h
                have p2 := generateFromSource_parent2 _ _ _ _ _ _ _ _ _ _ _ _ st2 p1
                  (show (generateFromSource _ _ _ _ _ _ _ _ _ _ _ _).reached (fun a => a.1) =
                    some st2 by rw [hy]; simp [Run.reached])
                cases hf : st2.pop.subpops[place]? with
                | none => rw [hf] at h; simp [Run.reached] at h
                | some final =>
                  rw [hf] at h
                  simp only [Run.reached, Option.some.injEq] at h
                  rw [← h]
                  exact p2
      · rw [if_neg hs] at h
        simp only [Run.reached, Option.some.injEq] at h
        rw [← h]; simp [childRecords]

theorem expectedChildren_index (census : List (Int × Double)) :
    ∀ (groups : List (Int × Nat)) (start : Int),
    (expectedChildren census groups start).map (fun x => x.1) =
      (List.range ((groups.map Prod.snd).sum)).map (fun (i : Nat) => start + (i : Int))
  | [], _ => by simp [expectedChildren]
  | g :: rest, start => by
    rw [expectedChildren, List.map_append, expectedChildren_index census rest, List.map_cons,
      List.sum_cons, List.range_add, List.map_append, List.map_map, List.map_map]
    congr 1
    apply List.map_congr_left
    intro i _
    simp only [Function.comp]
    push_cast; ring

theorem expectedChildren_source (census : List (Int × Double)) :
    ∀ (groups : List (Int × Nat)) (start : Int),
    (expectedChildren census groups start).map (fun x => x.2.1) =
      (groups.map (fun g => List.replicate g.2 g.1)).flatten
  | [], _ => by simp [expectedChildren]
  | g :: rest, start => by
    rw [expectedChildren, List.map_append, expectedChildren_source census rest, List.map_cons,
      List.flatten_cons, List.map_map]
    congr 1
    apply List.ext_getElem <;> simp

theorem expectedChildren_selfed (census : List (Int × Double)) :
    ∀ (groups : List (Int × Nat)) (start : Int),
    (expectedChildren census groups start).map (fun x => x.2.2) =
      (groups.map (fun g => selfedFlags g.2 (selfingOf census g.1))).flatten
  | [], _ => by simp [expectedChildren]
  | g :: rest, start => by
    rw [expectedChildren, List.map_append, expectedChildren_selfed census rest, List.map_cons,
      List.flatten_cons, List.map_map]
    rfl

theorem lround_selfing_bounds (n : Nat) (s : Double) (hn : n < 2 ^ 53)
    (h0 : Double.ofInt 0 ≤ s) (h1 : s ≤ Double.ofInt 1) :
    0 ≤ lround (Double.round (Double.ofInt n * s)) ∧
      lround (Double.round (Double.ofInt n * s)) ≤ n := by
  have hd : (0 : Int) < s.den := by exact_mod_cast s.den_pos
  have a0 : 0 ≤ s.num := by
    have : (Double.ofInt 0).num * s.den ≤ s.num * (Double.ofInt 0).den := h0
    simpa [Double.ofInt] using this
  have a1 : s.num ≤ s.den := by
    have : s.num * (Double.ofInt 1).den ≤ (Double.ofInt 1).num * s.den := h1
    simpa [Double.ofInt] using this
  have hnn : (0 : Int) ≤ n := Int.natCast_nonneg n
  have hnum : (Double.ofInt n * s).num = n * s.num := rfl
  have hden : ((Double.ofInt n * s).den : Int) = s.den := by
    show (((1 : Nat) * s.den : Nat) : Int) = s.den
    simp
  have hx0 : 0 ≤ (Double.ofInt n * s).num := by rw [hnum]; exact mul_nonneg hnn a0
  have hxn : Double.ofInt n * s ≤ Double.ofInt n := by
    show (Double.ofInt n * s).num * ((1 : Nat) : Int) ≤ (n : Int) * ((Double.ofInt n * s).den : Int)
    rw [hnum, hden]
    have := mul_le_mul_of_nonneg_left a1 hnn
    simpa using this
  exact ⟨lround_nonneg _ (round_nonneg _ hx0),
    lround_le_int _ n (round_nonneg _ hx0) (round_le_int _ n hn hx0 hxn)⟩

theorem map_decide_lt (n k : Nat) (h : k ≤ n) :
    (List.range n).map (fun (i : Nat) => decide ((i : Int) < (k : Int))) =
      List.replicate k true ++ List.replicate (n - k) false := by
  obtain ⟨m, rfl⟩ : ∃ m, n = k + m := ⟨n - k, by omega⟩
  rw [List.range_add, List.map_append, List.map_map]
  congr 1
  · apply List.ext_getElem
    · simp
    · intro i h1 h2
      simp at h1 ⊢
      omega
  · apply List.ext_getElem
    · simp
    · intro i h1 h2
      simp

theorem selfedFlags_eq (n : Nat) (s : Double) (hn : n < 2 ^ 53) (h0 : Double.ofInt 0 ≤ s)
    (h1 : s ≤ Double.ofInt 1) :
    ∃ k : Nat, (k : Int) = lround (Double.round (Double.ofInt n * s)) ∧ k ≤ n ∧
      selfedFlags n s = List.replicate k true ++ List.replicate (n - k) false := by
  obtain ⟨b0, b1⟩ := lround_selfing_bounds n s hn h0 h1
  refine ⟨(lround (Double.round (Double.ofInt n * s))).toNat, by omega, by omega, ?_⟩
  have e : lround (Double.round (Double.ofInt n * s)) = ((lround (Double.round (Double.ofInt n * s))).toNat : Int) := by omega
  unfold selfedFlags
  rw [e]
  exact map_decide_lt n _ (by omega)

theorem onePass_redraw (kind : ChildKind) (subpop source_subpop : Nat) (sid gen : Int)
    (mcb ccb : List SLiMScriptBlock) (m : Mating) (st : EvolveState) (nts : Int)
    (target source : Int × Subpopulation)
    (ht : st.pop.subpops[subpop]? = some target)
    (hs : st.pop.subpops[source_subpop]? = some source)
    (hcb : mcb.length > 0)
    (hnoself : (decide (kind ≠ ChildKind.male) && decide (nts > 0)) = false)
    (hret : (ApplyMateChoiceCallbacks Double.round m.parent1 target.2 source.2 mcb m.mate_choice).1 =
      .returned (-1)) :
    onePass kind subpop source_subpop sid gen mcb ccb m st nts =
      .redraw { st with events := st.events ++
        [.redraw (kind.child_index st target.2.child_first_male_index_) sid m.parent1] } := by
  unfold onePass
  simp only [ht, hs, hnoself, Bool.false_eq_true, if_false, hcb, if_true, hret]


/-! ## The mateChoice() callbacks -/

theorem mateChoiceLoop_redraw {round : Double → Double} (p1 : Int) (sex_enabled : Bool) (n : Nat)
    (answers : MateChoiceAnswers) (k : Nat) (weights : Option (List ScriptFloat))
    (hans : answers.EvaluateScriptBlock k weights = .float []) :
    ∀ (cbs : List SLiMScriptBlock) (k0 : Nat) (w : List ScriptFloat) (modified : Bool)
      (events : List MateChoiceEvent),
    ∃ added, (mateChoiceLoop round p1 sex_enabled n answers cbs k0 w modified events).2 =
        events ++ added ∧
      (∀ j x, MateChoiceEvent.evaluated j p1 x ∈ added → k0 ≤ j) ∧
      (MateChoiceEvent.evaluated k p1 weights ∈ added →
        (mateChoiceLoop round p1 sex_enabled n answers cbs k0 w modified events).1 =
            .returned (-1) ∧
          ∃ earlier, added = earlier ++ [.evaluated k p1 weights] ∧
            ∀ ev ∈ earlier, ∃ j x, ev = .evaluated j p1 x ∧ j < k)
  | [], k0, w, modified, events => by
    unfold mateChoiceLoop
    split
    · refine ⟨(drawFromWeights round w n answers).2, rfl, ?_, ?_⟩
      · intro j x hm
        unfold drawFromWeights at hm
        split at hm
        · simp at hm
        · split at hm
          · simp at hm
          · split at hm <;> simp at hm
      · intro hm
        unfold drawFromWeights at hm
        split at hm
        · simp at hm
        · split at hm
          · simp at hm
          · split at hm <;> simp at hm
    · split
      · exact ⟨[.drawMaleParent], rfl, by simp, by simp⟩
      · exact ⟨[.drawParent], rfl, by simp, by simp⟩
  | cb :: rest, k0, w, modified, events => by
    unfold mateChoiceLoop
    by_cases hact : cb.active_ = true
    · rw [if_pos hact]
      simp only
      generalize hshown : (if cb.contains_weights_ = true then some w else none) = shown
      cases ha : answers.EvaluateScriptBlock k0 shown with
      | null =>
        simp only
        obtain ⟨added, he, hidx, hk⟩ := mateChoiceLoop_redraw p1 sex_enabled n answers k weights
          hans rest (k0 + 1) w modified (events ++ [.evaluated k0 p1 shown])
        refine ⟨.evaluated k0 p1 shown :: added, by rw [he]; simp, ?_, ?_⟩
        · intro j x hm
          rcases List.mem_cons.mp hm with hm | hm
          · cases hm; exact le_refl _
          · have := hidx j x hm; omega
        · intro hm
          rcases List.mem_cons.mp hm with hm | hm
          · cases hm
            rw [ha] at hans
            cases hans
          · obtain ⟨hr, earlier, hadd, hearlier⟩ := hk hm
            refine ⟨hr, .evaluated k0 p1 shown :: earlier, by rw [hadd]; rfl, ?_⟩
            intro ev hev
            rcases List.mem_cons.mp hev with hev | hev
            · exact ⟨k0, shown, hev, by have := hidx k weights hm; omega⟩
            · exact hearlier ev hev
      | float values =>
        simp only
        by_cases hlen0 : values.length = 0
        · rw [if_pos hlen0]
          refine ⟨[.evaluated k0 p1 shown], rfl, ?_, ?_⟩
          · intro j x hm
            simp only [List.mem_singleton] at hm
            cases hm; exact le_refl _
          · intro hm
            simp only [List.mem_singleton] at hm
            exact ⟨rfl, [], by rw [hm]; rfl, by simp⟩
        · rw [if_neg hlen0]
          by_cases hlen : values.length = n
          · rw [if_pos hlen]
            obtain ⟨added, he, hidx, hk⟩ := mateChoiceLoop_redraw p1 sex_enabled n answers k
              weights hans rest (k0 + 1) values true (events ++ [.evaluated k0 p1 shown])
            refine ⟨.evaluated k0 p1 shown :: added, by rw [he]; simp, ?_, ?_⟩
            · intro j x hm
              rcases List.mem_cons.mp hm with hm | hm
              · cases hm; exact le_refl _
              · have := hidx j x hm; omega
            · intro hm
              rcases List.mem_cons.mp hm with hm | hm
              · cases hm
                rw [ha] at hans
                cases hans
                exact absurd rfl hlen0
              · obtain ⟨hr, earlier, hadd, hearlier⟩ := hk hm
                refine ⟨hr, .evaluated k0 p1 shown :: earlier, by rw [hadd]; rfl, ?_⟩
                intro ev hev
                rcases List.mem_cons.mp hev with hev | hev
                · exact ⟨k0, shown, hev, by have := hidx k weights hm; omega⟩
                · exact hearlier ev hev
          · rw [if_neg hlen]
            refine ⟨[.evaluated k0 p1 shown], rfl, ?_, ?_⟩
            · intro j x hm
              simp only [List.mem_singleton] at hm
              cases hm; exact le_refl _
            · intro hm
              simp only [List.mem_singleton] at hm
              cases hm
              rw [ha] at hans
              cases hans
              exact absurd rfl hlen0
      | void =>
        simp only
        refine ⟨[.evaluated k0 p1 shown], rfl, ?_, ?_⟩
        · intro j x hm
          simp only [List.mem_singleton] at hm
          cases hm; exact le_refl _
        · intro hm
          simp only [List.mem_singleton] at hm
          cases hm
          rw [ha] at hans
          cases hans
      | logical v =>
        simp only
        refine ⟨[.evaluated k0 p1 shown], rfl, ?_, ?_⟩
        · intro j x hm
          simp only [List.mem_singleton] at hm
          cases hm; exact le_refl _
        · intro hm
          simp only [List.mem_singleton] at hm
          cases hm
          rw [ha] at hans
          cases hans
      | integer v =>
        simp only
        refine ⟨[.evaluated k0 p1 shown], rfl, ?_, ?_⟩
        · intro j x hm
          simp only [List.mem_singleton] at hm
          cases hm; exact le_refl _
        · intro hm
          simp only [List.mem_singleton] at hm
          cases hm
          rw [ha] at hans
          cases hans
      | object v =>
        simp only
        refine ⟨[.evaluated k0 p1 shown], rfl, ?_, ?_⟩
        · intro j x hm
          simp only [List.mem_singleton] at hm
          cases hm; exact le_refl _
        · intro hm
          simp only [List.mem_singleton] at hm
          cases hm
          rw [ha] at hans
          cases hans
    · rw [if_neg hact]
      obtain ⟨added, he, hidx, hk⟩ := mateChoiceLoop_redraw p1 sex_enabled n answers k weights
        hans rest (k0 + 1) w modified events
      refine ⟨added, he, ?_, hk⟩
      intro j x hm
      have := hidx j x hm
      omega

/-! ## Runs that return -/

theorem crossoverMutation_autosomal (child g1 g2 : Genome) (reg : List Mutation) (sid : Int)
    (chrom : Chromosome) (gen : Int) (coin : Bool)
    (hc : child.genome_type_ = GenomeType.kAutosome ∧ child.is_null_ = false)
    (h1 : g1.genome_type_ = GenomeType.kAutosome ∧ g1.is_null_ = false)
    (h2 : g2.genome_type_ = GenomeType.kAutosome ∧ g2.is_null_ = false)
    (hd : DrawsInRange chrom) :
    ∃ s, CrossoverMutation child g1 g2 reg sid chrom gen .kHermaphrodite coin = .returned s ∧
      s.child_genome.genome_type_ = GenomeType.kAutosome ∧ s.child_genome.is_null_ = false := by
  have hty : sexTyping .kHermaphrodite child.genome_type_ g1.genome_type_ g2.genome_type_ =
      .ok (false, true) := by
    rw [hc.1, h1.1, h2.1]; rfl
  have hs1 : (strand_1 (swapStrands false true coin) g1 g2).is_null_ = false := by
    unfold strand_1; split
    · exact h2.2
    · exact h1.2
  have hs2 : (strand_2 (swapStrands false true coin) g1 g2).is_null_ = false := by
    unfold strand_2; split
    · exact h1.2
    · exact h2.2
  obtain ⟨s, hs⟩ := buildChild_isReturned false child
    (strand_1 (swapStrands false true coin) g1 g2) (strand_2 (swapStrands false true coin) g1 g2)
    reg (swapDraws false true) sid chrom gen hd.1 (hd.2 _)
  have hb := buildChild_returned _ _ _ _ _ _ _ _ _ _ hs
  refine ⟨s, ?_, hb.1.trans hc.1, hb.2.1.trans hc.2⟩
  unfold CrossoverMutation
  rw [hty]
  simp only [hc.2, hs1, hs2, Bool.false_eq_true, if_false, Bool.not_false, Bool.or_self,
    Bool.and_false, Bool.false_and]
  exact hs

theorem autosomal_set (l : List Genome) (i : Nat) (g : Genome) (hl : Autosomal l)
    (hg : g.genome_type_ = GenomeType.kAutosome ∧ g.is_null_ = false) :
    Autosomal (l.set i g) := by
  intro x hx
  rcases List.mem_or_eq_of_mem_set hx with h | h
  · exact hl x h
  · rw [h]; exact hg

theorem store_hermaphrodites (pop : Population) (parents subpop index : Nat)
    (s : CrossoverState) (hwf : Hermaphrodites pop parents)
    (hg : s.child_genome.genome_type_ = GenomeType.kAutosome ∧
      s.child_genome.is_null_ = false) :
    Hermaphrodites (pop.store subpop index s) parents := by
  unfold Population.store
  cases h : pop.subpops[subpop]? with
  | none => exact hwf
  | some entry =>
    intro e he
    simp only at he
    obtain ⟨ha, hb, hc⟩ := hwf entry (List.getElem?_mem h)
    rcases List.mem_or_eq_of_mem_set he with h1 | h1
    · exact hwf e h1
    · rw [h1]
      exact ⟨ha, autosomal_set _ _ _ hb hg, hc⟩

theorem store_childBank (pop : Population) (place size subpop index : Nat)
    (s : CrossoverState) (hb : ChildBank pop place size) :
    ChildBank (pop.store subpop index s) place size := by
  unfold Population.store
  cases h : pop.subpops[subpop]? with
  | none => exact hb
  | some entry =>
    obtain ⟨t, ht, hlen⟩ := hb
    unfold ChildBank
    simp only
    by_cases hp : subpop = place
    · subst hp
      rw [h] at ht
      cases ht
      have hlt : subpop < pop.subpops.length := by
        rcases List.getElem?_eq_some_iff.mp h with ⟨hlt, _⟩
        exact hlt
      refine ⟨(entry.1,
        { entry.2 with child_genomes_ := entry.2.child_genomes_.set index s.child_genome }),
        ?_, ?_⟩
      · simp [hlt]
      · simpa using hlen
    · refine ⟨t, ?_, hlen⟩
      rw [List.getElem?_set_ne hp]
      exact ht

theorem populationCrossover_returns (pop : Population) (parents subpop source_subpop : Nat)
    (c : Nat) (sid : Int) (p1 p2 : Nat) (chrom : Chromosome) (gen : Int) (coin : Bool)
    (size : Nat) (hwf : Hermaphrodites pop parents) (hb : ChildBank pop subpop size)
    (hs : source_subpop < pop.subpops.length) (hc : c < 2 * size)
    (h1 : p1 < 2 * parents) (h2 : p2 < 2 * parents) (hd : DrawsInRange chrom) :
    ∃ r, pop.CrossoverMutation subpop source_subpop c sid p1 p2 chrom gen .kHermaphrodite
        coin = .returned r ∧
      Hermaphrodites r.1 parents ∧ ChildBank r.1 subpop size := by
  obtain ⟨t, ht, hlen⟩ := hb
  have hwt := hwf t (List.getElem?_mem ht)
  obtain ⟨src, hsrc⟩ : ∃ src, pop.subpops[source_subpop]? = some src :=
    ⟨_, List.getElem?_eq_getElem hs⟩
  have hws := hwf _ (List.getElem?_mem hsrc)
  have hcl : c < t.2.child_genomes_.length := by omega
  have hp1 : p1 < src.2.parent_genomes_.length := by
    have := hws.2.2; omega
  have hp2 : p2 < src.2.parent_genomes_.length := by
    have := hws.2.2; omega
  obtain ⟨s, hrun, hg⟩ := crossoverMutation_autosomal (t.2.child_genomes_.get ⟨c, hcl⟩)
    (src.2.parent_genomes_.get ⟨p1, hp1⟩) (src.2.parent_genomes_.get ⟨p2, hp2⟩)
    pop.mutation_registry_ sid chrom gen coin
    (hwt.2.1 _ (List.get_mem _ _ _)) (hws.1 _ (List.get_mem _ _ _))
    (hws.1 _ (List.get_mem _ _ _)) hd
  refine ⟨(pop.store subpop c s, s.draws), ?_, store_hermaphrodites _ _ _ _ _ hwf hg,
    store_childBank _ _ _ _ _ _ ⟨t, ht, hlen⟩⟩
  unfold Population.CrossoverMutation
  rw [ht, hsrc]
  simp only
  rw [List.getElem?_eq_getElem hcl, List.getElem?_eq_getElem hp1, List.getElem?_eq_getElem hp2]
  simp only
  simp only [List.get_eq_getElem] at hrun
  rw [hrun]

theorem crossoverCall_returns (st : EvolveState) (parents subpop source_subpop size : Nat)
    (c sid p1 p2 : Int) (chrom : Chromosome) (gen : Int) (coin : Bool)
    (hwf : Hermaphrodites st.pop parents) (hb : ChildBank st.pop subpop size)
    (hs : source_subpop < st.pop.subpops.length)
    (hc0 : 0 ≤ c) (hc : c < 2 * size) (h10 : 0 ≤ p1) (h1 : p1 < 2 * parents)
    (h20 : 0 ≤ p2) (h2 : p2 < 2 * parents) (hd : DrawsInRange chrom) :
    ∃ s, crossoverCall st subpop source_subpop c sid p1 p2 chrom gen .kHermaphrodite coin =
        .returned s ∧
      Hermaphrodites s.pop parents ∧ ChildBank s.pop subpop size ∧
      s.pop.subpops.length = st.pop.subpops.length ∧ s.child_count = st.child_count ∧
      s.events = st.events := by
  obtain ⟨r, hr, hw, hbank⟩ := populationCrossover_returns st.pop parents subpop source_subpop
    c.toNat sid p1.toNat p2.toNat chrom gen coin size hwf hb hs (by omega) (by omega)
    (by omega) hd
  have hx : crossoverCall st subpop source_subpop c sid p1 p2 chrom gen .kHermaphrodite coin =
      .returned { st with pop := r.1 } := by
    unfold crossoverCall
    rw [if_neg (by omega), hr]
  obtain ⟨he, hsame⟩ := (crossoverCall_same st subpop source_subpop c sid p1 p2 chrom gen
    .kHermaphrodite coin).1 _ hx
  refine ⟨_, hx, hw, hbank, ?_, rfl, rfl⟩
  have := congrArg List.length hsame.2.2.2
  simpa [Population.census] using this

theorem onePass_returns (parents subpop source_subpop size : Nat) (id gen : Int) (m : Mating)
    (st : EvolveState) (nts : Int)
    (hwf : Hermaphrodites st.pop parents) (hb : ChildBank st.pop subpop size)
    (hs : source_subpop < st.pop.subpops.length)
    (hc0 : 0 ≤ st.child_count) (hc : st.child_count < size) (hm : m.InRange parents) :
    ∃ s selfed, onePass .asexual subpop source_subpop id gen [] [] m st nts = .kept s selfed ∧
      Hermaphrodites s.pop parents ∧ ChildBank s.pop subpop size ∧
      s.pop.subpops.length = st.pop.subpops.length ∧ s.child_count = st.child_count := by
  obtain ⟨h10, h1, h20, h2, hd1, hd2⟩ := hm
  obtain ⟨t, ht, hlen⟩ := hb
  obtain ⟨src, hsrc⟩ : ∃ src, st.pop.subpops[source_subpop]? = some src :=
    ⟨_, List.getElem?_eq_getElem hs⟩
  obtain ⟨parent2, hsecond, hp0, hp⟩ : ∃ parent2 : Int,
      (if (decide (ChildKind.asexual ≠ ChildKind.male) && decide (nts > 0)) = true then
        CallResult.returned m.parent1
      else if ([] : List SLiMScriptBlock).length > 0 then
        (ApplyMateChoiceCallbacks Double.round m.parent1 t.2 src.2 [] m.mate_choice).1
      else CallResult.returned m.parent2) = CallResult.returned parent2 ∧
      0 ≤ parent2 ∧ parent2 < parents := by
    by_cases hsel : (decide (ChildKind.asexual ≠ ChildKind.male) && decide (nts > 0)) = true
    · exact ⟨m.parent1, by rw [if_pos hsel], h10, h1⟩
    · exact ⟨m.parent2, by rw [if_neg hsel, if_neg (by simp)], h20, h2⟩
  obtain ⟨s1, hx1, hw1, hb1, hl1, hc1, _⟩ := crossoverCall_returns st parents subpop
    source_subpop size (2 * st.child_count) id (2 * m.parent1) (2 * m.parent1 + 1)
    m.chromosome1 gen m.g_rng_bool1 hwf ⟨t, ht, hlen⟩ hs (by omega) (by omega) (by omega)
    (by omega) (by omega) (by omega) hd1
  obtain ⟨s2, hx2, hw2, hb2, hl2, hc2, _⟩ := crossoverCall_returns s1 parents subpop
    source_subpop size (2 * st.child_count + 1) id (2 * parent2) (2 * parent2 + 1)
    m.chromosome2 gen m.g_rng_bool2 hw1 hb1 (by omega) (by omega) (by omega) (by omega)
    (by omega) (by omega) (by omega) hd2
  refine ⟨EvolveState.mk s2.pop s2.child_count s2.male_child_count s2.female_child_count
    (s2.events ++ [.child ⟨st.child_count, id, m.parent1, parent2,
      decide (ChildKind.asexual ≠ ChildKind.male) && decide (nts > 0), .kHermaphrodite, true⟩]),
    decide (ChildKind.asexual ≠ ChildKind.male) && decide (nts > 0), ?_, hw2, hb2,
    hl2.trans hl1, hc2.trans hc1⟩
  unfold onePass
  rw [ht, hsrc]
  simp only
  rw [hsecond]
  simp only
  rw [if_neg (by omega)]
  simp only [ChildKind.child_index, ChildKind.sex]
  rw [hx1]
  simp only
  rw [hx2]
  simp only [List.length_nil, gt_iff_lt, lt_self_iff_false, if_false, if_true]

theorem matingLoop_returns (parents subpop source_subpop size : Nat) (id limit gen : Int) :
    ∀ (matings : List Mating) (st : EvolveState) (count nts : Int),
    Hermaphrodites st.pop parents → ChildBank st.pop subpop size →
    source_subpop < st.pop.subpops.length → 0 ≤ st.child_count →
    st.child_count + (limit - count) ≤ size → limit - count ≤ matings.length →
    (∀ m ∈ matings, m.InRange parents) →
    ∃ st' count' nts',
      matingLoop .asexual subpop source_subpop id limit gen [] [] matings st count nts =
        .returned (st', count', nts', matings.drop (limit - count).toNat) ∧
      Hermaphrodites st'.pop parents ∧ ChildBank st'.pop subpop size ∧
      st'.pop.subpops.length = st.pop.subpops.length
  | [], st, count, nts, hwf, hb, _, _, _, hlen, _ => by
    refine ⟨st, count, nts, ?_, hwf, hb, rfl⟩
    unfold matingLoop
    rw [if_neg (by simp at hlen; omega)]
    simp
  | m :: rest, st, count, nts, hwf, hb, hs, hc0, hc, hlen, hm => by
    unfold matingLoop
    by_cases hlt : count < limit
    · rw [if_pos hlt]
      obtain ⟨s, selfed, hpass, hw1, hb1, hl1, hc1⟩ := onePass_returns parents subpop
        source_subpop size id gen m st nts hwf hb hs hc0 (by omega) (hm m (by simp))
      rw [hpass]
      simp only
      have hadv : (ChildKind.asexual.advance s).pop = s.pop := rfl
      have hcount : (ChildKind.asexual.advance s).child_count = s.child_count + 1 := rfl
      obtain ⟨st', count', nts', hrun, hw2, hb2, hl2⟩ := matingLoop_returns parents subpop
        source_subpop size id limit gen rest (ChildKind.asexual.advance s) (count + 1)
        (if selfed = true then nts - 1 else nts) (by rw [hadv]; exact hw1)
        (by rw [hadv]; exact hb1) (by rw [hadv, hl1]; exact hs) (by rw [hcount]; omega)
        (by rw [hcount, hc1]; omega)
        (by simp only [List.length_cons, Nat.cast_add, Nat.cast_one] at hlen; omega)
        (fun x hx => hm x (List.mem_cons_of_mem _ hx))
      refine ⟨st', count', nts', ?_, hw2, hb2, by rw [hl2, hadv, hl1]⟩
      rw [hrun]
      have : (limit - count).toNat = (limit - (count + 1)).toNat + 1 := by omega
      rw [this, List.drop_succ_cons]
    · rw [if_neg hlt]
      refine ⟨st, count, nts, ?_, hwf, hb, rfl⟩
      have : (limit - count).toNat = 0 := by omega
      rw [this, List.drop_zero]

theorem generateFromSource_returns (sex_ratio : Double) (parents subpop source_subpop
    size : Nat) (id : Int) (selfing_fraction : Double) (n : Nat) (gen : Int)
    (matings : List Mating) (st : EvolveState)
    (hwf : Hermaphrodites st.pop parents) (hb : ChildBank st.pop subpop size)
    (hs : source_subpop < st.pop.subpops.length) (hc0 : 0 ≤ st.child_count)
    (hc : st.child_count + n ≤ size) (hlen : n ≤ matings.length)
    (hm : ∀ m ∈ matings, m.InRange parents) :
    ∃ st', generateFromSource false sex_ratio subpop source_subpop id selfing_fraction n gen
        [] [] matings st = .returned (st', matings.drop n) ∧
      Hermaphrodites st'.pop parents ∧ ChildBank st'.pop subpop size ∧
      st'.pop.subpops.length = st.pop.subpops.length := by
  obtain ⟨st', count', nts', hrun, hw, hb1, hl⟩ := matingLoop_returns parents subpop
    source_subpop size id n gen matings st 0
    (lround (Double.round (Double.ofInt n * selfing_fraction))) hwf hb hs hc0 (by omega) (by omega) hm
  refine ⟨st', ?_, hw, hb1, hl⟩
  unfold generateFromSource
  simp only [Bool.false_eq_true, if_false]
  rw [hrun]
  simp

theorem migrantLoop_returns (sex_ratio : Double) (parents subpop size : Nat) (num : List Nat)
    (gen : Int) : ∀ (fractions : List (Int × Double)) (pop_count : Nat)
    (matings : List Mating) (st : EvolveState),
    Hermaphrodites st.pop parents → ChildBank st.pop subpop size →
    (∀ f ∈ fractions, ∃ p, st.pop.SubpopulationWithID f.1 = some p) →
    pop_count + fractions.length ≤ num.length → 0 ≤ st.child_count →
    st.child_count + (((num.drop pop_count).take fractions.length).sum : Nat) ≤ size →
    ((num.drop pop_count).take fractions.length).sum ≤ matings.length →
    (∀ m ∈ matings, m.InRange parents) →
    ∃ st', migrantLoop false sex_ratio subpop num gen [] [] fractions pop_count matings st =
        .returned (st', matings.drop ((num.drop pop_count).take fractions.length).sum) ∧
      Hermaphrodites st'.pop parents ∧ ChildBank st'.pop subpop size
  | [], pop_count, matings, st, hwf, hb, _, _, _, _, _, _ => by
    exact ⟨st, by simp [migrantLoop], hwf, hb⟩
  | pair :: tail, pop_count, matings, st, hwf, hb, hres, hnum, hc0, hc, hlen, hm => by
    obtain ⟨source_subpop, hp⟩ := hres pair (by simp)
    obtain ⟨source, hsrc, _⟩ := subpopulationWithID_getElem? st.pop pair.1 source_subpop hp
    have hs : source_subpop < st.pop.subpops.length := getElem?_lt_length _ _ _ hsrc
    simp only [List.length_cons] at hnum
    obtain ⟨n, hn⟩ : ∃ n, num[pop_count]? = some n :=
      ⟨_, List.getElem?_eq_getElem (by omega)⟩
    have hsplit := drop_take_succ num pop_count tail.length n hn
    simp only [List.length_cons] at hc hlen ⊢
    rw [hsplit] at hc hlen ⊢
    simp only [List.sum_cons, Nat.cast_add] at hc hlen ⊢
    obtain ⟨st1, hrun1, hw1, hb1, hl1⟩ := generateFromSource_returns sex_ratio parents subpop
      source_subpop size pair.1 source.2.selfing_fraction_ n gen matings st hwf hb hs hc0
      (by omega) (by omega) hm
    obtain ⟨hcount1, _, _, hcensus1, _⟩ := generateFromSource_asexual sex_ratio subpop
      source_subpop pair.1 source.2.selfing_fraction_ n gen [] [] matings st st1 _ hrun1
    obtain ⟨st2, hrun2, hw2, hb2⟩ := migrantLoop_returns sex_ratio parents subpop size num gen
      tail (pop_count + 1) (matings.drop n) st1 hw1 hb1
      (fun f hf => by
        obtain ⟨p, hp'⟩ := hres f (List.mem_cons_of_mem _ hf)
        exact ⟨p, by rw [subpopulationWithID_congr st1.pop st.pop f.1 hcensus1]; exact hp'⟩)
      (by omega) (by omega) (by rw [hcount1]; omega)
      (by rw [List.length_drop]; omega)
      (fun x hx => hm x (List.mem_of_mem_drop hx))
    refine ⟨st2, ?_, hw2, hb2⟩
    unfold migrantLoop
    simp only
    rw [hp]
    simp only
    rw [hsrc, hn]
    simp only
    rw [hrun1]
    simp only
    rw [hrun2, List.drop_drop]

theorem evolve_returns (pop : Population) (id gen : Int) (num : List Nat)
    (matings : List Mating) (place parents : Nat) (subpop : Int × Subpopulation)
    (h1 : pop.SubpopulationWithID id = some place) (h2 : pop.subpops[place]? = some subpop)
    (hsex : subpop.2.sex_enabled_ = false)
    (hrate : migrationRateSum subpop.2.migrant_fractions_ ≤ Double.ofInt 1)
    (hwf : Hermaphrodites pop parents)
    (hbank : 2 * subpop.2.child_subpop_size_ ≤ subpop.2.child_genomes_.length)
    (hres : ∀ f ∈ subpop.2.migrant_fractions_, ∃ p, pop.SubpopulationWithID f.1 = some p)
    (hnum : subpop.2.migrant_fractions_.length + 1 ≤ num.length)
    (hsum : (num.take (subpop.2.migrant_fractions_.length + 1)).sum ≤
      subpop.2.child_subpop_size_)
    (hlen : subpop.2.child_subpop_size_ ≤ matings.length)
    (hm : ∀ m ∈ matings, m.InRange parents) :
    ∃ s, pop.EvolveSubpopulation id gen [] [] num matings = .returned s := by
  obtain ⟨natives, hn⟩ : ∃ n, num[subpop.2.migrant_fractions_.length]? = some n :=
    ⟨_, List.getElem?_eq_getElem (by omega)⟩
  rw [take_succ_of_getElem? num _ natives hn, List.sum_append, List.sum_singleton] at hsum
  obtain ⟨st1, hrun1, hw1, hb1⟩ := migrantLoop_returns (Double.ofInt 0) parents place
    subpop.2.child_subpop_size_ num gen subpop.2.migrant_fractions_ 0 matings
    { pop := pop, child_count := 0, male_child_count := 0, female_child_count := 0,
      events := [EvolveEvent.multinomial (subpop.2.migrant_fractions_.map
        (fun fractions_pair => fractions_pair.2) ++
          [Double.round (Double.ofInt 1 - migrationRateSum subpop.2.migrant_fractions_)])
        subpop.2.child_subpop_size_] }
    hwf ⟨subpop, h2, hbank⟩ hres (by omega) (le_refl _)
    (by simp only [List.drop_zero]; omega) (by simp only [List.drop_zero]; omega) hm
  obtain ⟨_, hcount1, _, _, _, _⟩ := migrantLoop_asexual (Double.ofInt 0) place num gen [] []
    subpop.2.migrant_fractions_ 0 matings _ st1 _ hrun1
  simp only [List.drop_zero] at hcount1 hrun1
  obtain ⟨target, ht, htlen⟩ := hb1
  obtain ⟨st2, hrun2, hw2, hb2, _⟩ := generateFromSource_returns (Double.ofInt 0) parents
    place place subpop.2.child_subpop_size_ id target.2.selfing_fraction_ natives gen
    (matings.drop (num.take subpop.2.migrant_fractions_.length).sum) st1 hw1
    ⟨target, ht, htlen⟩ (getElem?_lt_length _ _ _ ht) (by rw [hcount1]; omega)
    (by rw [hcount1]; omega) (by rw [List.length_drop]; omega)
    (fun x hx => hm x (List.mem_of_mem_drop hx))
  obtain ⟨final, hf, _⟩ := hb2
  unfold Population.EvolveSubpopulation
  simp only [h1, h2, hsex, Bool.false_eq_true, false_and, if_false]
  rw [if_pos hrate, hrun1]
  simp only
  rw [ht, hn]
  simp only
  rw [hrun2]
  simp only
  rw [hf]
  exact ⟨_, rfl⟩

theorem ready_returns (pop : Population) (id gen : Int) (num : List Nat)
    (matings : List Mating) (place : Nat) (subpop : Int × Subpopulation)
    (h1 : pop.SubpopulationWithID id = some place) (h2 : pop.subpops[place]? = some subpop)
    (hsex : subpop.2.sex_enabled_ = false)
    (hsum : (num.take (subpop.2.migrant_fractions_.length + 1)).sum ≤
      subpop.2.child_subpop_size_)
    (hready : ReadyToEvolve pop subpop.2 num matings) :
    ∃ s, pop.EvolveSubpopulation id gen [] [] num matings = .returned s := by
  obtain ⟨hrate, hres, hnum, hbank, hlen, parents, hwf, hm⟩ := hready
  exact evolve_returns pop id gen num matings place parents subpop h1 h2 hsex hrate hwf hbank
    hres hnum hsum hlen hm

/-! ## The callbacks, from the log of a call -/

theorem weightsAfter_nil (answers : MateChoiceAnswers) (n : Nat) (w : List ScriptFloat) :
    weightsAfter answers n w [] = w := rfl

theorem replacements_cons_none (answers : MateChoiceAnswers) (n : Nat) (ev : MateChoiceEvent)
    (log : List MateChoiceEvent)
    (h : (ev.answer answers).bind (replacesWeights n) = none) :
    replacements answers n (ev :: log) = replacements answers n log := by
  unfold replacements
  rw [List.filterMap_cons, h]

theorem replacements_cons_some (answers : MateChoiceAnswers) (n : Nat) (ev : MateChoiceEvent)
    (log : List MateChoiceEvent) (values : List ScriptFloat)
    (h : (ev.answer answers).bind (replacesWeights n) = some values) :
    replacements answers n (ev :: log) = values :: replacements answers n log := by
  unfold replacements
  rw [List.filterMap_cons, h]

theorem weightsAfter_cons_none (answers : MateChoiceAnswers) (n : Nat) (w : List ScriptFloat)
    (ev : MateChoiceEvent) (log : List MateChoiceEvent)
    (h : (ev.answer answers).bind (replacesWeights n) = none) :
    weightsAfter answers n w (ev :: log) = weightsAfter answers n w log := by
  unfold weightsAfter
  rw [replacements_cons_none answers n ev log h]

theorem weightsAfter_cons_some (answers : MateChoiceAnswers) (n : Nat) (w : List ScriptFloat)
    (ev : MateChoiceEvent) (log : List MateChoiceEvent) (values : List ScriptFloat)
    (h : (ev.answer answers).bind (replacesWeights n) = some values) :
    weightsAfter answers n w (ev :: log) = weightsAfter answers n values log := by
  unfold weightsAfter
  rw [replacements_cons_some answers n ev log values h]
  cases hl : (replacements answers n log).getLast? with
  | none =>
    rw [List.getLast?_eq_none_iff] at hl
    simp [hl]
  | some x =>
    have : replacements answers n log ≠ [] := by
      intro e; rw [e] at hl; cases hl
    obtain ⟨a, rest, e⟩ := List.exists_cons_of_ne_nil this
    rw [e] at hl ⊢
    rw [List.getLast?_cons_cons, hl]
    rfl

theorem mateChoiceLoop_nil {round : Double → Double} (p1 : Int) (sex_enabled : Bool) (n : Nat)
    (answers : MateChoiceAnswers) (k : Nat) (w : List ScriptFloat) (modified : Bool)
    (events : List MateChoiceEvent) :
    mateChoiceLoop round p1 sex_enabled n answers [] k w modified events =
      mateChoiceLoop round p1 sex_enabled n answers [] 0 w modified events := by
  unfold mateChoiceLoop
  rfl

theorem mateChoiceLoop_shape {round : Double → Double} (p1 : Int) (sex_enabled : Bool) (n : Nat)
    (answers : MateChoiceAnswers) :
    ∀ (cbs : List SLiMScriptBlock) (k : Nat) (w : List ScriptFloat) (modified : Bool)
      (events : List MateChoiceEvent),
    ∃ evals : List MateChoiceEvent,
      (∀ i ev, evals[i]? = some ev →
        ∃ j cb, k ≤ j ∧ cbs[j - k]? = some cb ∧ cb.active_ = true ∧
          ev = MateChoiceEvent.evaluated j p1
            (if cb.contains_weights_ = true then some (weightsAfter answers n w (evals.take i))
              else none)) ∧
      ((ChainCompleted answers n evals ∧
          evals.filterMap MateChoiceEvent.callback = activeCallbacks cbs k ∧
          mateChoiceLoop round p1 sex_enabled n answers cbs k w modified events =
            mateChoiceLoop round p1 sex_enabled n answers [] 0 (weightsAfter answers n w evals)
              (modified || !(replacements answers n evals).isEmpty) (events ++ evals)) ∨
       (∃ pre last v, evals = pre ++ [last] ∧ ChainCompleted answers n pre ∧
          last.answer answers = some v ∧
          (mateChoiceLoop round p1 sex_enabled n answers cbs k w modified events).2 =
            events ++ evals ∧
          ((v = .float [] ∧
              (mateChoiceLoop round p1 sex_enabled n answers cbs k w modified events).1 =
                .returned (-1)) ∨
            (∃ values, v = .float values ∧ values.length ≠ 0 ∧ values.length ≠ n ∧
              (mateChoiceLoop round p1 sex_enabled n answers cbs k w modified events).1 =
                .terminated .mateChoiceReturnLength) ∨
            (v ≠ .null ∧ (∀ values, v ≠ .float values) ∧
              (mateChoiceLoop round p1 sex_enabled n answers cbs k w modified events).1 =
                .terminated .mateChoiceReturnType))))
  | [], k, w, modified, events => by
    refine ⟨[], fun i ev h => by simp at h, Or.inl ⟨?_, rfl, ?_⟩⟩
    · intro ev hev; cases hev
    · rw [mateChoiceLoop_nil, weightsAfter_nil]
      simp [replacements]
  | cb :: rest, k, w, modified, events => by
    by_cases hact : cb.active_ = true
    · -- the callback is evaluated
      generalize hshown : (if cb.contains_weights_ = true then some w else none) = shown
      -- the continuation after an answer that does not stop the chain
      have hcont : ∀ (w1 : List ScriptFloat) (m1 : Bool),
          (answers.EvaluateScriptBlock k shown = .null ∨
            (replacesWeights n (answers.EvaluateScriptBlock k shown)).isSome = true) →
          weightsAfter answers n w [MateChoiceEvent.evaluated k p1 shown] = w1 →
          (modified || !(replacements answers n [MateChoiceEvent.evaluated k p1 shown]).isEmpty)
            = m1 →
          mateChoiceLoop round p1 sex_enabled n answers (cb :: rest) k w modified events =
            mateChoiceLoop round p1 sex_enabled n answers rest (k + 1) w1 m1
              (events ++ [.evaluated k p1 shown]) →
          ∃ evals : List MateChoiceEvent,
            (∀ i ev, evals[i]? = some ev →
              ∃ j cb', k ≤ j ∧ (cb :: rest)[j - k]? = some cb' ∧ cb'.active_ = true ∧
                ev = MateChoiceEvent.evaluated j p1
                  (if cb'.contains_weights_ = true then
                    some (weightsAfter answers n w (evals.take i)) else none)) ∧
            ((ChainCompleted answers n evals ∧
                evals.filterMap MateChoiceEvent.callback = activeCallbacks (cb :: rest) k ∧
                mateChoiceLoop round p1 sex_enabled n answers (cb :: rest) k w modified events =
                  mateChoiceLoop round p1 sex_enabled n answers [] 0 (weightsAfter answers n w evals)
                    (modified || !(replacements answers n evals).isEmpty) (events ++ evals)) ∨
             (∃ pre last v, evals = pre ++ [last] ∧ ChainCompleted answers n pre ∧
                last.answer answers = some v ∧
                (mateChoiceLoop round p1 sex_enabled n answers (cb :: rest) k w modified events).2 =
                  events ++ evals ∧
                ((v = .float [] ∧
                    (mateChoiceLoop round p1 sex_enabled n answers (cb :: rest) k w modified
                      events).1 = .returned (-1)) ∨
                  (∃ values, v = .float values ∧ values.length ≠ 0 ∧ values.length ≠ n ∧
                    (mateChoiceLoop round p1 sex_enabled n answers (cb :: rest) k w modified
                      events).1 = .terminated .mateChoiceReturnLength) ∨
                  (v ≠ .null ∧ (∀ values, v ≠ .float values) ∧
                    (mateChoiceLoop round p1 sex_enabled n answers (cb :: rest) k w modified
                      events).1 = .terminated .mateChoiceReturnType)))) := by
        intro w1 m1 hgood hw1 hm1 hloop
        obtain ⟨evals, hshow, hrest⟩ := mateChoiceLoop_shape p1 sex_enabled n answers rest
          (k + 1) w1 m1 (events ++ [.evaluated k p1 shown])
        have hwa : ∀ log, weightsAfter answers n w (.evaluated k p1 shown :: log) =
            weightsAfter answers n w1 log := by
          intro log
          cases hb : (MateChoiceEvent.answer answers (.evaluated k p1 shown)).bind
              (replacesWeights n) with
          | none =>
            rw [weightsAfter_cons_none _ _ _ _ _ hb]
            rw [← hw1, weightsAfter_cons_none _ _ _ _ _ hb, weightsAfter_nil]
          | some values =>
            rw [weightsAfter_cons_some _ _ _ _ _ values hb]
            rw [← hw1, weightsAfter_cons_some _ _ _ _ _ values hb, weightsAfter_nil]
        have hme : ∀ log, (modified ||
            !(replacements answers n (.evaluated k p1 shown :: log)).isEmpty) =
            (m1 || !(replacements answers n log).isEmpty) := by
          intro log
          cases hb : (MateChoiceEvent.answer answers (.evaluated k p1 shown)).bind
              (replacesWeights n) with
          | none =>
            rw [replacements_cons_none _ _ _ _ hb]
            rw [← hm1, replacements_cons_none _ _ _ _ hb]
            simp [replacements]
          | some values =>
            rw [replacements_cons_some _ _ _ _ values hb]
            rw [← hm1, replacements_cons_some _ _ _ _ values hb]
            simp
        have hc0 : ChainCompleted answers n [MateChoiceEvent.evaluated k p1 shown] := by
          intro ev hev v hv
          rw [List.mem_singleton.mp hev] at hv
          simp only [MateChoiceEvent.answer, Option.some.injEq] at hv
          rw [← hv]; exact hgood
        refine ⟨.evaluated k p1 shown :: evals, ?_, ?_⟩
        · intro i ev hi
          cases i with
          | zero =>
            simp only [List.getElem?_cons_zero, Option.some.injEq] at hi
            refine ⟨k, cb, le_refl _, by simp, hact, ?_⟩
            rw [← hi, List.take_zero, weightsAfter_nil, hshown]
          | succ i =>
            rw [List.getElem?_cons_succ] at hi
            obtain ⟨j, cb', hle, hcb, ha, hev⟩ := hshow i ev hi
            refine ⟨j, cb', by omega, ?_, ha, ?_⟩
            · have : j - k = (j - (k + 1)) + 1 := by omega
              rw [this, List.getElem?_cons_succ]; exact hcb
            · rw [List.take_succ_cons, hwa]; exact hev
        · rcases hrest with ⟨hcomp, hidx, heq⟩ | ⟨pre, last, v, he, hcomp, hans, hlog, hres⟩
          · refine Or.inl ⟨?_, ?_, ?_⟩
            · intro ev hev v hv
              rcases List.mem_cons.mp hev with h | h
              · exact hc0 ev (by rw [h]; simp) v hv
              · exact hcomp ev h v hv
            · rw [List.filterMap_cons]
              simp only [MateChoiceEvent.callback]
              rw [hidx, activeCallbacks, if_pos hact]
            · rw [hloop, heq, hwa, hme]
              simp
          · refine Or.inr ⟨.evaluated k p1 shown :: pre, last, v, by rw [he]; rfl, ?_, hans,
              ?_, ?_⟩
            · intro ev hev v hv
              rcases List.mem_cons.mp hev with h | h
              · exact hc0 ev (by rw [h]; simp) v hv
              · exact hcomp ev h v hv
            · rw [hloop, hlog]; simp
            · rw [hloop]; exact hres
      -- the end of the chain at this callback
      have hstop : ∀ (r : CallResult Int),
          mateChoiceLoop round p1 sex_enabled n answers (cb :: rest) k w modified events =
            (r, events ++ [.evaluated k p1 shown]) →
          ∃ pre last v, [MateChoiceEvent.evaluated k p1 shown] = pre ++ [last] ∧
            ChainCompleted answers n pre ∧ last.answer answers = some v ∧
            (mateChoiceLoop round p1 sex_enabled n answers (cb :: rest) k w modified events).2 =
              events ++ [.evaluated k p1 shown] ∧ v = answers.EvaluateScriptBlock k shown ∧
            (mateChoiceLoop round p1 sex_enabled n answers (cb :: rest) k w modified events).1 = r := by
        intro r hr
        refine ⟨[], _, _, rfl, (fun ev hev => by cases hev), rfl, (by rw [hr]), rfl, (by rw [hr])⟩
      have hfirst : ∀ i ev, [MateChoiceEvent.evaluated k p1 shown][i]? = some ev →
          ∃ j cb', k ≤ j ∧ (cb :: rest)[j - k]? = some cb' ∧ cb'.active_ = true ∧
            ev = MateChoiceEvent.evaluated j p1 (if cb'.contains_weights_ = true then
              some (weightsAfter answers n w ([MateChoiceEvent.evaluated k p1 shown].take i))
              else none) := by
        intro i ev hi
        cases i with
        | zero =>
          simp only [List.getElem?_cons_zero, Option.some.injEq] at hi
          refine ⟨k, cb, le_refl _, by simp, hact, ?_⟩
          rw [← hi, List.take_zero, weightsAfter_nil, hshown]
        | succ i => simp at hi
      have hunfold : mateChoiceLoop round p1 sex_enabled n answers (cb :: rest) k w modified events =
          (match answers.EvaluateScriptBlock k shown with
            | .null =>
              mateChoiceLoop round p1 sex_enabled n answers rest (k + 1) w modified
                (events ++ [.evaluated k p1 shown])
            | .float values =>
              if values.length = 0 then (.returned (-1), events ++ [.evaluated k p1 shown])
              else if values.length = n then
                mateChoiceLoop round p1 sex_enabled n answers rest (k + 1) values true
                  (events ++ [.evaluated k p1 shown])
              else (.terminated .mateChoiceReturnLength, events ++ [.evaluated k p1 shown])
            | _ => (.terminated .mateChoiceReturnType, events ++ [.evaluated k p1 shown])) := by
        rw [mateChoiceLoop, if_pos hact]
        simp only [hshown]
      cases ha : answers.EvaluateScriptBlock k shown with
      | null =>
        rw [ha] at hunfold
        refine hcont w modified (Or.inl ha) ?_ ?_ hunfold
        · rw [weightsAfter_cons_none _ _ _ _ _ (by simp [MateChoiceEvent.answer, ha,
            replacesWeights]), weightsAfter_nil]
        · rw [replacements_cons_none _ _ _ _ (by simp [MateChoiceEvent.answer, ha,
            replacesWeights])]
          simp [replacements]
      | float values =>
        rw [ha] at hunfold
        simp only at hunfold
        by_cases hl0 : values.length = 0
        · rw [if_pos hl0] at hunfold
          obtain ⟨pre, last, v, he, hc, hans, hlog, hv, hr⟩ := hstop _ hunfold
          refine ⟨_, hfirst, Or.inr ⟨pre, last, v, he, hc, hans, hlog, Or.inl ⟨?_, hr⟩⟩⟩
          rw [hv, ha, List.length_eq_zero.mp hl0]
        · rw [if_neg hl0] at hunfold
          by_cases hln : values.length = n
          · rw [if_pos hln] at hunfold
            have hn0 : ¬ n = 0 := fun e => hl0 (hln.trans e)
            have hne : ¬ values = [] := fun e => hl0 (by rw [e]; rfl)
            have hb : (MateChoiceEvent.answer answers (.evaluated k p1 shown)).bind
                (replacesWeights n) = some values := by
              simp [MateChoiceEvent.answer, ha, replacesWeights, hln, hn0, hne]
            refine hcont values true (Or.inr ?_) ?_ ?_ hunfold
            · rw [ha]; simp [replacesWeights, hln, hn0, hne]
            · rw [weightsAfter_cons_some _ _ _ _ _ values hb, weightsAfter_nil]
            · rw [replacements_cons_some _ _ _ _ values hb]
              simp
          · rw [if_neg hln] at hunfold
            obtain ⟨pre, last, v, he, hc, hans, hlog, hv, hr⟩ := hstop _ hunfold
            refine ⟨_, hfirst, Or.inr ⟨pre, last, v, he, hc, hans, hlog,
              Or.inr (Or.inl ⟨values, ?_, hl0, hln, hr⟩)⟩⟩
            rw [hv, ha]
      | void =>
        rw [ha] at hunfold
        obtain ⟨pre, last, v, he, hc, hans, hlog, hv, hr⟩ := hstop _ hunfold
        refine ⟨_, hfirst, Or.inr ⟨pre, last, v, he, hc, hans, hlog,
          Or.inr (Or.inr ⟨?_, ?_, hr⟩)⟩⟩ <;> rw [hv, ha] <;> simp
      | logical x =>
        rw [ha] at hunfold
        obtain ⟨pre, last, v, he, hc, hans, hlog, hv, hr⟩ := hstop _ hunfold
        refine ⟨_, hfirst, Or.inr ⟨pre, last, v, he, hc, hans, hlog,
          Or.inr (Or.inr ⟨?_, ?_, hr⟩)⟩⟩ <;> rw [hv, ha] <;> simp
      | integer x =>
        rw [ha] at hunfold
        obtain ⟨pre, last, v, he, hc, hans, hlog, hv, hr⟩ := hstop _ hunfold
        refine ⟨_, hfirst, Or.inr ⟨pre, last, v, he, hc, hans, hlog,
          Or.inr (Or.inr ⟨?_, ?_, hr⟩)⟩⟩ <;> rw [hv, ha] <;> simp
      | object x =>
        rw [ha] at hunfold
        obtain ⟨pre, last, v, he, hc, hans, hlog, hv, hr⟩ := hstop _ hunfold
        refine ⟨_, hfirst, Or.inr ⟨pre, last, v, he, hc, hans, hlog,
          Or.inr (Or.inr ⟨?_, ?_, hr⟩)⟩⟩ <;> rw [hv, ha] <;> simp
    · -- the callback is skipped
      have hloop : mateChoiceLoop round p1 sex_enabled n answers (cb :: rest) k w modified events =
          mateChoiceLoop round p1 sex_enabled n answers rest (k + 1) w modified events := by
        rw [mateChoiceLoop, if_neg hact]
      obtain ⟨evals, hshow, hrest⟩ := mateChoiceLoop_shape p1 sex_enabled n answers rest
        (k + 1) w modified events
      refine ⟨evals, ?_, ?_⟩
      · intro i ev hi
        obtain ⟨j, cb', hle, hcb, ha, hev⟩ := hshow i ev hi
        refine ⟨j, cb', by omega, ?_, ha, hev⟩
        have : j - k = (j - (k + 1)) + 1 := by omega
        rw [this, List.getElem?_cons_succ]; exact hcb
      · rw [hloop, activeCallbacks, if_neg hact]
        exact hrest

theorem assessWeights_inRange {round : Double → Double} : ∀ (weights : List ScriptFloat) (sum : Double) (count : Int),
    WeightsInRange weights →
    assessWeights round weights sum count =
      .returned (weights.foldl (fun s w => round (s + w.value)) sum,
        count + ((weights.filter ScriptFloat.positive).length : Nat))
  | [], sum, count, _ => by simp [assessWeights]
  | w :: rest, sum, count, h => by
    obtain ⟨x, rfl, hx⟩ := h w (by simp)
    have ih := @assessWeights_inRange round rest (round (sum + x))
      (if Double.ofInt 0 < x then count + 1 else count)
      (fun y hy => h y (List.mem_cons_of_mem _ hy))
    rw [assessWeights, if_neg hx, ih]
    by_cases hp : Double.ofInt 0 < x
    · have : ScriptFloat.positive (.finite x) = true := by
        simp [ScriptFloat.positive, ScriptFloat.value, hp]
      rw [List.filter_cons_of_pos this, if_pos hp]
      simp only [List.foldl_cons, ScriptFloat.value, List.length_cons, Nat.cast_add,
        Nat.cast_one]
      congr 2
      omega
    · have : ¬ ScriptFloat.positive (.finite x) = true := by
        simp [ScriptFloat.positive, ScriptFloat.value, hp]
      rw [List.filter_cons_of_neg this, if_neg hp]
      simp only [List.foldl_cons, ScriptFloat.value]

theorem assessWeights_outOfRange {round : Double → Double} : ∀ (weights : List ScriptFloat) (sum : Double) (count : Int),
    ¬ WeightsInRange weights →
    assessWeights round weights sum count = .terminated .weightNotFinite ∨
      assessWeights round weights sum count = .terminated .weightNegative
  | [], sum, count, h => by
    exfalso; apply h; intro w hw; cases hw
  | .notFinite :: rest, sum, count, _ => Or.inl (by rw [assessWeights])
  | .finite x :: rest, sum, count, h => by
    rw [assessWeights]
    by_cases hx : x < Double.ofInt 0
    · rw [if_pos hx]; exact Or.inr rfl
    · rw [if_neg hx]
      apply assessWeights_outOfRange
      intro hr
      apply h
      intro w hw
      rcases List.mem_cons.mp hw with e | e
      · exact ⟨x, e, hx⟩
      · exact hr w e

theorem weightsInRange_iff (weights : List ScriptFloat) :
    ¬ WeightsInRange weights ↔
      (ScriptFloat.notFinite ∈ weights ∨ ∃ x, ScriptFloat.finite x ∈ weights ∧
        x < Double.ofInt 0) := by
  constructor
  · intro h
    by_contra hc
    apply h
    intro w hw
    cases w with
    | notFinite => exact absurd (Or.inl hw) hc
    | finite x => exact ⟨x, rfl, fun hx => hc (Or.inr ⟨x, hw, hx⟩)⟩
  · rintro (h | ⟨x, hm, hx⟩) hr
    · obtain ⟨y, hy, _⟩ := hr _ h
      cases hy
    · obtain ⟨y, hy, hny⟩ := hr _ hm
      cases hy
      exact hny hx

theorem drawFromWeights_terminated {round : Double → Double} (weights : List ScriptFloat) (n : Nat)
    (answers : MateChoiceAnswers) :
    (∃ e, (drawFromWeights round weights n answers).1 = .terminated e) ↔ InvalidWeights round weights := by
  unfold InvalidWeights
  by_cases hr : WeightsInRange weights
  · have hn : ¬ (ScriptFloat.notFinite ∈ weights ∨ ∃ x, ScriptFloat.finite x ∈ weights ∧
        x < Double.ofInt 0) := fun h => (weightsInRange_iff weights).mpr h hr
    unfold drawFromWeights
    rw [assessWeights_inRange weights _ _ hr]
    simp only
    by_cases hs : weightsSum round weights ≤ Double.ofInt 0
    · have hs' := hs
      unfold weightsSum at hs'
      rw [if_pos hs']
      exact ⟨fun _ => Or.inr (Or.inr hs), fun _ => ⟨_, rfl⟩⟩
    · have hs' := hs
      unfold weightsSum at hs'
      rw [if_neg hs']
      constructor
      · rintro ⟨e, he⟩
        split at he <;> cases he
      · rintro (h | h | h)
        · exact absurd (Or.inl h) hn
        · exact absurd (Or.inr h) hn
        · exact absurd h hs
  · have hbad := (weightsInRange_iff weights).mp hr
    constructor
    · intro _
      rcases hbad with h | h
      · exact Or.inl h
      · exact Or.inr (Or.inl h)
    · intro _
      unfold drawFromWeights
      rcases assessWeights_outOfRange weights (Double.ofInt 0) 0 hr with h | h <;>
        rw [h] <;> exact ⟨_, rfl⟩

theorem roseLoop_least {round : Double → Double} (rose : Double) : ∀ (weights : List ScriptFloat) (start : Int)
    (sum : Double) (i : Nat), i < weights.length →
    rose ≤ (weights.take (i + 1)).foldl (fun s w => round (s + w.value)) sum →
    (∀ j, j < i → ¬ rose ≤ (weights.take (j + 1)).foldl (fun s w => round (s + w.value)) sum) →
    roseLoop round rose weights start sum = start + i
  | [], _, _, i, hi, _, _ => by simp at hi
  | w :: rest, start, sum, 0, _, h0, _ => by
    simp only [List.take_succ_cons, List.take_zero, List.foldl_cons, List.foldl_nil] at h0
    rw [roseLoop, if_pos h0]
    simp
  | w :: rest, start, sum, i + 1, hi, hle, hmin => by
    have h0 : ¬ rose ≤ round (sum + w.value) := by
      have := hmin 0 (by omega)
      simpa using this
    rw [roseLoop, if_neg h0, roseLoop_least rose rest (start + 1) (round (sum + w.value)) i
      (by simpa using hi) (by simpa using hle) (fun j hj => by
        have := hmin (j + 1) (by omega)
        simpa using this)]
    simp only [Nat.cast_add, Nat.cast_one]
    omega

theorem finalStage_events {round : Double → Double} (p1 : Int) (sex_enabled : Bool) (n : Nat)
    (answers : MateChoiceAnswers) (w : List ScriptFloat) (modified : Bool)
    (events : List MateChoiceEvent) :
    (mateChoiceLoop round p1 sex_enabled n answers [] 0 w modified events).1 =
      (mateChoiceLoop round p1 sex_enabled n answers [] 0 w modified []).1 ∧
    (mateChoiceLoop round p1 sex_enabled n answers [] 0 w modified events).2 =
      events ++ (mateChoiceLoop round p1 sex_enabled n answers [] 0 w modified []).2 ∧
    ∀ ev ∈ (mateChoiceLoop round p1 sex_enabled n answers [] 0 w modified []).2,
      ev.answer answers = none ∧ ev.callback = none := by
  unfold mateChoiceLoop
  cases modified with
  | true =>
    simp only [if_true, List.nil_append, true_and]
    intro ev hev
    unfold drawFromWeights at hev
    split at hev
    · cases hev
    · split at hev
      · cases hev
      · split at hev
        · cases hev
        · rw [List.mem_singleton.mp hev]; exact ⟨rfl, rfl⟩
  | false =>
    cases sex_enabled with
    | true =>
      simp only [Bool.false_eq_true, if_false, if_true, List.nil_append, true_and]
      intro ev hev
      rw [List.mem_singleton.mp hev]; exact ⟨rfl, rfl⟩
    | false =>
      simp only [Bool.false_eq_true, if_false, List.nil_append, true_and]
      intro ev hev
      rw [List.mem_singleton.mp hev]; exact ⟨rfl, rfl⟩

theorem replacements_append (answers : MateChoiceAnswers) (n : Nat)
    (a b : List MateChoiceEvent) :
    replacements answers n (a ++ b) = replacements answers n a ++ replacements answers n b := by
  unfold replacements
  rw [List.filterMap_append]

theorem replacements_answerless (answers : MateChoiceAnswers) (n : Nat)
    (tail : List MateChoiceEvent) (h : ∀ ev ∈ tail, ev.answer answers = none) :
    replacements answers n tail = [] := by
  unfold replacements
  rw [List.filterMap_eq_nil_iff]
  intro ev hev
  rw [h ev hev]; rfl

theorem chainCompleted_append (answers : MateChoiceAnswers) (n : Nat)
    (evals tail : List MateChoiceEvent) (h : ∀ ev ∈ tail, ev.answer answers = none) :
    ChainCompleted answers n (evals ++ tail) ↔ ChainCompleted answers n evals := by
  constructor
  · intro hc ev hev v hv
    exact hc ev (List.mem_append_left _ hev) v hv
  · intro hc ev hev v hv
    rcases List.mem_append.mp hev with e | e
    · exact hc ev e v hv
    · rw [h ev e] at hv; cases hv

theorem stopped_not_completed (answers : MateChoiceAnswers) (n : Nat)
    (pre : List MateChoiceEvent) (last : MateChoiceEvent) (v : ScriptValue)
    (hans : last.answer answers = some v)
    (hv : v = .float [] ∨ (∃ values, v = .float values ∧ values.length ≠ 0 ∧
        values.length ≠ n) ∨ (v ≠ .null ∧ ∀ values, v ≠ .float values)) :
    ¬ ChainCompleted answers n (pre ++ [last]) := by
  intro hc
  rcases hc last (by simp) v hans with h | h
  · rcases hv with e | ⟨values, e, _⟩ | ⟨e, _⟩
    · rw [e] at h; cases h
    · rw [e] at h; cases h
    · exact e h
  · rcases hv with e | ⟨values, e, h0, hn⟩ | ⟨_, e⟩
    · rw [e] at h; simp [replacesWeights] at h
    · rw [e] at h; simp [replacesWeights, hn] at h
    · cases v with
      | float values => exact e values rfl
      | null => simp [replacesWeights] at h
      | void => simp [replacesWeights] at h
      | logical x => simp [replacesWeights] at h
      | integer x => simp [replacesWeights] at h
      | object x => simp [replacesWeights] at h

theorem applyMateChoice_shape {round : Double → Double} (p1 : Int) (p_subpop p_source_subpop : Subpopulation)
    (cbs : List SLiMScriptBlock) (answers : MateChoiceAnswers) :
    ∃ evals tail,
      (ApplyMateChoiceCallbacks round p1 p_subpop p_source_subpop cbs answers).2 = evals ++ tail ∧
      (∀ ev ∈ tail, ev.answer answers = none ∧ ev.callback = none) ∧
      (∀ i ev, evals[i]? = some ev → ∃ j cb, cbs[j]? = some cb ∧ cb.active_ = true ∧
        ev = MateChoiceEvent.evaluated j p1
          (if cb.contains_weights_ = true then
            some (weightsAfter answers p_source_subpop.parent_subpop_size_
              (standardWeights p_subpop p_source_subpop) (evals.take i))
            else none)) ∧
      ((ChainCompleted answers p_source_subpop.parent_subpop_size_ evals ∧
          evals.filterMap MateChoiceEvent.callback = activeCallbacks cbs 0 ∧
          (ApplyMateChoiceCallbacks round p1 p_subpop p_source_subpop cbs answers).1 =
            (mateChoiceLoop round p1 p_subpop.sex_enabled_ p_source_subpop.parent_subpop_size_ answers
              [] 0 (weightsAfter answers p_source_subpop.parent_subpop_size_
                (standardWeights p_subpop p_source_subpop) evals)
              (!(replacements answers p_source_subpop.parent_subpop_size_ evals).isEmpty)
              []).1 ∧
          tail =
            (mateChoiceLoop round p1 p_subpop.sex_enabled_ p_source_subpop.parent_subpop_size_ answers
              [] 0 (weightsAfter answers p_source_subpop.parent_subpop_size_
                (standardWeights p_subpop p_source_subpop) evals)
              (!(replacements answers p_source_subpop.parent_subpop_size_ evals).isEmpty)
              []).2) ∨
       (tail = [] ∧ ∃ pre last v, evals = pre ++ [last] ∧
          ChainCompleted answers p_source_subpop.parent_subpop_size_ pre ∧
          last.answer answers = some v ∧
          ((v = .float [] ∧
              (ApplyMateChoiceCallbacks round p1 p_subpop p_source_subpop cbs answers).1 =
                .returned (-1)) ∨
            (∃ values, v = .float values ∧ values.length ≠ 0 ∧
              values.length ≠ p_source_subpop.parent_subpop_size_ ∧
              (ApplyMateChoiceCallbacks round p1 p_subpop p_source_subpop cbs answers).1 =
                .terminated .mateChoiceReturnLength) ∨
            (v ≠ .null ∧ (∀ values, v ≠ .float values) ∧
              (ApplyMateChoiceCallbacks round p1 p_subpop p_source_subpop cbs answers).1 =
                .terminated .mateChoiceReturnType)))) := by
  obtain ⟨evals, hshow, hrest⟩ := mateChoiceLoop_shape p1 p_subpop.sex_enabled_
    p_source_subpop.parent_subpop_size_ answers cbs 0 (standardWeights p_subpop p_source_subpop)
    false []
  have hdef : ApplyMateChoiceCallbacks round p1 p_subpop p_source_subpop cbs answers =
      mateChoiceLoop round p1 p_subpop.sex_enabled_ p_source_subpop.parent_subpop_size_ answers cbs 0
        (standardWeights p_subpop p_source_subpop) false [] := rfl
  have hshow' : ∀ i ev, evals[i]? = some ev → ∃ j cb, cbs[j]? = some cb ∧ cb.active_ = true ∧
      ev = MateChoiceEvent.evaluated j p1
        (if cb.contains_weights_ = true then
          some (weightsAfter answers p_source_subpop.parent_subpop_size_
            (standardWeights p_subpop p_source_subpop) (evals.take i))
          else none) := by
    intro i ev hi
    obtain ⟨j, cb, _, hcb, ha, hev⟩ := hshow i ev hi
    exact ⟨j, cb, by simpa using hcb, ha, hev⟩
  rcases hrest with ⟨hcomp, hidx, heq⟩ | ⟨pre, last, v, he, hcomp, hans, hlog, hres⟩
  · obtain ⟨f1, f2, f3⟩ := finalStage_events p1 p_subpop.sex_enabled_
      p_source_subpop.parent_subpop_size_ answers
      (weightsAfter answers p_source_subpop.parent_subpop_size_
        (standardWeights p_subpop p_source_subpop) evals)
      (false || !(replacements answers p_source_subpop.parent_subpop_size_ evals).isEmpty)
      ([] ++ evals)
    simp only [Bool.false_or, List.nil_append] at f1 f2 f3 heq
    refine ⟨evals, _, ?_, f3, hshow', Or.inl ⟨hcomp, hidx, ?_, rfl⟩⟩
    · rw [hdef, heq, f2]
    · rw [hdef, heq, f1]
  · refine ⟨evals, [], ?_, (fun ev hev => by cases hev), hshow', Or.inr ⟨rfl, pre, last, v, he,
      hcomp, hans, ?_⟩⟩
    · rw [hdef, hlog]; simp
    · rw [hdef]; exact hres

theorem applyMateChoice_completed {round : Double → Double} (p1 : Int) (p_subpop p_source_subpop : Subpopulation)
    (cbs : List SLiMScriptBlock) (answers : MateChoiceAnswers)
    (hc : ChainCompleted answers p_source_subpop.parent_subpop_size_
      (ApplyMateChoiceCallbacks round p1 p_subpop p_source_subpop cbs answers).2) :
    (ApplyMateChoiceCallbacks round p1 p_subpop p_source_subpop cbs answers).2.filterMap
        MateChoiceEvent.callback = activeCallbacks cbs 0 ∧
    (ApplyMateChoiceCallbacks round p1 p_subpop p_source_subpop cbs answers).1 =
      (mateChoiceLoop round p1 p_subpop.sex_enabled_ p_source_subpop.parent_subpop_size_ answers
        [] 0 (weightsAfter answers p_source_subpop.parent_subpop_size_
          (standardWeights p_subpop p_source_subpop)
          (ApplyMateChoiceCallbacks round p1 p_subpop p_source_subpop cbs answers).2)
        (!(replacements answers p_source_subpop.parent_subpop_size_
          (ApplyMateChoiceCallbacks round p1 p_subpop p_source_subpop cbs answers).2).isEmpty)
        []).1 ∧
    ∃ evals, (ApplyMateChoiceCallbacks round p1 p_subpop p_source_subpop cbs answers).2 =
      evals ++ (mateChoiceLoop round p1 p_subpop.sex_enabled_ p_source_subpop.parent_subpop_size_
        answers [] 0 (weightsAfter answers p_source_subpop.parent_subpop_size_
          (standardWeights p_subpop p_source_subpop)
          (ApplyMateChoiceCallbacks round p1 p_subpop p_source_subpop cbs answers).2)
        (!(replacements answers p_source_subpop.parent_subpop_size_
          (ApplyMateChoiceCallbacks round p1 p_subpop p_source_subpop cbs answers).2).isEmpty)
        []).2 ∧ ∀ ev ∈ evals, ∃ j shown, ev = MateChoiceEvent.evaluated j p1 shown := by
  obtain ⟨evals, tail, hlog, htail, hshow, hcase⟩ := applyMateChoice_shape p1 p_subpop
    p_source_subpop cbs answers
  have hless : ∀ ev ∈ tail, ev.answer answers = none := fun ev hev => (htail ev hev).1
  rw [hlog] at hc ⊢
  have hce := (chainCompleted_append answers _ evals tail hless).mp hc
  have hrep : replacements answers p_source_subpop.parent_subpop_size_ (evals ++ tail) =
      replacements answers p_source_subpop.parent_subpop_size_ evals := by
    rw [replacements_append, replacements_answerless _ _ tail hless, List.append_nil]
  have hwa : weightsAfter answers p_source_subpop.parent_subpop_size_
      (standardWeights p_subpop p_source_subpop) (evals ++ tail) =
      weightsAfter answers p_source_subpop.parent_subpop_size_
        (standardWeights p_subpop p_source_subpop) evals := by
    unfold weightsAfter; rw [hrep]
  have hevs : ∀ ev ∈ evals, ∃ j shown, ev = MateChoiceEvent.evaluated j p1 shown := by
    intro ev hev
    obtain ⟨i, hi, he⟩ := List.getElem_of_mem hev
    obtain ⟨j, cb, _, _, h⟩ := hshow i ev (by rw [List.getElem?_eq_getElem hi, he])
    exact ⟨j, _, h⟩
  rcases hcase with ⟨_, hidx, hres, htl⟩ | ⟨_, pre, last, v, he, _, hans, hv⟩
  · rw [hrep, hwa]
    refine ⟨?_, hres, evals, by rw [← htl], hevs⟩
    rw [List.filterMap_append, hidx]
    have : tail.filterMap MateChoiceEvent.callback = [] := by
      rw [List.filterMap_eq_nil_iff]
      exact fun ev hev => (htail ev hev).2
    rw [this, List.append_nil]
  · exfalso
    rw [he] at hce
    refine stopped_not_completed answers _ pre last v hans ?_ hce
    rcases hv with ⟨h, _⟩ | ⟨values, h, h0, hn, _⟩ | ⟨h, h', _⟩
    · exact Or.inl h
    · exact Or.inr (Or.inl ⟨values, h, h0, hn⟩)
    · exact Or.inr (Or.inr ⟨h, h'⟩)

theorem weightsSum_nil {round : Double → Double} : weightsSum round [] ≤ Double.ofInt 0 := by
  show Double.ofInt 0 ≤ Double.ofInt 0
  decide

theorem modifyChildLoop_shape (EvaluateScriptBlock : Nat → ScriptValue) :
    ∀ (cbs : List SLiMScriptBlock) (k : Nat) (events : List Nat),
    ∃ evals : List Nat,
      (modifyChildLoop EvaluateScriptBlock cbs k events).2 = events ++ evals ∧
      (∀ j ∈ evals, k ≤ j ∧ ∃ cb, cbs[j - k]? = some cb ∧ cb.active_ = true) ∧
      (((∀ j ∈ evals, EvaluateScriptBlock j = .logical [true]) ∧
          evals = activeCallbacks cbs k ∧
          (modifyChildLoop EvaluateScriptBlock cbs k events).1 = .returned true) ∨
        (∃ pre last, evals = pre ++ [last] ∧
          (∀ j ∈ pre, EvaluateScriptBlock j = .logical [true]) ∧
          ((EvaluateScriptBlock last = .logical [false] ∧
              (modifyChildLoop EvaluateScriptBlock cbs k events).1 = .returned false) ∨
            ((∀ b, EvaluateScriptBlock last ≠ .logical [b]) ∧
              (modifyChildLoop EvaluateScriptBlock cbs k events).1 =
                .terminated .modifyChildReturn))))
  | [], k, events => by
    refine ⟨[], by simp [modifyChildLoop], (fun j hj => by cases hj),
      Or.inl ⟨(fun j hj => by cases hj), rfl, by simp [modifyChildLoop]⟩⟩
  | cb :: rest, k, events => by
    by_cases hact : cb.active_ = true
    · have hk : k ≤ k ∧ ∃ cb', (cb :: rest)[k - k]? = some cb' ∧ cb'.active_ = true :=
        ⟨le_refl _, cb, by simp, hact⟩
      have hstop : ∀ r, modifyChildLoop EvaluateScriptBlock (cb :: rest) k events =
            (r, events ++ [k]) →
          (modifyChildLoop EvaluateScriptBlock (cb :: rest) k events).2 = events ++ [k] ∧
          (∀ j ∈ [k], k ≤ j ∧ ∃ cb', (cb :: rest)[j - k]? = some cb' ∧ cb'.active_ = true) ∧
          (modifyChildLoop EvaluateScriptBlock (cb :: rest) k events).1 = r := by
        intro r hr
        refine ⟨by rw [hr], fun j hj => ?_, by rw [hr]⟩
        rw [List.mem_singleton.mp hj]; exact hk
      have hbad : (∀ b, EvaluateScriptBlock k ≠ .logical [b]) →
          modifyChildLoop EvaluateScriptBlock (cb :: rest) k events =
            (.terminated .modifyChildReturn, events ++ [k]) := by
        intro hb
        rw [modifyChildLoop, if_pos hact]
        split
        · rename_i b heq
          exact absurd heq (hb b)
        · rfl
      cases ha : EvaluateScriptBlock k with
      | logical values =>
        cases values with
        | nil =>
          obtain ⟨h1, h2, h3⟩ := hstop _ (hbad (fun b => by rw [ha]; simp))
          exact ⟨[k], h1, h2, Or.inr ⟨[], k, rfl, (fun j hj => by cases hj),
            Or.inr ⟨fun b => by rw [ha]; simp, h3⟩⟩⟩
        | cons b tail =>
          cases tail with
          | cons c tail2 =>
            obtain ⟨h1, h2, h3⟩ := hstop _ (hbad (fun b => by rw [ha]; simp))
            exact ⟨[k], h1, h2, Or.inr ⟨[], k, rfl, (fun j hj => by cases hj),
              Or.inr ⟨fun b => by rw [ha]; simp, h3⟩⟩⟩
          | nil =>
            cases b with
            | false =>
              have hr : modifyChildLoop EvaluateScriptBlock (cb :: rest) k events =
                  (.returned false, events ++ [k]) := by
                rw [modifyChildLoop, if_pos hact, ha]
                simp
              obtain ⟨h1, h2, h3⟩ := hstop _ hr
              exact ⟨[k], h1, h2, Or.inr ⟨[], k, rfl, (fun j hj => by cases hj),
                Or.inl ⟨ha, h3⟩⟩⟩
            | true =>
              have hr : modifyChildLoop EvaluateScriptBlock (cb :: rest) k events =
                  modifyChildLoop EvaluateScriptBlock rest (k + 1) (events ++ [k]) := by
                rw [modifyChildLoop, if_pos hact, ha]
                simp
              obtain ⟨evals, hlog, hidx, hcase⟩ := modifyChildLoop_shape EvaluateScriptBlock
                rest (k + 1) (events ++ [k])
              have hidx' : ∀ j ∈ k :: evals, k ≤ j ∧
                  ∃ cb', (cb :: rest)[j - k]? = some cb' ∧ cb'.active_ = true := by
                intro j hj
                rcases List.mem_cons.mp hj with e | e
                · rw [e]; exact hk
                · obtain ⟨hle, cb', hcb, hactive⟩ := hidx j e
                  refine ⟨by omega, cb', ?_, hactive⟩
                  have : j - k = (j - (k + 1)) + 1 := by omega
                  rw [this, List.getElem?_cons_succ]; exact hcb
              refine ⟨k :: evals, by rw [hr, hlog]; simp, hidx', ?_⟩
              rw [hr]
              rcases hcase with ⟨hall, hact', hres⟩ | ⟨pre, last, he, hpre, hres⟩
              · refine Or.inl ⟨fun j hj => ?_, ?_, hres⟩
                · rcases List.mem_cons.mp hj with e | e
                  · rw [e]; exact ha
                  · exact hall j e
                · rw [activeCallbacks, if_pos hact, hact']
              · refine Or.inr ⟨k :: pre, last, by rw [he]; rfl, fun j hj => ?_, hres⟩
                rcases List.mem_cons.mp hj with e | e
                · rw [e]; exact ha
                · exact hpre j e
      | void =>
        obtain ⟨h1, h2, h3⟩ := hstop _ (hbad (fun b => by rw [ha]; simp))
        exact ⟨[k], h1, h2, Or.inr ⟨[], k, rfl, (fun j hj => by cases hj),
          Or.inr ⟨fun b => by rw [ha]; simp, h3⟩⟩⟩
      | null =>
        obtain ⟨h1, h2, h3⟩ := hstop _ (hbad (fun b => by rw [ha]; simp))
        exact ⟨[k], h1, h2, Or.inr ⟨[], k, rfl, (fun j hj => by cases hj),
          Or.inr ⟨fun b => by rw [ha]; simp, h3⟩⟩⟩
      | integer x =>
        obtain ⟨h1, h2, h3⟩ := hstop _ (hbad (fun b => by rw [ha]; simp))
        exact ⟨[k], h1, h2, Or.inr ⟨[], k, rfl, (fun j hj => by cases hj),
          Or.inr ⟨fun b => by rw [ha]; simp, h3⟩⟩⟩
      | float x =>
        obtain ⟨h1, h2, h3⟩ := hstop _ (hbad (fun b => by rw [ha]; simp))
        exact ⟨[k], h1, h2, Or.inr ⟨[], k, rfl, (fun j hj => by cases hj),
          Or.inr ⟨fun b => by rw [ha]; simp, h3⟩⟩⟩
      | object x =>
        obtain ⟨h1, h2, h3⟩ := hstop _ (hbad (fun b => by rw [ha]; simp))
        exact ⟨[k], h1, h2, Or.inr ⟨[], k, rfl, (fun j hj => by cases hj),
          Or.inr ⟨fun b => by rw [ha]; simp, h3⟩⟩⟩
    · have hr : modifyChildLoop EvaluateScriptBlock (cb :: rest) k events =
          modifyChildLoop EvaluateScriptBlock rest (k + 1) events := by
        rw [modifyChildLoop, if_neg hact]
      obtain ⟨evals, hlog, hidx, hcase⟩ := modifyChildLoop_shape EvaluateScriptBlock rest
        (k + 1) events
      refine ⟨evals, by rw [hr, hlog], fun j hj => ?_, ?_⟩
      · obtain ⟨hle, cb', hcb, hactive⟩ := hidx j hj
        refine ⟨by omega, cb', ?_, hactive⟩
        have : j - k = (j - (k + 1)) + 1 := by omega
        rw [this, List.getElem?_cons_succ]; exact hcb
      · rw [hr, activeCallbacks, if_neg hact]
        exact hcase

theorem finalStage_terminated {round : Double → Double} (p1 : Int) (sex_enabled : Bool) (n : Nat)
    (answers : MateChoiceAnswers) (w : List ScriptFloat) (modified : Bool) (e : Termination)
    (h : (mateChoiceLoop round p1 sex_enabled n answers [] 0 w modified []).1 = .terminated e) :
    modified = true ∧
      (e = .weightNotFinite ∨ e = .weightNegative ∨ e = .weightsSumNotPositive) := by
  unfold mateChoiceLoop at h
  cases modified with
  | false =>
    simp only [Bool.false_eq_true, if_false] at h
    split at h <;> cases h
  | true =>
    simp only [if_true] at h
    refine ⟨rfl, ?_⟩
    unfold drawFromWeights at h
    by_cases hr : WeightsInRange w
    · rw [assessWeights_inRange w _ _ hr] at h
      simp only at h
      split at h
      · cases h; exact Or.inr (Or.inr rfl)
      · split at h <;> cases h
    · rcases assessWeights_outOfRange w (Double.ofInt 0) 0 hr with h' | h' <;>
        rw [h'] at h <;> cases h
      · exact Or.inl rfl
      · exact Or.inr (Or.inl rfl)

theorem applyMateChoice_bad {round : Double → Double} (p1 : Int) (p_subpop p_source_subpop : Subpopulation)
    (cbs : List SLiMScriptBlock) (answers : MateChoiceAnswers) (j : Nat)
    (shown : Option (List ScriptFloat))
    (hmem : MateChoiceEvent.evaluated j p1 shown ∈
      (ApplyMateChoiceCallbacks round p1 p_subpop p_source_subpop cbs answers).2)
    (hnn : answers.EvaluateScriptBlock j shown ≠ .null)
    (hnr : replacesWeights p_source_subpop.parent_subpop_size_
      (answers.EvaluateScriptBlock j shown) = none) :
    (ApplyMateChoiceCallbacks round p1 p_subpop p_source_subpop cbs answers).2.getLast? =
      some (.evaluated j p1 shown) ∧
    ((answers.EvaluateScriptBlock j shown = .float [] ∧
        (ApplyMateChoiceCallbacks round p1 p_subpop p_source_subpop cbs answers).1 =
          .returned (-1)) ∨
      (∃ values, answers.EvaluateScriptBlock j shown = .float values ∧ values.length ≠ 0 ∧
        values.length ≠ p_source_subpop.parent_subpop_size_ ∧
        (ApplyMateChoiceCallbacks round p1 p_subpop p_source_subpop cbs answers).1 =
          .terminated .mateChoiceReturnLength) ∨
      ((∀ values, answers.EvaluateScriptBlock j shown ≠ .float values) ∧
        (ApplyMateChoiceCallbacks round p1 p_subpop p_source_subpop cbs answers).1 =
          .terminated .mateChoiceReturnType)) := by
  obtain ⟨evals, tail, hlog, htail, _, hcase⟩ := applyMateChoice_shape p1 p_subpop
    p_source_subpop cbs answers
  have hcontra : ∀ log, ChainCompleted answers p_source_subpop.parent_subpop_size_ log →
      MateChoiceEvent.evaluated j p1 shown ∉ log := by
    intro log hc hm
    rcases hc _ hm _ rfl with h | h
    · exact hnn h
    · rw [hnr] at h; cases h
  rw [hlog] at hmem ⊢
  have hin : MateChoiceEvent.evaluated j p1 shown ∈ evals := by
    rcases List.mem_append.mp hmem with h | h
    · exact h
    · have := (htail _ h).1
      cases this
  rcases hcase with ⟨hcomp, _⟩ | ⟨ht, pre, last, v, he, hcomp, hans, hv⟩
  · exact absurd hin (hcontra evals hcomp)
  · rw [he] at hin
    have hlast : last = MateChoiceEvent.evaluated j p1 shown := by
      rcases List.mem_append.mp hin with h | h
      · exact absurd h (hcontra pre hcomp)
      · exact (List.mem_singleton.mp h).symm
    rw [hlast] at hans
    simp only [MateChoiceEvent.answer, Option.some.injEq] at hans
    rw [ht, he, hlast, List.append_nil]
    refine ⟨by simp, ?_⟩
    rw [← hans] at hv
    rcases hv with h | h | ⟨_, h⟩
    · exact Or.inl h
    · exact Or.inr (Or.inl h)
    · exact Or.inr (Or.inr h)

theorem applyMateChoice_protocol {round : Double → Double} (p1 : Int) (p_subpop p_source_subpop : Subpopulation)
    (cbs : List SLiMScriptBlock) (answers : MateChoiceAnswers)
    (h : (ApplyMateChoiceCallbacks round p1 p_subpop p_source_subpop cbs answers).1 =
        .terminated .mateChoiceReturnType ∨
      (ApplyMateChoiceCallbacks round p1 p_subpop p_source_subpop cbs answers).1 =
        .terminated .mateChoiceReturnLength) :
    ∃ j shown, (ApplyMateChoiceCallbacks round p1 p_subpop p_source_subpop cbs answers).2.getLast? =
        some (.evaluated j p1 shown) ∧
      answers.EvaluateScriptBlock j shown ≠ .null ∧
      ∀ values, answers.EvaluateScriptBlock j shown = .float values →
        values.length ≠ 0 ∧ values.length ≠ p_source_subpop.parent_subpop_size_ := by
  obtain ⟨evals, tail, hlog, htail, hshow, hcase⟩ := applyMateChoice_shape p1 p_subpop
    p_source_subpop cbs answers
  rcases hcase with ⟨_, _, hres, _⟩ | ⟨ht, pre, last, v, he, hcomp, hans, hv⟩
  · exfalso
    rcases h with h | h
    · rw [hres] at h
      rcases (finalStage_terminated _ _ _ _ _ _ _ h).2 with e | e | e <;> cases e
    · rw [hres] at h
      rcases (finalStage_terminated _ _ _ _ _ _ _ h).2 with e | e | e <;> cases e
  · have hl : evals[pre.length]? = some last := by
      rw [he, List.getElem?_append_right (le_refl _)]; simp
    obtain ⟨j, cb, _, _, hev⟩ := hshow _ _ hl
    generalize (if cb.contains_weights_ = true then
      some (weightsAfter answers p_source_subpop.parent_subpop_size_
        (standardWeights p_subpop p_source_subpop) (List.take pre.length evals))
      else none) = shown at hev
    refine ⟨j, shown, ?_, ?_, ?_⟩
    · rw [hlog, ht, he, List.append_nil, hev]; simp
    · rw [hev] at hans
      simp only [MateChoiceEvent.answer, Option.some.injEq] at hans
      rw [hans]
      rcases hv with ⟨e, hr⟩ | ⟨values, e, _, _, _⟩ | ⟨e, _, _⟩
      · rcases h with h | h <;> rw [hr] at h <;> cases h
      · rw [e]; simp
      · exact e
    · intro values hval
      rw [hev] at hans
      simp only [MateChoiceEvent.answer, Option.some.injEq] at hans
      rw [hans] at hval
      rcases hv with ⟨e, hr⟩ | ⟨values', e, h0, hn, _⟩ | ⟨_, e, _⟩
      · rcases h with h | h <;> rw [hr] at h <;> cases h
      · rw [e] at hval
        cases hval
        exact ⟨h0, hn⟩
      · exact absurd hval (e values)
theorem finalStage_modified {round : Double → Double} (p1 : Int) (sex_enabled : Bool) (n : Nat)
    (answers : MateChoiceAnswers) (w : List ScriptFloat) :
    mateChoiceLoop round p1 sex_enabled n answers [] 0 w true [] = drawFromWeights round w n answers := by
  unfold mateChoiceLoop
  simp

theorem finalStage_standard {round : Double → Double} (p1 : Int) (sex_enabled : Bool) (n : Nat)
    (answers : MateChoiceAnswers) (w : List ScriptFloat) :
    mateChoiceLoop round p1 sex_enabled n answers [] 0 w false [] =
      (.returned (if sex_enabled = true then answers.DrawMaleParentUsingFitness
          else answers.DrawParentUsingFitness),
        [if sex_enabled = true then MateChoiceEvent.drawMaleParent
          else MateChoiceEvent.drawParent]) := by
  unfold mateChoiceLoop
  cases sex_enabled <;> simp

theorem applyMateChoice_draw {round : Double → Double} (p1 : Int) (p_subpop p_source_subpop : Subpopulation)
    (cbs : List SLiMScriptBlock) (answers : MateChoiceAnswers)
    (hc : ChainCompleted answers p_source_subpop.parent_subpop_size_
      (ApplyMateChoiceCallbacks round p1 p_subpop p_source_subpop cbs answers).2) :
    (∀ w, (replacements answers p_source_subpop.parent_subpop_size_
        (ApplyMateChoiceCallbacks round p1 p_subpop p_source_subpop cbs answers).2).getLast? =
          some w →
      (ApplyMateChoiceCallbacks round p1 p_subpop p_source_subpop cbs answers).1 =
        (drawFromWeights round w p_source_subpop.parent_subpop_size_ answers).1 ∧
      ∃ evals, (ApplyMateChoiceCallbacks round p1 p_subpop p_source_subpop cbs answers).2 =
          evals ++ (drawFromWeights round w p_source_subpop.parent_subpop_size_ answers).2 ∧
        ∀ ev ∈ evals, ∃ j shown, ev = MateChoiceEvent.evaluated j p1 shown) ∧
    (replacements answers p_source_subpop.parent_subpop_size_
        (ApplyMateChoiceCallbacks round p1 p_subpop p_source_subpop cbs answers).2 = [] →
      (ApplyMateChoiceCallbacks round p1 p_subpop p_source_subpop cbs answers).1 =
        .returned (if p_subpop.sex_enabled_ = true then answers.DrawMaleParentUsingFitness
          else answers.DrawParentUsingFitness) ∧
      ∃ evals, (ApplyMateChoiceCallbacks round p1 p_subpop p_source_subpop cbs answers).2 =
          evals ++ [if p_subpop.sex_enabled_ = true then MateChoiceEvent.drawMaleParent
            else MateChoiceEvent.drawParent] ∧
        ∀ ev ∈ evals, ∃ j shown, ev = MateChoiceEvent.evaluated j p1 shown) := by
  obtain ⟨_, hres, evals, hlog, hevs⟩ := applyMateChoice_completed p1 p_subpop
    p_source_subpop cbs answers hc
  constructor
  · intro w hw
    have hne : (replacements answers p_source_subpop.parent_subpop_size_
        (ApplyMateChoiceCallbacks round p1 p_subpop p_source_subpop cbs answers).2).isEmpty =
          false := by
      cases hr : replacements answers p_source_subpop.parent_subpop_size_
          (ApplyMateChoiceCallbacks round p1 p_subpop p_source_subpop cbs answers).2 with
      | nil => rw [hr] at hw; cases hw
      | cons a l => rfl
    have hwa : weightsAfter answers p_source_subpop.parent_subpop_size_
        (standardWeights p_subpop p_source_subpop)
        (ApplyMateChoiceCallbacks round p1 p_subpop p_source_subpop cbs answers).2 = w := by
      unfold weightsAfter; rw [hw]; rfl
    rw [hne, hwa] at hres hlog
    simp only [Bool.not_false] at hres hlog
    rw [finalStage_modified] at hres hlog
    exact ⟨hres, evals, hlog, hevs⟩
  · intro hnil
    rw [hnil] at hres hlog
    simp only [List.isEmpty_nil, Bool.not_true] at hres hlog
    rw [finalStage_standard] at hres hlog
    exact ⟨hres, evals, hlog, hevs⟩

/-! ## Invariants of a run -/

theorem matingLoop_invariant (Inv : EvolveState → Prop) (kind : ChildKind)
    (subpop source_subpop : Nat) (id limit gen : Int) (mcb ccb : List SLiMScriptBlock)
    (hpass : ∀ (m : Mating) (st : EvolveState) (nts : Int), Inv st →
      match onePass kind subpop source_subpop id gen mcb ccb m st nts with
      | .terminated _ s => Inv s
      | .undefined => True
      | .redraw s => Inv s
      | .rejected s => Inv s
      | .kept s _ => Inv (kind.advance s)) :
    ∀ (matings : List Mating) (st : EvolveState) (count nts : Int) (s : EvolveState),
    Inv st →
    (matingLoop kind subpop source_subpop id limit gen mcb ccb matings st count nts).reached
      (fun a => a.1) = some s → Inv s
  | [], st, count, nts, s, hst, h => by
    unfold matingLoop at h
    split at h <;> simp only [Run.reached, Option.some.injEq] at h <;> rw [← h] <;> exact hst
  | m :: rest, st, count, nts, s, hst, h => by
    unfold matingLoop at h
    split at h
    · have hp := hpass m st nts hst
      cases hx : onePass kind subpop source_subpop id gen mcb ccb m st nts with
      | terminated e s1 =>
        rw [hx] at h hp
        simp only [Run.reached, Option.some.injEq] at h hp
        rw [← h]; exact hp
      | undefined =>
        rw [hx] at h
        simp [Run.reached] at h
      | redraw s1 =>
        rw [hx] at h hp
        simp only at h hp
        exact matingLoop_invariant Inv kind subpop source_subpop id limit gen mcb ccb hpass rest
          s1 count nts s hp h
      | rejected s1 =>
        rw [hx] at h hp
        simp only at h hp
        exact matingLoop_invariant Inv kind subpop source_subpop id limit gen mcb ccb hpass rest
          s1 count nts s hp h
      | kept s1 selfed =>
        rw [hx] at h hp
        simp only at h hp
        exact matingLoop_invariant Inv kind subpop source_subpop id limit gen mcb ccb hpass rest
          (kind.advance s1) (count + 1) (if selfed then nts - 1 else nts) s hp h
    · simp only [Run.reached, Option.some.injEq] at h
      rw [← h]; exact hst

theorem generateFromSource_invariant (Inv : EvolveState → Prop) (sex_enabled : Bool)
    (sex_ratio : Double) (subpop source_subpop : Nat) (id : Int) (selfing_fraction : Double)
    (n gen : Int) (mcb ccb : List SLiMScriptBlock)
    (hpass : ∀ (kind : ChildKind) (m : Mating) (st : EvolveState) (nts : Int), Inv st →
      match onePass kind subpop source_subpop id gen mcb ccb m st nts with
      | .terminated _ s => Inv s
      | .undefined => True
      | .redraw s => Inv s
      | .rejected s => Inv s
      | .kept s _ => Inv (kind.advance s))
    (matings : List Mating) (st s : EvolveState) (hst : Inv st)
    (h : (generateFromSource sex_enabled sex_ratio subpop source_subpop id selfing_fraction n
      gen mcb ccb matings st).reached (fun a => a.1) = some s) : Inv s := by
  have hloop := fun kind limit => matingLoop_invariant Inv kind subpop source_subpop id limit
    gen mcb ccb (hpass kind)
  unfold generateFromSource at h
  simp only at h
  split at h
  · split at h
    · simp only [Run.reached, Option.some.injEq] at h; rw [← h]; exact hst
    · split at h
      · simp only [Run.reached, Option.some.injEq] at h; rw [← h]; exact hst
      · cases hx : matingLoop .female subpop source_subpop id
            (n - lround (Double.round (Double.ofInt n * sex_ratio))) gen mcb ccb matings st 0
            (lround (Double.round (Double.ofInt n * selfing_fraction))) with
        | terminated e s1 =>
          rw [hx] at h
          simp only [Run.reached, Option.some.injEq] at h
          exact hloop _ _ _ _ _ _ s hst (by rw [hx]; simp [Run.reached, h])
        | undefined => rw [hx] at h; simp [Run.reached] at h
        | pending s1 =>
          rw [hx] at h
          simp only [Run.reached, Option.some.injEq] at h
          exact hloop _ _ _ _ _ _ s hst (by rw [hx]; simp [Run.reached, h])
        | returned a =>
          obtain ⟨st1, migrant_count, nts1, matings1⟩ := a
          rw [hx] at h
          simp only at h
          have p1 : Inv st1 := hloop _ _ _ _ _ _ st1 hst (by rw [hx]; simp [Run.reached])
          cases hy : matingLoop .male subpop source_subpop id
              (n - lround (Double.round (Double.ofInt n * sex_ratio)) + lround (Double.round (Double.ofInt n * sex_ratio)))
              gen mcb ccb matings1 st1 migrant_count nts1 with
          | terminated e s2 =>
            rw [hy] at h
            simp only [Run.reached, Option.some.injEq] at h
            exact hloop _ _ _ _ _ _ s p1 (by rw [hy]; simp [Run.reached, h])
          | undefined => rw [hy] at h; simp [Run.reached] at h
          | pending s2 =>
            rw [hy] at h
            simp only [Run.reached, Option.some.injEq] at h
            exact hloop _ _ _ _ _ _ s p1 (by rw [hy]; simp [Run.reached, h])
          | returned b =>
            obtain ⟨st2, c2, n2, matings2⟩ := b
            rw [hy] at h
            simp only [Run.reached, Option.some.injEq] at h
            exact hloop _ _ _ _ _ _ s p1 (by rw [hy]; simp [Run.reached, h])
  · cases hx : matingLoop .asexual subpop source_subpop id n gen mcb ccb matings st 0
        (lround (Double.round (Double.ofInt n * selfing_fraction))) with
    | terminated e s1 =>
      rw [hx] at h
      simp only [Run.reached, Option.some.injEq] at h
      exact hloop _ _ _ _ _ _ s hst (by rw [hx]; simp [Run.reached, h])
    | undefined => rw [hx] at h; simp [Run.reached] at h
    | pending s1 =>
      rw [hx] at h
      simp only [Run.reached, Option.some.injEq] at h
      exact hloop _ _ _ _ _ _ s hst (by rw [hx]; simp [Run.reached, h])
    | returned a =>
      obtain ⟨st1, c1, n1, matings1⟩ := a
      rw [hx] at h
      simp only [Run.reached, Option.some.injEq] at h
      exact hloop _ _ _ _ _ _ s hst (by rw [hx]; simp [Run.reached, h])
theorem migrantLoop_invariant (Inv : EvolveState → Prop) (sex_enabled : Bool)
    (sex_ratio : Double) (subpop : Nat) (num_migrants : List Nat) (gen : Int)
    (mcb ccb : List SLiMScriptBlock)
    (hpass : ∀ (kind : ChildKind) (source_subpop : Nat) (id : Int) (m : Mating)
      (st : EvolveState) (nts : Int), Inv st →
      match onePass kind subpop source_subpop id gen mcb ccb m st nts with
      | .terminated _ s => Inv s
      | .undefined => True
      | .redraw s => Inv s
      | .rejected s => Inv s
      | .kept s _ => Inv (kind.advance s)) :
    ∀ (fractions : List (Int × Double)) (pop_count : Nat) (matings : List Mating)
      (st s : EvolveState), Inv st →
      (migrantLoop sex_enabled sex_ratio subpop num_migrants gen mcb ccb fractions pop_count
        matings st).reached (fun a => a.1) = some s → Inv s
  | [], _, _, st, s, hst, h => by
    simp only [migrantLoop, Run.reached, Option.some.injEq] at h
    rw [← h]; exact hst
  | pair :: rest, pop_count, matings, st, s, hst, h => by
    unfold migrantLoop at h
    simp only at h
    cases hp : st.pop.SubpopulationWithID pair.1 with
    | none =>
      rw [hp] at h
      simp only [Run.reached, Option.some.injEq] at h
      rw [← h]; exact hst
    | some source_subpop =>
      rw [hp] at h
      simp only at h
      cases hs : st.pop.subpops[source_subpop]? with
      | none => rw [hs] at h; simp [Run.reached] at h
      | some source =>
        cases hn : num_migrants[pop_count]? with
        | none => rw [hs, hn] at h; simp [Run.reached] at h
        | some n =>
          rw [hs, hn] at h
          simp only at h
          have hgen := generateFromSource_invariant Inv sex_enabled sex_ratio subpop
            source_subpop pair.1 source.2.selfing_fraction_ n gen mcb ccb
            (fun kind => hpass kind source_subpop pair.1) matings st
          cases hx : generateFromSource sex_enabled sex_ratio subpop source_subpop pair.1
              source.2.selfing_fraction_ n gen mcb ccb matings st with
          | terminated e s1 =>
            rw [hx] at h
            simp only [Run.reached, Option.some.injEq] at h
            exact hgen s hst (by rw [hx]; simp [Run.reached, h])
          | undefined => rw [hx] at h; simp [Run.reached] at h
          | pending s1 =>
            rw [hx] at h
            simp only [Run.reached, Option.some.injEq] at h
            exact hgen s hst (by rw [hx]; simp [Run.reached, h])
          | returned a =>
            obtain ⟨st1, matings1⟩ := a
            rw [hx] at h
            simp only at h
            have p1 : Inv st1 := hgen st1 hst (by rw [hx]; simp [Run.reached])
            exact migrantLoop_invariant Inv sex_enabled sex_ratio subpop num_migrants gen
              mcb ccb hpass rest (pop_count + 1) matings1 st1 s p1 h

theorem evolve_invariant (Inv : EvolveState → Prop) (pop : Population) (id gen : Int)
    (mcb ccb : List SLiMScriptBlock) (num_migrants : List Nat) (matings : List Mating)
    (place : Nat) (h1 : pop.SubpopulationWithID id = some place)
    (hstart : ∀ events, Inv ⟨pop, 0, 0, 0, events⟩)
    (hpass : ∀ (kind : ChildKind) (source_subpop : Nat) (sid : Int) (m : Mating)
      (st : EvolveState) (nts : Int), Inv st →
      match onePass kind place source_subpop sid gen mcb ccb m st nts with
      | .terminated _ s => Inv s
      | .undefined => True
      | .redraw s => Inv s
      | .rejected s => Inv s
      | .kept s _ => Inv (kind.advance s))
    (s : EvolveState)
    (h : (pop.EvolveSubpopulation id gen mcb ccb num_migrants matings).reached (fun a => a) =
      some s) :
    (Inv s ∧ ∀ x, pop.EvolveSubpopulation id gen mcb ccb num_migrants matings ≠ .returned x) ∨
    ∃ st2 final, Inv st2 ∧ st2.pop.subpops[place]? = some final ∧
      pop.EvolveSubpopulation id gen mcb ccb num_migrants matings = .returned s ∧
      s.pop.subpops = st2.pop.subpops.set place
        (final.1, { final.2 with child_generation_valid := true }) ∧
      s.pop.child_generation_valid = true ∧
      s.pop.mutation_registry_ = st2.pop.mutation_registry_ ∧
      s.pop.reference_count_ = st2.pop.reference_count_ ∧
      s.pop.total_genome_count_ = st2.pop.total_genome_count_ ∧
      s.pop.substitutions_ = st2.pop.substitutions_ := by
  obtain ⟨subpop, h2, _⟩ := subpopulationWithID_getElem? pop id place h1
  have hcond : (subpop.2.sex_enabled_ = true ∧
      ((if subpop.2.sex_enabled_ = true then
          lround (Double.round (Double.ofInt subpop.2.child_subpop_size_ *
            (if subpop.2.sex_enabled_ = true then subpop.2.child_sex_ratio_
              else Double.ofInt 0)))
        else 0) ≤ 0 ∨
       (if subpop.2.sex_enabled_ = true then
          (subpop.2.child_subpop_size_ : Int) -
            (if subpop.2.sex_enabled_ = true then
              lround (Double.round (Double.ofInt subpop.2.child_subpop_size_ *
                (if subpop.2.sex_enabled_ = true then subpop.2.child_sex_ratio_
                  else Double.ofInt 0)))
            else 0)
        else 0) ≤ 0)) ↔
      (subpop.2.sex_enabled_ = true ∧
        (totalMaleChildren subpop.2 ≤ 0 ∨ totalFemaleChildren subpop.2 ≤ 0)) := by
    cases hsex : subpop.2.sex_enabled_ with
    | false => simp
    | true => simp [totalMaleChildren, totalFemaleChildren]
  have hmig := migrantLoop_invariant Inv subpop.2.sex_enabled_
    (if subpop.2.sex_enabled_ = true then subpop.2.child_sex_ratio_ else Double.ofInt 0)
    place num_migrants gen mcb ccb hpass
  unfold Population.EvolveSubpopulation at h ⊢
  simp only [h1, h2] at h ⊢
  rw [if_congr hcond rfl rfl] at h ⊢
  by_cases hc : (subpop.2.sex_enabled_ = true ∧
        (totalMaleChildren subpop.2 ≤ 0 ∨ totalFemaleChildren subpop.2 ≤ 0))
  · rw [if_pos hc] at h ⊢
    simp only [Run.reached, Option.some.injEq] at h
    rw [← h]
    exact Or.inl ⟨hstart _, fun x hx => by cases hx⟩
  · rw [if_neg hc] at h ⊢
    by_cases hs : migrationRateSum subpop.2.migrant_fractions_ ≤ Double.ofInt 1
    · rw [if_pos hs] at h ⊢
      have h0 := hstart [EvolveEvent.multinomial (subpop.2.migrant_fractions_.map
                (fun fractions_pair => fractions_pair.2) ++
                  [Double.round (Double.ofInt 1 - migrationRateSum subpop.2.migrant_fractions_)])
                subpop.2.child_subpop_size_]
      cases hx : migrantLoop subpop.2.sex_enabled_
          (if subpop.2.sex_enabled_ = true then subpop.2.child_sex_ratio_
            else Double.ofInt 0)
          place num_migrants gen mcb ccb subpop.2.migrant_fractions_ 0 matings
          { pop := pop, child_count := 0, male_child_count := 0, female_child_count := 0,
            events := [EvolveEvent.multinomial (subpop.2.migrant_fractions_.map
              (fun fractions_pair => fractions_pair.2) ++
                [Double.round (Double.ofInt 1 - migrationRateSum subpop.2.migrant_fractions_)])
              subpop.2.child_subpop_size_] } with
      | terminated e s1 =>
        rw [hx] at h
        simp only [Run.reached, Option.some.injEq] at h
        exact Or.inl ⟨hmig _ _ _ _ s h0 (by rw [hx]; simp [Run.reached, h]),
          fun x hx => by cases hx⟩
      | undefined => rw [hx] at h; simp [Run.reached] at h
      | pending s1 =>
        rw [hx] at h
        simp only [Run.reached, Option.some.injEq] at h
        exact Or.inl ⟨hmig _ _ _ _ s h0 (by rw [hx]; simp [Run.reached, h]),
          fun x hx => by cases hx⟩
      | returned a =>
        obtain ⟨st1, matings1⟩ := a
        rw [hx] at h
        simp only at h ⊢
        have p1 : Inv st1 := hmig _ _ _ _ st1 h0 (by rw [hx]; simp [Run.reached])
        cases ht : st1.pop.subpops[place]? with
        | none => rw [ht] at h; simp [Run.reached] at h
        | some target =>
          cases hn : num_migrants[subpop.2.migrant_fractions_.length]? with
          | none => rw [ht, hn] at h; simp [Run.reached] at h
          | some n =>
            rw [ht, hn] at h
            simp only at h ⊢
            have hgen := generateFromSource_invariant Inv subpop.2.sex_enabled_
              (if subpop.2.sex_enabled_ = true then subpop.2.child_sex_ratio_
                else Double.ofInt 0)
              place place id target.2.selfing_fraction_ n gen mcb ccb
              (fun kind => hpass kind place id) matings1 st1
            cases hy : generateFromSource subpop.2.sex_enabled_
                (if subpop.2.sex_enabled_ = true then subpop.2.child_sex_ratio_
                  else Double.ofInt 0)
                place place id target.2.selfing_fraction_ n gen mcb ccb matings1 st1 with
            | terminated e s2 =>
              rw [hy] at h
              simp only [Run.reached, Option.some.injEq] at h
              exact Or.inl ⟨hgen s p1 (by rw [hy]; simp [Run.reached, h]),
                fun x hx => by cases hx⟩
            | undefined => rw [hy] at h; simp [Run.reached] at h
            | pending s2 =>
              rw [hy] at h
              simp only [Run.reached, Option.some.injEq] at h
              exact Or.inl ⟨hgen s p1 (by rw [hy]; simp [Run.reached, h]),
                fun x hx => by cases hx⟩
            | returned b =>
              obtain ⟨st2, matings2⟩ := b
              rw [hy] at h
              simp only at h ⊢
              have p2 : Inv st2 := hgen st2 p1 (by rw [hy]; simp [Run.reached])
              cases hf : st2.pop.subpops[place]? with
              | none => rw [hf] at h; simp [Run.reached] at h
              | some final =>
                rw [hf] at h
                simp only [Run.reached, Option.some.injEq] at h
                refine Or.inr ⟨st2, final, p2, hf, ?_, ?_⟩
                · exact congrArg Run.returned h
                · rw [← h]
                  exact ⟨rfl, rfl, rfl, rfl, rfl, rfl⟩
    · rw [if_neg hs] at h ⊢
      simp only [Run.reached, Option.some.injEq] at h
      rw [← h]
      exact Or.inl ⟨hstart _, fun x hx => by cases hx⟩

theorem writes_refl (place : Nat) (a : Population) : WritesChildBankOnly place a a :=
  ⟨rfl, fun _ _ => rfl, rfl, rfl, rfl, rfl⟩

theorem writes_trans {place : Nat} {a b c : Population} (h1 : WritesChildBankOnly place a b)
    (h2 : WritesChildBankOnly place b c) : WritesChildBankOnly place a c :=
  ⟨h2.1.trans h1.1, fun i hi => (h2.2.1 i hi).trans (h1.2.1 i hi), h2.2.2.1.trans h1.2.2.1,
    h2.2.2.2.1.trans h1.2.2.2.1, h2.2.2.2.2.1.trans h1.2.2.2.2.1,
    h2.2.2.2.2.2.trans h1.2.2.2.2.2⟩

theorem store_writes (pop : Population) (subpop index : Nat) (s : CrossoverState) :
    WritesChildBankOnly subpop pop (pop.store subpop index s) := by
  unfold Population.store
  cases h : pop.subpops[subpop]? with
  | none => exact writes_refl _ _
  | some entry =>
    have hlt : subpop < pop.subpops.length := getElem?_lt_length _ _ _ h
    refine ⟨by simp, fun i hi => ?_, ?_, rfl, rfl, rfl⟩
    · simp only
      rw [List.getElem?_set_ne (Ne.symm hi)]
    · simp only
      rw [h]
      simp [hlt, outsideChildBank]

theorem populationCrossover_related (subpop : Nat) (R : Population → Population → Prop)
    (hstore : ∀ (a : Population) (index : Nat) (s : CrossoverState),
      R a (a.store subpop index s))
    (pop : Population) (source_subpop c : Nat)
    (sid : Int) (p1 p2 : Nat) (chrom : Chromosome) (gen : Int) (sex : IndividualSex)
    (coin : Bool) :
    (∀ r, pop.CrossoverMutation subpop source_subpop c sid p1 p2 chrom gen sex coin =
      .returned r → R pop r.1) ∧
    (∀ e r, pop.CrossoverMutation subpop source_subpop c sid p1 p2 chrom gen sex coin =
      .terminated e r → R pop r.1) := by
  unfold Population.CrossoverMutation
  cases pop.subpops[subpop]? with
  | none => simp
  | some target =>
    cases pop.subpops[source_subpop]? with
    | none => simp
    | some source =>
      simp only
      cases target.2.child_genomes_[c]? with
      | none => simp
      | some child =>
        cases source.2.parent_genomes_[p1]? with
        | none => simp
        | some g1 =>
          cases source.2.parent_genomes_[p2]? with
          | none => simp
          | some g2 =>
            simp only
            cases SLiM.CrossoverMutation child g1 g2 pop.mutation_registry_ sid chrom gen sex
                coin with
            | terminated e s =>
              refine ⟨fun r h => (by cases h), fun e r h => ?_⟩
              cases h
              exact hstore _ _ _
            | undefined => exact ⟨fun r h => (by cases h), fun e r h => (by cases h)⟩
            | returned s =>
              refine ⟨fun r h => ?_, fun e r h => (by cases h)⟩
              cases h
              exact hstore _ _ _

theorem crossoverCall_related (subpop : Nat) (R : Population → Population → Prop)
    (hstore : ∀ (a : Population) (index : Nat) (s : CrossoverState),
      R a (a.store subpop index s))
    (st : EvolveState) (source_subpop : Nat)
    (c sid p1 p2 : Int) (chrom : Chromosome) (gen : Int) (sex : IndividualSex) (coin : Bool) :
    (∀ s, crossoverCall st subpop source_subpop c sid p1 p2 chrom gen sex coin = .returned s →
      R st.pop s.pop) ∧
    (∀ e s, crossoverCall st subpop source_subpop c sid p1 p2 chrom gen sex coin =
      .terminated e s → R st.pop s.pop) := by
  unfold crossoverCall
  split
  · exact ⟨fun s h => (by cases h), fun e s h => (by cases h)⟩
  · have hc := populationCrossover_related subpop R hstore st.pop source_subpop c.toNat sid p1.toNat
      p2.toNat chrom gen sex coin
    cases hx : st.pop.CrossoverMutation subpop source_subpop c.toNat sid p1.toNat p2.toNat
        chrom gen sex coin with
    | terminated e r =>
      refine ⟨fun s h => (by cases h), fun e' s h => ?_⟩
      cases h
      exact hc.2 e r hx
    | undefined => exact ⟨fun s h => (by cases h), fun e s h => (by cases h)⟩
    | returned r =>
      refine ⟨fun s h => ?_, fun e s h => (by cases h)⟩
      cases h
      exact hc.1 r hx

theorem onePass_related (subpop : Nat) (R : Population → Population → Prop)
    (hrefl : ∀ a, R a a) (htrans : ∀ a b c, R a b → R b c → R a c)
    (hstore : ∀ (a : Population) (index : Nat) (s : CrossoverState),
      R a (a.store subpop index s))
    (kind : ChildKind) (source_subpop : Nat) (id gen : Int)
    (mcb ccb : List SLiMScriptBlock) (m : Mating) (st : EvolveState) (nts : Int) :
    match onePass kind subpop source_subpop id gen mcb ccb m st nts with
    | .terminated _ s => R st.pop s.pop
    | .undefined => True
    | .redraw s => R st.pop s.pop
    | .rejected s => R st.pop s.pop
    | .kept s _ => R st.pop s.pop := by
  unfold onePass
  cases h1 : st.pop.subpops[subpop]? with
  | none => trivial
  | some target =>
    cases h2 : st.pop.subpops[source_subpop]? with
    | none => trivial
    | some source =>
      simp only
      generalize (if (decide (kind ≠ ChildKind.male) && decide (nts > 0)) = true then
          CallResult.returned m.parent1
        else if mcb.length > 0 then
          (ApplyMateChoiceCallbacks Double.round m.parent1 target.2 source.2 mcb m.mate_choice).1
        else CallResult.returned m.parent2) = second
      cases second with
      | terminated e => exact hrefl _
      | returned parent2 =>
        simp only
        by_cases hp : parent2 = -1
        · rw [if_pos hp]
          exact hrefl _
        · rw [if_neg hp]
          generalize kind.child_index st target.2.child_first_male_index_ = child_index
          have c1 := crossoverCall_related subpop R hstore st source_subpop (2 * child_index) id
            (2 * m.parent1) (2 * m.parent1 + 1) m.chromosome1 gen kind.sex m.g_rng_bool1
          cases hx1 : crossoverCall st subpop source_subpop (2 * child_index) id
              (2 * m.parent1) (2 * m.parent1 + 1) m.chromosome1 gen kind.sex m.g_rng_bool1 with
          | terminated e s => exact c1.2 e s hx1
          | undefined => trivial
          | returned st1 =>
            have hw1 := c1.1 st1 hx1
            simp only
            have c2 := crossoverCall_related subpop R hstore st1 source_subpop (2 * child_index + 1) id
              (2 * parent2) (2 * parent2 + 1) m.chromosome2 gen kind.sex m.g_rng_bool2
            cases hx2 : crossoverCall st1 subpop source_subpop (2 * child_index + 1) id
                (2 * parent2) (2 * parent2 + 1) m.chromosome2 gen kind.sex m.g_rng_bool2 with
            | terminated e s => exact htrans _ _ _ hw1 (c2.2 e s hx2)
            | undefined => trivial
            | returned st2 =>
              have hw := htrans _ _ _ hw1 (c2.1 st2 hx2)
              simp only
              generalize (if ccb.length > 0 then (ApplyModifyChildCallbacks ccb m.modify_child).1
                else CallResult.returned true) = verdict
              cases verdict with
              | terminated e => exact hw
              | returned generate_child =>
                simp only
                cases generate_child with
                | false => rw [if_neg (by simp)]; exact hw
                | true => rw [if_pos rfl]; exact hw

theorem evolve_writes (pop : Population) (id gen : Int) (mcb ccb : List SLiMScriptBlock)
    (num_migrants : List Nat) (matings : List Mating) (place : Nat)
    (h1 : pop.SubpopulationWithID id = some place) (s : EvolveState)
    (h : (pop.EvolveSubpopulation id gen mcb ccb num_migrants matings).reached (fun a => a) =
      some s) :
    WritesChildBankOnly place pop s.pop ∧
    (pop.EvolveSubpopulation id gen mcb ccb num_migrants matings = .returned s →
      s.pop.child_generation_valid = true ∧
      ∃ final, s.pop.subpops[place]? = some final ∧ final.2.child_generation_valid = true) := by
  have hpass : ∀ (kind : ChildKind) (source_subpop : Nat) (sid : Int) (m : Mating)
      (st : EvolveState) (nts : Int), WritesChildBankOnly place pop st.pop →
      match onePass kind place source_subpop sid gen mcb ccb m st nts with
      | .terminated _ s => WritesChildBankOnly place pop s.pop
      | .undefined => True
      | .redraw s => WritesChildBankOnly place pop s.pop
      | .rejected s => WritesChildBankOnly place pop s.pop
      | .kept s _ => WritesChildBankOnly place pop (kind.advance s).pop := by
    intro kind source_subpop sid m st nts hst
    have hw := onePass_related place (WritesChildBankOnly place) (writes_refl place)
      (fun _ _ _ => writes_trans) (fun a index s => store_writes a place index s) kind
      source_subpop sid gen mcb ccb m st nts
    cases hx : onePass kind place source_subpop sid gen mcb ccb m st nts with
    | terminated e s1 => rw [hx] at hw; exact writes_trans hst hw
    | undefined => trivial
    | redraw s1 => rw [hx] at hw; exact writes_trans hst hw
    | rejected s1 => rw [hx] at hw; exact writes_trans hst hw
    | kept s1 selfed =>
      rw [hx] at hw
      have : (kind.advance s1).pop = s1.pop := by cases kind <;> rfl
      simp only
      rw [this]
      exact writes_trans hst hw
  rcases evolve_invariant (fun st => WritesChildBankOnly place pop st.pop) pop id gen mcb ccb
      num_migrants matings place h1 (fun _ => writes_refl _ _) hpass s h with
    ⟨hinv, hnot⟩ | ⟨st2, final, hinv, hf, hrun, hsub, hflag, _, hrc, htot, hsubst⟩
  · exact ⟨hinv, fun hr => absurd hr (hnot s)⟩
  · have hlt : place < st2.pop.subpops.length := getElem?_lt_length _ _ _ hf
    obtain ⟨hl, hother, hplace, h4, h5, h6⟩ := hinv
    refine ⟨⟨?_, fun i hi => ?_, ?_, hrc.trans h4, htot.trans h5, hsubst.trans h6⟩, fun _ =>
      ⟨hflag, (final.1, { final.2 with child_generation_valid := true }), ?_, rfl⟩⟩
    · rw [hsub]; simp [hl]
    · rw [hsub, List.getElem?_set_ne (Ne.symm hi)]; exact hother i hi
    · rw [hsub, ← hplace, hf]
      simp [hlt, outsideChildBank]
    · rw [hsub]; simp [hlt]
theorem evolve_related (R : Population → Population → Prop) (hrefl : ∀ a, R a a)
    (htrans : ∀ a b c, R a b → R b c → R a c) (pop : Population) (id gen : Int)
    (mcb ccb : List SLiMScriptBlock) (num_migrants : List Nat) (matings : List Mating)
    (place : Nat) (h1 : pop.SubpopulationWithID id = some place)
    (hstore : ∀ (a : Population) (index : Nat) (s : CrossoverState),
      R a (a.store place index s))
    (e : Termination) (s : EvolveState)
    (h : pop.EvolveSubpopulation id gen mcb ccb num_migrants matings = .terminated e s) :
    R pop s.pop := by
  have hpass : ∀ (kind : ChildKind) (source_subpop : Nat) (sid : Int) (m : Mating)
      (st : EvolveState) (nts : Int), R pop st.pop →
      match onePass kind place source_subpop sid gen mcb ccb m st nts with
      | .terminated _ s => R pop s.pop
      | .undefined => True
      | .redraw s => R pop s.pop
      | .rejected s => R pop s.pop
      | .kept s _ => R pop (kind.advance s).pop := by
    intro kind source_subpop sid m st nts hst
    have hw := onePass_related place R hrefl htrans hstore kind source_subpop sid gen mcb ccb
      m st nts
    cases hx : onePass kind place source_subpop sid gen mcb ccb m st nts with
    | terminated e s1 => rw [hx] at hw; exact htrans _ _ _ hst hw
    | undefined => trivial
    | redraw s1 => rw [hx] at hw; exact htrans _ _ _ hst hw
    | rejected s1 => rw [hx] at hw; exact htrans _ _ _ hst hw
    | kept s1 selfed =>
      rw [hx] at hw
      have : (kind.advance s1).pop = s1.pop := by cases kind <;> rfl
      simp only
      rw [this]
      exact htrans _ _ _ hst hw
  have hreached : (pop.EvolveSubpopulation id gen mcb ccb num_migrants matings).reached
      (fun a => a) = some s := by rw [h]; rfl
  rcases evolve_invariant (fun st => R pop st.pop) pop id gen mcb ccb num_migrants matings
      place h1 (fun _ => hrefl _) hpass s hreached with ⟨hinv, _⟩ | ⟨_, _, _, _, hrun, _⟩
  · exact hinv
  · rw [h] at hrun; cases hrun


theorem outsideChildBank_fields (a b : Int × Subpopulation)
    (h : outsideChildBank a = outsideChildBank b) :
    a.1 = b.1 ∧ a.2.parent_genomes_ = b.2.parent_genomes_ ∧
    a.2.parent_subpop_size_ = b.2.parent_subpop_size_ ∧
    a.2.parent_sex_ratio_ = b.2.parent_sex_ratio_ ∧
    a.2.parent_first_male_index_ = b.2.parent_first_male_index_ ∧
    a.2.child_subpop_size_ = b.2.child_subpop_size_ ∧
    a.2.child_sex_ratio_ = b.2.child_sex_ratio_ ∧
    a.2.child_first_male_index_ = b.2.child_first_male_index_ ∧
    a.2.selfing_fraction_ = b.2.selfing_fraction_ ∧
    a.2.migrant_fractions_ = b.2.migrant_fractions_ ∧
    a.2.sex_enabled_ = b.2.sex_enabled_ :=
  ⟨show (outsideChildBank a).1 = (outsideChildBank b).1 by rw [h],
    show (outsideChildBank a).2.parent_genomes_ = (outsideChildBank b).2.parent_genomes_ by
      rw [h],
    show (outsideChildBank a).2.parent_subpop_size_ =
      (outsideChildBank b).2.parent_subpop_size_ by rw [h],
    show (outsideChildBank a).2.parent_sex_ratio_ =
      (outsideChildBank b).2.parent_sex_ratio_ by rw [h],
    show (outsideChildBank a).2.parent_first_male_index_ =
      (outsideChildBank b).2.parent_first_male_index_ by rw [h],
    show (outsideChildBank a).2.child_subpop_size_ =
      (outsideChildBank b).2.child_subpop_size_ by rw [h],
    show (outsideChildBank a).2.child_sex_ratio_ =
      (outsideChildBank b).2.child_sex_ratio_ by rw [h],
    show (outsideChildBank a).2.child_first_male_index_ =
      (outsideChildBank b).2.child_first_male_index_ by rw [h],
    show (outsideChildBank a).2.selfing_fraction_ =
      (outsideChildBank b).2.selfing_fraction_ by rw [h],
    show (outsideChildBank a).2.migrant_fractions_ =
      (outsideChildBank b).2.migrant_fractions_ by rw [h],
    show (outsideChildBank a).2.sex_enabled_ = (outsideChildBank b).2.sex_enabled_ by rw [h]⟩

/-! ## The calls that configure the population -/

theorem mapCount_eq_zero {α : Type} (key : Int) (l : List (Int × α)) :
    mapCount key l = 0 ↔ ∀ e ∈ l, e.1 ≠ key := by
  unfold mapCount
  split
  · rename_i h
    simp only [List.any_eq_true, decide_eq_true_eq] at h
    obtain ⟨e, he, hk⟩ := h
    exact ⟨fun h0 => absurd h0 (by decide), fun hall => absurd hk (hall e he)⟩
  · rename_i h
    simp only [List.any_eq_true, decide_eq_true_eq, not_exists, not_and] at h
    exact ⟨fun _ => h, fun _ => rfl⟩

theorem subpopulationPlace_none (id : Int) : ∀ (l : List (Int × Subpopulation)) (start : Nat),
    subpopulationPlace id l start = none ↔ ∀ e ∈ l, e.1 ≠ id
  | [], _ => by simp [subpopulationPlace]
  | x :: rest, start => by
    unfold subpopulationPlace
    by_cases hx : x.1 = id
    · rw [if_pos hx]
      simp [hx]
    · rw [if_neg hx, subpopulationPlace_none id rest (start + 1)]
      simp [hx]

theorem subpopulationWithID_none (pop : Population) (id : Int) :
    pop.SubpopulationWithID id = none ↔ ¬ pop.Names id := by
  unfold Population.SubpopulationWithID Population.Names
  rw [subpopulationPlace_none]
  exact ⟨fun h ⟨e, he, hid⟩ => h e he hid, fun h e he hid => h ⟨e, he, hid⟩⟩

theorem subpopulationWithID_named (pop : Population) (id : Int) (h : pop.Names id) :
    ∃ place e, pop.SubpopulationWithID id = some place ∧ pop.subpops[place]? = some e ∧
      e.1 = id := by
  cases hp : pop.SubpopulationWithID id with
  | none => exact absurd h ((subpopulationWithID_none pop id).1 hp)
  | some place =>
    obtain ⟨e, he, hid⟩ := subpopulationWithID_getElem? pop id place hp
    exact ⟨place, e, rfl, he, hid⟩

theorem mapCount_names (pop : Population) (id : Int) :
    mapCount id pop.subpops = 0 ↔ ¬ pop.Names id := by
  rw [mapCount_eq_zero]
  unfold Population.Names
  exact ⟨fun h ⟨e, he, hid⟩ => h e he hid, fun h e he hid => h ⟨e, he, hid⟩⟩

theorem mem_mapInsert {α : Type} (p : Int × α) : ∀ (l : List (Int × α)) (x : Int × α),
    x ∈ mapInsert p l → x = p ∨ x ∈ l
  | [], x, h => by
    simp only [mapInsert, List.mem_singleton] at h
    exact Or.inl h
  | e :: rest, x, h => by
    unfold mapInsert at h
    split at h
    · rcases List.mem_cons.1 h with h | h
      · exact Or.inl h
      · exact Or.inr h
    · split at h
      · exact Or.inr h
      · rcases List.mem_cons.1 h with h | h
        · exact Or.inr (by rw [h]; exact List.mem_cons_self _ _)
        · rcases mem_mapInsert p rest x h with h | h
          · exact Or.inl h
          · exact Or.inr (List.mem_cons_of_mem _ h)

theorem mapInsert_sublist {α : Type} (p : Int × α) : ∀ (l : List (Int × α)),
    l.Sublist (mapInsert p l)
  | [] => List.nil_sublist _
  | e :: rest => by
    unfold mapInsert
    split
    · exact List.sublist_cons_self _ _
    · split
      · exact List.Sublist.refl _
      · exact (mapInsert_sublist p rest).cons₂ e

theorem mapInsert_beside {α : Type} (p : Int × α) : ∀ (l : List (Int × α)),
    entriesBeside p.1 (mapInsert p l) = entriesBeside p.1 l
  | [] => by simp [mapInsert, entriesBeside]
  | e :: rest => by
    unfold mapInsert
    split
    · simp [entriesBeside]
    · split
      · rfl
      · have ih := mapInsert_beside p rest
        unfold entriesBeside at ih ⊢
        rw [List.filter_cons, List.filter_cons, ih]

theorem mapInsert_for {α : Type} (p : Int × α) : ∀ (l : List (Int × α)),
    (∀ e ∈ l, e.1 ≠ p.1) → entriesFor p.1 (mapInsert p l) = [p]
  | [], _ => by simp [mapInsert, entriesFor]
  | e :: rest, h => by
    have he : e.1 ≠ p.1 := h e (List.mem_cons_self _ _)
    have hrest : ∀ x ∈ rest, x.1 ≠ p.1 := fun x hx => h x (List.mem_cons_of_mem _ hx)
    have hnone : List.filter (fun x : Int × α => decide (x.1 = p.1)) rest = [] := by
      rw [List.filter_eq_nil_iff]
      intro x hx
      simpa using hrest x hx
    unfold mapInsert
    split
    · simp [entriesFor, he, hnone]
    · split
      · rename_i heq
        exact absurd heq.symm he
      · have ih := mapInsert_for p rest hrest
        unfold entriesFor at ih ⊢
        rw [List.filter_cons, if_neg (by simpa using he), ih]

theorem mapErase_for {α : Type} (key : Int) (l : List (Int × α)) :
    ∀ e ∈ mapErase key l, e.1 ≠ key := by
  intro e he
  unfold mapErase at he
  simpa using (List.mem_filter.1 he).2

theorem setFraction_beside (src : Int) (f : Double) (l : List (Int × Double)) :
    entriesBeside src (setFraction src f l) = entriesBeside src l := by
  have herased : entriesBeside src (if mapCount src l ≠ 0 then mapErase src l else l) =
      entriesBeside src l := by
    split
    · unfold entriesBeside mapErase
      rw [List.filter_filter]
      simp
    · rfl
  unfold setFraction
  simp only
  split
  · rw [mapInsert_beside (src, f), herased]
  · exact herased

theorem setFraction_erased (src : Int) (l : List (Int × Double)) :
    ∀ e ∈ (if mapCount src l ≠ 0 then mapErase src l else l), e.1 ≠ src := by
  split
  · exact mapErase_for src l
  · rename_i h
    exact (mapCount_eq_zero src l).1 (not_not.1 h)

theorem setFraction_for (src : Int) (f : Double) (l : List (Int × Double)) :
    entriesFor src (setFraction src f l) = if Double.ofInt 0 < f then [(src, f)] else [] := by
  unfold setFraction
  simp only
  split
  · exact mapInsert_for (src, f) _ (setFraction_erased src l)
  · unfold entriesFor
    rw [List.filter_eq_nil_iff]
    intro x hx
    simpa using setFraction_erased src l x hx

theorem setFraction_inRange (src : Int) (f : Double) (l : List (Int × Double))
    (hf : ¬ (f < Double.ofInt 0 ∨ Double.ofInt 1 < f)) (hl : FractionsInRange l) :
    FractionsInRange (setFraction src f l) := by
  have herased : FractionsInRange (if mapCount src l ≠ 0 then mapErase src l else l) := by
    split
    · intro pair hp
      exact hl pair (List.mem_filter.1 hp).1
    · exact hl
  unfold setFraction
  simp only
  split
  · rename_i hpos
    intro pair hp
    rcases mem_mapInsert _ _ _ hp with h | h
    · rw [h]
      exact ⟨hpos, Int.not_lt.1 (fun hgt => hf (Or.inr hgt))⟩
    · exact herased pair h
  · exact herased
theorem setMigration_cases (pop : Population) (id src : Int) (f : Double) :
    ((¬ pop.Names src ∨ f < Double.ofInt 0 ∨ Double.ofInt 1 < f ∨ ¬ pop.Names id) ∧
      ∃ e, pop.SetMigration id src f = .terminated e pop) ∨
    (¬ (¬ pop.Names src ∨ f < Double.ofInt 0 ∨ Double.ofInt 1 < f ∨ ¬ pop.Names id) ∧
      ∃ place target, pop.SubpopulationWithID id = some place ∧
        pop.subpops[place]? = some target ∧ target.1 = id ∧
        pop.SetMigration id src f = .returned { pop with
          subpops := pop.subpops.set place
            (target.1, { target.2 with
              migrant_fractions_ := setFraction src f target.2.migrant_fractions_ }) }) := by
  unfold Population.SetMigration
  by_cases hsrc : mapCount src pop.subpops = 0
  · rw [if_pos hsrc]
    exact Or.inl ⟨Or.inl ((mapCount_names pop src).1 hsrc), _, rfl⟩
  · rw [if_neg hsrc]
    have hnsrc : pop.Names src := not_not.1 (fun h => hsrc ((mapCount_names pop src).2 h))
    by_cases hf : f < Double.ofInt 0 ∨ Double.ofInt 1 < f
    · rw [if_pos hf]
      exact Or.inl ⟨Or.inr (hf.elim Or.inl (fun h => Or.inr (Or.inl h))), _, rfl⟩
    · rw [if_neg hf]
      by_cases hid : pop.Names id
      · obtain ⟨place, target, hp, ht, hk⟩ := subpopulationWithID_named pop id hid
        refine Or.inr ⟨?_, place, target, hp, ht, hk, ?_⟩
        · rintro (h | h | h | h)
          · exact h hnsrc
          · exact hf (Or.inl h)
          · exact hf (Or.inr h)
          · exact h hid
        · rw [hp]
          simp only
          rw [ht]
      · rw [(subpopulationWithID_none pop id).2 hid]
        exact Or.inl ⟨Or.inr (Or.inr (Or.inr hid)), _, rfl⟩
theorem setSize_cases (pop : Population) (sim : SLiMSim) (id : Int) (n : Nat) :
    ((pop.child_generation_valid = true ∨ ¬ pop.Names id) ∧
      ∃ e, pop.SetSize sim id n = .terminated e pop) ∨
    (pop.child_generation_valid = false ∧ pop.Names id ∧ n = 0 ∧
      pop.SetSize sim id n = .returned { pop with
        subpops := (mapErase id pop.subpops).map (fun subpop_pair =>
          (subpop_pair.1, { subpop_pair.2 with
            migrant_fractions_ := mapErase id subpop_pair.2.migrant_fractions_ })) }) ∨
    (pop.child_generation_valid = false ∧ pop.Names id ∧ n ≠ 0 ∧
      ∃ place target, pop.SubpopulationWithID id = some place ∧
        pop.subpops[place]? = some target ∧ target.1 = id ∧
        pop.SetSize sim id n = .returned { pop with
          subpops := pop.subpops.set place
            (target.1, Subpopulation.GenerateChildrenToFit
              { target.2 with child_subpop_size_ := n } sim) }) := by
  unfold Population.SetSize
  cases hv : pop.child_generation_valid with
  | true => exact Or.inl ⟨Or.inl rfl, _, if_pos rfl⟩
  | false =>
    rw [if_neg (by simp)]
    by_cases hc : mapCount id pop.subpops = 0
    · rw [if_pos hc]
      exact Or.inl ⟨Or.inr ((mapCount_names pop id).1 hc), _, rfl⟩
    · rw [if_neg hc]
      have hid : pop.Names id := not_not.1 (fun h => hc ((mapCount_names pop id).2 h))
      by_cases hn : n = 0
      · rw [if_pos hn]
        exact Or.inr (Or.inl ⟨rfl, hid, hn, rfl⟩)
      · rw [if_neg hn]
        obtain ⟨place, target, hp, ht, hk⟩ := subpopulationWithID_named pop id hid
        refine Or.inr (Or.inr ⟨rfl, hid, hn, place, target, hp, ht, hk, ?_⟩)
        rw [hp]
        simp only
        rw [ht]

theorem setSexRatio_cases (pop : Population) (sim : SLiMSim) (id : Int) (r : Double) :
    ((pop.child_generation_valid = true ∨ ¬ pop.Names id) ∧
      ∃ e, pop.SetSexRatio sim id r = .terminated e pop) ∨
    (pop.child_generation_valid = false ∧ pop.Names id ∧
      ∃ place target, pop.SubpopulationWithID id = some place ∧
        pop.subpops[place]? = some target ∧ target.1 = id ∧
        pop.SetSexRatio sim id r = .returned { pop with
          subpops := pop.subpops.set place
            (target.1, Subpopulation.GenerateChildrenToFit
              { target.2 with child_sex_ratio_ := r } sim) }) := by
  unfold Population.SetSexRatio
  cases hv : pop.child_generation_valid with
  | true => exact Or.inl ⟨Or.inl rfl, _, if_pos rfl⟩
  | false =>
    rw [if_neg (by simp)]
    by_cases hc : mapCount id pop.subpops = 0
    · rw [if_pos hc]
      exact Or.inl ⟨Or.inr ((mapCount_names pop id).1 hc), _, rfl⟩
    · rw [if_neg hc]
      have hid : pop.Names id := not_not.1 (fun h => hc ((mapCount_names pop id).2 h))
      obtain ⟨place, target, hp, ht, hk⟩ := subpopulationWithID_named pop id hid
      refine Or.inr ⟨rfl, hid, place, target, hp, ht, hk, ?_⟩
      rw [hp]
      simp only
      rw [ht]

theorem setSelfing_cases (pop : Population) (id : Int) (f : Double) :
    ((f < Double.ofInt 0 ∨ Double.ofInt 1 < f ∨ ¬ pop.Names id) ∧
      ∃ e, pop.SetSelfing id f = .terminated e pop) ∨
    (¬ (f < Double.ofInt 0 ∨ Double.ofInt 1 < f ∨ ¬ pop.Names id) ∧
      ∃ place target, pop.SubpopulationWithID id = some place ∧
        pop.subpops[place]? = some target ∧ target.1 = id ∧
        pop.SetSelfing id f = .returned { pop with
          subpops := pop.subpops.set place
            (target.1, { target.2 with selfing_fraction_ := f }) }) := by
  unfold Population.SetSelfing
  by_cases hf : f < Double.ofInt 0 ∨ Double.ofInt 1 < f
  · rw [if_pos hf]
    exact Or.inl ⟨hf.elim Or.inl (fun h => Or.inr (Or.inl h)), _, rfl⟩
  · rw [if_neg hf]
    by_cases hid : pop.Names id
    · obtain ⟨place, target, hp, ht, hk⟩ := subpopulationWithID_named pop id hid
      refine Or.inr ⟨?_, place, target, hp, ht, hk, ?_⟩
      · rintro (h | h | h)
        · exact hf (Or.inl h)
        · exact hf (Or.inr h)
        · exact h hid
      · rw [hp]
        simp only
        rw [ht]
    · rw [(subpopulationWithID_none pop id).2 hid]
      exact Or.inl ⟨Or.inr (Or.inr hid), _, rfl⟩

theorem addSubpopulation_cases (pop : Population) (sim : SLiMSim) (id : Int) (n : Nat)
    (r : Double) :
    ((pop.Names id ∨ n < 1) ∧ ∃ e, pop.AddSubpopulation sim id n r = .terminated e pop) ∨
    (¬ (pop.Names id ∨ n < 1) ∧
      pop.AddSubpopulation sim id n r = .returned { pop with
        subpops := mapInsert (id, pop.newSubpopulation sim n r) pop.subpops }) := by
  unfold Population.AddSubpopulation
  by_cases hc : mapCount id pop.subpops ≠ 0
  · rw [if_pos hc]
    exact Or.inl ⟨Or.inl (not_not.1 (fun h => hc ((mapCount_names pop id).2 h))), _, rfl⟩
  · rw [if_neg hc]
    have hid : ¬ pop.Names id := (mapCount_names pop id).1 (not_not.1 hc)
    by_cases hn : n < 1
    · rw [if_pos hn]
      exact Or.inl ⟨Or.inr hn, _, rfl⟩
    · rw [if_neg hn]
      exact Or.inr ⟨fun h => h.elim hid hn, rfl⟩

theorem addSubpopulationFrom_cases (pop : Population) (sim : SLiMSim) (id : Int)
    (source : Subpopulation) (n : Nat) (r : Double) (draws : ParentDraws) :
    ((pop.Names id ∨ n < 1) ∧
      ∃ e, pop.AddSubpopulationFrom sim id source n r draws = .terminated e pop) ∨
    (¬ (pop.Names id ∨ n < 1) ∧
      pop.AddSubpopulationFrom sim id source n r draws = .undefined) ∨
    (¬ (pop.Names id ∨ n < 1) ∧
      ∃ parent_genomes_,
        drawParentsLoop sim.SexEnabled draws source
          (pop.newSubpopulation sim n r).parent_first_male_index_
          (pop.newSubpopulation sim n r).parent_subpop_size_ 0
          (pop.newSubpopulation sim n r).parent_genomes_ = some parent_genomes_ ∧
        pop.AddSubpopulationFrom sim id source n r draws = .returned { pop with
          subpops := mapInsert
            (id, { pop.newSubpopulation sim n r with parent_genomes_ := parent_genomes_ })
            pop.subpops }) := by
  unfold Population.AddSubpopulationFrom
  by_cases hc : mapCount id pop.subpops ≠ 0
  · rw [if_pos hc]
    exact Or.inl ⟨Or.inl (not_not.1 (fun h => hc ((mapCount_names pop id).2 h))), _, rfl⟩
  · rw [if_neg hc]
    have hid : ¬ pop.Names id := (mapCount_names pop id).1 (not_not.1 hc)
    by_cases hn : n < 1
    · rw [if_pos hn]
      exact Or.inl ⟨Or.inr hn, _, rfl⟩
    · rw [if_neg hn]
      have hgood : ¬ (pop.Names id ∨ n < 1) := fun h => h.elim hid hn
      simp only
      cases hd : drawParentsLoop sim.SexEnabled draws source
          (pop.newSubpopulation sim n r).parent_first_male_index_
          (pop.newSubpopulation sim n r).parent_subpop_size_ 0
          (pop.newSubpopulation sim n r).parent_genomes_ with
      | none => exact Or.inr (Or.inl ⟨hgood, rfl⟩)
      | some parent_genomes_ => exact Or.inr (Or.inr ⟨hgood, parent_genomes_, rfl, rfl⟩)

theorem newSubpopulation_fields (pop : Population) (sim : SLiMSim) (n : Nat) (r : Double) :
    (pop.newSubpopulation sim n r).migrant_fractions_ = [] ∧
    (pop.newSubpopulation sim n r).selfing_fraction_ = Double.ofInt 0 ∧
    (pop.newSubpopulation sim n r).child_generation_valid = pop.child_generation_valid ∧
    (pop.newSubpopulation sim n r).parent_subpop_size_ = n ∧
    (pop.newSubpopulation sim n r).child_subpop_size_ = n ∧
    (pop.newSubpopulation sim n r).sex_enabled_ = sim.SexEnabled := by
  unfold Population.newSubpopulation
  cases h : sim.SexEnabled <;> simp [Subpopulation.construct, h]

theorem map_set_of_eq {α β : Type} (f : α → β) (l : List α) (place : Nat) (old new : α)
    (h : l[place]? = some old) (hf : f new = f old) : (l.set place new).map f = l.map f := by
  apply List.ext_getElem?
  intro i
  by_cases hi : i = place
  · subst hi
    have hlt : i < l.length := getElem?_lt_length _ _ _ h
    rw [List.getElem?_map, List.getElem?_map, h]
    simp [hlt, hf]
  · simp only [List.getElem?_map]
    rw [List.getElem?_set_ne (Ne.symm hi)]

theorem writes_childSetting (place : Nat) (a b : Population)
    (h : WritesChildBankOnly place a b) :
    b.subpops.map childSetting = a.subpops.map childSetting := by
  obtain ⟨_, hother, hplace, _⟩ := h
  apply List.ext_getElem?
  intro i
  simp only [List.getElem?_map]
  by_cases hi : i = place
  · subst hi
    have hc : ∀ e : Int × Subpopulation,
        childSetting e = childSetting (outsideChildBank e) := fun _ => rfl
    have : ((b.subpops[i]?).map outsideChildBank).map childSetting =
        ((a.subpops[i]?).map outsideChildBank).map childSetting := by rw [hplace]
    cases hb : b.subpops[i]? <;> cases ha : a.subpops[i]? <;>
      simp only [hb, ha, Option.map_some', Option.map_none', Option.some.injEq] at this ⊢ <;>
      first
        | rfl
        | cases this
        | (rw [hc, this, ← hc])
  · rw [hother i hi]
theorem store_flag (a : Population) (place index : Nat) (s : CrossoverState) :
    (a.store place index s).child_generation_valid = a.child_generation_valid := by
  unfold Population.store
  cases a.subpops[place]? <;> rfl

theorem evolve_window (pop : Population) (id gen : Int) (mcb ccb : List SLiMScriptBlock)
    (num_migrants : List Nat) (matings : List Mating) (after : Population)
    (hflag : pop.child_generation_valid = true)
    (h : (pop.EvolveSubpopulation id gen mcb ccb num_migrants matings).ended = some after) :
    after.child_generation_valid = true ∧
    after.subpops.map childSetting = pop.subpops.map childSetting := by
  cases hp : pop.SubpopulationWithID id with
  | none =>
    unfold Population.EvolveSubpopulation at h
    rw [hp] at h
    simp only [Run.ended, Option.some.injEq] at h
    subst h
    exact ⟨hflag, rfl⟩
  | some place =>
    cases hrun : pop.EvolveSubpopulation id gen mcb ccb num_migrants matings with
    | undefined => rw [hrun] at h; cases h
    | pending s => rw [hrun] at h; cases h
    | terminated e s =>
      rw [hrun] at h
      simp only [Run.ended, Option.some.injEq] at h
      subst h
      have hw := (evolve_writes pop id gen mcb ccb num_migrants matings place hp s
        (by rw [hrun]; rfl)).1
      have hf := evolve_related (fun a b => b.child_generation_valid = a.child_generation_valid)
        (fun _ => rfl) (fun _ _ _ h1 h2 => h2.trans h1) pop id gen mcb ccb num_migrants matings
        place hp (fun a index s => store_flag a place index s) e s hrun
      exact ⟨hf.trans hflag, writes_childSetting place pop s.pop hw⟩
    | returned s =>
      rw [hrun] at h
      simp only [Run.ended, Option.some.injEq] at h
      subst h
      have hw := evolve_writes pop id gen mcb ccb num_migrants matings place hp s
        (by rw [hrun]; rfl)
      exact ⟨(hw.2 hrun).1, writes_childSetting place pop s.pop hw.1⟩

theorem addSubpopulationFromID_cases (pop : Population) (sim : SLiMSim) (id src : Int)
    (n : Nat) (r : Double) (draws : ParentDraws) :
    pop.AddSubpopulationFromID sim id src n r draws = .undefined ∨
    (∃ e, pop.AddSubpopulationFromID sim id src n r draws = .terminated e pop) ∨
    (pop.Names src ∧ ¬ (pop.Names id ∨ n < 1) ∧ ∃ parent_genomes_,
      pop.AddSubpopulationFromID sim id src n r draws = .returned { pop with
        subpops := mapInsert
          (id, { pop.newSubpopulation sim n r with parent_genomes_ := parent_genomes_ })
          pop.subpops }) := by
  unfold Population.AddSubpopulationFromID
  cases hp : pop.SubpopulationWithID src with
  | none => exact Or.inr (Or.inl ⟨_, rfl⟩)
  | some place =>
    obtain ⟨e, he, hid⟩ := subpopulationWithID_getElem? pop src place hp
    simp only
    rw [he]
    simp only
    rcases addSubpopulationFrom_cases pop sim id e.2 n r draws with ⟨_, t, ht⟩ | ⟨_, hu⟩ |
      ⟨hgood, pg, _, hr⟩
    · exact Or.inr (Or.inl ⟨t, ht⟩)
    · exact Or.inl hu
    · exact Or.inr (Or.inr ⟨⟨e, List.getElem?_mem he, hid⟩, hgood, pg, hr⟩)

theorem set_childSetting (l : List (Int × Subpopulation)) (place : Nat)
    (old new : Int × Subpopulation) (h : l[place]? = some old)
    (hc : childSetting new = childSetting old) :
    (l.map childSetting).Sublist ((l.set place new).map childSetting) := by
  rw [map_set_of_eq childSetting l place old new h hc]

theorem call_window (pop : Population) (sim : SLiMSim) (c : PopulationCall)
    (after : Population) (hflag : pop.child_generation_valid = true)
    (h : pop.call sim c = some after) :
    after.child_generation_valid = true ∧
    (pop.subpops.map childSetting).Sublist (after.subpops.map childSetting) := by
  cases c with
  | addSubpopulation id n r =>
    simp only [Population.call] at h
    rcases addSubpopulation_cases pop sim id n r with ⟨_, e, he⟩ | ⟨_, hr⟩
    · rw [he] at h
      cases h
      exact ⟨hflag, List.Sublist.refl _⟩
    · rw [hr] at h
      cases h
      exact ⟨hflag, (mapInsert_sublist _ _).map _⟩
  | addSubpopulationFrom id src n r draws =>
    simp only [Population.call] at h
    rcases addSubpopulationFromID_cases pop sim id src n r draws with hu | ⟨e, he⟩ |
      ⟨_, _, pg, hr⟩
    · rw [hu] at h
      cases h
    · rw [he] at h
      cases h
      exact ⟨hflag, List.Sublist.refl _⟩
    · rw [hr] at h
      cases h
      exact ⟨hflag, (mapInsert_sublist _ _).map _⟩
  | setSize id n =>
    simp only [Population.call] at h
    rcases setSize_cases pop sim id n with ⟨_, e, he⟩ | ⟨hv, _⟩ | ⟨hv, _⟩
    · rw [he] at h
      cases h
      exact ⟨hflag, List.Sublist.refl _⟩
    · rw [hflag] at hv
      cases hv
    · rw [hflag] at hv
      cases hv
  | setSexRatio id r =>
    simp only [Population.call] at h
    rcases setSexRatio_cases pop sim id r with ⟨_, e, he⟩ | ⟨hv, _⟩
    · rw [he] at h
      cases h
      exact ⟨hflag, List.Sublist.refl _⟩
    · rw [hflag] at hv
      cases hv
  | setSelfing id f =>
    simp only [Population.call] at h
    rcases setSelfing_cases pop id f with ⟨_, e, he⟩ | ⟨_, place, target, _, ht, _, hr⟩
    · rw [he] at h
      cases h
      exact ⟨hflag, List.Sublist.refl _⟩
    · rw [hr] at h
      cases h
      exact ⟨hflag, set_childSetting pop.subpops place target _ ht rfl⟩
  | setMigration id src f =>
    simp only [Population.call] at h
    rcases setMigration_cases pop id src f with ⟨_, e, he⟩ | ⟨_, place, target, _, ht, _, hr⟩
    · rw [he] at h
      cases h
      exact ⟨hflag, List.Sublist.refl _⟩
    · rw [hr] at h
      cases h
      exact ⟨hflag, set_childSetting pop.subpops place target _ ht rfl⟩
  | evolveSubpopulation id gen mcb ccb num_migrants matings =>
    simp only [Population.call] at h
    obtain ⟨hf, hs⟩ := evolve_window pop id gen mcb ccb num_migrants matings after hflag h
    rw [hs]
    exact ⟨hf, List.Sublist.refl _⟩

theorem calls_window (sim : SLiMSim) : ∀ (calls : List PopulationCall)
    (pop after : Population), pop.child_generation_valid = true →
    pop.calls sim calls = some after →
    after.child_generation_valid = true ∧
    (pop.subpops.map childSetting).Sublist (after.subpops.map childSetting)
  | [], pop, after, hflag, h => by
    simp only [Population.calls, Option.some.injEq] at h
    subst h
    exact ⟨hflag, List.Sublist.refl _⟩
  | c :: rest, pop, after, hflag, h => by
    unfold Population.calls at h
    cases hc : pop.call sim c with
    | none => rw [hc] at h; cases h
    | some next =>
      rw [hc] at h
      obtain ⟨hf1, hs1⟩ := call_window pop sim c next hflag hc
      obtain ⟨hf2, hs2⟩ := calls_window sim rest next after hf1 h
      exact ⟨hf2, hs1.trans hs2⟩
theorem call_fractions (pop : Population) (sim : SLiMSim) (c : PopulationCall)
    (after : Population) (hc : c.configures = true)
    (hinv : ∀ e ∈ pop.subpops, FractionsInRange e.2.migrant_fractions_)
    (h : pop.call sim c = some after) :
    ∀ e ∈ after.subpops, FractionsInRange e.2.migrant_fractions_ := by
  have hnew : ∀ (n : Nat) (r : Double) (pg : List Genome), FractionsInRange
      ({ pop.newSubpopulation sim n r with parent_genomes_ := pg }).migrant_fractions_ := by
    intro n r pg
    show FractionsInRange (pop.newSubpopulation sim n r).migrant_fractions_
    rw [(newSubpopulation_fields pop sim n r).1]
    intro pair hp
    cases hp
  cases c with
  | addSubpopulation id n r =>
    simp only [Population.call] at h
    rcases addSubpopulation_cases pop sim id n r with ⟨_, e, he⟩ | ⟨_, hr⟩
    · rw [he] at h
      cases h
      exact hinv
    · rw [hr] at h
      cases h
      intro e he
      rcases mem_mapInsert _ _ _ he with h1 | h1
      · rw [h1]
        exact hnew n r (pop.newSubpopulation sim n r).parent_genomes_
      · exact hinv e h1
  | addSubpopulationFrom id src n r draws =>
    simp only [Population.call] at h
    rcases addSubpopulationFromID_cases pop sim id src n r draws with hu | ⟨e, he⟩ |
      ⟨_, _, pg, hr⟩
    · rw [hu] at h
      cases h
    · rw [he] at h
      cases h
      exact hinv
    · rw [hr] at h
      cases h
      intro e he
      rcases mem_mapInsert _ _ _ he with h1 | h1
      · rw [h1]
        exact hnew n r pg
      · exact hinv e h1
  | setSize id n =>
    simp only [Population.call] at h
    rcases setSize_cases pop sim id n with ⟨_, e, he⟩ | ⟨_, _, _, hr⟩ |
      ⟨_, _, _, place, target, _, ht, _, hr⟩
    · rw [he] at h
      cases h
      exact hinv
    · rw [hr] at h
      cases h
      intro e he
      simp only [List.mem_map] at he
      obtain ⟨x, hx, hxe⟩ := he
      rw [← hxe]
      intro pair hp
      exact hinv x (List.mem_filter.1 hx).1 pair (List.mem_filter.1 hp).1
    · rw [hr] at h
      cases h
      intro e he
      rcases List.mem_or_eq_of_mem_set he with h1 | h1
      · exact hinv e h1
      · rw [h1]
        exact hinv target (List.getElem?_mem ht)
  | setMigration id src f =>
    simp only [Population.call] at h
    rcases setMigration_cases pop id src f with ⟨_, e, he⟩ | ⟨hgood, place, target, _, ht, _, hr⟩
    · rw [he] at h
      cases h
      exact hinv
    · rw [hr] at h
      cases h
      intro e he
      rcases List.mem_or_eq_of_mem_set he with h1 | h1
      · exact hinv e h1
      · rw [h1]
        exact setFraction_inRange src f _
          (fun hf => hgood (Or.inr (hf.elim Or.inl (fun x => Or.inr (Or.inl x)))))
          (hinv target (List.getElem?_mem ht))
  | setSexRatio id r => cases hc
  | setSelfing id f => cases hc
  | evolveSubpopulation id gen mcb ccb num_migrants matings => cases hc

theorem calls_fractions (sim : SLiMSim) : ∀ (calls : List PopulationCall)
    (pop after : Population), (∀ c ∈ calls, c.configures = true) →
    (∀ e ∈ pop.subpops, FractionsInRange e.2.migrant_fractions_) →
    pop.calls sim calls = some after →
    ∀ e ∈ after.subpops, FractionsInRange e.2.migrant_fractions_
  | [], pop, after, _, hinv, h => by
    simp only [Population.calls, Option.some.injEq] at h
    subst h
    exact hinv
  | c :: rest, pop, after, hcalls, hinv, h => by
    unfold Population.calls at h
    cases hc : pop.call sim c with
    | none => rw [hc] at h; cases h
    | some next =>
      rw [hc] at h
      exact calls_fractions sim rest next after
        (fun x hx => hcalls x (List.mem_cons_of_mem _ hx))
        (call_fractions pop sim c next (hcalls c (List.mem_cons_self _ _)) hinv hc) h

/-! ## The remaining calls and loops -/

theorem entriesBeside_absent {α : Type} (key : Int) (l : List (Int × α))
    (h : ∀ e ∈ l, e.1 ≠ key) : entriesBeside key l = l := by
  unfold entriesBeside
  rw [List.filter_eq_self]
  intro e he
  simpa using h e he

theorem length_mapInsert {α : Type} (p : Int × α) : ∀ (l : List (Int × α)),
    (∀ e ∈ l, e.1 ≠ p.1) → (mapInsert p l).length = l.length + 1
  | [], _ => rfl
  | e :: rest, h => by
    have he : e.1 ≠ p.1 := h e (List.mem_cons_self _ _)
    unfold mapInsert
    split
    · rfl
    · rw [if_neg (fun heq => he heq.symm)]
      simp only [List.length_cons]
      rw [length_mapInsert p rest (fun x hx => h x (List.mem_cons_of_mem _ hx))]

theorem deletedMutations_eq (removed : List Mutation) : deletedMutations removed = removed := by
  have h : ∀ (l acc : List Mutation),
      l.foldl (fun deleted mutation => deleted ++ [mutation]) acc = acc ++ l := by
    intro l
    induction l with
    | nil => intro acc; simp
    | cons x rest ih => intro acc; simp [ih]
  unfold deletedMutations
  rw [h]
  rfl

theorem filter_lost_fixed (rc : Mutation → Int) (total : Int) : ∀ (rm : List Mutation),
    (∀ m ∈ rm, leavesRegistry rc total m = true) →
    rm.length = (rm.filter (isLost rc)).length + (rm.filter (isFixed rc total)).length
  | [], _ => rfl
  | x :: rest, h => by
    have ih := filter_lost_fixed rc total rest (fun m hm => h m (List.mem_cons_of_mem _ hm))
    have hx := h x (List.mem_cons_self _ _)
    unfold leavesRegistry at hx
    by_cases h0 : rc x = 0
    · have h1 : isLost rc x = true := by simp [isLost, h0]
      have h2 : ¬ isFixed rc total x = true := by simp [isFixed, h0]
      rw [List.filter_cons_of_pos h1, List.filter_cons_of_neg h2]
      simp only [List.length_cons]
      omega
    · have h1 : ¬ isLost rc x = true := by simp [isLost, h0]
      have h2 : isFixed rc total x = true := by
        simp only [h0, decide_False, Bool.false_or, decide_eq_true_eq] at hx
        unfold isFixed
        simp only [h0, decide_False, Bool.not_false, Bool.true_and, decide_eq_true_eq]
        exact hx
      rw [List.filter_cons_of_neg h1, List.filter_cons_of_pos h2]
      simp only [List.length_cons]
      omega

theorem mergeLoop_plain (B : List Int) (cur other : List Mutation) (hB : B ≠ [])
    (hsorted : B.Pairwise (fun a b => a ≤ b)) (hmax : ∀ b ∈ B, b ≤ INT_MAX)
    (hcur : PosSorted cur) (hother : PosSorted other) (ncur : cur.Nodup)
    (nother : other.Nodup) :
    mergeLoop B cur other [] [] = some (crossSegments B cur other) := by
  obtain ⟨r, hr⟩ := mergeLoop_isSome B cur other [] [] hB hmax
  have he := mergeLoop_eq_of_some B cur other [] [] r hr
  have hf := (emissionOrder_filter (fun _ => false) B cur other [] hsorted hmax
    (fun x hx => by cases hx) (fun _ _ => rfl) (fun _ _ => rfl)).1
  have hall : (emissionOrder B cur other []).filter (fun x => !(fun _ => false) x) =
      emissionOrder B cur other [] := by
    rw [List.filter_eq_self]
    intro _ _
    rfl
  rw [hall] at hf
  rw [hf, foldl_addUnlessPresent_nodup _ []
    (by simpa using crossSegments_nodup B cur other hcur hother ncur nother)] at he
  rw [hr, he]
  simp

theorem takeWhile_before_all (bound : Int) : ∀ (l : List Mutation),
    (∀ m ∈ l, m.position_ < bound) → l.takeWhile (before bound) = l
  | [], _ => rfl
  | x :: rest, h => by
    have hx : before bound x = true := by
      simpa [before] using h x (List.mem_cons_self _ _)
    rw [List.takeWhile_cons_of_pos hx,
      takeWhile_before_all bound rest (fun m hm => h m (List.mem_cons_of_mem _ hm))]

theorem double_pos_of_between (a u w : Double) (h1 : ¬ u ≤ a) (h2 : u ≤ a + w) :
    Double.ofInt 0 < w := by
  have hw : (0 : Int) < w.den := by exact_mod_cast w.den_pos
  have hu : (0 : Int) < u.den := by exact_mod_cast u.den_pos
  have ha : (0 : Int) < a.den := by exact_mod_cast a.den_pos
  have h1' : a.num * u.den < u.num * a.den := Int.not_le.mp h1
  have h2' : u.num * ((a.den * w.den : Nat) : Int) ≤
      (a.num * w.den + w.num * a.den) * u.den := h2
  clear h1 h2
  show (0 : Int) * w.den < w.num * ((1 : Nat) : Int)
  by_contra hneg
  have hwn : w.num ≤ 0 := by
    have : ¬ (0 : Int) < w.num := by simpa using hneg
    omega
  push_cast at h2'
  have h3 : w.num * a.den * u.den ≤ 0 := by
    have : w.num * (a.den * u.den) ≤ 0 :=
      Int.mul_nonpos_of_nonpos_of_nonneg hwn (le_of_lt (Int.mul_pos ha hu))
    linarith [this]
  have h4 : (u.num * a.den - a.num * u.den) * w.den ≤ 0 := by nlinarith
  have h5 : 0 < (u.num * a.den - a.num * u.den) * w.den :=
    Int.mul_pos (by linarith) hw
  omega

theorem replacements_length (answers : MateChoiceAnswers) (n : Nat)
    (log : List MateChoiceEvent) :
    ∀ w ∈ replacements answers n log, w.length = n := by
  intro w hw
  unfold replacements at hw
  rw [List.mem_filterMap] at hw
  obtain ⟨ev, _, hev⟩ := hw
  cases ha : ev.answer answers with
  | none => rw [ha] at hev; cases hev
  | some v =>
    rw [ha] at hev
    change replacesWeights n v = some w at hev
    cases v with
    | float values =>
      simp only [replacesWeights] at hev
      by_cases h : values.length ≠ 0 ∧ values.length = n
      · rw [if_pos h] at hev
        simp only [Option.some.injEq] at hev
        rw [← hev]
        exact h.2
      · rw [if_neg h] at hev
        cases hev
    | void => cases hev
    | null => cases hev
    | logical _ => cases hev
    | integer _ => cases hev
    | object _ => cases hev

theorem prefixSum_step (weights : List ScriptFloat) (i : Nat) (w : ScriptFloat)
    (h : weights[i]? = some w) :
    prefixSum id weights i = weightsSum id (weights.take i) + w.value := by
  unfold prefixSum weightsSum
  rw [List.take_succ, h, List.foldl_append]
  rfl

theorem roseLoop_found (weights : List ScriptFloat) (rose : Double)
    (hpos : Double.ofInt 0 < rose) (hle : rose ≤ weightsSum id weights) (hne : weights ≠ []) :
    ∃ i : Nat, i < weights.length ∧ roseLoop id rose weights 0 (Double.ofInt 0) = (i : Int) ∧
      rose ≤ prefixSum id weights i ∧ (∀ j, j < i → ¬ rose ≤ prefixSum id weights j) ∧
      ∃ w, weights[i]? = some w ∧ w.positive = true := by
  have hlen : 0 < weights.length := List.length_pos.mpr hne
  have hex : ∃ i, i < weights.length ∧ rose ≤ prefixSum id weights i := by
    refine ⟨weights.length - 1, by omega, ?_⟩
    unfold prefixSum
    rw [show weights.length - 1 + 1 = weights.length by omega, List.take_length]
    exact hle
  classical
  have hi := (Nat.find_spec hex).1
  have hmin : ∀ j, j < Nat.find hex → ¬ rose ≤ prefixSum id weights j := fun j hj hle =>
    Nat.find_min hex hj ⟨by omega, hle⟩
  have hrose := roseLoop_least rose weights 0 (Double.ofInt 0) (Nat.find hex) hi
    (Nat.find_spec hex).2 hmin
  refine ⟨Nat.find hex, hi, by rw [hrose]; simp, (Nat.find_spec hex).2, hmin, ?_⟩
  have hw : weights[Nat.find hex]? = some (weights[Nat.find hex]) :=
    List.getElem?_eq_getElem hi
  refine ⟨_, hw, ?_⟩
  have hstep := prefixSum_step weights (Nat.find hex) _ hw
  have hbelow : ¬ rose ≤ weightsSum id (weights.take (Nat.find hex)) := by
    cases hk : Nat.find hex with
    | zero =>
      simp only [List.take_zero]
      have h0 : (0 : Int) * rose.den < rose.num * ((1 : Nat) : Int) := hpos
      show ¬ rose.num * ((1 : Nat) : Int) ≤ (0 : Int) * rose.den
      omega
    | succ k =>
      have := hmin k (by omega)
      unfold prefixSum at this
      exact this
  have h2 : rose ≤ weightsSum id (weights.take (Nat.find hex)) +
      (weights[Nat.find hex]).value := by
    rw [← hstep]
    exact (Nat.find_spec hex).2
  have := double_pos_of_between _ _ _ hbelow h2
  simp [ScriptFloat.positive, this]

theorem drawFromWeights_found (weights : List ScriptFloat) (n : Nat)
    (answers : MateChoiceAnswers) (hvalid : ¬ InvalidWeights id weights)
    (hmany : (weights.filter ScriptFloat.positive).length ≠ 1)
    (hpos : Double.ofInt 0 < answers.gsl_rng_uniform_pos * weightsSum id weights)
    (hu : answers.gsl_rng_uniform_pos * weightsSum id weights ≤ weightsSum id weights) :
    ∃ i : Nat, i < weights.length ∧
      drawFromWeights id weights n answers = (.returned (i : Int), [.uniformDraw]) ∧
      roseLoop id (answers.gsl_rng_uniform_pos * weightsSum id weights) weights 0 (Double.ofInt 0) =
        (i : Int) ∧
      ∃ w, weights[i]? = some w ∧ w.positive = true := by
  have hr : WeightsInRange weights := by
    by_contra h
    rcases (weightsInRange_iff weights).mp h with h | h
    · exact hvalid (Or.inl h)
    · exact hvalid (Or.inr (Or.inl h))
  have hs : ¬ weightsSum id weights ≤ Double.ofInt 0 := fun h => hvalid (Or.inr (Or.inr h))
  have hne : weights ≠ [] := by
    intro e; rw [e] at hs; exact hs weightsSum_nil
  obtain ⟨i, hi, hrose, _, _, hw⟩ := roseLoop_found weights _ hpos hu hne
  refine ⟨i, hi, ?_, hrose, hw⟩
  unfold drawFromWeights
  rw [assessWeights_inRange weights _ _ hr]
  have hs' := hs
  unfold weightsSum at hs' hrose
  simp only
  have hrose' : roseLoop id (id (answers.gsl_rng_uniform_pos *
      List.foldl (fun sum w => id (sum + w.value)) (Double.ofInt 0) weights)) weights 0
        (Double.ofInt 0) = (i : Int) := hrose
  rw [if_neg hs', if_neg (by simpa using hmany), hrose']
  rw [if_neg (by omega)]

theorem writes_map {β : Type} (f : Int × Subpopulation → β)
    (hf : ∀ e, f e = f (outsideChildBank e)) (place : Nat) (a b : Population)
    (h : WritesChildBankOnly place a b) : b.subpops.map f = a.subpops.map f := by
  obtain ⟨_, hother, hplace, _⟩ := h
  apply List.ext_getElem?
  intro i
  simp only [List.getElem?_map]
  by_cases hi : i = place
  · subst hi
    have : ((b.subpops[i]?).map outsideChildBank).map f =
        ((a.subpops[i]?).map outsideChildBank).map f := by rw [hplace]
    cases hb : b.subpops[i]? <;> cases ha : a.subpops[i]? <;>
      simp only [hb, ha, Option.map_some', Option.map_none', Option.some.injEq] at this ⊢ <;>
      first
        | rfl
        | cases this
        | (rw [hf, this, ← hf])
  · rw [hother i hi]

theorem evolve_ended_writes (pop : Population) (id gen : Int) (mcb ccb : List SLiMScriptBlock)
    (num_migrants : List Nat) (matings : List Mating) (after : Population)
    (h : (pop.EvolveSubpopulation id gen mcb ccb num_migrants matings).ended = some after) :
    after = pop ∨ ∃ place, WritesChildBankOnly place pop after := by
  cases hp : pop.SubpopulationWithID id with
  | none =>
    unfold Population.EvolveSubpopulation at h
    rw [hp] at h
    simp only [Run.ended, Option.some.injEq] at h
    exact Or.inl h.symm
  | some place =>
    cases hrun : pop.EvolveSubpopulation id gen mcb ccb num_migrants matings with
    | undefined => rw [hrun] at h; cases h
    | pending s => rw [hrun] at h; cases h
    | terminated e s =>
      rw [hrun] at h
      simp only [Run.ended, Option.some.injEq] at h
      subst h
      exact Or.inr ⟨place, (evolve_writes pop id gen mcb ccb num_migrants matings place hp s
        (by rw [hrun]; rfl)).1⟩
    | returned s =>
      rw [hrun] at h
      simp only [Run.ended, Option.some.injEq] at h
      subst h
      exact Or.inr ⟨place, (evolve_writes pop id gen mcb ccb num_migrants matings place hp s
        (by rw [hrun]; rfl)).1⟩

theorem forall_of_map_eq {β : Type} (f : Int × Subpopulation → β) (P : β → Prop)
    (a b : List (Int × Subpopulation)) (h : b.map f = a.map f)
    (ha : ∀ e ∈ a, P (f e)) : ∀ e ∈ b, P (f e) := by
  intro e he
  have hm : f e ∈ b.map f := List.mem_map_of_mem f he
  rw [h] at hm
  obtain ⟨x, hx, hxe⟩ := List.mem_map.mp hm
  rw [← hxe]
  exact ha x hx

theorem sexTyping_whileGenerating (sex : IndividualSex) (c p1 p2 : GenomeType) (e : Termination)
    (h : sexTyping sex c p1 p2 = .error e) : e.whileGenerating = true := by
  cases sex <;> cases c <;> cases p1 <;> cases p2 <;> simp [sexTyping] at h <;> subst h <;> rfl

theorem crossoverMutation_whileGenerating (child g1 g2 : Genome) (reg : List Mutation) (sid : Int)
    (chrom : Chromosome) (gen : Int) (sex : IndividualSex) (coin : Bool) (e : Termination)
    (s : CrossoverState)
    (h : SLiM.CrossoverMutation child g1 g2 reg sid chrom gen sex coin = .terminated e s) :
    e.whileGenerating = true := by
  unfold SLiM.CrossoverMutation at h
  cases ht : sexTyping sex child.genome_type_ g1.genome_type_ g2.genome_type_ with
  | error e1 =>
    rw [ht] at h
    simp only [Outcome.terminated.injEq] at h
    rw [← h.1]
    exact sexTyping_whileGenerating _ _ _ _ _ ht
  | ok r =>
    obtain ⟨u, d⟩ := r
    rw [ht] at h
    simp only at h
    split at h
    · split at h
      · split at h
        · cases h; rfl
        · cases h
      · split at h
        · cases h; rfl
        · cases h
    · split at h
      · cases h; rfl
      · split at h
        · cases h; rfl
        · exact absurd h (buildChild_not_terminated _ _ _ _ _ _ _ _ _ _ _)

theorem populationCrossover_whileGenerating (pop : Population) (subpop source_subpop c : Nat)
    (sid : Int) (p1 p2 : Nat) (chrom : Chromosome) (gen : Int) (sex : IndividualSex)
    (coin : Bool) (e : Termination) (r : Population × List Draw)
    (h : pop.CrossoverMutation subpop source_subpop c sid p1 p2 chrom gen sex coin =
      .terminated e r) : e.whileGenerating = true := by
  unfold Population.CrossoverMutation at h
  cases h1 : pop.subpops[subpop]? with
  | none => rw [h1] at h; cases h
  | some target =>
    cases h2 : pop.subpops[source_subpop]? with
    | none => rw [h1, h2] at h; cases h
    | some source =>
      rw [h1, h2] at h
      simp only at h
      cases h3 : target.2.child_genomes_[c]? with
      | none => rw [h3] at h; cases h
      | some child =>
        cases h4 : source.2.parent_genomes_[p1]? with
        | none => rw [h3, h4] at h; cases h
        | some g1 =>
          cases h5 : source.2.parent_genomes_[p2]? with
          | none => rw [h3, h4, h5] at h; cases h
          | some g2 =>
            rw [h3, h4, h5] at h
            simp only at h
            cases hx : SLiM.CrossoverMutation child g1 g2 pop.mutation_registry_ sid chrom gen
                sex coin with
            | terminated e1 s =>
              rw [hx] at h
              simp only [Outcome.terminated.injEq] at h
              rw [← h.1]
              exact crossoverMutation_whileGenerating _ _ _ _ _ _ _ _ _ _ _ hx
            | undefined => rw [hx] at h; cases h
            | returned s => rw [hx] at h; cases h

theorem crossoverCall_whileGenerating (st : EvolveState) (subpop source_subpop : Nat)
    (c sid p1 p2 : Int) (chrom : Chromosome) (gen : Int) (sex : IndividualSex) (coin : Bool)
    (e : Termination) (s : EvolveState)
    (h : crossoverCall st subpop source_subpop c sid p1 p2 chrom gen sex coin =
      .terminated e s) : e.whileGenerating = true := by
  unfold crossoverCall at h
  split at h
  · cases h
  · cases hx : st.pop.CrossoverMutation subpop source_subpop c.toNat sid p1.toNat p2.toNat
        chrom gen sex coin with
    | terminated e1 r =>
      rw [hx] at h
      simp only [Outcome.terminated.injEq] at h
      rw [← h.1]
      exact populationCrossover_whileGenerating _ _ _ _ _ _ _ _ _ _ _ _ _ hx
    | undefined => rw [hx] at h; cases h
    | returned r => rw [hx] at h; cases h

theorem assessWeights_whileGenerating {round : Double → Double} : ∀ (w : List ScriptFloat) (sum : Double) (pc : Int)
    (e : Termination), assessWeights round w sum pc = .terminated e → e.whileGenerating = true
  | [], _, _, _, h => by simp [assessWeights] at h
  | .notFinite :: _, _, _, _, h => by
    simp only [assessWeights, CallResult.terminated.injEq] at h
    rw [← h]; rfl
  | .finite x :: rest, sum, pc, e, h => by
    unfold assessWeights at h
    split at h
    · simp only [CallResult.terminated.injEq] at h
      rw [← h]; rfl
    · exact assessWeights_whileGenerating rest _ _ e h

theorem drawFromWeights_whileGenerating {round : Double → Double} (w : List ScriptFloat) (n : Nat) (answers : MateChoiceAnswers)
    (e : Termination) (h : (drawFromWeights round w n answers).1 = .terminated e) :
    e.whileGenerating = true := by
  unfold drawFromWeights at h
  cases hx : assessWeights round w (Double.ofInt 0) 0 with
  | terminated e1 =>
    rw [hx] at h
    simp only [CallResult.terminated.injEq] at h
    rw [← h]
    exact assessWeights_whileGenerating _ _ _ _ hx
  | returned r =>
    obtain ⟨sum, pc⟩ := r
    rw [hx] at h
    simp only at h
    split at h
    · simp only [CallResult.terminated.injEq] at h
      rw [← h]; rfl
    · split at h <;> cases h

theorem mateChoiceLoop_whileGenerating {round : Double → Double} (p1 : Int) (sex_enabled : Bool) (n : Nat)
    (answers : MateChoiceAnswers) : ∀ (cbs : List SLiMScriptBlock) (k : Nat)
    (w : List ScriptFloat) (modified : Bool) (events : List MateChoiceEvent) (e : Termination),
    (mateChoiceLoop round p1 sex_enabled n answers cbs k w modified events).1 = .terminated e →
      e.whileGenerating = true
  | [], k, w, modified, events, e, h => by
    unfold mateChoiceLoop at h
    split at h
    · exact drawFromWeights_whileGenerating _ _ _ _ h
    · split at h <;> cases h
  | cb :: rest, k, w, modified, events, e, h => by
    unfold mateChoiceLoop at h
    split at h
    · simp only at h
      split at h
      · exact mateChoiceLoop_whileGenerating p1 sex_enabled n answers rest _ _ _ _ e h
      · split at h
        · cases h
        · split at h
          · exact mateChoiceLoop_whileGenerating p1 sex_enabled n answers rest _ _ _ _ e h
          · simp only [CallResult.terminated.injEq] at h
            rw [← h]; rfl
      · simp only [CallResult.terminated.injEq] at h
        rw [← h]; rfl
    · exact mateChoiceLoop_whileGenerating p1 sex_enabled n answers rest _ _ _ _ e h

theorem modifyChildLoop_whileGenerating (answers : Nat → ScriptValue) :
    ∀ (cbs : List SLiMScriptBlock) (k : Nat) (events : List Nat) (e : Termination),
    (modifyChildLoop answers cbs k events).1 = .terminated e → e.whileGenerating = true
  | [], _, _, _, h => by simp [modifyChildLoop] at h
  | cb :: rest, k, events, e, h => by
    unfold modifyChildLoop at h
    split at h
    · split at h
      · split at h
        · cases h
        · exact modifyChildLoop_whileGenerating answers rest _ _ e h
      · simp only [CallResult.terminated.injEq] at h
        rw [← h]; rfl
    · exact modifyChildLoop_whileGenerating answers rest _ _ e h

theorem onePass_whileGenerating (kind : ChildKind) (subpop source_subpop : Nat) (id gen : Int)
    (mcb ccb : List SLiMScriptBlock) (m : Mating) (st : EvolveState) (nts : Int)
    (e : Termination) (s : EvolveState)
    (h : onePass kind subpop source_subpop id gen mcb ccb m st nts = .terminated e s) :
    e.whileGenerating = true := by
  unfold onePass at h
  cases h1 : st.pop.subpops[subpop]? with
  | none => rw [h1] at h; cases h
  | some target =>
    cases h2 : st.pop.subpops[source_subpop]? with
    | none => rw [h1, h2] at h; cases h
    | some source =>
      rw [h1, h2] at h
      simp only at h
      split at h
      · rename_i e1 hsec
        simp only [Pass.terminated.injEq] at h
        rw [← h.1]
        split at hsec
        · cases hsec
        · split at hsec
          · exact mateChoiceLoop_whileGenerating _ _ _ _ _ _ _ _ _ _ hsec
          · cases hsec
      · split at h
        · cases h
        · split at h
          · rename_i e1 s1 hx
            simp only [Pass.terminated.injEq] at h
            rw [← h.1]
            exact crossoverCall_whileGenerating _ _ _ _ _ _ _ _ _ _ _ _ _ hx
          · cases h
          · split at h
            · rename_i e1 s1 hx
              simp only [Pass.terminated.injEq] at h
              rw [← h.1]
              exact crossoverCall_whileGenerating _ _ _ _ _ _ _ _ _ _ _ _ _ hx
            · cases h
            · split at h
              · rename_i e1 hv
                simp only [Pass.terminated.injEq] at h
                rw [← h.1]
                split at hv
                · exact modifyChildLoop_whileGenerating _ _ _ _ _ hv
                · cases hv
              · split at h <;> cases h

theorem matingLoop_whileGenerating (kind : ChildKind) (subpop source_subpop : Nat)
    (id limit gen : Int) (mcb ccb : List SLiMScriptBlock) : ∀ (matings : List Mating)
    (st : EvolveState) (count nts : Int) (e : Termination) (s : EvolveState),
    matingLoop kind subpop source_subpop id limit gen mcb ccb matings st count nts =
      .terminated e s → e.whileGenerating = true
  | [], st, count, nts, e, s, h => by
    unfold matingLoop at h
    split at h <;> cases h
  | m :: rest, st, count, nts, e, s, h => by
    unfold matingLoop at h
    split at h
    · cases hx : onePass kind subpop source_subpop id gen mcb ccb m st nts with
      | terminated e1 s1 =>
        rw [hx] at h
        simp only [Run.terminated.injEq] at h
        rw [← h.1]
        exact onePass_whileGenerating _ _ _ _ _ _ _ _ _ _ _ _ hx
      | undefined => rw [hx] at h; cases h
      | redraw s1 =>
        rw [hx] at h
        exact matingLoop_whileGenerating kind subpop source_subpop id limit gen mcb ccb rest _ _ _ e
          s h
      | rejected s1 =>
        rw [hx] at h
        exact matingLoop_whileGenerating kind subpop source_subpop id limit gen mcb ccb rest _ _ _ e
          s h
      | kept s1 selfed =>
        rw [hx] at h
        exact matingLoop_whileGenerating kind subpop source_subpop id limit gen mcb ccb rest _ _ _ e
          s h
    · cases h

theorem generateFromSource_whileGenerating (sex_enabled : Bool) (sex_ratio : Double)
    (subpop source_subpop : Nat) (id : Int) (selfing_fraction : Double) (n gen : Int)
    (mcb ccb : List SLiMScriptBlock) (matings : List Mating) (st : EvolveState)
    (e : Termination) (s : EvolveState)
    (h : generateFromSource sex_enabled sex_ratio subpop source_subpop id selfing_fraction n
      gen mcb ccb matings st = .terminated e s) : e.whileGenerating = true := by
  unfold generateFromSource at h
  simp only at h
  split at h
  · split at h
    · simp only [Run.terminated.injEq] at h
      rw [← h.1]; rfl
    · split at h
      · simp only [Run.terminated.injEq] at h
        rw [← h.1]; rfl
      · split at h
        · rename_i e1 s1 hx
          simp only [Run.terminated.injEq] at h
          rw [← h.1]
          exact matingLoop_whileGenerating _ _ _ _ _ _ _ _ _ _ _ _ _ _ hx
        · cases h
        · cases h
        · split at h
          · rename_i e1 s1 hx
            simp only [Run.terminated.injEq] at h
            rw [← h.1]
            exact matingLoop_whileGenerating _ _ _ _ _ _ _ _ _ _ _ _ _ _ hx
          · cases h
          · cases h
          · cases h
  · split at h
    · rename_i e1 s1 hx
      simp only [Run.terminated.injEq] at h
      rw [← h.1]
      exact matingLoop_whileGenerating _ _ _ _ _ _ _ _ _ _ _ _ _ _ hx
    · cases h
    · cases h
    · cases h

theorem onePass_census (pop0 : Population) (kind : ChildKind) (subpop source_subpop : Nat)
    (id gen : Int) (mcb ccb : List SLiMScriptBlock) (m : Mating) (st : EvolveState) (nts : Int)
    (hst : st.pop.census = pop0.census) :
    match onePass kind subpop source_subpop id gen mcb ccb m st nts with
    | .terminated _ s => s.pop.census = pop0.census
    | .undefined => True
    | .redraw s => s.pop.census = pop0.census
    | .rejected s => s.pop.census = pop0.census
    | .kept s _ => (kind.advance s).pop.census = pop0.census := by
  have hf := onePass_facts kind subpop source_subpop id gen mcb ccb m st nts
  cases hx : onePass kind subpop source_subpop id gen mcb ccb m st nts with
  | terminated e s => rw [hx] at hf; exact hf.2.2.2.2.trans hst
  | undefined => trivial
  | redraw s => rw [hx] at hf; exact hf.1.2.2.2.trans hst
  | rejected s => rw [hx] at hf; exact hf.1.2.2.2.trans hst
  | kept s selfed =>
    rw [hx] at hf
    have : (kind.advance s).pop = s.pop := by cases kind <;> rfl
    simp only
    rw [this]
    exact hf.1.2.2.2.trans hst

theorem migrantLoop_lookup (pop0 : Population) (sex_enabled : Bool) (sex_ratio : Double)
    (subpop : Nat) (num_migrants : List Nat) (gen : Int) (mcb ccb : List SLiMScriptBlock) :
    ∀ (fractions : List (Int × Double)) (pop_count : Nat) (matings : List Mating)
      (st : EvolveState) (e : Termination) (s : EvolveState),
      st.pop.census = pop0.census → (∀ pair ∈ fractions, pop0.Names pair.1) →
      migrantLoop sex_enabled sex_ratio subpop num_migrants gen mcb ccb fractions pop_count
        matings st = .terminated e s → e.whileGenerating = true
  | [], _, _, _, _, _, _, _, h => by simp [migrantLoop] at h
  | pair :: rest, pop_count, matings, st, e, s, hst, hkeys, h => by
    unfold migrantLoop at h
    simp only at h
    have hnamed : pop0.Names pair.1 := hkeys pair (List.mem_cons_self _ _)
    obtain ⟨place, _, hplace, _, _⟩ := subpopulationWithID_named pop0 pair.1 hnamed
    have hlook : st.pop.SubpopulationWithID pair.1 = some place := by
      rw [subpopulationWithID_congr st.pop pop0 pair.1 hst]
      exact hplace
    rw [hlook] at h
    simp only at h
    cases h1 : st.pop.subpops[place]? with
    | none => rw [h1] at h; cases h
    | some source =>
      cases h2 : num_migrants[pop_count]? with
      | none => rw [h1, h2] at h; cases h
      | some migrants_to_generate =>
        rw [h1, h2] at h
        simp only at h
        cases hg : generateFromSource sex_enabled sex_ratio subpop place pair.1
            source.2.selfing_fraction_ migrants_to_generate gen mcb ccb matings st with
        | terminated e1 s1 =>
          rw [hg] at h
          simp only [Run.terminated.injEq] at h
          rw [← h.1]
          exact generateFromSource_whileGenerating _ _ _ _ _ _ _ _ _ _ _ _ _ _ hg
        | undefined => rw [hg] at h; cases h
        | pending s1 => rw [hg] at h; cases h
        | returned r =>
          obtain ⟨st1, matings1⟩ := r
          rw [hg] at h
          simp only at h
          have hst1 : st1.pop.census = pop0.census :=
            generateFromSource_invariant (fun x => x.pop.census = pop0.census) sex_enabled
              sex_ratio subpop place pair.1 source.2.selfing_fraction_ migrants_to_generate
              gen mcb ccb
              (fun kind m x nts hx => onePass_census pop0 kind subpop place pair.1 gen mcb
                ccb m x nts hx)
              matings st st1 hst (by rw [hg]; rfl)
          exact migrantLoop_lookup pop0 sex_enabled sex_ratio subpop num_migrants gen mcb ccb
            rest (pop_count + 1) matings1 st1 e s hst1
            (fun p hp => hkeys p (List.mem_cons_of_mem _ hp)) h

theorem evolve_lookup (pop : Population) (id gen : Int) (mcb ccb : List SLiMScriptBlock)
    (num_migrants : List Nat) (matings : List Mating) (e : Termination) (s : EvolveState)
    (hid : pop.Names id) (hkeys : KeysNamed pop)
    (h : pop.EvolveSubpopulation id gen mcb ccb num_migrants matings = .terminated e s) :
    e = .unisexualChildPopulation ∨ e = .tooManyMigrants ∨ e.whileGenerating = true := by
  obtain ⟨place, subpop, h1, h2, _⟩ := subpopulationWithID_named pop id hid
  have hk : ∀ pair ∈ subpop.2.migrant_fractions_, pop.Names pair.1 :=
    hkeys subpop (List.getElem?_mem h2)
  obtain ⟨e1, e2, _⟩ := evolve_start pop id gen mcb ccb num_migrants matings place subpop h1 h2
  by_cases hc : subpop.2.sex_enabled_ = true ∧
      (totalMaleChildren subpop.2 ≤ 0 ∨ totalFemaleChildren subpop.2 ≤ 0)
  · rw [e1 hc] at h
    simp only [Run.terminated.injEq] at h
    exact Or.inl h.1.symm
  · by_cases hs : migrationRateSum subpop.2.migrant_fractions_ ≤ Double.ofInt 1
    · refine Or.inr (Or.inr ?_)
      have hcond : (subpop.2.sex_enabled_ = true ∧
          ((if subpop.2.sex_enabled_ = true then
              lround (Double.round (Double.ofInt subpop.2.child_subpop_size_ *
                (if subpop.2.sex_enabled_ = true then subpop.2.child_sex_ratio_
                  else Double.ofInt 0)))
            else 0) ≤ 0 ∨
           (if subpop.2.sex_enabled_ = true then
              (subpop.2.child_subpop_size_ : Int) -
                (if subpop.2.sex_enabled_ = true then
                  lround (Double.round (Double.ofInt subpop.2.child_subpop_size_ *
                    (if subpop.2.sex_enabled_ = true then subpop.2.child_sex_ratio_
                      else Double.ofInt 0)))
                else 0)
            else 0) ≤ 0)) ↔
          (subpop.2.sex_enabled_ = true ∧
            (totalMaleChildren subpop.2 ≤ 0 ∨ totalFemaleChildren subpop.2 ≤ 0)) := by
        cases hsex : subpop.2.sex_enabled_ with
        | false => simp
        | true => simp [totalMaleChildren, totalFemaleChildren]
      unfold Population.EvolveSubpopulation at h
      simp only [h1, h2] at h
      rw [if_congr hcond rfl rfl, if_neg hc, if_pos hs] at h
      cases hx : migrantLoop subpop.2.sex_enabled_
          (if subpop.2.sex_enabled_ = true then subpop.2.child_sex_ratio_ else Double.ofInt 0)
          place num_migrants gen mcb ccb subpop.2.migrant_fractions_ 0 matings
          { pop := pop, child_count := 0, male_child_count := 0, female_child_count := 0,
            events := [EvolveEvent.multinomial (subpop.2.migrant_fractions_.map
              (fun fractions_pair => fractions_pair.2) ++
                [Double.round (Double.ofInt 1 - migrationRateSum subpop.2.migrant_fractions_)])
              subpop.2.child_subpop_size_] } with
      | terminated e3 s1 =>
        rw [hx] at h
        simp only [Run.terminated.injEq] at h
        rw [← h.1]
        exact migrantLoop_lookup pop _ _ _ _ _ _ _ _ _ _ _ _ _ rfl hk hx
      | undefined => rw [hx] at h; cases h
      | pending s1 => rw [hx] at h; cases h
      | returned a =>
        obtain ⟨st1, matings1⟩ := a
        rw [hx] at h
        simp only at h
        cases ht : st1.pop.subpops[place]? with
        | none => rw [ht] at h; cases h
        | some target =>
          cases hn : num_migrants[subpop.2.migrant_fractions_.length]? with
          | none => rw [ht, hn] at h; cases h
          | some n =>
            rw [ht, hn] at h
            simp only at h
            cases hy : generateFromSource subpop.2.sex_enabled_
                (if subpop.2.sex_enabled_ = true then subpop.2.child_sex_ratio_
                  else Double.ofInt 0)
                place place id target.2.selfing_fraction_ n gen mcb ccb matings1 st1 with
            | terminated e3 s2 =>
              rw [hy] at h
              simp only [Run.terminated.injEq] at h
              rw [← h.1]
              exact generateFromSource_whileGenerating _ _ _ _ _ _ _ _ _ _ _ _ _ _ hy
            | undefined => rw [hy] at h; cases h
            | pending s2 => rw [hy] at h; cases h
            | returned b =>
              obtain ⟨st2, matings2⟩ := b
              rw [hy] at h
              simp only at h
              cases hf : st2.pop.subpops[place]? with
              | none => rw [hf] at h; cases h
              | some final => rw [hf] at h; cases h
    · rw [e2 hc hs] at h
      simp only [Run.terminated.injEq] at h
      exact Or.inr (Or.inl h.1.symm)

theorem names_iff (pop : Population) (id : Int) :
    pop.Names id ↔ id ∈ pop.subpops.map Prod.fst := by
  unfold Population.Names
  simp only [List.mem_map]

theorem keysNamed_set (pop : Population) (place : Nat) (target new : Int × Subpopulation)
    (ht : pop.subpops[place]? = some target) (hid : new.1 = target.1)
    (hold : KeysNamed pop) (hnew : ∀ pair ∈ new.2.migrant_fractions_, pop.Names pair.1) :
    KeysNamed { pop with subpops := pop.subpops.set place new } := by
  have hnames : ∀ k, pop.Names k →
      Population.Names { pop with subpops := pop.subpops.set place new } k := by
    intro k hk
    rw [names_iff] at hk ⊢
    show k ∈ (pop.subpops.set place new).map Prod.fst
    rw [map_set_of_eq Prod.fst pop.subpops place target new ht hid]
    exact hk
  intro e he pair hp
  rcases List.mem_or_eq_of_mem_set he with h1 | h1
  · exact hnames _ (hold e h1 pair hp)
  · rw [h1] at hp
    exact hnames _ (hnew pair hp)

theorem keysNamed_insert (pop : Population) (entry : Int × Subpopulation)
    (hold : KeysNamed pop) (hnew : entry.2.migrant_fractions_ = []) :
    KeysNamed { pop with subpops := mapInsert entry pop.subpops } := by
  have hnames : ∀ k, pop.Names k →
      Population.Names { pop with subpops := mapInsert entry pop.subpops } k := by
    rintro k ⟨x, hx, hk⟩
    exact ⟨x, (mapInsert_sublist entry pop.subpops).subset hx, hk⟩
  intro e he pair hp
  rcases mem_mapInsert _ _ _ he with h1 | h1
  · rw [h1, hnew] at hp
    cases hp
  · exact hnames _ (hold e h1 pair hp)

theorem call_keys (pop : Population) (sim : SLiMSim) (c : PopulationCall)
    (after : Population) (hc : c.configures = true) (hinv : KeysNamed pop)
    (h : pop.call sim c = some after) : KeysNamed after := by
  cases c with
  | addSubpopulation id n r =>
    simp only [Population.call] at h
    rcases addSubpopulation_cases pop sim id n r with ⟨_, e, he⟩ | ⟨_, hr⟩
    · rw [he] at h
      cases h
      exact hinv
    · rw [hr] at h
      cases h
      exact keysNamed_insert pop _ hinv (newSubpopulation_fields pop sim n r).1
  | addSubpopulationFrom id src n r draws =>
    simp only [Population.call] at h
    rcases addSubpopulationFromID_cases pop sim id src n r draws with hu | ⟨e, he⟩ |
      ⟨_, _, pg, hr⟩
    · rw [hu] at h
      cases h
    · rw [he] at h
      cases h
      exact hinv
    · rw [hr] at h
      cases h
      exact keysNamed_insert pop _ hinv (newSubpopulation_fields pop sim n r).1
  | setSize id n =>
    simp only [Population.call] at h
    rcases setSize_cases pop sim id n with ⟨_, e, he⟩ | ⟨_, _, _, hr⟩ |
      ⟨_, _, _, place, target, _, ht, _, hr⟩
    · rw [he] at h
      cases h
      exact hinv
    · rw [hr] at h
      cases h
      intro e he pair hp
      simp only [List.mem_map] at he
      obtain ⟨x, hx, hxe⟩ := he
      rw [← hxe] at hp
      have hpair : pair ∈ x.2.migrant_fractions_ ∧ pair.1 ≠ id := by
        have := List.mem_filter.1 hp
        exact ⟨this.1, by simpa using this.2⟩
      obtain ⟨y, hy, hyk⟩ := hinv x (List.mem_filter.1 hx).1 pair hpair.1
      refine ⟨(y.1, { y.2 with migrant_fractions_ := mapErase id y.2.migrant_fractions_ }),
        ?_, hyk⟩
      simp only [List.mem_map]
      refine ⟨y, ?_, rfl⟩
      unfold mapErase
      rw [List.mem_filter]
      refine ⟨hy, ?_⟩
      rw [decide_eq_true_eq, hyk]
      exact hpair.2
    · rw [hr] at h
      cases h
      exact keysNamed_set pop place target _ ht rfl hinv
        (hinv target (List.getElem?_mem ht))
  | setMigration id src f =>
    simp only [Population.call] at h
    rcases setMigration_cases pop id src f with ⟨_, e, he⟩ | ⟨hgood, place, target, _, ht, _, hr⟩
    · rw [he] at h
      cases h
      exact hinv
    · rw [hr] at h
      cases h
      refine keysNamed_set pop place target _ ht rfl hinv (fun pair hp => ?_)
      have hsrc : pop.Names src := not_not.1 (fun hn => hgood (Or.inl hn))
      by_cases hk : pair.1 = src
      · rw [hk]
        exact hsrc
      · have hmem : pair ∈ entriesBeside src
            (setFraction src f target.2.migrant_fractions_) := by
          unfold entriesBeside
          rw [List.mem_filter]
          exact ⟨hp, by simpa using hk⟩
        rw [setFraction_beside] at hmem
        exact hinv target (List.getElem?_mem ht) pair (List.mem_filter.1 hmem).1
  | setSexRatio id r => cases hc
  | setSelfing id f => cases hc
  | evolveSubpopulation id gen mcb ccb num_migrants matings => cases hc

theorem calls_keys (sim : SLiMSim) : ∀ (calls : List PopulationCall)
    (pop after : Population), (∀ c ∈ calls, c.configures = true) → KeysNamed pop →
    pop.calls sim calls = some after → KeysNamed after
  | [], pop, after, _, hinv, h => by
    simp only [Population.calls, Option.some.injEq] at h
    subst h
    exact hinv
  | c :: rest, pop, after, hcalls, hinv, h => by
    unfold Population.calls at h
    cases hc : pop.call sim c with
    | none => rw [hc] at h; cases h
    | some next =>
      rw [hc] at h
      exact calls_keys sim rest next after
        (fun x hx => hcalls x (List.mem_cons_of_mem _ hx))
        (call_keys pop sim c next (hcalls c (List.mem_cons_self _ _)) hinv hc) h

theorem drawParentsLoop_spec (SexEnabled : Bool) (draws : ParentDraws) (source : Subpopulation)
    (first_male : Nat) : ∀ (passes k : Nat) (g : List Genome),
    2 * (k + passes) ≤ g.length →
    (∀ i, k ≤ i → i < k + passes → 0 ≤ drawnMigrant SexEnabled draws first_male i ∧
      2 * (drawnMigrant SexEnabled draws first_male i).toNat + 1 <
        source.parent_genomes_.length) →
    ∃ g', drawParentsLoop SexEnabled draws source first_male passes k g = some g' ∧
      g'.length = g.length ∧
      (∀ j, j < 2 * k ∨ 2 * (k + passes) ≤ j → g'[j]? = g[j]?) ∧
      (∀ i, k ≤ i → i < k + passes → ∃ a b sa sb,
        g[2 * i]? = some a ∧ g[2 * i + 1]? = some b ∧
        source.parent_genomes_[2 * (drawnMigrant SexEnabled draws first_male i).toNat]? =
          some sa ∧
        source.parent_genomes_[2 * (drawnMigrant SexEnabled draws first_male i).toNat + 1]? =
          some sb ∧
        g'[2 * i]? = some (a.copy_from_genome sa) ∧
        g'[2 * i + 1]? = some (b.copy_from_genome sb))
  | 0, k, g, _, _ =>
    ⟨g, rfl, rfl, fun _ _ => rfl, fun i h1 h2 => absurd h2 (by omega)⟩
  | passes + 1, k, g, hlen, hd => by
    obtain ⟨hd0, hd1⟩ := hd k (le_refl _) (by omega)
    have h2k : 2 * k < g.length := by omega
    have h2k1 : 2 * k + 1 < g.length := by omega
    have hsa : 2 * (drawnMigrant SexEnabled draws first_male k).toNat <
        source.parent_genomes_.length := by omega
    have ea : g[2 * k]? = some (g[2 * k]) := List.getElem?_eq_getElem h2k
    have eb : g[2 * k + 1]? = some (g[2 * k + 1]) := List.getElem?_eq_getElem h2k1
    have esa := List.getElem?_eq_getElem hsa
    have esb := List.getElem?_eq_getElem hd1
    generalize g[2 * k] = a at ea
    generalize g[2 * k + 1] = b at eb
    generalize source.parent_genomes_[2 * (drawnMigrant SexEnabled draws first_male k).toNat] =
      sa at esa
    generalize
      source.parent_genomes_[2 * (drawnMigrant SexEnabled draws first_male k).toNat + 1] =
      sb at esb
    have ewritten : (g.set (2 * k) (a.copy_from_genome sa))[2 * k + 1]? = some b := by
      rw [List.getElem?_set_ne (by omega)]
      exact eb
    obtain ⟨g', hrun, hlen', hout, hin⟩ := drawParentsLoop_spec SexEnabled draws source
      first_male passes (k + 1)
      ((g.set (2 * k) (a.copy_from_genome sa)).set (2 * k + 1) (b.copy_from_genome sb))
      (by simp only [List.length_set]; omega)
      (fun i h1 h2 => hd i (by omega) (by omega))
    have hstep : drawParentsLoop SexEnabled draws source first_male (passes + 1) k g =
        some g' := by
      rw [drawParentsLoop]
      simp only
      have hm : (if SexEnabled = true then
            if k < first_male then draws.DrawFemaleParentUsingFitness k
            else draws.DrawMaleParentUsingFitness k
          else draws.DrawParentUsingFitness k) =
          drawnMigrant SexEnabled draws first_male k := rfl
      rw [hm, if_neg (by omega), ea, esa]
      simp only
      rw [ewritten, esb]
      exact hrun
    refine ⟨g', hstep, by rw [hlen']; simp, fun j hj => ?_, fun i h1 h2 => ?_⟩
    · rw [hout j (by omega), List.getElem?_set_ne (by omega), List.getElem?_set_ne (by omega)]
    · by_cases hik : i = k
      · subst hik
        refine ⟨a, b, sa, sb, ea, eb, esa, esb, ?_, ?_⟩
        · rw [hout (2 * i) (by omega), List.getElem?_set_ne (by omega)]
          simp [h2k]
        · rw [hout (2 * i + 1) (by omega)]
          simp [h2k1]
      · obtain ⟨a2, b2, sa2, sb2, e1, e2, e3, e4, e5, e6⟩ := hin i (by omega) (by omega)
        rw [List.getElem?_set_ne (by omega), List.getElem?_set_ne (by omega)] at e1 e2
        exact ⟨a2, b2, sa2, sb2, e1, e2, e3, e4, e5, e6⟩

theorem addSubpopulationFromID_returned (pop : Population) (sim : SLiMSim) (id src : Int)
    (n : Nat) (r : Double) (draws : ParentDraws) (place : Nat) (source : Int × Subpopulation)
    (pg : List Genome) (hsrc : pop.SubpopulationWithID src = some place)
    (hsource : pop.subpops[place]? = some source) (hgood : ¬ (pop.Names id ∨ n < 1))
    (hloop : drawParentsLoop sim.SexEnabled draws source.2
      (pop.newSubpopulation sim n r).parent_first_male_index_
      (pop.newSubpopulation sim n r).parent_subpop_size_ 0
      (pop.newSubpopulation sim n r).parent_genomes_ = some pg) :
    pop.AddSubpopulationFromID sim id src n r draws = .returned { pop with
      subpops := mapInsert
        (id, { pop.newSubpopulation sim n r with parent_genomes_ := pg }) pop.subpops } := by
  unfold Population.AddSubpopulationFromID
  rw [hsrc]
  simp only
  rw [hsource]
  simp only
  unfold Population.AddSubpopulationFrom
  have hc : ¬ mapCount id pop.subpops ≠ 0 := fun h =>
    hgood (Or.inl (not_not.1 (fun hn => h ((mapCount_names pop id).2 hn))))
  rw [if_neg hc, if_neg (fun h => hgood (Or.inr h))]
  simp only
  rw [hloop]

theorem addSubpopulationFromID_terminated (pop : Population) (sim : SLiMSim) (id src : Int)
    (n : Nat) (r : Double) (draws : ParentDraws)
    (hbad : pop.Names id ∨ n < 1 ∨ ¬ pop.Names src) :
    ∃ e, pop.AddSubpopulationFromID sim id src n r draws = .terminated e pop := by
  unfold Population.AddSubpopulationFromID
  cases hp : pop.SubpopulationWithID src with
  | none => exact ⟨_, rfl⟩
  | some place =>
    obtain ⟨source, hs, hk⟩ := subpopulationWithID_getElem? pop src place hp
    simp only
    rw [hs]
    simp only
    rcases addSubpopulationFrom_cases pop sim id source.2 n r draws with ⟨_, he⟩ | ⟨hg, _⟩ |
      ⟨hg, _⟩
    · exact he
    · rcases hbad with h | h | h
      · exact absurd (Or.inl h) hg
      · exact absurd (Or.inr h) hg
      · exact absurd ⟨source, List.getElem?_mem hs, hk⟩ h
    · rcases hbad with h | h | h
      · exact absurd (Or.inl h) hg
      · exact absurd (Or.inr h) hg
      · exact absurd ⟨source, List.getElem?_mem hs, hk⟩ h

theorem subpopFitnessCallbacks_eq (subpop_id : Int) (fitness_callbacks : List FitnessCallback) :
    subpopFitnessCallbacks subpop_id fitness_callbacks =
      fitness_callbacks.filter (fun callback =>
        decide (callback.subpopulation_id_ = -1 ∨ callback.subpopulation_id_ = subpop_id)) := by
  have h : ∀ (l acc : List FitnessCallback),
      l.foldl (fun subpop_fitness_callbacks callback =>
        if callback.subpopulation_id_ = -1 ∨ callback.subpopulation_id_ = subpop_id then
          subpop_fitness_callbacks ++ [callback]
        else subpop_fitness_callbacks) acc =
      acc ++ l.filter (fun callback =>
        decide (callback.subpopulation_id_ = -1 ∨ callback.subpopulation_id_ = subpop_id)) := by
    intro l
    induction l with
    | nil => intro acc; simp
    | cons x rest ih =>
      intro acc
      rw [List.foldl_cons, ih]
      by_cases hx : x.subpopulation_id_ = -1 ∨ x.subpopulation_id_ = subpop_id
      · rw [if_pos hx, List.filter_cons_of_pos (by simpa using hx)]
        simp
      · rw [if_neg hx, List.filter_cons_of_neg (by simpa using hx)]
  unfold subpopFitnessCallbacks
  rw [h]
  rfl

theorem updateFitnessLoop_spec
    (UpdateFitness : Subpopulation → List FitnessCallback → Subpopulation)
    (fitness_callbacks : List FitnessCallback) (flag : Bool) :
    ∀ (subpops : List (Int × Subpopulation)),
    (updateFitnessLoop UpdateFitness fitness_callbacks flag subpops).2 =
      subpops.map (fun subpop_pair =>
        (⟨subpop_pair.1, subpop_pair.2,
          fitness_callbacks.filter (fun callback =>
            decide (callback.subpopulation_id_ = -1 ∨
              callback.subpopulation_id_ = subpop_pair.1)), flag⟩ : FitnessUpdate)) ∧
    (updateFitnessLoop UpdateFitness fitness_callbacks flag subpops).1 =
      subpops.map (fun subpop_pair =>
        (subpop_pair.1, UpdateFitness subpop_pair.2
          (fitness_callbacks.filter (fun callback =>
            decide (callback.subpopulation_id_ = -1 ∨
              callback.subpopulation_id_ = subpop_pair.1)))))
  | [] => ⟨rfl, rfl⟩
  | subpop_pair :: rest => by
    obtain ⟨h1, h2⟩ := updateFitnessLoop_spec UpdateFitness fitness_callbacks flag rest
    unfold updateFitnessLoop
    simp only [List.map_cons]
    rw [h1, h2, subpopFitnessCallbacks_eq]
    exact ⟨rfl, rfl⟩

/-! ## The child bank when a run without sex returns -/

theorem crossover_keeps_tag (child p1 p2 : Genome) (reg : List Mutation) (sid : Int)
    (chrom : Chromosome) (gen : Int) (sex : IndividualSex) (coin : Bool) (s : CrossoverState)
    (h : CrossoverMutation child p1 p2 reg sid chrom gen sex coin = .returned s) :
    s.child_genome.genome_type_ = child.genome_type_ ∧
    s.child_genome.is_null_ = child.is_null_ ∧
    (child.is_null_ = true → s.child_genome = child) := by
  unfold CrossoverMutation at h
  cases ht : sexTyping sex child.genome_type_ p1.genome_type_ p2.genome_type_ with
  | error e => rw [ht] at h; cases h
  | ok v =>
    obtain ⟨u, d⟩ := v
    rw [ht] at h
    simp only at h
    cases hn : child.is_null_ with
    | true =>
      simp only [hn, if_true] at h
      split at h
      · split at h
        · cases h
        · cases h; exact ⟨rfl, hn, fun _ => rfl⟩
      · split at h
        · cases h
        · cases h; exact ⟨rfl, hn, fun _ => rfl⟩
    | false =>
      simp only [hn, Bool.false_eq_true, if_false] at h
      split at h
      · cases h
      · split at h
        · cases h
        · unfold buildChild at h
          simp only at h
          split at h
          · split at h
            · cases h
              exact ⟨rfl, hn, fun hc => by cases hc⟩
            · split at h
              · cases h
              · cases h
                exact ⟨rfl, hn, fun hc => by cases hc⟩
          · split at h
            · cases h
            · split at h
              · cases h
              · cases h
                exact ⟨rfl, hn, fun hc => by cases hc⟩

theorem crossover_child_congr (child child' p1 p2 : Genome) (reg reg' : List Mutation)
    (sid : Int) (chrom : Chromosome) (gen : Int) (sex : IndividualSex) (coin : Bool)
    (s' : CrossoverState)
    (ht : child'.genome_type_ = child.genome_type_) (hn : child'.is_null_ = child.is_null_)
    (hnull : child.is_null_ = true → child' = child)
    (h : CrossoverMutation child' p1 p2 reg' sid chrom gen sex coin = .returned s') :
    ∃ s, CrossoverMutation child p1 p2 reg sid chrom gen sex coin = .returned s ∧
      s.child_genome = s'.child_genome := by
  cases hc : child.is_null_ with
  | true =>
    have heq := hnull hc
    subst heq
    unfold CrossoverMutation at h ⊢
    cases hty : sexTyping sex child'.genome_type_ p1.genome_type_ p2.genome_type_ with
    | error e => rw [hty] at h; cases h
    | ok v =>
      obtain ⟨u, d⟩ := v
      rw [hty] at h
      simp only [hc, if_true] at h ⊢
      split at h
      · rename_i hu
        rw [if_pos hu]
        split at h
        · cases h
        · rename_i hs
          rw [if_neg hs]
          cases h; exact ⟨_, rfl, rfl⟩
      · rename_i hu
        rw [if_neg hu]
        split at h
        · cases h
        · rename_i hs
          rw [if_neg hs]
          cases h; exact ⟨_, rfl, rfl⟩
  | false =>
    have hclear : child'.clear = child.clear := by
      obtain ⟨a, b, c⟩ := child
      obtain ⟨a', b', c'⟩ := child'
      simp only at ht hn
      subst ht hn
      rfl
    have hc' : child'.is_null_ = false := by rw [hn, hc]
    unfold CrossoverMutation at h ⊢
    rw [ht] at h
    cases hty : sexTyping sex child.genome_type_ p1.genome_type_ p2.genome_type_ with
    | error e => rw [hty] at h; cases h
    | ok v =>
      obtain ⟨u, d⟩ := v
      rw [hty] at h
      simp only [hc, hc', Bool.false_eq_true, if_false] at h ⊢
      split at h
      · cases h
      · rename_i h1
        rw [if_neg h1]
        split at h
        · cases h
        · rename_i h2
          rw [if_neg h2]
          unfold buildChild at h ⊢
          simp only [hclear] at h ⊢
          split at h
          · rename_i c1
            rw [if_pos c1]
            split at h
            · rename_i c2
              rw [if_pos c2]
              cases h
              exact ⟨_, rfl, rfl⟩
            · rename_i c2
              rw [if_neg c2]
              split at h
              · cases h
              · rename_i c3
                rw [if_neg c3]
                cases h
                exact ⟨_, rfl, rfl⟩
          · rename_i c1
            rw [if_neg c1]
            split at h
            · cases h
            · rename_i c3
              rw [if_neg c3]
              split at h
              · cases h
              · cases h
                exact ⟨_, rfl, rfl⟩

theorem builtGenome_of_returned (child child' p1 p2 : Genome) (reg' : List Mutation)
    (sid : Int) (chrom : Chromosome) (gen : Int) (sex : IndividualSex) (coin : Bool)
    (s' : CrossoverState)
    (ht : child'.genome_type_ = child.genome_type_) (hn : child'.is_null_ = child.is_null_)
    (hnull : child.is_null_ = true → child' = child)
    (h : CrossoverMutation child' p1 p2 reg' sid chrom gen sex coin = .returned s') :
    builtGenome child p1 p2 sid chrom gen sex coin = some s'.child_genome := by
  obtain ⟨s, hs, he⟩ := crossover_child_congr child child' p1 p2 [] reg' sid chrom gen sex coin
    s' ht hn hnull h
  unfold builtGenome
  rw [hs]
  simp only
  rw [he]

theorem crossoverCall_returned (st : EvolveState) (subpop source_subpop : Nat)
    (c sid p1 p2 : Int) (chrom : Chromosome) (gen : Int) (sex : IndividualSex) (coin : Bool)
    (s : EvolveState)
    (h : crossoverCall st subpop source_subpop c sid p1 p2 chrom gen sex coin = .returned s) :
    ∃ (target source : Int × Subpopulation) (child g1 g2 : Genome) (r : CrossoverState),
      0 ≤ c ∧ 0 ≤ p1 ∧ 0 ≤ p2 ∧
      st.pop.subpops[subpop]? = some target ∧ st.pop.subpops[source_subpop]? = some source ∧
      target.2.child_genomes_[c.toNat]? = some child ∧
      source.2.parent_genomes_[p1.toNat]? = some g1 ∧
      source.2.parent_genomes_[p2.toNat]? = some g2 ∧
      CrossoverMutation child g1 g2 st.pop.mutation_registry_ sid chrom gen sex coin =
        .returned r ∧
      s.pop.subpops = st.pop.subpops.set subpop
        (target.1, { target.2 with
          child_genomes_ := target.2.child_genomes_.set c.toNat r.child_genome }) ∧
      s.pop.mutation_registry_ = r.mutation_registry_ ∧
      s.events = st.events ∧ s.child_count = st.child_count := by
  unfold crossoverCall at h
  by_cases hneg : c < 0 ∨ p1 < 0 ∨ p2 < 0
  · rw [if_pos hneg] at h; cases h
  · rw [if_neg hneg] at h
    unfold Population.CrossoverMutation at h
    cases ht : st.pop.subpops[subpop]? with
    | none => rw [ht] at h; cases h
    | some target =>
      cases hs : st.pop.subpops[source_subpop]? with
      | none => rw [ht, hs] at h; cases h
      | some source =>
        rw [ht, hs] at h
        simp only at h
        cases hc : target.2.child_genomes_[c.toNat]? with
        | none => rw [hc] at h; cases h
        | some child =>
          cases hg1 : source.2.parent_genomes_[p1.toNat]? with
          | none => rw [hc, hg1] at h; cases h
          | some g1 =>
            cases hg2 : source.2.parent_genomes_[p2.toNat]? with
            | none => rw [hc, hg1, hg2] at h; cases h
            | some g2 =>
              rw [hc, hg1, hg2] at h
              simp only at h
              cases hx : SLiM.CrossoverMutation child g1 g2 st.pop.mutation_registry_ sid chrom
                  gen sex coin with
              | terminated e r => rw [hx] at h; cases h
              | undefined => rw [hx] at h; cases h
              | returned r =>
                rw [hx] at h
                simp only at h
                cases h
                refine ⟨target, source, child, g1, g2, r, by omega, by omega, by omega, rfl, rfl,
                  hc, hg1, hg2, hx, ?_, ?_, rfl, rfl⟩
                · simp only [Population.store, ht]
                · simp only [Population.store, ht]

theorem onePass_written (kind : ChildKind) (subpop source_subpop : Nat) (id gen : Int)
    (mcb ccb : List SLiMScriptBlock) (m : Mating) (st : EvolveState) (nts : Int) :
    match onePass kind subpop source_subpop id gen mcb ccb m st nts with
    | .rejected s => PassWrote kind subpop source_subpop id gen m st s false
    | .kept s _ => PassWrote kind subpop source_subpop id gen m st s true
    | _ => True := by
  unfold onePass
  cases h1 : st.pop.subpops[subpop]? with
  | none => trivial
  | some target =>
    cases h2 : st.pop.subpops[source_subpop]? with
    | none => trivial
    | some source =>
      simp only
      generalize (if (decide (kind ≠ ChildKind.male) && decide (nts > 0)) = true then
          CallResult.returned m.parent1
        else if mcb.length > 0 then
          (ApplyMateChoiceCallbacks Double.round m.parent1 target.2 source.2 mcb m.mate_choice).1
        else CallResult.returned m.parent2) = second
      cases second with
      | terminated e => trivial
      | returned parent2 =>
        simp only
        by_cases hp : parent2 = -1
        · rw [if_pos hp]
          trivial
        · rw [if_neg hp]
          generalize hci : kind.child_index st target.2.child_first_male_index_ = child_index
          cases hx1 : crossoverCall st subpop source_subpop (2 * child_index) id
              (2 * m.parent1) (2 * m.parent1 + 1) m.chromosome1 gen kind.sex m.g_rng_bool1 with
          | terminated e s => trivial
          | undefined => trivial
          | returned st1 =>
            obtain ⟨t1, src1, b1, g11, g12, s1, hc0, hp0, _, ht1, hs1, hb1, hg11, hg12, hr1,
              hsub1, hreg1, hev1, hcc1⟩ := crossoverCall_returned st subpop source_subpop _ _ _ _
                _ _ _ _ st1 hx1
            rw [h1] at ht1
            rw [h2] at hs1
            cases ht1
            cases hs1
            simp only
            cases hx2 : crossoverCall st1 subpop source_subpop (2 * child_index + 1) id
                (2 * parent2) (2 * parent2 + 1) m.chromosome2 gen kind.sex m.g_rng_bool2 with
            | terminated e s => trivial
            | undefined => trivial
            | returned st2 =>
              obtain ⟨t2, src2, b2, g21, g22, s2, _, hq0, _, ht2, hs2, hb2, hg21, hg22, hr2,
                hsub2, hreg2, hev2, hcc2⟩ := crossoverCall_returned st1 subpop source_subpop _ _
                  _ _ _ _ _ _ st2 hx2
              have hlt : subpop < st.pop.subpops.length := getElem?_lt_length _ _ _ h1
              have ht2' : t2 = (target.1, { target.2 with
                  child_genomes_ := target.2.child_genomes_.set (2 * child_index).toNat
                    s1.child_genome }) := by
                rw [hsub1] at ht2
                simp [hlt] at ht2
                exact ht2.symm
              have hsrc : src2.2.parent_genomes_ = source.2.parent_genomes_ := by
                rw [hsub1] at hs2
                by_cases he : source_subpop = subpop
                · subst he
                  simp [hlt] at hs2
                  rw [h1] at h2
                  cases h2
                  rw [← hs2]
                · rw [List.getElem?_set_ne (Ne.symm he), h2] at hs2
                  cases hs2
                  rfl
              have e1 : (2 * child_index).toNat = 2 * child_index.toNat := by omega
              have e2 : (2 * child_index + 1).toNat = 2 * child_index.toNat + 1 := by omega
              have e3 : (2 * m.parent1).toNat = 2 * m.parent1.toNat := by omega
              have e4 : (2 * m.parent1 + 1).toNat = 2 * m.parent1.toNat + 1 := by omega
              have e5 : (2 * parent2).toNat = 2 * parent2.toNat := by omega
              have e6 : (2 * parent2 + 1).toNat = 2 * parent2.toNat + 1 := by omega
              rw [e1] at hb1 hsub1 ht2'
              rw [e3] at hg11
              rw [e4] at hg12
              rw [e2] at hb2 hsub2
              rw [hsrc, e5] at hg21
              rw [hsrc, e6] at hg22
              rw [hreg1] at hr2
              have hb2' : target.2.child_genomes_[2 * child_index.toNat + 1]? = some b2 := by
                rw [ht2'] at hb2
                simp only at hb2
                rw [List.getElem?_set_ne (by omega)] at hb2
                exact hb2
              have hsub : st2.pop.subpops = st.pop.subpops.set subpop
                  (target.1, { target.2 with
                    child_genomes_ := (target.2.child_genomes_.set (2 * child_index.toNat)
                      s1.child_genome).set (2 * child_index.toNat + 1) s2.child_genome }) := by
                rw [hsub2, hsub1, ht2']
                simp
              have hk0 : ((child_index.toNat : Nat) : Int) = child_index := by omega
              have hk1 : m.parent1 = ((m.parent1.toNat : Nat) : Int) := by omega
              have hk2 : parent2 = ((parent2.toNat : Nat) : Int) := by omega
              simp only
              generalize (if ccb.length > 0 then (ApplyModifyChildCallbacks ccb m.modify_child).1
                else CallResult.returned true) = verdict
              cases verdict with
              | terminated e => trivial
              | returned generate_child =>
                simp only
                cases generate_child with
                | false =>
                  rw [if_neg (by simp)]
                  exact ⟨target, source, child_index.toNat, m.parent1.toNat, parent2.toNat, b1,
                    b2, g11, g12, g21, g22, s1, s2,
                    ⟨child_index, id, m.parent1, parent2,
                      decide (kind ≠ ChildKind.male) && decide (nts > 0), kind.sex, false⟩,
                    h1, h2, hk0.trans hci.symm, hk0.symm, hk1, hk2, hk1, rfl, rfl, rfl, hb1, hb2', hg11, hg12, hg21,
                    hg22, hr1, hr2, hsub, by simp only [hev2, hev1], by simp only [hcc2, hcc1]⟩
                | true =>
                  rw [if_pos rfl]
                  exact ⟨target, source, child_index.toNat, m.parent1.toNat, parent2.toNat, b1,
                    b2, g11, g12, g21, g22, s1, s2,
                    ⟨child_index, id, m.parent1, parent2,
                      decide (kind ≠ ChildKind.male) && decide (nts > 0), kind.sex, true⟩,
                    h1, h2, hk0.trans hci.symm, hk0.symm, hk1, hk2, hk1, rfl, rfl, rfl, hb1, hb2', hg11, hg12, hg21,
                    hg22, hr1, hr2, hsub, by simp only [hev2, hev1], by simp only [hcc2, hcc1]⟩

theorem matingLoop_tape (Inv : List Mating → EvolveState → Prop) (kind : ChildKind)
    (subpop source_subpop : Nat) (id limit gen : Int) (mcb ccb : List SLiMScriptBlock)
    (hpass : ∀ (used : List Mating) (m : Mating) (st : EvolveState) (nts : Int), Inv used st →
      match onePass kind subpop source_subpop id gen mcb ccb m st nts with
      | .terminated _ _ => True
      | .undefined => True
      | .redraw s => Inv (used ++ [m]) s
      | .rejected s => Inv (used ++ [m]) s
      | .kept s _ => Inv (used ++ [m]) (kind.advance s)) :
    ∀ (matings : List Mating) (st : EvolveState) (count nts : Int) (used : List Mating)
      (r : EvolveState × Int × Int × List Mating), Inv used st →
      matingLoop kind subpop source_subpop id limit gen mcb ccb matings st count nts =
        .returned r →
      ∃ used', used' ++ r.2.2.2 = used ++ matings ∧ Inv used' r.1
  | [], st, count, nts, used, r, hst, h => by
    unfold matingLoop at h
    split at h
    · cases h
    · cases h
      exact ⟨used, rfl, hst⟩
  | m :: rest, st, count, nts, used, r, hst, h => by
    unfold matingLoop at h
    split at h
    · have hp := hpass used m st nts hst
      cases hx : onePass kind subpop source_subpop id gen mcb ccb m st nts with
      | terminated e s1 => rw [hx] at h; cases h
      | undefined => rw [hx] at h; cases h
      | redraw s1 =>
        rw [hx] at h hp
        simp only at h hp
        obtain ⟨used', he, hi⟩ := matingLoop_tape Inv kind subpop source_subpop id limit gen
          mcb ccb hpass rest s1 count nts (used ++ [m]) r hp h
        exact ⟨used', by rw [he]; simp, hi⟩
      | rejected s1 =>
        rw [hx] at h hp
        simp only at h hp
        obtain ⟨used', he, hi⟩ := matingLoop_tape Inv kind subpop source_subpop id limit gen
          mcb ccb hpass rest s1 count nts (used ++ [m]) r hp h
        exact ⟨used', by rw [he]; simp, hi⟩
      | kept s1 selfed =>
        rw [hx] at h hp
        simp only at h hp
        obtain ⟨used', he, hi⟩ := matingLoop_tape Inv kind subpop source_subpop id limit gen
          mcb ccb hpass rest (kind.advance s1) (count + 1)
          (if selfed then nts - 1 else nts) (used ++ [m]) r hp h
        exact ⟨used', by rw [he]; simp, hi⟩
    · cases h
      exact ⟨used, rfl, hst⟩

theorem generateFromSource_tape (Inv : List Mating → EvolveState → Prop) (sex_ratio : Double)
    (subpop source_subpop : Nat) (id : Int) (selfing_fraction : Double) (n gen : Int)
    (mcb ccb : List SLiMScriptBlock)
    (hpass : ∀ (used : List Mating) (m : Mating) (st : EvolveState) (nts : Int), Inv used st →
      match onePass .asexual subpop source_subpop id gen mcb ccb m st nts with
      | .terminated _ _ => True
      | .undefined => True
      | .redraw s => Inv (used ++ [m]) s
      | .rejected s => Inv (used ++ [m]) s
      | .kept s _ => Inv (used ++ [m]) (ChildKind.asexual.advance s))
    (matings : List Mating) (st : EvolveState) (used : List Mating)
    (r : EvolveState × List Mating) (hst : Inv used st)
    (h : generateFromSource false sex_ratio subpop source_subpop id selfing_fraction n gen mcb
      ccb matings st = .returned r) :
    ∃ used', used' ++ r.2 = used ++ matings ∧ Inv used' r.1 := by
  unfold generateFromSource at h
  simp only [Bool.false_eq_true, if_false] at h
  cases hx : matingLoop .asexual subpop source_subpop id n gen mcb ccb matings st 0
      (lround (Double.round (Double.ofInt n * selfing_fraction))) with
  | terminated e s1 => rw [hx] at h; cases h
  | undefined => rw [hx] at h; cases h
  | pending s1 => rw [hx] at h; cases h
  | returned a =>
    obtain ⟨st1, c1, n1, matings1⟩ := a
    rw [hx] at h
    cases h
    exact matingLoop_tape Inv .asexual subpop source_subpop id n gen mcb ccb hpass matings st 0
      _ used _ hst hx

theorem migrantLoop_tape (Inv : List Mating → EvolveState → Prop) (Link : Int → Nat → Prop)
    (sex_ratio : Double) (subpop : Nat) (num_migrants : List Nat) (gen : Int)
    (mcb ccb : List SLiMScriptBlock)
    (hlink : ∀ (used : List Mating) (st : EvolveState) (sid : Int) (source_subpop : Nat),
      Inv used st → st.pop.SubpopulationWithID sid = some source_subpop →
      Link sid source_subpop)
    (hpass : ∀ (source_subpop : Nat) (sid : Int), Link sid source_subpop →
      ∀ (used : List Mating) (m : Mating) (st : EvolveState) (nts : Int), Inv used st →
      match onePass .asexual subpop source_subpop sid gen mcb ccb m st nts with
      | .terminated _ _ => True
      | .undefined => True
      | .redraw s => Inv (used ++ [m]) s
      | .rejected s => Inv (used ++ [m]) s
      | .kept s _ => Inv (used ++ [m]) (ChildKind.asexual.advance s)) :
    ∀ (fractions : List (Int × Double)) (pop_count : Nat) (matings : List Mating)
      (st : EvolveState) (used : List Mating) (r : EvolveState × List Mating), Inv used st →
      migrantLoop false sex_ratio subpop num_migrants gen mcb ccb fractions pop_count matings
        st = .returned r →
      ∃ used', used' ++ r.2 = used ++ matings ∧ Inv used' r.1
  | [], _, matings, st, used, r, hst, h => by
    simp only [migrantLoop, Run.returned.injEq] at h
    rw [← h]
    exact ⟨used, rfl, hst⟩
  | pair :: rest, pop_count, matings, st, used, r, hst, h => by
    unfold migrantLoop at h
    simp only at h
    cases hp : st.pop.SubpopulationWithID pair.1 with
    | none => rw [hp] at h; cases h
    | some source_subpop =>
      rw [hp] at h
      simp only at h
      cases hs : st.pop.subpops[source_subpop]? with
      | none => rw [hs] at h; cases h
      | some source =>
        cases hn : num_migrants[pop_count]? with
        | none => rw [hs, hn] at h; cases h
        | some n =>
          rw [hs, hn] at h
          simp only at h
          cases hx : generateFromSource false sex_ratio subpop source_subpop pair.1
              source.2.selfing_fraction_ n gen mcb ccb matings st with
          | terminated e s1 => rw [hx] at h; cases h
          | undefined => rw [hx] at h; cases h
          | pending s1 => rw [hx] at h; cases h
          | returned a =>
            obtain ⟨st1, matings1⟩ := a
            rw [hx] at h
            simp only at h
            obtain ⟨used1, he1, hi1⟩ := generateFromSource_tape Inv sex_ratio subpop
              source_subpop pair.1 source.2.selfing_fraction_ n gen mcb ccb
              (hpass source_subpop pair.1 (hlink used st pair.1 source_subpop hst hp))
              matings st used _ hst hx
            obtain ⟨used2, he2, hi2⟩ := migrantLoop_tape Inv Link sex_ratio subpop
              num_migrants gen mcb ccb hlink hpass rest (pop_count + 1) matings1 st1 used1 r
              hi1 h
            exact ⟨used2, by rw [he2]; exact he1, hi2⟩

theorem evolve_tape (Inv : List Mating → EvolveState → Prop) (Link : Int → Nat → Prop)
    (pop : Population) (id gen : Int) (mcb ccb : List SLiMScriptBlock)
    (num_migrants : List Nat) (matings : List Mating) (place : Nat)
    (subpop : Int × Subpopulation)
    (h1 : pop.SubpopulationWithID id = some place) (h2 : pop.subpops[place]? = some subpop)
    (hsex : subpop.2.sex_enabled_ = false)
    (hstart : ∀ rates total, Inv [] ⟨pop, 0, 0, 0, [.multinomial rates total]⟩)
    (hlink : ∀ (used : List Mating) (st : EvolveState) (sid : Int) (source_subpop : Nat),
      Inv used st → st.pop.SubpopulationWithID sid = some source_subpop →
      Link sid source_subpop)
    (hnative : Link id place)
    (hpass : ∀ (source_subpop : Nat) (sid : Int), Link sid source_subpop →
      ∀ (used : List Mating) (m : Mating) (st : EvolveState) (nts : Int), Inv used st →
      match onePass .asexual place source_subpop sid gen mcb ccb m st nts with
      | .terminated _ _ => True
      | .undefined => True
      | .redraw s => Inv (used ++ [m]) s
      | .rejected s => Inv (used ++ [m]) s
      | .kept s _ => Inv (used ++ [m]) (ChildKind.asexual.advance s))
    (s : EvolveState)
    (h : pop.EvolveSubpopulation id gen mcb ccb num_migrants matings = .returned s) :
    ∃ (st2 : EvolveState) (final : Int × Subpopulation) (used rest : List Mating),
      Inv used st2 ∧ used ++ rest = matings ∧ st2.pop.subpops[place]? = some final ∧
      s.pop.subpops = st2.pop.subpops.set place
        (final.1, { final.2 with child_generation_valid := true }) ∧
      s.events = st2.events := by
  unfold Population.EvolveSubpopulation at h
  simp only [h1, h2, hsex, Bool.false_eq_true, false_and, if_false] at h
  by_cases hs : migrationRateSum subpop.2.migrant_fractions_ ≤ Double.ofInt 1
  · rw [if_pos hs] at h
    cases hx : migrantLoop false (Double.ofInt 0) place num_migrants gen mcb ccb
        subpop.2.migrant_fractions_ 0 matings
        { pop := pop, child_count := 0, male_child_count := 0, female_child_count := 0,
          events := [EvolveEvent.multinomial (subpop.2.migrant_fractions_.map
            (fun fractions_pair => fractions_pair.2) ++
              [Double.round (Double.ofInt 1 - migrationRateSum subpop.2.migrant_fractions_)])
            subpop.2.child_subpop_size_] } with
    | terminated e s1 => rw [hx] at h; cases h
    | undefined => rw [hx] at h; cases h
    | pending s1 => rw [hx] at h; cases h
    | returned a =>
      obtain ⟨st1, matings1⟩ := a
      rw [hx] at h
      simp only at h
      obtain ⟨used1, he1, hi1⟩ := migrantLoop_tape Inv Link (Double.ofInt 0) place
        num_migrants gen mcb ccb hlink hpass _ _ _ _ [] _ (hstart _ _) hx
      cases ht : st1.pop.subpops[place]? with
      | none => rw [ht] at h; cases h
      | some target =>
        cases hn : num_migrants[subpop.2.migrant_fractions_.length]? with
        | none => rw [ht, hn] at h; cases h
        | some n =>
          rw [ht, hn] at h
          simp only at h
          cases hy : generateFromSource false (Double.ofInt 0) place place id
              target.2.selfing_fraction_ n gen mcb ccb matings1 st1 with
          | terminated e s2 => rw [hy] at h; cases h
          | undefined => rw [hy] at h; cases h
          | pending s2 => rw [hy] at h; cases h
          | returned b =>
            obtain ⟨st2, matings2⟩ := b
            rw [hy] at h
            simp only at h
            obtain ⟨used2, he2, hi2⟩ := generateFromSource_tape Inv (Double.ofInt 0) place
              place id target.2.selfing_fraction_ n gen mcb ccb (hpass place id hnative)
              matings1 st1 used1 _ hi1 hy
            cases hf : st2.pop.subpops[place]? with
            | none => rw [hf] at h; cases h
            | some final =>
              rw [hf] at h
              simp only [Run.returned.injEq] at h
              subst h
              refine ⟨st2, final, used2, matings2, hi2, ?_, hf, rfl, rfl⟩
              simp only at he1 he2
              rw [he2, he1]
              rfl
  · rw [if_neg hs] at h
    cases h

theorem writes_place (place : Nat) (a b : Population) (h : WritesChildBankOnly place a b)
    (t : Int × Subpopulation) (ht : b.subpops[place]? = some t) :
    ∃ t0, a.subpops[place]? = some t0 ∧ t0.1 = t.1 ∧
      t0.2.parent_genomes_ = t.2.parent_genomes_ := by
  obtain ⟨_, _, hplace, _⟩ := h
  rw [ht] at hplace
  cases ha : a.subpops[place]? with
  | none => rw [ha] at hplace; cases hplace
  | some t0 =>
    rw [ha] at hplace
    simp only [Option.map_some', Option.some.injEq] at hplace
    obtain ⟨f1, f2, _⟩ := outsideChildBank_fields _ _ hplace
    exact ⟨t0, rfl, f1.symm, f2.symm⟩

theorem writes_source (place : Nat) (a b : Population) (h : WritesChildBankOnly place a b)
    (source_subpop : Nat) (source : Int × Subpopulation)
    (hs : b.subpops[source_subpop]? = some source) :
    ∃ source0, a.subpops[source_subpop]? = some source0 ∧
      source0.2.parent_genomes_ = source.2.parent_genomes_ := by
  by_cases he : source_subpop = place
  · subst he
    obtain ⟨t0, h0, _, hp⟩ := writes_place _ a b h source hs
    exact ⟨t0, h0, hp⟩
  · rw [h.2.1 source_subpop he] at hs
    exact ⟨source, hs, rfl⟩

theorem writes_lookup (place : Nat) (a b : Population) (h : WritesChildBankOnly place a b)
    (sid : Int) : b.SubpopulationWithID sid = a.SubpopulationWithID sid :=
  subpopulationWithID_congr b a sid
    (writes_map (fun e => (e.1, e.2.selfing_fraction_)) (fun _ => rfl) place a b h)

theorem holdsChild_set (start : Population) (place : Nat) (gen : Int) (bank : List Genome)
    (r : ChildRecord) (m : Mating) (c : Nat) (x y : Genome)
    (hlt : r.child_index.toNat < c)
    (h : HoldsChild start place gen bank r m) :
    HoldsChild start place gen ((bank.set (2 * c) x).set (2 * c + 1) y) r m := by
  obtain ⟨g1, g2, h1, h2, h3, h4⟩ := h
  refine ⟨g1, g2, h1, h2, ?_, ?_⟩
  · rw [List.getElem?_set_ne (by omega), List.getElem?_set_ne (by omega)]
    exact h3
  · rw [List.getElem?_set_ne (by omega), List.getElem?_set_ne (by omega)]
    exact h4

theorem tagged_pass (start : Population) (place source_subpop : Nat) (id gen : Int)
    (m : Mating) (st s : EvolveState) (accepted : Bool)
    (htag : Tagged start place st.pop)
    (hw : PassWrote .asexual place source_subpop id gen m st s accepted) :
    Tagged start place s.pop := by
  obtain ⟨target, source, c, p1, p2, b1, b2, g11, g12, g21, g22, s1, s2, r, ht, hs, _, _, _, _,
    _, _, _, _, hb1, hb2, _, _, _, _, hr1, hr2, hsub, _, _⟩ := hw
  intro t0 t h0 hts
  obtain ⟨hlen, hall⟩ := htag t0 target h0 ht
  have hlt : place < st.pop.subpops.length := getElem?_lt_length _ _ _ ht
  rw [hsub] at hts
  simp [hlt] at hts
  subst hts
  simp only
  refine ⟨by simp [hlen], ?_⟩
  intro i b0 b hb0 hb
  obtain ⟨k1a, k1b, k1c⟩ := crossover_keeps_tag _ _ _ _ _ _ _ _ _ _ hr1
  obtain ⟨k2a, k2b, k2c⟩ := crossover_keeps_tag _ _ _ _ _ _ _ _ _ _ hr2
  have hl1 : 2 * c < target.2.child_genomes_.length := getElem?_lt_length _ _ _ hb1
  have hl2 : 2 * c + 1 < target.2.child_genomes_.length := getElem?_lt_length _ _ _ hb2
  by_cases hi2 : i = 2 * c + 1
  · subst hi2
    rw [List.getElem?_set_self (by simp; omega)] at hb
    cases hb
    obtain ⟨a1, a2, a3⟩ := hall _ b0 b2 hb0 hb2
    refine ⟨k2a.trans a1, k2b.trans a2, fun hn => ?_⟩
    have := a3 hn
    subst this
    exact k2c hn
  · rw [List.getElem?_set_ne (fun e => hi2 e.symm)] at hb
    by_cases hi1 : i = 2 * c
    · subst hi1
      rw [List.getElem?_set_self hl1] at hb
      cases hb
      obtain ⟨a1, a2, a3⟩ := hall _ b0 b1 hb0 hb1
      refine ⟨k1a.trans a1, k1b.trans a2, fun hn => ?_⟩
      have := a3 hn
      subst this
      exact k1c hn
    · rw [List.getElem?_set_ne (fun e => hi1 e.symm)] at hb
      exact hall i b0 b hb0 hb

theorem holdsChild_pass (start : Population) (place source_subpop : Nat) (id gen : Int)
    (m : Mating) (st s : EvolveState) (accepted : Bool)
    (hwrites : WritesChildBankOnly place start st.pop)
    (htag : Tagged start place st.pop)
    (hlink : start.SubpopulationWithID id = some source_subpop)
    (hw : PassWrote .asexual place source_subpop id gen m st s accepted) :
    ∃ r t, s.events = st.events ++ [.child r] ∧ r.accepted = accepted ∧
      r.child_index = st.child_count ∧ s.child_count = st.child_count ∧
      s.pop.subpops[place]? = some t ∧
      HoldsChild start place gen t.2.child_genomes_ r m ∧
      ∀ r' m', r'.child_index.toNat < r.child_index.toNat → ∀ t', st.pop.subpops[place]? = some t' →
        HoldsChild start place gen t'.2.child_genomes_ r' m' →
        HoldsChild start place gen t.2.child_genomes_ r' m' := by
  obtain ⟨target, source, c, p1, p2, b1, b2, g11, g12, g21, g22, s1, s2, r, ht, hs, hc, hrc,
    hrp1, hrp2, hmp1, hrs, hrx, hra, hb1, hb2, hg11, hg12, hg21, hg22, hr1, hr2, hsub, hev,
    hcc⟩ := hw
  have hlt : place < st.pop.subpops.length := getElem?_lt_length _ _ _ ht
  have hl1 : 2 * c < target.2.child_genomes_.length := getElem?_lt_length _ _ _ hb1
  have hl2 : 2 * c + 1 < target.2.child_genomes_.length := getElem?_lt_length _ _ _ hb2
  obtain ⟨t0, h0, _, _⟩ := writes_place place start st.pop hwrites target ht
  obtain ⟨source0, hs0, hsp⟩ := writes_source place start st.pop hwrites source_subpop source hs
  obtain ⟨hlen, hall⟩ := htag t0 target h0 ht
  have hts : s.pop.subpops[place]? = some (target.1, { target.2 with
      child_genomes_ := (target.2.child_genomes_.set (2 * c) s1.child_genome).set
        (2 * c + 1) s2.child_genome }) := by
    rw [hsub]
    simp [hlt]
  have hcn : r.child_index.toNat = c := by rw [hrc]; simp
  refine ⟨r, _, hev, hra, by rw [hrc, hc]; rfl, hcc, hts, ?_, ?_⟩
  · have hb01 : ∃ b0, t0.2.child_genomes_[2 * c]? = some b0 :=
      ⟨_, List.getElem?_eq_getElem (by omega)⟩
    have hb02 : ∃ b0, t0.2.child_genomes_[2 * c + 1]? = some b0 :=
      ⟨_, List.getElem?_eq_getElem (by omega)⟩
    obtain ⟨b01, hb01⟩ := hb01
    obtain ⟨b02, hb02⟩ := hb02
    obtain ⟨a1, a2, a3⟩ := hall _ b01 b1 hb01 hb1
    obtain ⟨c1, c2, c3⟩ := hall _ b02 b2 hb02 hb2
    have e1 : (2 * r.parent1).toNat = 2 * p1 := by rw [hrp1]; omega
    have e2 : (2 * r.parent1 + 1).toNat = 2 * p1 + 1 := by rw [hrp1]; omega
    have e3 : (2 * r.parent2).toNat = 2 * p2 := by rw [hrp2]; omega
    have e4 : (2 * r.parent2 + 1).toNat = 2 * p2 + 1 := by rw [hrp2]; omega
    refine ⟨s1.child_genome, s2.child_genome, ?_, ?_, ?_, ?_⟩
    · unfold builtSlot
      rw [hrs, hlink, hcn, e1, e2]
      simp only [h0, hs0, hb01, hsp, hg11, hg12]
      rw [hrx]
      exact builtGenome_of_returned b01 b1 g11 g12 _ id _ gen _ _ s1 a1 a2 a3 hr1
    · unfold builtSlot
      rw [hrs, hlink, hcn, e3, e4]
      simp only [h0, hs0, hb02, hsp, hg21, hg22]
      rw [hrx]
      exact builtGenome_of_returned b02 b2 g21 g22 _ id _ gen _ _ s2 c1 c2 c3 hr2
    · simp only
      rw [hcn, List.getElem?_set_ne (by omega), List.getElem?_set_self hl1]
    · simp only
      rw [hcn, List.getElem?_set_self (by simp; omega)]
  · intro r' m' hlt' t' ht' hh
    rw [ht] at ht'
    cases ht'
    simp only
    exact holdsChild_set start place gen _ r' m' c _ _ (by omega) hh

theorem bankInvariant_old (start : Population) (place : Nat) (gen : Int) (used : List Mating)
    (m : Mating) (st s : EvolveState) (ev : EvolveEvent) (bound : Int)
    (hinv : BankInvariant start place gen used st)
    (hev : s.events = st.events ++ [ev])
    (hbound : st.child_count ≤ bound)
    (hkeep : ∀ r' m', 0 ≤ r'.child_index → r'.child_index < st.child_count →
      ∀ t', st.pop.subpops[place]? = some t' →
        HoldsChild start place gen t'.2.child_genomes_ r' m' →
        ∃ t, s.pop.subpops[place]? = some t ∧
          HoldsChild start place gen t.2.child_genomes_ r' m')
    (j : Nat) (r : ChildRecord) (hj : j + 1 < st.events.length)
    (h : s.events[j + 1]? = some (.child r)) (ha : r.accepted = true) :
    0 ≤ r.child_index ∧ r.child_index < bound ∧
    ∃ m' t, (used ++ [m])[j]? = some m' ∧ s.pop.subpops[place]? = some t ∧
      HoldsChild start place gen t.2.child_genomes_ r m' := by
  obtain ⟨_, hlen, _, _, _, hrec⟩ := hinv
  rw [hev, List.getElem?_append_left hj] at h
  obtain ⟨h0, h1, m', t', hm', ht', hh⟩ := hrec j r h ha
  obtain ⟨t, ht, hh2⟩ := hkeep r m' h0 h1 t' ht' hh
  refine ⟨h0, by omega, m', t, ?_, ht, hh2⟩
  rw [List.getElem?_append_left (by omega)]
  exact hm'

theorem bankInvariant_pass (start : Population) (place : Nat) (gen : Int)
    (mcb ccb : List SLiMScriptBlock) (source_subpop : Nat) (sid : Int)
    (hlink : start.SubpopulationWithID sid = some source_subpop) (used : List Mating)
    (m : Mating) (st : EvolveState) (nts : Int)
    (hinv : BankInvariant start place gen used st) :
    match onePass .asexual place source_subpop sid gen mcb ccb m st nts with
    | .terminated _ _ => True
    | .undefined => True
    | .redraw s => BankInvariant start place gen (used ++ [m]) s
    | .rejected s => BankInvariant start place gen (used ++ [m]) s
    | .kept s _ => BankInvariant start place gen (used ++ [m]) (ChildKind.asexual.advance s) := by
  have hf := onePass_facts .asexual place source_subpop sid gen mcb ccb m st nts
  have hw := onePass_written .asexual place source_subpop sid gen mcb ccb m st nts
  have hr := onePass_related place (WritesChildBankOnly place) (writes_refl place)
    (fun _ _ _ => writes_trans) (store_writes · place) .asexual source_subpop sid gen mcb ccb m
    st nts
  obtain ⟨hfirst, hlen, hcount, hwrites, htag, hrec⟩ := hinv
  have hkeep0 : ∀ (s : EvolveState) (ev : EvolveEvent), s.events = st.events ++ [ev] →
      ∀ (r : ChildRecord), s.events[0]? ≠ some (.child r) := by
    intro s ev hev r
    rw [hev, List.getElem?_append_left (by omega)]
    exact hfirst r
  cases hx : onePass .asexual place source_subpop sid gen mcb ccb m st nts with
  | terminated e s => trivial
  | undefined => trivial
  | redraw s =>
    rw [hx] at hf
    simp only at hf ⊢
    obtain ⟨hsame, hpop, c, p, hev⟩ := hf
    refine ⟨hkeep0 _ _ hev, by rw [hev]; simp [hlen], by rw [hsame.1]; exact hcount, by rw [hpop]; exact hwrites,
      by rw [hpop]; exact htag, ?_⟩
    intro j r h ha
    by_cases hj : j + 1 < st.events.length
    · have := bankInvariant_old start place gen used m st s _ st.child_count
        ⟨hfirst, hlen, hcount, hwrites, htag, hrec⟩ hev (le_refl _)
        (fun r' m' _ _ t' ht' hh => ⟨t', by rw [hpop]; exact ht', hh⟩) j r hj h ha
      rw [hsame.1]
      exact this
    · rw [hev] at h
      by_cases hj2 : j + 1 = st.events.length
      · rw [hj2, List.getElem?_append_right (le_refl _)] at h
        simp at h
      · rw [List.getElem?_eq_none (by simp; omega)] at h
        cases h
  | rejected s =>
    rw [hx] at hf hw hr
    simp only at hf hw hr ⊢
    obtain ⟨r0, t, hev, hacc, hidx, hcc, hts, _, hkeep⟩ := holdsChild_pass start place
      source_subpop sid gen m st s false hwrites htag hlink hw
    refine ⟨hkeep0 _ _ hev, by rw [hev]; simp [hlen], by rw [hcc]; exact hcount, writes_trans hwrites hr,
      tagged_pass start place source_subpop sid gen m st s false htag hw, ?_⟩
    intro j r h ha
    by_cases hj : j + 1 < st.events.length
    · have := bankInvariant_old start place gen used m st s _ st.child_count
        ⟨hfirst, hlen, hcount, hwrites, htag, hrec⟩ hev (le_refl _)
        (fun r' m' h0 h1 t' ht' hh => ⟨t, hts, hkeep r' m' (by rw [hidx]; omega) t' ht' hh⟩)
        j r hj h ha
      rw [hcc]
      exact this
    · rw [hev] at h
      by_cases hj2 : j + 1 = st.events.length
      · rw [hj2, List.getElem?_append_right (le_refl _)] at h
        simp at h
        rw [← h, hacc] at ha
        cases ha
      · rw [List.getElem?_eq_none (by simp; omega)] at h
        cases h
  | kept s selfed =>
    rw [hx] at hf hw hr
    simp only at hf hw hr ⊢
    obtain ⟨r0, t, hev, hacc, hidx, hcc, hts, hnew, hkeep⟩ := holdsChild_pass start place
      source_subpop sid gen m st s true hwrites htag hlink hw
    have hadv : (ChildKind.asexual.advance s) = { s with child_count := s.child_count + 1 } :=
      rfl
    rw [hadv]
    refine ⟨hkeep0 _ _ hev, by simp only; rw [hev]; simp [hlen], by simp only; rw [hcc]; omega,
      writes_trans hwrites hr,
      tagged_pass start place source_subpop sid gen m st s true htag hw, ?_⟩
    intro j r h ha
    simp only at h ⊢
    by_cases hj : j + 1 < st.events.length
    · have := bankInvariant_old start place gen used m st s _ (st.child_count + 1)
        ⟨hfirst, hlen, hcount, hwrites, htag, hrec⟩ hev (by omega)
        (fun r' m' h0 h1 t' ht' hh => ⟨t, hts, hkeep r' m' (by rw [hidx]; omega) t' ht' hh⟩)
        j r hj h ha
      rw [hcc]
      exact this
    · rw [hev] at h
      by_cases hj2 : j + 1 = st.events.length
      · rw [hj2, List.getElem?_append_right (le_refl _)] at h
        simp at h
        subst h
        refine ⟨by rw [hidx]; exact hcount, by rw [hidx, hcc]; omega, m, t, ?_, hts, hnew⟩
        have : j = used.length := by omega
        rw [this, List.getElem?_append_right (le_refl _)]
        simp
      · rw [List.getElem?_eq_none (by simp; omega)] at h
        cases h

theorem bankInvariant_start (pop : Population) (place : Nat) (gen : Int)
    (rates : List Double) (total : Int) :
    BankInvariant pop place gen [] ⟨pop, 0, 0, 0, [.multinomial rates total]⟩ := by
  refine ⟨fun r h => by simp at h, rfl, le_refl _, writes_refl place pop, ?_, ?_⟩
  · intro t0 t h0 ht
    rw [h0] at ht
    cases ht
    exact ⟨rfl, fun i b0 b hb0 hb => by
      rw [hb0] at hb
      cases hb
      exact ⟨rfl, rfl, fun _ => rfl⟩⟩
  · intro j r h
    simp at h

theorem evolve_bank (pop : Population) (id gen : Int) (mcb ccb : List SLiMScriptBlock)
    (num_migrants : List Nat) (matings : List Mating) (place : Nat)
    (subpop : Int × Subpopulation)
    (h1 : pop.SubpopulationWithID id = some place) (h2 : pop.subpops[place]? = some subpop)
    (hsex : subpop.2.sex_enabled_ = false) (s : EvolveState)
    (h : pop.EvolveSubpopulation id gen mcb ccb num_migrants matings = .returned s) :
    BankHoldsKeptChildren pop place gen matings s := by
  obtain ⟨st2, final, used, rest, hinv, huse, hfinal, hsub, hev⟩ :=
    evolve_tape (BankInvariant pop place gen)
      (fun sid source_subpop => pop.SubpopulationWithID sid = some source_subpop)
      pop id gen mcb ccb num_migrants matings place subpop h1 h2 hsex
      (bankInvariant_start pop place gen)
      (fun used st sid source_subpop hi hl => by
        show pop.SubpopulationWithID sid = some source_subpop
        rw [← writes_lookup place pop st.pop hi.2.2.2.1 sid]
        exact hl)
      h1
      (fun source_subpop sid hl used m st nts hi =>
        bankInvariant_pass pop place gen mcb ccb source_subpop sid hl used m st nts hi)
      s h
  have hlt : place < st2.pop.subpops.length := getElem?_lt_length _ _ _ hfinal
  refine ⟨(final.1, { final.2 with child_generation_valid := true }), ?_, ?_, ?_⟩
  · rw [hsub]
    simp [hlt]
  · rw [hev]
    exact hinv.1
  · intro j r hj ha
    rw [hev] at hj
    obtain ⟨_, _, m, t, hm, ht, hh⟩ := hinv.2.2.2.2.2 j r hj ha
    rw [hfinal] at ht
    cases ht
    refine ⟨m, ?_, hh⟩
    rw [← huse, List.getElem?_append_left (getElem?_lt_length _ _ _ hm)]
    exact hm

theorem childRecords_index (events : List EvolveEvent) (r : ChildRecord)
    (h : r ∈ childRecords events) : ∃ (j : Nat), events[j]? = some (EvolveEvent.child r) := by
  induction events with
  | nil => cases h
  | cons e rest ih =>
    cases e with
    | child record =>
      rw [childRecords, List.mem_cons] at h
      rcases h with h | h
      · exact ⟨0, by subst h; simp⟩
      · obtain ⟨j, hj⟩ := ih h
        exact ⟨j + 1, by rw [List.getElem?_cons_succ]; exact hj⟩
    | multinomial a b =>
      rw [childRecords] at h
      obtain ⟨j, hj⟩ := ih h
      exact ⟨j + 1, by rw [List.getElem?_cons_succ]; exact hj⟩
    | redraw a b c =>
      rw [childRecords] at h
      obtain ⟨j, hj⟩ := ih h
      exact ⟨j + 1, by rw [List.getElem?_cons_succ]; exact hj⟩

theorem bank_holds_accepted (start : Population) (place : Nat) (gen : Int)
    (matings : List Mating) (s : EvolveState)
    (h : BankHoldsKeptChildren start place gen matings s) :
    ∃ final, s.pop.subpops[place]? = some final ∧
      ∀ r ∈ acceptedChildren s.events, ∃ m ∈ matings,
        HoldsChild start place gen final.2.child_genomes_ r m := by
  obtain ⟨final, hf, hfirst, hall⟩ := h
  refine ⟨final, hf, fun r hr => ?_⟩
  rw [acceptedChildren, List.mem_filter] at hr
  obtain ⟨j, hj⟩ := childRecords_index s.events r hr.1
  cases j with
  | zero => exact absurd hj (hfirst r)
  | succ j =>
    obtain ⟨m, hm, hh⟩ := hall j r hj hr.2
    exact ⟨m, List.mem_iff_getElem?.mpr ⟨j, hm⟩, hh⟩


/-! ## The properties of the specification: the generation swap -/

/-- C11: when every subpopulation holds `2 * child_subpop_size_` child genomes and no
non-null child genome holds the same handle twice (the invariant of `Genome` that
`CrossoverMutation` maintains), `TallyMutationReferences` followed by `RemoveFixedMutations`
returns, and every mutation that is then in the registry has
`0 < reference_count_ < total_genome_count_`, whatever the registry held and in whatever
order. -/
theorem remaining_mutations_are_between_lost_and_fixed (pop : Population) (generation : Int)
    (hsize : ChildBanksSized pop)
    (hnodup : ∀ g ∈ nonNullChildGenomes pop, g.mutations_.Nodup) :
    ∃ result, pop.tallyAndRemoveFixed generation = some result ∧
      ∀ m ∈ result.mutation_registry_,
        0 < result.reference_count_ m ∧
          result.reference_count_ m < result.total_genome_count_ := by
  obtain ⟨result, fixed, hr, hrc, htot, hmem, _, _, _, _⟩ :=
    tallyAndRemoveFixed_returns pop generation hsize
  refine ⟨result, hr, ?_⟩
  intro m hm
  obtain ⟨hreg, hl⟩ := (hmem m).mp hm
  have h0 : result.reference_count_ m ≠ 0 := by
    intro e; simp [leavesRegistry, e] at hl
  have h1 : result.reference_count_ m ≠ result.total_genome_count_ := by
    intro e; simp [leavesRegistry, e] at hl
  have hle : handleCount pop m ≤ (nonNullChildGenomes pop).length :=
    sum_count_le m _ hnodup
  rw [hrc m hreg] at h0 h1 ⊢
  rw [htot] at h1 ⊢
  constructor
  · have : (handleCount pop m : Int) ≥ 0 := Int.natCast_nonneg _
    omega
  · have : (handleCount pop m : Int) ≤ ((nonNullChildGenomes pop).length : Int) := by
      exact_mod_cast hle
    omega

/-- C11 (witness): child genomes `[m, n]` and `[m]`; `n` stays with count 1 of 2. -/
theorem remaining_mutations_are_between_lost_and_fixed_witness :
    ∃ result, (exPopulation (autosome [exM, exN]) (autosome [exM])).tallyAndRemoveFixed 5 =
        some result ∧
      ∀ m ∈ result.mutation_registry_,
        0 < result.reference_count_ m ∧
          result.reference_count_ m < result.total_genome_count_ :=
  remaining_mutations_are_between_lost_and_fixed
    (exPopulation (autosome [exM, exN]) (autosome [exM])) 5 (by decide) (by decide)

/-- C12: when every subpopulation holds `2 * child_subpop_size_` child genomes, every
registry mutation is carried exactly once by every non-null child genome, every handle of a
non-null child genome is that of a registry mutation (the invariant that the genomes
reference mutations of the registry only), and there is a non-null child genome, then the
tally followed by `RemoveFixedMutations` returns with an empty registry and every non-null
child genome empty, and the substitution log is the one before followed by one
`Substitution` for each registry entry, each with the current generation. -/
theorem all_fixed_empties_registry_and_genomes (pop : Population) (generation : Int)
    (hsize : ChildBanksSized pop)
    (hcarried : ∀ m ∈ pop.mutation_registry_, ∀ g ∈ nonNullChildGenomes pop,
      g.mutations_.count m = 1)
    (hregistered : ∀ g ∈ nonNullChildGenomes pop, ∀ m ∈ g.mutations_,
      m ∈ pop.mutation_registry_)
    (hsome : nonNullChildGenomes pop ≠ []) :
    ∃ (result : Population) (fixed : List Mutation),
      pop.tallyAndRemoveFixed generation = some result ∧
      result.mutation_registry_ = [] ∧
      (∀ g ∈ nonNullChildGenomes result, g.mutations_ = []) ∧
      fixed.Perm pop.mutation_registry_ ∧
      result.substitutions_ =
        pop.substitutions_ ++ fixed.map (fun m => Substitution.mk m generation) := by
  obtain ⟨result, fixed, hr, hrc, htot, hmem, hfixed, _, hlog, hsub⟩ :=
    tallyAndRemoveFixed_returns pop generation hsize
  have hpos : 0 < (nonNullChildGenomes pop).length := List.length_pos.mpr hsome
  have hall : ∀ m ∈ pop.mutation_registry_,
      result.reference_count_ m = result.total_genome_count_ ∧
        result.reference_count_ m ≠ 0 := by
    intro m hm
    have hc : handleCount pop m = (nonNullChildGenomes pop).length :=
      sum_count_one m _ (hcarried m hm)
    rw [hrc m hm, htot, hc]
    exact ⟨rfl, by exact_mod_cast (Nat.pos_iff_ne_zero.mp hpos)⟩
  have hfilter : pop.mutation_registry_.filter
      (isFixed result.reference_count_ result.total_genome_count_) = pop.mutation_registry_ := by
    rw [List.filter_eq_self]
    intro m hm
    simp [isFixed, (hall m hm).1, ((hall m hm).1 ▸ (hall m hm).2 : result.total_genome_count_ ≠ 0)]
  rw [hfilter] at hfixed
  refine ⟨result, fixed, hr, ?_, ?_, hfixed, hlog⟩
  · apply List.eq_nil_iff_forall_not_mem.mpr
    intro m hm
    obtain ⟨hreg, hl⟩ := (hmem m).mp hm
    simp [leavesRegistry, (hall m hreg).1] at hl
  · by_cases hnil : fixed = []
    · rw [if_pos hnil] at hsub
      rw [nonNull_of_subpops_eq pop result hsub]
      intro g hg
      have hregnil : pop.mutation_registry_ = [] := by
        rw [hnil] at hfixed
        exact List.perm_nil.mp hfixed.symm
      apply List.eq_nil_iff_forall_not_mem.mpr
      intro m hm
      have := hregistered g hg m hm
      rw [hregnil] at this
      cases this
    · rw [if_neg hnil] at hsub
      rw [nonNull_scrubbed _ _ pop result hsub]
      intro g hg
      obtain ⟨g0, hg0, rfl⟩ := List.mem_map.mp hg
      rw [scrubGenome_mutations _ _ g0 (mem_nonNull_is_null pop g0 hg0), List.filter_eq_nil_iff]
      intro m hm
      simp [(hall m (hregistered g0 hg0 m hm)).1]

/-- C12 (witness): scenario S1, a subpopulation of 4 whose 8 child genomes hold the one
mutation at position 100. -/
theorem all_fixed_empties_registry_and_genomes_witness :
    ∃ (result : Population) (fixed : List Mutation),
      (exFixation (autosome [exS])).tallyAndRemoveFixed 5 = some result ∧
      result.mutation_registry_ = [] ∧
      (∀ g ∈ nonNullChildGenomes result, g.mutations_ = []) ∧
      fixed.Perm (exFixation (autosome [exS])).mutation_registry_ ∧
      result.substitutions_ = (exFixation (autosome [exS])).substitutions_ ++
        fixed.map (fun m => Substitution.mk m 5) :=
  all_fixed_empties_registry_and_genomes (exFixation (autosome [exS])) 5
    (by decide) (by decide) (by decide) (by decide)

/-- C13: when every subpopulation holds `2 * child_subpop_size_` child genomes,
`RemoveFixedMutations` returns, and the substitution log is then the log before, unchanged,
followed by one `Substitution` for each registry entry whose `reference_count_` is not 0 and
equals `total_genome_count_`, built from that mutation and the current generation, in
position order; there is no other new entry. -/
theorem one_substitution_for_each_fixed_mutation (pop : Population) (generation : Int)
    (hsize : ChildBanksSized pop) :
    ∃ (result : Population) (fixed : List Mutation),
      pop.RemoveFixedMutations generation = some result ∧
      fixed.Perm (pop.mutation_registry_.filter
        (isFixed pop.reference_count_ pop.total_genome_count_)) ∧
      PosSorted fixed ∧
      result.substitutions_ =
        pop.substitutions_ ++ fixed.map (fun m => Substitution.mk m generation) := by
  obtain ⟨_, fixed, _, result, hr, _, _, _, hf, hs, _, hlog, _⟩ :=
    removeFixed_returns pop generation hsize
  exact ⟨result, fixed, hr, hf, hs, hlog⟩

/-- C13 (witness): scenario S1 after the tally, the log holding one earlier entry. -/
theorem one_substitution_for_each_fixed_mutation_witness :
    ∃ (result : Population) (fixed : List Mutation),
      exTallied.RemoveFixedMutations 5 = some result ∧
      fixed.Perm (exTallied.mutation_registry_.filter
        (isFixed exTallied.reference_count_ exTallied.total_genome_count_)) ∧
      PosSorted fixed ∧
      result.substitutions_ =
        exTallied.substitutions_ ++ fixed.map (fun m => Substitution.mk m 5) :=
  one_substitution_for_each_fixed_mutation exTallied 5 (by decide)

/-- C14: when every subpopulation holds `2 * child_subpop_size_` child genomes and every
handle of a non-null child genome is in the registry, the tally followed by
`RemoveFixedMutations` returns, and then a mutation is held by some non-null child genome
exactly when it is in the registry. -/
theorem genomes_reference_exactly_the_registry (pop : Population) (generation : Int)
    (hsize : ChildBanksSized pop)
    (hregistered : ∀ g ∈ nonNullChildGenomes pop, ∀ m ∈ g.mutations_,
      m ∈ pop.mutation_registry_) :
    ∃ result, pop.tallyAndRemoveFixed generation = some result ∧
      ∀ m, (∃ g ∈ nonNullChildGenomes result, m ∈ g.mutations_) ↔
        m ∈ result.mutation_registry_ := by
  obtain ⟨result, fixed, hr, hrc, htot, hmem, hfixed, _, _, hsub⟩ :=
    tallyAndRemoveFixed_returns pop generation hsize
  refine ⟨result, hr, ?_⟩
  have hheld : ∀ m ∈ pop.mutation_registry_,
      (result.reference_count_ m ≠ 0 ↔ ∃ g ∈ nonNullChildGenomes pop, m ∈ g.mutations_) := by
    intro m hm
    rw [hrc m hm, ← sum_count_pos m (nonNullChildGenomes pop)]
    unfold handleCount
    constructor
    · intro h; exact Nat.pos_of_ne_zero (by exact_mod_cast h)
    · intro h; exact_mod_cast (Nat.pos_iff_ne_zero.mp h)
  have hstays : ∀ m, m ∈ result.mutation_registry_ ↔ (m ∈ pop.mutation_registry_ ∧
      result.reference_count_ m ≠ 0 ∧
        result.reference_count_ m ≠ result.total_genome_count_) := by
    intro m
    rw [hmem m]
    simp [leavesRegistry]
  intro m
  by_cases hnil : fixed = []
  · rw [if_pos hnil] at hsub
    rw [nonNull_of_subpops_eq pop result hsub, hstays m]
    have hnofixed : ∀ x ∈ pop.mutation_registry_, result.reference_count_ x ≠ 0 →
        result.reference_count_ x ≠ result.total_genome_count_ := by
      intro x hx h0 h1
      have hx2 : x ∈ pop.mutation_registry_.filter
          (isFixed result.reference_count_ result.total_genome_count_) :=
        List.mem_filter.mpr ⟨hx, by
          have ht : ¬ result.total_genome_count_ = 0 := fun e => h0 (h1.trans e)
          simp [isFixed, h1, ht]⟩
      have := hfixed.symm.subset hx2
      rw [hnil] at this
      cases this
    constructor
    · rintro ⟨g, hg, hm⟩
      have hreg := hregistered g hg m hm
      have h0 := (hheld m hreg).mpr ⟨g, hg, hm⟩
      exact ⟨hreg, h0, hnofixed m hreg h0⟩
    · rintro ⟨hreg, h0, _⟩
      exact (hheld m hreg).mp h0
  · rw [if_neg hnil] at hsub
    rw [nonNull_scrubbed _ _ pop result hsub, hstays m]
    constructor
    · rintro ⟨g, hg, hm⟩
      obtain ⟨g0, hg0, rfl⟩ := List.mem_map.mp hg
      rw [scrubGenome_mutations _ _ g0 (mem_nonNull_is_null pop g0 hg0)] at hm
      obtain ⟨hm0, hne⟩ := List.mem_filter.mp hm
      have hreg := hregistered g0 hg0 m hm0
      exact ⟨hreg, (hheld m hreg).mpr ⟨g0, hg0, hm0⟩, by simpa using hne⟩
    · rintro ⟨hreg, h0, h1⟩
      obtain ⟨g0, hg0, hm0⟩ := (hheld m hreg).mp h0
      refine ⟨scrubGenome result.reference_count_ result.total_genome_count_ g0,
        List.mem_map.mpr ⟨g0, hg0, rfl⟩, ?_⟩
      rw [scrubGenome_mutations _ _ g0 (mem_nonNull_is_null pop g0 hg0)]
      exact List.mem_filter.mpr ⟨hm0, by simpa using h1⟩

/-- C14 (witness): child genomes `[m, n]` and `[m]`, registry `[m, n, q]`; afterwards the
registry and the genomes hold `n` alone. -/
theorem genomes_reference_exactly_the_registry_witness :
    ∃ result, (exPopulation (autosome [exM, exN]) (autosome [exM])).tallyAndRemoveFixed 5 =
        some result ∧
      ∀ m, (∃ g ∈ nonNullChildGenomes result, m ∈ g.mutations_) ↔
        m ∈ result.mutation_registry_ :=
  genomes_reference_exactly_the_registry
    (exPopulation (autosome [exM, exN]) (autosome [exM])) 5 (by decide) (by decide)

/-! ## The properties of the specification: the generation of the children -/

/-- C15: for the subpopulation with the id, with the sum of its migrant fractions as the
code computes it (`migrationRateSum`: the fractions added up in map order, each addition
rounded to a `double`): (1) when the sum exceeds 1, `EvolveSubpopulation` terminates in the
state of its start, with no event logged: no call of `gsl_ran_multinomial` and no child;
(2) when the sum is at most 1, the termination for too many migrants is not raised, and
every run that goes past the sex check calls `gsl_ran_multinomial` first, with the migrant
fractions in map order followed by 1 minus their sum, rounded, as the weight of the
subpopulation itself. -/
theorem migrant_sum_above_one_terminates_before_the_draw (pop : Population) (id gen : Int)
    (mcb ccb : List SLiMScriptBlock) (num_migrants : List Nat) (matings : List Mating)
    (place : Nat) (subpop : Int × Subpopulation)
    (h1 : pop.SubpopulationWithID id = some place) (h2 : pop.subpops[place]? = some subpop) :
    (Double.ofInt 1 < migrationRateSum subpop.2.migrant_fractions_ →
      ∃ e, pop.EvolveSubpopulation id gen mcb ccb num_migrants matings =
        .terminated e (startOf pop)) ∧
    (migrationRateSum subpop.2.migrant_fractions_ ≤ Double.ofInt 1 →
      (∀ s, pop.EvolveSubpopulation id gen mcb ccb num_migrants matings ≠
        .terminated .tooManyMigrants s) ∧
      (pop.EvolveSubpopulation id gen mcb ccb num_migrants matings =
          .terminated .unisexualChildPopulation (startOf pop) ∨
        ∀ s, (pop.EvolveSubpopulation id gen mcb ccb num_migrants matings).reached
            (fun a => a) = some s →
          [EvolveEvent.multinomial (migrationRates subpop.2) subpop.2.child_subpop_size_] <+:
            s.events)) := by
  obtain ⟨ha, hb, hc⟩ := evolve_start pop id gen mcb ccb num_migrants matings place subpop h1 h2
  constructor
  · intro hgt
    have hnle : ¬ migrationRateSum subpop.2.migrant_fractions_ ≤ Double.ofInt 1 := by
      intro hle
      have h3 : (Double.ofInt 1).num * (migrationRateSum subpop.2.migrant_fractions_).den <
        (migrationRateSum subpop.2.migrant_fractions_).num * (Double.ofInt 1).den := hgt
      have h4 : (migrationRateSum subpop.2.migrant_fractions_).num * (Double.ofInt 1).den ≤
        (Double.ofInt 1).num * (migrationRateSum subpop.2.migrant_fractions_).den := hle
      omega
    by_cases hcond : (subpop.2.sex_enabled_ = true ∧
        (totalMaleChildren subpop.2 ≤ 0 ∨ totalFemaleChildren subpop.2 ≤ 0))
    · exact ⟨_, ha hcond⟩
    · exact ⟨_, hb hcond hnle⟩
  · intro hle
    constructor
    · intro s hrun
      rcases evolve_terminated pop id gen mcb ccb num_migrants matings place subpop h1 h2 _ _
        hrun with h | h | h
      · cases h.1
      · exact h.2.2 hle
      · cases h.1
    · by_cases hcond : (subpop.2.sex_enabled_ = true ∧
          (totalMaleChildren subpop.2 ≤ 0 ∨ totalFemaleChildren subpop.2 ≤ 0))
      · exact Or.inl (ha hcond)
      · exact Or.inr (hc hcond hle)

/-- C15 (witness): the subpopulation 2 with the migrant fractions 3/4 from 1 and 1/2 from
itself, of sum 5/4, terminates in the state of its start; with the fractions 1/2 and
`1/2 + 2^-53`, whose exact sum is above 1 and whose rounded sum is 1, the termination for
too many migrants is not raised. -/
theorem migrant_sum_above_one_terminates_before_the_draw_witness :
    (∃ e, (exTwo 10 (frac 0 1) [(1, frac 3 4), (2, frac 1 2)]).EvolveSubpopulation 2 5 [] []
        [3, 3, 4] (List.replicate 10 (exMating 0 1 .null true)) =
      .terminated e (startOf (exTwo 10 (frac 0 1) [(1, frac 3 4), (2, frac 1 2)]))) ∧
    Double.ofInt 1 < frac 1 2 + frac 4503599627370497 9007199254740992 ∧
    ∀ s, (exTwo 10 (frac 0 1)
        [(1, frac 1 2), (2, frac 4503599627370497 9007199254740992)]).EvolveSubpopulation
          2 5 [] [] [3, 3, 4] (List.replicate 10 (exMating 0 1 .null true)) ≠
      .terminated .tooManyMigrants s :=
  ⟨(migrant_sum_above_one_terminates_before_the_draw
      (exTwo 10 (frac 0 1) [(1, frac 3 4), (2, frac 1 2)]) 2 5 [] [] [3, 3, 4]
      (List.replicate 10 (exMating 0 1 .null true)) 1
      (2, { parent_genomes_ := [autosome [exQ], autosome [], autosome [], autosome []],
            child_genomes_ := List.replicate (2 * 10) (autosome []),
            child_subpop_size_ := 10, parent_subpop_size_ := 2,
            selfing_fraction_ := frac 0 1,
            migrant_fractions_ := [(1, frac 3 4), (2, frac 1 2)] })
      rfl rfl).1 (by decide),
    by decide,
    ((migrant_sum_above_one_terminates_before_the_draw
      (exTwo 10 (frac 0 1) [(1, frac 1 2), (2, frac 4503599627370497 9007199254740992)])
      2 5 [] [] [3, 3, 4] (List.replicate 10 (exMating 0 1 .null true)) 1
      (2, { parent_genomes_ := [autosome [exQ], autosome [], autosome [], autosome []],
            child_genomes_ := List.replicate (2 * 10) (autosome []),
            child_subpop_size_ := 10, parent_subpop_size_ := 2,
            selfing_fraction_ := frac 0 1,
            migrant_fractions_ :=
              [(1, frac 1 2), (2, frac 4503599627370497 9007199254740992)] })
      rfl rfl).2 (by decide)).1⟩

/-- C16: with sex enabled for the subpopulation, `total_male_children` is
`lround (child_subpop_size_ * child_sex_ratio_)`, the product being the rounded one of the
machine and `lround` giving the nearest integer with a half going away from zero,
`total_female_children` is `child_subpop_size_ - total_male_children`, and
`EvolveSubpopulation` terminates with the error of the unisexual child population exactly
when one of the two is at most 0; this error is raised in the state of the start only, with
no event logged, so before any child is generated. -/
theorem unisexual_error_iff_a_sex_has_no_children (pop : Population) (id gen : Int)
    (mcb ccb : List SLiMScriptBlock) (num_migrants : List Nat) (matings : List Mating)
    (place : Nat) (subpop : Int × Subpopulation)
    (h1 : pop.SubpopulationWithID id = some place) (h2 : pop.subpops[place]? = some subpop)
    (hsex : subpop.2.sex_enabled_ = true) :
    ((∃ s, pop.EvolveSubpopulation id gen mcb ccb num_migrants matings =
        .terminated .unisexualChildPopulation s) ↔
      (totalMaleChildren subpop.2 ≤ 0 ∨ totalFemaleChildren subpop.2 ≤ 0)) ∧
    (∀ s, pop.EvolveSubpopulation id gen mcb ccb num_migrants matings =
        .terminated .unisexualChildPopulation s → s = startOf pop) ∧
    totalFemaleChildren subpop.2 = subpop.2.child_subpop_size_ - totalMaleChildren subpop.2 ∧
    totalMaleChildren subpop.2 =
      lround (Double.round (Double.ofInt subpop.2.child_subpop_size_ * subpop.2.child_sex_ratio_)) ∧
    (∀ x : Double,
      (0 ≤ x.num → 2 * x.num - x.den < 2 * lround x * x.den ∧
        2 * lround x * x.den ≤ 2 * x.num + x.den) ∧
      (x.num < 0 → 2 * x.num - x.den ≤ 2 * lround x * x.den ∧
        2 * lround x * x.den < 2 * x.num + x.den)) := by
  obtain ⟨ha, _, _⟩ := evolve_start pop id gen mcb ccb num_migrants matings place subpop h1 h2
  refine ⟨⟨?_, fun hc => ⟨_, ha ⟨hsex, hc⟩⟩⟩, ?_, rfl, rfl, lround_nearest⟩
  · rintro ⟨s, hrun⟩
    rcases evolve_terminated pop id gen mcb ccb num_migrants matings place subpop h1 h2 _ _
      hrun with h | h | h
    · exact h.2.2.2
    · cases h.1
    · cases h.1
  · intro s hrun
    rcases evolve_terminated pop id gen mcb ccb num_migrants matings place subpop h1 h2 _ _
      hrun with h | h | h
    · exact h.2.1
    · cases h.1
    · cases h.1

/-- C16 (witness): 10 children with the sex ratio 1/25, which rounds to no male, and 10
children with the sex ratio 0.35 as a `double`, for which the rounded product is 3.5 and so
there are 4 males and 6 females. -/
theorem unisexual_error_iff_a_sex_has_no_children_witness :
    ((∃ s, (exSexed (frac 1 25) []).EvolveSubpopulation 2 5 [] [] [10]
        (List.replicate 10 (exMating 0 1 .null true)) =
        .terminated .unisexualChildPopulation s) ↔
      (totalMaleChildren (exSexedSubpop (frac 1 25) []) ≤ 0 ∨
        totalFemaleChildren (exSexedSubpop (frac 1 25) []) ≤ 0)) ∧
    totalMaleChildren (exSexedSubpop (Double.round (frac 7 20)) []) = 4 ∧
    ((∃ s, (exSexed (Double.round (frac 7 20)) []).EvolveSubpopulation 2 5 [] [] [10]
        (List.replicate 10 (exMating 0 1 .null true)) =
        .terminated .unisexualChildPopulation s) ↔
      (totalMaleChildren (exSexedSubpop (Double.round (frac 7 20)) []) ≤ 0 ∨
        totalFemaleChildren (exSexedSubpop (Double.round (frac 7 20)) []) ≤ 0)) :=
  ⟨(unisexual_error_iff_a_sex_has_no_children (exSexed (frac 1 25) []) 2 5 [] [] [10]
      (List.replicate 10 (exMating 0 1 .null true)) 1 (2, exSexedSubpop (frac 1 25) [])
      rfl rfl rfl).1,
    by decide,
    (unisexual_error_iff_a_sex_has_no_children (exSexed (Double.round (frac 7 20)) []) 2 5 []
      [] [10] (List.replicate 10 (exMating 0 1 .null true)) 1
      (2, exSexedSubpop (Double.round (frac 7 20)) []) rfl rfl rfl).1⟩

/-- C17: in a run of `EvolveSubpopulation` without sex that returns, the selfing flags of the
children kept, in the order of the log, are those of the groups one after the other (the
migrant sources in map order, then the subpopulation itself), a group of `n` children from
the source with selfing fraction `s` having the flag set for its first `lround (n * s)`
children kept and for no other, and every child with the flag has its first parent as its
second; with `0 ≤ s ≤ 1` that is exactly `lround (n * s)` children made by selfing. When the
run returns, the child bank of the subpopulation holds each child kept: the genomes
`2 * child_index` and `2 * child_index + 1` of the bank are the ones that `CrossoverMutation`
builds from the two genomes of the first parent and from the two genomes of the second parent
of the record in the bank of parents of its source, so both from the one parent for a child
made by selfing (`BankHoldsKeptChildren` links each child to the answers of its pass). A pass
that a modifyChild() callback ends with `continue` is followed by the next pass with the same
`count` and `number_to_self` and the same counters of the state. And the run without
callbacks does return when nothing stops it (`ReadyToEvolve`) and the counts sum to at most
`child_subpop_size_`. -/
theorem selfed_children_come_first_in_each_group (pop : Population) (id gen : Int)
    (mcb ccb : List SLiMScriptBlock) (num : List Nat) (matings : List Mating) (place : Nat)
    (subpop : Int × Subpopulation)
    (h1 : pop.SubpopulationWithID id = some place) (h2 : pop.subpops[place]? = some subpop)
    (hsex : subpop.2.sex_enabled_ = false) :
    (∀ s, pop.EvolveSubpopulation id gen mcb ccb num matings = .returned s →
      (acceptedChildren s.events).map (fun r => r.selfed) =
        (((subpop.2.migrant_fractions_.map Prod.fst ++ [id]).zip
            (num.take (subpop.2.migrant_fractions_.length + 1))).map
          (fun g => selfedFlags g.2 (selfingOf pop.census g.1))).flatten ∧
      (∀ r ∈ childRecords s.events, r.selfed = true → r.parent2 = r.parent1) ∧
      BankHoldsKeptChildren pop place gen matings s ∧
      ∃ final, s.pop.subpops[place]? = some final ∧
        ∀ r ∈ acceptedChildren s.events, ∃ m ∈ matings,
          HoldsChild pop place gen final.2.child_genomes_ r m) ∧
    (∀ (n : Nat) (selfing_fraction : Double), (n : Int) ≤ INT_MAX →
      Double.ofInt 0 ≤ selfing_fraction → selfing_fraction ≤ Double.ofInt 1 →
      ∃ k : Nat, (k : Int) = lround (Double.round (Double.ofInt n * selfing_fraction)) ∧ k ≤ n ∧
        selfedFlags n selfing_fraction =
          List.replicate k true ++ List.replicate (n - k) false) ∧
    (∀ (kind : ChildKind) (target source : Nat) (sid limit generation : Int)
      (mate modify : List SLiMScriptBlock) (m : Mating) (rest : List Mating)
      (st rejected : EvolveState) (count number_to_self : Int),
      onePass kind target source sid generation mate modify m st number_to_self =
        .rejected rejected → count < limit →
      matingLoop kind target source sid limit generation mate modify (m :: rest) st count
          number_to_self =
        matingLoop kind target source sid limit generation mate modify rest rejected count
          number_to_self ∧
      SameCounters st rejected) ∧
    ((num.take (subpop.2.migrant_fractions_.length + 1)).sum ≤ subpop.2.child_subpop_size_ →
      ReadyToEvolve pop subpop.2 num matings →
      ∃ s, pop.EvolveSubpopulation id gen [] [] num matings = .returned s) := by
  refine ⟨?_, fun n selfing_fraction hn => selfedFlags_eq n selfing_fraction (by
    unfold INT_MAX at hn
    have : (2 : Nat) ^ 53 = 9007199254740992 := by norm_num
    omega), ?_, ?_⟩
  · intro s hrun
    obtain ⟨_, _, hacc, hall, _⟩ := evolve_asexual pop id gen mcb ccb num matings place subpop
      s h1 h2 hsex hrun
    have hbank := evolve_bank pop id gen mcb ccb num matings place subpop h1 h2 hsex s hrun
    refine ⟨?_, fun r hr => (hall r hr).2.2.2, hbank,
      bank_holds_accepted pop place gen matings s hbank⟩
    have := congrArg (List.map (fun x : Int × Int × Bool => x.2.2)) hacc
    rw [List.map_map, expectedChildren_selfed] at this
    exact this
  · intro kind target source sid limit generation mate modify m rest st rejected count
      number_to_self hpass hlt
    have hf := onePass_facts kind target source sid generation mate modify m st number_to_self
    rw [hpass] at hf
    refine ⟨?_, hf.1⟩
    rw [matingLoop, if_pos hlt, hpass]
  · intro hsum hready
    exact ready_returns pop id gen num matings place subpop h1 h2 hsex hsum hready

/-- C17 (witness): scenario S3. 10 children, selfing fraction 0.2, no migration, the first
child generated being rejected; the parent 0 has the mutation `q` on its first genome and
each pass draws the parents 0 and 1 and copies the first genome of a parent. The run returns,
of the children kept the first two and no other were made by selfing, and the final bank
holds them: the children 0 and 1 with two copies of the genome of the parent 0, the other 8
with one genome of the parent 0 and one of the parent 1. -/
theorem selfed_children_come_first_in_each_group_witness :
    ∃ s final, (exTwo 10 (Double.round (frac 1 5)) []).EvolveSubpopulation 2 5 []
        [⟨true, true⟩] [10]
        (exMating 0 1 .null false :: List.replicate 10 (exMating 0 1 .null true)) =
        .returned s ∧
      (acceptedChildren s.events).map (fun r => r.selfed) =
        List.replicate 2 true ++ List.replicate 8 false ∧
      BankHoldsKeptChildren (exTwo 10 (Double.round (frac 1 5)) []) 1 5
        (exMating 0 1 .null false :: List.replicate 10 (exMating 0 1 .null true)) s ∧
      s.pop.subpops[1]? = some final ∧
      final.2.child_genomes_ = List.replicate 4 (autosome [exQ]) ++
        (List.replicate 8 [autosome [exQ], autosome []]).flatten := by
  have hb : (match (exTwo 10 (Double.round (frac 1 5)) []).EvolveSubpopulation 2 5 []
        [⟨true, true⟩] [10]
        (exMating 0 1 .null false :: List.replicate 10 (exMating 0 1 .null true)) with
      | .returned s => (s.pop.subpops[1]?).map (fun e => e.2.child_genomes_)
      | _ => none) =
      some (List.replicate 4 (autosome [exQ]) ++
        (List.replicate 8 [autosome [exQ], autosome []]).flatten) := by decide
  cases h : (exTwo 10 (Double.round (frac 1 5)) []).EvolveSubpopulation 2 5 []
      [⟨true, true⟩] [10]
      (exMating 0 1 .null false :: List.replicate 10 (exMating 0 1 .null true)) with
  | returned s =>
    rw [h] at hb
    obtain ⟨final, hfinal, hgenomes⟩ := Option.map_eq_some'.mp hb
    have hthm := (selfed_children_come_first_in_each_group
      (exTwo 10 (Double.round (frac 1 5)) []) 2 5 [] [⟨true, true⟩] [10]
      (exMating 0 1 .null false :: List.replicate 10 (exMating 0 1 .null true)) 1
      (2, { parent_genomes_ := [autosome [exQ], autosome [], autosome [], autosome []],
            child_genomes_ := List.replicate (2 * 10) (autosome []),
            child_subpop_size_ := 10, parent_subpop_size_ := 2,
            selfing_fraction_ := Double.round (frac 1 5), migrant_fractions_ := [] })
      rfl rfl rfl).1 s h
    exact ⟨s, final, rfl, hthm.1.trans (by decide), hthm.2.2.1, hfinal, hgenomes⟩
  | terminated e s => rw [h] at hb; cases hb
  | undefined => rw [h] at hb; cases hb
  | pending s => rw [h] at hb; cases hb

/-- C18: when a call of `ApplyMateChoiceCallbacks` evaluates a callback (so an active one,
reached in the order of the list) and the interpreter returns for it a float vector of
length 0, the call returns -1, and the log of the call ends with that evaluation: every entry
before it is the evaluation of an earlier callback, so no later callback is evaluated and no
draw is made. Nothing is assumed of the earlier callbacks, which may have replaced the
weights. -/
theorem empty_float_vector_returns_redraw (round : Double → Double) (p_parent1_index : Int)
    (p_subpop p_source_subpop : Subpopulation) (p_mate_choice_callbacks : List SLiMScriptBlock)
    (answers : MateChoiceAnswers) (k : Nat) (weights : Option (List ScriptFloat))
    (hevaluated : MateChoiceEvent.evaluated k p_parent1_index weights ∈
      (ApplyMateChoiceCallbacks round p_parent1_index p_subpop p_source_subpop
        p_mate_choice_callbacks answers).2)
    (hempty : answers.EvaluateScriptBlock k weights = .float []) :
    (ApplyMateChoiceCallbacks round p_parent1_index p_subpop p_source_subpop
        p_mate_choice_callbacks answers).1 = .returned (-1) ∧
    ∃ earlier,
      (ApplyMateChoiceCallbacks round p_parent1_index p_subpop p_source_subpop
        p_mate_choice_callbacks answers).2 =
          earlier ++ [.evaluated k p_parent1_index weights] ∧
      ∀ ev ∈ earlier, ∃ j x, ev = .evaluated j p_parent1_index x ∧ j < k := by
  unfold ApplyMateChoiceCallbacks at hevaluated ⊢
  simp only at hevaluated ⊢
  obtain ⟨added, he, _, hk⟩ := mateChoiceLoop_redraw p_parent1_index p_subpop.sex_enabled_
    p_source_subpop.parent_subpop_size_ answers k weights hempty p_mate_choice_callbacks 0
    ((if p_subpop.sex_enabled_ = true then p_source_subpop.cached_male_fitness_
      else p_source_subpop.cached_parental_fitness_).map ScriptFloat.finite) false []
  rw [he, List.nil_append] at hevaluated
  obtain ⟨hr, earlier, hadd, hearlier⟩ := hk hevaluated
  refine ⟨hr, earlier, ?_, hearlier⟩
  rw [he, List.nil_append, hadd]

/-- C18 (witness): three active callbacks; the first replaces the weights, the second
returns an empty float vector for the replaced weights, the third is not evaluated. -/
theorem empty_float_vector_returns_redraw_witness :
    (ApplyMateChoiceCallbacks Double.round 0 exSource exSource [⟨true, true⟩, ⟨true, true⟩, ⟨true, true⟩]
        exRedrawAnswers).1 = .returned (-1) ∧
    ∃ earlier,
      (ApplyMateChoiceCallbacks Double.round 0 exSource exSource [⟨true, true⟩, ⟨true, true⟩, ⟨true, true⟩]
        exRedrawAnswers).2 =
          earlier ++ [.evaluated 1 0 (some [.finite (frac 1 2), .finite (frac 3 2)])] ∧
      ∀ ev ∈ earlier, ∃ j x, ev = .evaluated j 0 x ∧ j < 1 :=
  empty_float_vector_returns_redraw Double.round 0 exSource exSource
    [⟨true, true⟩, ⟨true, true⟩, ⟨true, true⟩] exRedrawAnswers 1
    (some [.finite (frac 1 2), .finite (frac 3 2)]) (by decide) rfl

/-- C19: in a loop of any kind, when the pass takes the branch of the callbacks (there are
mateChoice() callbacks and the selfing branch is not taken) and `ApplyMateChoiceCallbacks`
returns -1 for the first parent drawn, the pass ends there: the loop goes on with the next
answers, that is with a new draw of the first parent and, the state being the same, a new
call of the callbacks for it, in the state of before but for the entry of the log, so with
the same child slot, the same counters, `count` and `number_to_self`; no call of
`CrossoverMutation` is made for the parent given up. And in every run of
`EvolveSubpopulation`, however it ends, every child generated had a second parent other
than -1. -/
theorem mate_choice_redraw_repeats_the_pass (kind : ChildKind) (subpop source_subpop : Nat)
    (sid limit gen : Int) (mcb ccb : List SLiMScriptBlock) (m : Mating) (rest : List Mating)
    (st : EvolveState) (count nts : Int) (target source : Int × Subpopulation)
    (ht : st.pop.subpops[subpop]? = some target)
    (hs : st.pop.subpops[source_subpop]? = some source)
    (hcb : mcb.length > 0)
    (hnoself : (decide (kind ≠ ChildKind.male) && decide (nts > 0)) = false)
    (hret : (ApplyMateChoiceCallbacks Double.round m.parent1 target.2 source.2 mcb m.mate_choice).1 =
      .returned (-1))
    (hlt : count < limit) :
    matingLoop kind subpop source_subpop sid limit gen mcb ccb (m :: rest) st count nts =
      matingLoop kind subpop source_subpop sid limit gen mcb ccb rest
        { st with events := st.events ++
          [.redraw (kind.child_index st target.2.child_first_male_index_) sid m.parent1] }
        count nts ∧
    ∀ (pop : Population) (id generation : Int) (mate modify : List SLiMScriptBlock)
      (num_migrants : List Nat) (matings : List Mating) (s : EvolveState),
      (pop.EvolveSubpopulation id generation mate modify num_migrants matings).reached
          (fun a => a) = some s →
        ∀ r ∈ childRecords s.events, r.parent2 ≠ -1 := by
  constructor
  · rw [matingLoop, if_pos hlt,
      onePass_redraw kind subpop source_subpop sid gen mcb ccb m st nts target source ht hs hcb
        hnoself hret]
  · intro pop id generation mate modify num_migrants matings s h
    intro r hr
    exact (evolve_parent2 pop id generation mate modify num_migrants matings s h r hr).1

/-- C19 (witness): scenario S4. One child, one mateChoice() callback that returns an empty
float vector for the first parent 0 and NULL for the second first parent 1: the pass of
parent 0 leaves the state as it was, and the run generates the child from the first parent 1
and the second parent 0 of the fitness draw. -/
theorem mate_choice_redraw_repeats_the_pass_witness :
    matingLoop .asexual 1 1 2 1 5 [⟨true, true⟩] []
        [exMating 0 1 (.float []) true, exMating 1 0 .null true]
        (startOf (exTwo 1 (frac 0 1) [])) 0 0 =
      matingLoop .asexual 1 1 2 1 5 [⟨true, true⟩] [] [exMating 1 0 .null true]
        { startOf (exTwo 1 (frac 0 1) []) with events := [.redraw 0 2 0] } 0 0 ∧
    Option.map (fun s => s.events)
        (((exTwo 1 (frac 0 1) []).EvolveSubpopulation 2 5 [⟨true, true⟩] [] [1]
          [exMating 0 1 (.float []) true, exMating 1 0 .null true]).reached (fun a => a)) =
      some [.multinomial [Double.round (frac 1 1 - frac 0 1)] 1, .redraw 0 2 0,
        .child ⟨0, 2, 1, 0, false, .kHermaphrodite, true⟩] :=
  ⟨(mate_choice_redraw_repeats_the_pass .asexual 1 1 2 1 5 [⟨true, true⟩] []
      (exMating 0 1 (.float []) true) [exMating 1 0 .null true]
      (startOf (exTwo 1 (frac 0 1) [])) 0 0
      (2, { parent_genomes_ := [autosome [exQ], autosome [], autosome [], autosome []],
            child_genomes_ := List.replicate (2 * 1) (autosome []),
            child_subpop_size_ := 1, parent_subpop_size_ := 2,
            selfing_fraction_ := frac 0 1, migrant_fractions_ := [] })
      (2, { parent_genomes_ := [autosome [exQ], autosome [], autosome [], autosome []],
            child_genomes_ := List.replicate (2 * 1) (autosome []),
            child_subpop_size_ := 1, parent_subpop_size_ := 2,
            selfing_fraction_ := frac 0 1, migrant_fractions_ := [] })
      rfl rfl (by decide) (by decide) (by decide) (by decide)).1, by decide⟩

/-- C20: without sex and with counts of `gsl_ran_multinomial` that sum to
`child_subpop_size_`, the run of `EvolveSubpopulation` without callbacks returns when nothing
stops it (`ReadyToEvolve`), and in every run that returns, with callbacks or without, the
children kept are, in the order of the log, at the places 0, 1, ...,
`child_subpop_size_ - 1` of the child bank, one for each place; their sources are the first
migrant source of the map for the first `n_1` of them, the second for the next `n_2`, and so
on, and the subpopulation itself for the last `n_native`; every child generated lies at one
of these places, and a child that was kept is followed only by children at later places.
When the run returns, the child bank of the subpopulation holds each child kept: the genomes
`2 * child_index` and `2 * child_index + 1` of the bank are the ones that `CrossoverMutation`
builds from the two genomes of the first parent and from the two genomes of the second parent
of the record, both taken from the bank of parents of the source of the record
(`BankHoldsKeptChildren` links each child to the answers of its pass). -/
theorem slots_are_filled_in_source_order (pop : Population) (id gen : Int)
    (mcb ccb : List SLiMScriptBlock) (num : List Nat) (matings : List Mating) (place : Nat)
    (subpop : Int × Subpopulation)
    (h1 : pop.SubpopulationWithID id = some place) (h2 : pop.subpops[place]? = some subpop)
    (hsex : subpop.2.sex_enabled_ = false)
    (hsum : (num.take (subpop.2.migrant_fractions_.length + 1)).sum =
      subpop.2.child_subpop_size_) :
    (ReadyToEvolve pop subpop.2 num matings →
      ∃ s, pop.EvolveSubpopulation id gen [] [] num matings = .returned s) ∧
    ∀ s, pop.EvolveSubpopulation id gen mcb ccb num matings = .returned s →
      (acceptedChildren s.events).map (fun r => r.child_index) =
        (List.range subpop.2.child_subpop_size_).map (fun (i : Nat) => (i : Int)) ∧
      (acceptedChildren s.events).map (fun r => r.source_subpop_id) =
        (((subpop.2.migrant_fractions_.map Prod.fst ++ [id]).zip
            (num.take (subpop.2.migrant_fractions_.length + 1))).map
          (fun g => List.replicate g.2 g.1)).flatten ∧
      (∀ r ∈ childRecords s.events, 0 ≤ r.child_index ∧
        r.child_index < subpop.2.child_subpop_size_) ∧
      KeptStay (childRecords s.events) ∧
      BankHoldsKeptChildren pop place gen matings s ∧
      ∃ final, s.pop.subpops[place]? = some final ∧
        ∀ r ∈ acceptedChildren s.events, ∃ m ∈ matings,
          HoldsChild pop place gen final.2.child_genomes_ r m := by
  refine ⟨fun hready => ready_returns pop id gen num matings place subpop h1 h2 hsex
    (le_of_eq hsum) hready, ?_⟩
  intro s hrun
  obtain ⟨hlen, hcount, hacc, hall, hkept⟩ := evolve_asexual pop id gen mcb ccb num matings
    place subpop s h1 h2 hsex hrun
  have hbank := evolve_bank pop id gen mcb ccb num matings place subpop h1 h2 hsex s hrun
  refine ⟨?_, ?_, ?_, hkept, hbank, bank_holds_accepted pop place gen matings s hbank⟩
  · have := congrArg (List.map (fun x : Int × Int × Bool => x.1)) hacc
    rw [List.map_map, expectedChildren_index, List.map_snd_zip _ _ (by simp [hlen]), hsum] at this
    rw [show (fun r : ChildRecord => r.child_index) =
      (fun x : Int × Int × Bool => x.1) ∘ (fun r => (r.child_index, r.source_subpop_id,
        r.selfed)) from rfl, this]
    apply List.map_congr_left
    intro i _
    simp
  · have := congrArg (List.map (fun x : Int × Int × Bool => x.2.1)) hacc
    rw [List.map_map, expectedChildren_source] at this
    exact this
  · intro r hr
    obtain ⟨b1, b2, _⟩ := hall r hr
    rw [hcount, hsum] at b2
    exact ⟨b1, b2⟩

/-- C20 (witness): scenario S2. The subpopulation 2 of 10 children with the migrant
fraction 0.3 from 1 and the counts 3 and 7, no callbacks, every pass drawing the parents 0
and 1 and copying the first genome of a parent; the parents of 1 have the mutations `m` and
`n`, the parent 0 of 2 has `q`. The run returns, the children kept are at the places 0 to 9,
the first 3 from the source 1 and the other 7 from 2 itself, and the final bank holds them:
3 children with the genomes of the parents of 1, then 7 with those of the parents of 2. -/
theorem slots_are_filled_in_source_order_witness :
    ∃ s final, (exTwo 10 (frac 0 1) [(1, Double.round (frac 3 10))]).EvolveSubpopulation 2 5
        [] [] [3, 7] (List.replicate 10 (exMating 0 1 .null true)) = .returned s ∧
      (acceptedChildren s.events).map (fun r => r.child_index) = [0, 1, 2, 3, 4, 5, 6, 7, 8, 9] ∧
      (acceptedChildren s.events).map (fun r => r.source_subpop_id) =
        List.replicate 3 1 ++ List.replicate 7 2 ∧
      BankHoldsKeptChildren (exTwo 10 (frac 0 1) [(1, Double.round (frac 3 10))]) 1 5
        (List.replicate 10 (exMating 0 1 .null true)) s ∧
      s.pop.subpops[1]? = some final ∧
      final.2.child_genomes_ = (List.replicate 3 [autosome [exM], autosome [exN]]).flatten ++
        (List.replicate 7 [autosome [exQ], autosome []]).flatten := by
  have hthm := slots_are_filled_in_source_order
    (exTwo 10 (frac 0 1) [(1, Double.round (frac 3 10))]) 2 5
    [] [] [3, 7] (List.replicate 10 (exMating 0 1 .null true)) 1
    (2, { parent_genomes_ := [autosome [exQ], autosome [], autosome [], autosome []],
          child_genomes_ := List.replicate (2 * 10) (autosome []),
          child_subpop_size_ := 10, parent_subpop_size_ := 2,
          selfing_fraction_ := frac 0 1,
          migrant_fractions_ := [(1, Double.round (frac 3 10))] })
    rfl rfl rfl (by decide)
  have hdraws : DrawsInRange (exChromosome 0 0) :=
    ⟨by decide, fun n b hb => by rw [List.eq_of_mem_replicate hb]; decide⟩
  obtain ⟨s, hs⟩ := hthm.1 ⟨by decide, fun f hf => by
      rw [List.mem_singleton.mp hf]; exact ⟨0, rfl⟩, by decide, by decide, by decide, 2,
    by decide, fun m hm => by
      rw [List.eq_of_mem_replicate hm]
      exact ⟨by decide, by decide, by decide, by decide, hdraws, hdraws⟩⟩
  obtain ⟨hindex, hsource, _, _, hbank, _⟩ := hthm.2 s hs
  have hb : (match (exTwo 10 (frac 0 1) [(1, Double.round (frac 3 10))]).EvolveSubpopulation
        2 5 [] [] [3, 7] (List.replicate 10 (exMating 0 1 .null true)) with
      | .returned s => (s.pop.subpops[1]?).map (fun e => e.2.child_genomes_)
      | _ => none) =
      some ((List.replicate 3 [autosome [exM], autosome [exN]]).flatten ++
        (List.replicate 7 [autosome [exQ], autosome []]).flatten) := by decide
  rw [hs] at hb
  obtain ⟨final, hfinal, hgenomes⟩ := Option.map_eq_some'.mp hb
  exact ⟨s, final, hs, hindex.trans (by decide), hsource.trans (by decide), hbank, hfinal,
    hgenomes⟩

/-! ## The properties of the specification: what the calls write -/

/-- C21: in every state that a run of `EvolveSubpopulation` reaches, however the run ends,
the population has the same subpopulations under the same ids, each with the parent bank,
the parent size, the parent sex ratio and the parent first male index it had; a
subpopulation other than the one with the id is as it was altogether, and the one with the
id is as it was but for its child bank and its flag `child_generation_valid`; of the
population, the reference counts, `total_genome_count_` and the substitution log are as
they were, the mutation registry and the flag being what is left to write. When the run
returns, the flag of the population and that of the subpopulation with the id are both
true. -/
theorem evolve_leaves_parents_unchanged (pop : Population) (id gen : Int)
    (mcb ccb : List SLiMScriptBlock) (num_migrants : List Nat) (matings : List Mating)
    (s : EvolveState)
    (hreached : (pop.EvolveSubpopulation id gen mcb ccb num_migrants matings).reached
      (fun a => a) = some s) :
    s.pop.subpops.length = pop.subpops.length ∧
    (∀ i before, pop.subpops[i]? = some before →
      ∃ after, s.pop.subpops[i]? = some after ∧ after.1 = before.1 ∧
        after.2.parent_genomes_ = before.2.parent_genomes_ ∧
        after.2.parent_subpop_size_ = before.2.parent_subpop_size_ ∧
        after.2.parent_sex_ratio_ = before.2.parent_sex_ratio_ ∧
        after.2.parent_first_male_index_ = before.2.parent_first_male_index_ ∧
        outsideChildBank after = outsideChildBank before ∧
        (pop.SubpopulationWithID id ≠ some i → after = before)) ∧
    s.pop.reference_count_ = pop.reference_count_ ∧
    s.pop.total_genome_count_ = pop.total_genome_count_ ∧
    s.pop.substitutions_ = pop.substitutions_ ∧
    (pop.EvolveSubpopulation id gen mcb ccb num_migrants matings = .returned s →
      s.pop.child_generation_valid = true ∧
      ∃ place final, pop.SubpopulationWithID id = some place ∧
        s.pop.subpops[place]? = some final ∧ final.2.child_generation_valid = true) := by
  cases h1 : pop.SubpopulationWithID id with
  | none =>
    have hrun : pop.EvolveSubpopulation id gen mcb ccb num_migrants matings =
        .terminated .noSubpopulation ⟨pop, 0, 0, 0, []⟩ := by
      unfold Population.EvolveSubpopulation
      simp only [h1]
    rw [hrun] at hreached ⊢
    simp only [Run.reached, Option.some.injEq] at hreached
    rw [← hreached]
    refine ⟨rfl, fun i before hb => ⟨before, hb, rfl, rfl, rfl, rfl, rfl, rfl, fun _ => rfl⟩,
      rfl, rfl, rfl, fun h => by cases h⟩
  | some place =>
    obtain ⟨⟨hlen, hother, hplace, hrc, htot, hsub⟩, hret⟩ := evolve_writes pop id gen mcb ccb
      num_migrants matings place h1 s hreached
    refine ⟨hlen, fun i before hb => ?_, hrc, htot, hsub, fun hr => ?_⟩
    · by_cases hi : i = place
      · subst hi
        rw [hb] at hplace
        cases ha : s.pop.subpops[i]? with
        | none => rw [ha] at hplace; cases hplace
        | some after =>
          rw [ha] at hplace
          simp only [Option.map_some', Option.some.injEq] at hplace
          obtain ⟨f1, f2, f3, f4, f5, _⟩ := outsideChildBank_fields after before hplace
          exact ⟨after, rfl, f1, f2, f3, f4, f5, hplace, fun hne => absurd rfl hne⟩
      · refine ⟨before, by rw [hother i hi]; exact hb, rfl, rfl, rfl, rfl, rfl, rfl,
          fun _ => rfl⟩
    · obtain ⟨hflag, final, hf, hv⟩ := hret hr
      exact ⟨hflag, place, final, rfl, hf, hv⟩

/-- C21 (witness): scenario S2. The run for the subpopulation 2 returns; the parent bank of
the source 1 and that of the subpopulation 2 are as they were, and both flags are true. -/
theorem evolve_leaves_parents_unchanged_witness :
    ∃ s, (exTwo 10 (frac 0 1) [(1, frac 3 10)]).EvolveSubpopulation 2 5 [] [] [3, 7]
        (List.replicate 10 (exMating 0 1 .null true)) = .returned s ∧
      s.pop.subpops.map (fun e => e.2.parent_genomes_) =
        (exTwo 10 (frac 0 1) [(1, frac 3 10)]).subpops.map (fun e => e.2.parent_genomes_) ∧
      s.pop.child_generation_valid = true := by
  have hr : ((exTwo 10 (frac 0 1) [(1, frac 3 10)]).EvolveSubpopulation 2 5 [] [] [3, 7]
      (List.replicate 10 (exMating 0 1 .null true))).isReturned = true := by decide
  cases h : (exTwo 10 (frac 0 1) [(1, frac 3 10)]).EvolveSubpopulation 2 5 [] [] [3, 7]
      (List.replicate 10 (exMating 0 1 .null true)) with
  | returned s =>
    obtain ⟨hlen, hsame, _, _, _, hflags⟩ := evolve_leaves_parents_unchanged
      (exTwo 10 (frac 0 1) [(1, frac 3 10)]) 2 5 [] [] [3, 7]
      (List.replicate 10 (exMating 0 1 .null true)) s (by rw [h]; rfl)
    refine ⟨s, rfl, ?_, (hflags h).1⟩
    apply List.ext_getElem?
    intro i
    rw [List.getElem?_map, List.getElem?_map]
    cases hb : (exTwo 10 (frac 0 1) [(1, frac 3 10)]).subpops[i]? with
    | none =>
      have : s.pop.subpops[i]? = none := by
        rw [List.getElem?_eq_none_iff] at hb ⊢
        omega
      rw [this]
    | some before =>
      obtain ⟨after, ha, _, hp, _⟩ := hsame i before hb
      rw [ha]
      simp only [Option.map_some', hp]
  | terminated e s => rw [h] at hr; cases hr
  | undefined => rw [h] at hr; cases hr
  | pending s => rw [h] at hr; cases hr

/-! ## The properties of the specification: the callbacks -/

/-- C22: in a call of `ApplyMateChoiceCallbacks`, when a callback was evaluated (so an active
one) and the interpreter returned for it a value that is neither NULL nor a float vector, or
a float vector whose length is neither 0 nor `parent_subpop_size_` of the source, the call
terminates with the error of the invalid return value, and that evaluation is the last entry
of the log. Conversely, when the call terminates with this error, the last entry of the log
is an evaluation whose value is not NULL and, if a float vector, has a length that is
neither 0 nor that of the source: a NULL and a float vector of that length do not raise
it. -/
theorem invalid_mate_choice_return_terminates (round : Double → Double) (p_parent1_index : Int)
    (p_subpop p_source_subpop : Subpopulation) (p_mate_choice_callbacks : List SLiMScriptBlock)
    (answers : MateChoiceAnswers) :
    (∀ k weights, MateChoiceEvent.evaluated k p_parent1_index weights ∈
        (ApplyMateChoiceCallbacks round p_parent1_index p_subpop p_source_subpop
          p_mate_choice_callbacks answers).2 →
      (answers.EvaluateScriptBlock k weights ≠ .null →
        (∀ values, answers.EvaluateScriptBlock k weights ≠ .float values) →
        (ApplyMateChoiceCallbacks round p_parent1_index p_subpop p_source_subpop
            p_mate_choice_callbacks answers).1 = .terminated .mateChoiceReturnType ∧
          (ApplyMateChoiceCallbacks round p_parent1_index p_subpop p_source_subpop
            p_mate_choice_callbacks answers).2.getLast? =
              some (.evaluated k p_parent1_index weights)) ∧
      (∀ values, answers.EvaluateScriptBlock k weights = .float values →
        values.length ≠ 0 → values.length ≠ p_source_subpop.parent_subpop_size_ →
        (ApplyMateChoiceCallbacks round p_parent1_index p_subpop p_source_subpop
            p_mate_choice_callbacks answers).1 = .terminated .mateChoiceReturnLength ∧
          (ApplyMateChoiceCallbacks round p_parent1_index p_subpop p_source_subpop
            p_mate_choice_callbacks answers).2.getLast? =
              some (.evaluated k p_parent1_index weights))) ∧
    ((ApplyMateChoiceCallbacks round p_parent1_index p_subpop p_source_subpop
          p_mate_choice_callbacks answers).1 = .terminated .mateChoiceReturnType ∨
        (ApplyMateChoiceCallbacks round p_parent1_index p_subpop p_source_subpop
          p_mate_choice_callbacks answers).1 = .terminated .mateChoiceReturnLength →
      ∃ k weights,
        (ApplyMateChoiceCallbacks round p_parent1_index p_subpop p_source_subpop
          p_mate_choice_callbacks answers).2.getLast? =
            some (.evaluated k p_parent1_index weights) ∧
        answers.EvaluateScriptBlock k weights ≠ .null ∧
        ∀ values, answers.EvaluateScriptBlock k weights = .float values →
          values.length ≠ 0 ∧ values.length ≠ p_source_subpop.parent_subpop_size_) := by
  refine ⟨fun k weights hmem => ⟨fun hnn hnf => ?_, fun values hv h0 hn => ?_⟩,
    applyMateChoice_protocol p_parent1_index p_subpop p_source_subpop p_mate_choice_callbacks
      answers⟩
  · have hnr : replacesWeights p_source_subpop.parent_subpop_size_
        (answers.EvaluateScriptBlock k weights) = none := by
      cases hv : answers.EvaluateScriptBlock k weights with
      | float values => exact absurd hv (hnf values)
      | null => rfl
      | void => rfl
      | logical x => rfl
      | integer x => rfl
      | object x => rfl
    obtain ⟨hlast, hres⟩ := applyMateChoice_bad p_parent1_index p_subpop p_source_subpop
      p_mate_choice_callbacks answers k weights hmem hnn hnr
    rcases hres with ⟨h, _⟩ | ⟨values, h, _⟩ | ⟨_, h⟩
    · exact absurd h (hnf _)
    · exact absurd h (hnf _)
    · exact ⟨h, hlast⟩
  · have hnn : answers.EvaluateScriptBlock k weights ≠ .null := by rw [hv]; simp
    have hnr : replacesWeights p_source_subpop.parent_subpop_size_
        (answers.EvaluateScriptBlock k weights) = none := by
      rw [hv]; simp [replacesWeights, hn]
    obtain ⟨hlast, hres⟩ := applyMateChoice_bad p_parent1_index p_subpop p_source_subpop
      p_mate_choice_callbacks answers k weights hmem hnn hnr
    rcases hres with ⟨h, _⟩ | ⟨values', _, _, _, h⟩ | ⟨h, _⟩
    · rw [hv] at h
      simp only [ScriptValue.float.injEq] at h
      rw [h] at h0
      exact absurd rfl h0
    · exact ⟨h, hlast⟩
    · exact absurd hv (h values)

/-- C22 (witness): two active callbacks for a source of 2 parents; the first returns NULL, the
second a float vector of length 3: the call terminates, the second evaluation being the last
entry of the log. -/
theorem invalid_mate_choice_return_terminates_witness :
    (ApplyMateChoiceCallbacks Double.round 0 exSource exSource [⟨true, true⟩, ⟨true, true⟩]
        (exChainAnswers .null (.float [.finite (frac 1 1), .finite (frac 1 1),
          .finite (frac 1 1)]) (frac 1 2))).1 = .terminated .mateChoiceReturnLength ∧
    (ApplyMateChoiceCallbacks Double.round 0 exSource exSource [⟨true, true⟩, ⟨true, true⟩]
        (exChainAnswers .null (.float [.finite (frac 1 1), .finite (frac 1 1),
          .finite (frac 1 1)]) (frac 1 2))).2.getLast? =
      some (.evaluated 1 0 (some [.finite (frac 1 1), .finite (frac 1 1)])) :=
  ((invalid_mate_choice_return_terminates Double.round 0 exSource exSource [⟨true, true⟩, ⟨true, true⟩]
    (exChainAnswers .null (.float [.finite (frac 1 1), .finite (frac 1 1),
      .finite (frac 1 1)]) (frac 1 2))).1 1 (some [.finite (frac 1 1), .finite (frac 1 1)])
    (by decide)).2 [.finite (frac 1 1), .finite (frac 1 1), .finite (frac 1 1)] rfl
    (by decide) (by decide)

/-- C23: in a call of `ApplyMateChoiceCallbacks` whose chain of callbacks has run to its end
(every evaluation returned NULL or new weights), when the chain has replaced the weights,
the last vector returned being `weights`, the call terminates with an error exactly when
some weight is not finite, some weight is negative, or the weights sum to 0 or less; and
when no callback has replaced the weights, the call returns the standard draw, whatever the
standard weights are. -/
theorem replaced_weights_are_validated (round : Double → Double) (p_parent1_index : Int)
    (p_subpop p_source_subpop : Subpopulation) (p_mate_choice_callbacks : List SLiMScriptBlock)
    (answers : MateChoiceAnswers)
    (hcompleted : ChainCompleted answers p_source_subpop.parent_subpop_size_
      (ApplyMateChoiceCallbacks round p_parent1_index p_subpop p_source_subpop
        p_mate_choice_callbacks answers).2) :
    (∀ weights, (replacements answers p_source_subpop.parent_subpop_size_
        (ApplyMateChoiceCallbacks round p_parent1_index p_subpop p_source_subpop
          p_mate_choice_callbacks answers).2).getLast? = some weights →
      ((∃ e, (ApplyMateChoiceCallbacks round p_parent1_index p_subpop p_source_subpop
          p_mate_choice_callbacks answers).1 = .terminated e) ↔ InvalidWeights round weights)) ∧
    (replacements answers p_source_subpop.parent_subpop_size_
        (ApplyMateChoiceCallbacks round p_parent1_index p_subpop p_source_subpop
          p_mate_choice_callbacks answers).2 = [] →
      (ApplyMateChoiceCallbacks round p_parent1_index p_subpop p_source_subpop
          p_mate_choice_callbacks answers).1 =
        .returned (if p_subpop.sex_enabled_ = true then answers.DrawMaleParentUsingFitness
          else answers.DrawParentUsingFitness)) := by
  obtain ⟨hmod, hstd⟩ := applyMateChoice_draw p_parent1_index p_subpop p_source_subpop
    p_mate_choice_callbacks answers hcompleted
  refine ⟨fun weights hw => ?_, fun hnil => (hstd hnil).1⟩
  rw [(hmod weights hw).1]
  exact drawFromWeights_terminated weights _ answers

/-- C23 (witness): two active callbacks for a source of 2 parents; the first returns the
weights 1/2 and 3/2, the second the weights 0 and -1, which are the ones validated: the call
terminates. -/
theorem replaced_weights_are_validated_witness :
    ∃ e, (ApplyMateChoiceCallbacks Double.round 0 exSource exSource [⟨true, true⟩, ⟨true, true⟩]
      (exChainAnswers (.float [.finite (frac 1 2), .finite (frac 3 2)])
        (.float [.finite (frac 0 1), .finite (frac (-1) 1)]) (frac 1 2))).1 = .terminated e :=
  ((replaced_weights_are_validated Double.round 0 exSource exSource [⟨true, true⟩, ⟨true, true⟩]
    (exChainAnswers (.float [.finite (frac 1 2), .finite (frac 3 2)])
      (.float [.finite (frac 0 1), .finite (frac (-1) 1)]) (frac 1 2)) (by decide)).1
    [.finite (frac 0 1), .finite (frac (-1) 1)] (by decide)).mpr (by decide)

/-- C25: in a call of `ApplyMateChoiceCallbacks`, (1) every evaluation of the log is that of
an active callback of the list, and the `weights` shown to it, when its block names them,
are the float vector returned by the last evaluation before it that returned a vector of the
source size, or the standard weights of the source (those of the males when sex is enabled,
of the parents otherwise) if there was none: NULL leaves the weights as they are; (2) when
the chain runs to its end, the callbacks evaluated are the active ones, in order, the others
being skipped; the final draw is the draw from the last vector returned, if there is one;
and if there is none, the result is the standard fitness draw of the source, that of the
males when sex is enabled and of the parents otherwise. -/
theorem final_weights_are_the_last_returned (round : Double → Double) (p_parent1_index : Int)
    (p_subpop p_source_subpop : Subpopulation) (p_mate_choice_callbacks : List SLiMScriptBlock)
    (answers : MateChoiceAnswers) :
    (∀ i k weights,
      (ApplyMateChoiceCallbacks round p_parent1_index p_subpop p_source_subpop
        p_mate_choice_callbacks answers).2[i]? =
          some (.evaluated k p_parent1_index weights) →
      ∃ callback, p_mate_choice_callbacks[k]? = some callback ∧ callback.active_ = true ∧
        weights = (if callback.contains_weights_ = true then
          some (weightsAfter answers p_source_subpop.parent_subpop_size_
            (standardWeights p_subpop p_source_subpop)
            ((ApplyMateChoiceCallbacks round p_parent1_index p_subpop p_source_subpop
              p_mate_choice_callbacks answers).2.take i))
          else none)) ∧
    (ChainCompleted answers p_source_subpop.parent_subpop_size_
        (ApplyMateChoiceCallbacks round p_parent1_index p_subpop p_source_subpop
          p_mate_choice_callbacks answers).2 →
      (ApplyMateChoiceCallbacks round p_parent1_index p_subpop p_source_subpop
          p_mate_choice_callbacks answers).2.filterMap MateChoiceEvent.callback =
        activeCallbacks p_mate_choice_callbacks 0 ∧
      (∀ weights, (replacements answers p_source_subpop.parent_subpop_size_
          (ApplyMateChoiceCallbacks round p_parent1_index p_subpop p_source_subpop
            p_mate_choice_callbacks answers).2).getLast? = some weights →
        (ApplyMateChoiceCallbacks round p_parent1_index p_subpop p_source_subpop
            p_mate_choice_callbacks answers).1 =
          (drawFromWeights round weights p_source_subpop.parent_subpop_size_ answers).1) ∧
      (replacements answers p_source_subpop.parent_subpop_size_
          (ApplyMateChoiceCallbacks round p_parent1_index p_subpop p_source_subpop
            p_mate_choice_callbacks answers).2 = [] →
        (ApplyMateChoiceCallbacks round p_parent1_index p_subpop p_source_subpop
            p_mate_choice_callbacks answers).1 =
          .returned (if p_subpop.sex_enabled_ = true then answers.DrawMaleParentUsingFitness
            else answers.DrawParentUsingFitness) ∧
        (ApplyMateChoiceCallbacks round p_parent1_index p_subpop p_source_subpop
            p_mate_choice_callbacks answers).2.getLast? =
          some (if p_subpop.sex_enabled_ = true then MateChoiceEvent.drawMaleParent
            else MateChoiceEvent.drawParent))) := by
  constructor
  · intro i k weights hi
    obtain ⟨evals, tail, hlog, htail, hshow, _⟩ := applyMateChoice_shape p_parent1_index
      p_subpop p_source_subpop p_mate_choice_callbacks answers
    rw [hlog] at hi ⊢
    by_cases hlt : i < evals.length
    · rw [List.getElem?_append_left hlt] at hi
      obtain ⟨j, cb, hcb, hact, hev⟩ := hshow i _ hi
      simp only [MateChoiceEvent.evaluated.injEq, true_and] at hev
      obtain ⟨hk, hw⟩ := hev
      rw [List.take_append_of_le_length (le_of_lt hlt)]
      exact ⟨cb, by rw [hk]; exact hcb, hact, hw⟩
    · exfalso
      rw [List.getElem?_append_right (by omega)] at hi
      have := (htail _ (List.getElem?_mem hi)).1
      cases this
  · intro hc
    obtain ⟨hidx, _, _⟩ := applyMateChoice_completed p_parent1_index p_subpop p_source_subpop
      p_mate_choice_callbacks answers hc
    obtain ⟨hmod, hstd⟩ := applyMateChoice_draw p_parent1_index p_subpop p_source_subpop
      p_mate_choice_callbacks answers hc
    refine ⟨hidx, fun weights hw => (hmod weights hw).1, fun hnil => ?_⟩
    obtain ⟨hres, evals, hlog, _⟩ := hstd hnil
    refine ⟨hres, ?_⟩
    rw [hlog]; simp

/-- C25 (witness): for a source of 2 parents with the standard weights 1 and 1, three
callbacks of which the second is not active; the first returns the weights 1/2 and 3/2 and
the third, which is shown them, NULL. -/
theorem final_weights_are_the_last_returned_witness :
    ∃ callback, [(⟨true, true⟩ : SLiMScriptBlock), ⟨false, true⟩, ⟨true, true⟩][2]? =
        some callback ∧ callback.active_ = true ∧
      some [ScriptFloat.finite (frac 1 2), .finite (frac 3 2)] =
        (if callback.contains_weights_ = true then
          some (weightsAfter
            (exChainAnswers (.float [.finite (frac 1 2), .finite (frac 3 2)]) .null
              (frac 1 2)) exSource.parent_subpop_size_ (standardWeights exSource exSource)
            ((ApplyMateChoiceCallbacks Double.round 0 exSource exSource
              [⟨true, true⟩, ⟨false, true⟩, ⟨true, true⟩]
              (exChainAnswers (.float [.finite (frac 1 2), .finite (frac 3 2)]) .null
                (frac 1 2))).2.take 1))
          else none) :=
  (final_weights_are_the_last_returned Double.round 0 exSource exSource
    [⟨true, true⟩, ⟨false, true⟩, ⟨true, true⟩]
    (exChainAnswers (.float [.finite (frac 1 2), .finite (frac 3 2)]) .null (frac 1 2))).1
    1 2 (some [.finite (frac 1 2), .finite (frac 3 2)]) (by decide)

/-- C26: in a call of `ApplyModifyChildCallbacks`, (1) the call returns `false` exactly when
some callback evaluated returned the logical `false`; (2) that callback is then the last one
evaluated, every callback evaluated before it having returned `true`; (3) when every active
callback returns `true`, none being active included, the call returns `true` after the
evaluation of the active callbacks in order; (4) when a callback evaluated returned
something other than a logical vector of length 1, the call terminates with an error; and
only active callbacks of the list are evaluated. -/
theorem modify_child_false_ends_the_chain (p_modify_child_callbacks : List SLiMScriptBlock)
    (EvaluateScriptBlock : Nat → ScriptValue) :
    ((ApplyModifyChildCallbacks p_modify_child_callbacks EvaluateScriptBlock).1 =
        .returned false ↔
      ∃ k ∈ (ApplyModifyChildCallbacks p_modify_child_callbacks EvaluateScriptBlock).2,
        EvaluateScriptBlock k = .logical [false]) ∧
    ((ApplyModifyChildCallbacks p_modify_child_callbacks EvaluateScriptBlock).1 =
        .returned false →
      ∃ earlier last,
        (ApplyModifyChildCallbacks p_modify_child_callbacks EvaluateScriptBlock).2 =
          earlier ++ [last] ∧
        EvaluateScriptBlock last = .logical [false] ∧
        ∀ k ∈ earlier, EvaluateScriptBlock k = .logical [true]) ∧
    ((∀ k callback, p_modify_child_callbacks[k]? = some callback → callback.active_ = true →
        EvaluateScriptBlock k = .logical [true]) →
      (ApplyModifyChildCallbacks p_modify_child_callbacks EvaluateScriptBlock).1 =
        .returned true ∧
      (ApplyModifyChildCallbacks p_modify_child_callbacks EvaluateScriptBlock).2 =
        activeCallbacks p_modify_child_callbacks 0) ∧
    (∀ k ∈ (ApplyModifyChildCallbacks p_modify_child_callbacks EvaluateScriptBlock).2,
      (∀ b, EvaluateScriptBlock k ≠ .logical [b]) →
      (ApplyModifyChildCallbacks p_modify_child_callbacks EvaluateScriptBlock).1 =
        .terminated .modifyChildReturn) ∧
    (∀ k ∈ (ApplyModifyChildCallbacks p_modify_child_callbacks EvaluateScriptBlock).2,
      ∃ callback, p_modify_child_callbacks[k]? = some callback ∧
        callback.active_ = true) := by
  obtain ⟨evals, hlog, hidx, hcase⟩ := modifyChildLoop_shape EvaluateScriptBlock
    p_modify_child_callbacks 0 []
  have hdef : ApplyModifyChildCallbacks p_modify_child_callbacks EvaluateScriptBlock =
      modifyChildLoop EvaluateScriptBlock p_modify_child_callbacks 0 [] := rfl
  rw [hdef, hlog, List.nil_append]
  have hact : ∀ k ∈ evals, ∃ callback, p_modify_child_callbacks[k]? = some callback ∧
      callback.active_ = true := by
    intro k hk
    obtain ⟨_, cb, hcb, ha⟩ := hidx k hk
    exact ⟨cb, by simpa using hcb, ha⟩
  rcases hcase with ⟨hall, hev, hres⟩ | ⟨pre, last, he, hpre, hres⟩
  · refine ⟨⟨fun h => ?_, fun ⟨k, hk, hf⟩ => ?_⟩, fun h => ?_, fun _ => ⟨hres, hev⟩,
      fun k hk hb => ?_, hact⟩
    · rw [hres] at h; cases h
    · rw [hall k hk] at hf; cases hf
    · rw [hres] at h; cases h
    · exact absurd (hall k hk) (hb true)
  · have hlast : ∀ k ∈ evals, k ∈ pre ∨ k = last := by
      intro k hk
      rw [he] at hk
      rcases List.mem_append.mp hk with h | h
      · exact Or.inl h
      · exact Or.inr (List.mem_singleton.mp h)
    rcases hres with ⟨hf, hres⟩ | ⟨hb, hres⟩
    · refine ⟨⟨fun _ => ⟨last, by rw [he]; simp, hf⟩, fun _ => hres⟩,
        fun _ => ⟨pre, last, he, hf, hpre⟩, fun hall => ?_, fun k hk hb => ?_, hact⟩
      · obtain ⟨cb, hcb, ha⟩ := hact last (by rw [he]; simp)
        have := hall last cb hcb ha
        rw [hf] at this; cases this
      · rcases hlast k hk with h | h
        · exact absurd (hpre k h) (hb true)
        · rw [h] at hb; exact absurd hf (hb false)
    · refine ⟨⟨fun h => ?_, fun ⟨k, hk, hf⟩ => ?_⟩, fun h => ?_, fun hall => ?_,
        fun _ _ _ => hres, hact⟩
      · rw [hres] at h; cases h
      · rcases hlast k hk with h | h
        · rw [hpre k h] at hf; cases hf
        · rw [h] at hf; exact absurd hf (hb false)
      · rw [hres] at h; cases h
      · obtain ⟨cb, hcb, ha⟩ := hact last (by rw [he]; simp)
        exact absurd (hall last cb hcb ha) (hb true)

/-- C26 (witness): three callbacks of which the first is not active; the second returns
`true` and the third `false`: the call returns `false` after the evaluation of both. -/
theorem modify_child_false_ends_the_chain_witness :
    (ApplyModifyChildCallbacks [⟨false, true⟩, ⟨true, true⟩, ⟨true, true⟩]
      (fun k => .logical [decide (k = 1)])).1 = .returned false :=
  (modify_child_false_ends_the_chain [⟨false, true⟩, ⟨true, true⟩, ⟨true, true⟩]
    (fun k => .logical [decide (k = 1)])).1.mpr ⟨2, by decide, by decide⟩

/-! ## The properties of the specification: the calls that configure the population -/

/-- C27 (counterexample): in the population `exValid`, whose child generation is valid,
both subpopulations exist, and `SetSize(1, 0)` terminates at line 162 without removing the
subpopulation 1, as `SetSize(2, 5)` does without setting the child size of the
subpopulation 2. -/
theorem set_size_erases_or_resizes_counterexample :
    exValid.Names 1 ∧ exValid.Names 2 ∧
    exValid.SetSize exSim 1 0 = .terminated .setSizeChildGenerationValid exValid ∧
    exValid.SetSize exSim 2 5 = .terminated .setSizeChildGenerationValid exValid :=
  ⟨by decide, by decide, rfl, rfl⟩

/-- C27 (amended): when `child_generation_valid` is false and `id` names a subpopulation,
`SetSize(id, 0)` returns a population in which `id` names no subpopulation, whose
subpopulations are the others, in their order and as they were but for their map
`migrant_fractions_`, which has lost its entries for the source `id` and kept the others,
and whose other fields are as they were; and `SetSize(id, n)` with `n > 0` returns a
population in which the subpopulation `id` has the child size `n` and a child bank made anew
to fit, its parent size, its parent bank and its other fields being as they were, as are the
other subpopulations and the rest of the population. -/
theorem set_size_erases_or_resizes (pop : Population) (sim : SLiMSim) (id : Int) (n : Nat)
    (hvalid : pop.child_generation_valid = false) (hid : pop.Names id) :
    (n = 0 → ∃ after, pop.SetSize sim id n = .returned after ∧ ¬ after.Names id ∧
      after.subpops = (entriesBeside id pop.subpops).map (withoutSource id) ∧
      (∀ e ∈ after.subpops, entriesFor id e.2.migrant_fractions_ = []) ∧
      after = { pop with subpops := after.subpops }) ∧
    (n ≠ 0 → ∃ place target resized after, pop.SubpopulationWithID id = some place ∧
      pop.subpops[place]? = some target ∧ target.1 = id ∧
      pop.SetSize sim id n = .returned after ∧
      after = { pop with subpops := pop.subpops.set place (target.1, resized) } ∧
      resized.child_subpop_size_ = n ∧
      resized.child_genomes_ = (sim.GenerateToFit n target.2.child_sex_ratio_).1 ∧
      resized.parent_subpop_size_ = target.2.parent_subpop_size_ ∧
      resized.parent_genomes_ = target.2.parent_genomes_ ∧
      { resized with
        child_subpop_size_ := target.2.child_subpop_size_
        child_genomes_ := target.2.child_genomes_
        child_first_male_index_ := target.2.child_first_male_index_ } = target.2 ∧
      ∀ i, i ≠ place → after.subpops[i]? = pop.subpops[i]?) := by
  rcases setSize_cases pop sim id n with ⟨hbad, _⟩ | ⟨_, _, hn, hr⟩ |
    ⟨_, _, hn, place, target, hp, ht, hk, hr⟩
  · rcases hbad with h | h
    · rw [hvalid] at h
      cases h
    · exact absurd hid h
  · refine ⟨fun _ => ⟨_, hr, ?_, rfl, ?_, rfl⟩, fun h => absurd hn h⟩
    · rintro ⟨e, he, hke⟩
      simp only [List.mem_map] at he
      obtain ⟨x, hx, hxe⟩ := he
      have := mapErase_for id pop.subpops x hx
      rw [← hxe] at hke
      exact this hke
    · intro e he
      simp only [List.mem_map] at he
      obtain ⟨x, hx, hxe⟩ := he
      rw [← hxe]
      unfold entriesFor
      rw [List.filter_eq_nil_iff]
      intro y hy
      simpa using mapErase_for id x.2.migrant_fractions_ y hy
  · refine ⟨fun h => absurd h hn, fun _ => ⟨place, target, _, _, hp, ht, hk, hr, rfl, rfl,
      rfl, rfl, rfl, rfl, fun i hi => ?_⟩⟩
    simp only
    rw [List.getElem?_set_ne (Ne.symm hi)]

/-- C27 (witness): in the population of `exTwo` whose subpopulation 2 takes the fraction 1/4
of its children from subpopulation 1, `SetSize(1, 0)` removes the subpopulation 1 and the
migrant fraction. -/
theorem set_size_erases_or_resizes_witness :
    ∃ after, (exTwo 3 (Double.ofInt 0) [(1, frac 1 4)]).SetSize exSim 1 0 = .returned after ∧
      ¬ after.Names 1 ∧
      after.subpops = (entriesBeside 1 (exTwo 3 (Double.ofInt 0) [(1, frac 1 4)]).subpops).map
        (withoutSource 1) ∧
      (∀ e ∈ after.subpops, entriesFor 1 e.2.migrant_fractions_ = []) ∧
      after = { exTwo 3 (Double.ofInt 0) [(1, frac 1 4)] with subpops := after.subpops } :=
  (set_size_erases_or_resizes (exTwo 3 (Double.ofInt 0) [(1, frac 1 4)]) exSim 1 0 rfl
    (by decide)).1 rfl

/-- C28: (1) when `child_generation_valid` is true or `id` names no subpopulation, `SetSize`
and `SetSexRatio` terminate with an error and the population is as it was; (2) a call of
`EvolveSubpopulation` that returns leaves `child_generation_valid` true; (3) from a
population in which it is true, after any sequence of calls of `AddSubpopulation`,
`SetSize`, `SetSexRatio`, `SetSelfing`, `SetMigration` and `EvolveSubpopulation`, which are
the calls other than `SwapGenerations`, it is still true, and the ids of the
subpopulations with their child sizes and child sex ratios are those of before, in their
order, with those of the subpopulations added since among them. -/
theorem set_size_and_sex_ratio_wait_for_the_swap (pop : Population) (sim : SLiMSim) :
    (∀ id n r, pop.child_generation_valid = true ∨ ¬ pop.Names id →
      (∃ e, pop.SetSize sim id n = .terminated e pop) ∧
      (∃ e, pop.SetSexRatio sim id r = .terminated e pop)) ∧
    (∀ id gen mcb ccb num_migrants matings s,
      pop.EvolveSubpopulation id gen mcb ccb num_migrants matings = .returned s →
      s.pop.child_generation_valid = true) ∧
    (pop.child_generation_valid = true → ∀ calls after, pop.calls sim calls = some after →
      after.child_generation_valid = true ∧
      (pop.subpops.map childSetting).Sublist (after.subpops.map childSetting)) := by
  refine ⟨fun id n r h => ⟨?_, ?_⟩, fun id gen mcb ccb num_migrants matings s hs => ?_,
    fun hflag calls after h => calls_window sim calls pop after hflag h⟩
  · rcases setSize_cases pop sim id n with ⟨_, he⟩ | ⟨hv, hn, _⟩ | ⟨hv, hn, _⟩
    · exact he
    · rcases h with h | h
      · rw [hv] at h
        cases h
      · exact absurd hn h
    · rcases h with h | h
      · rw [hv] at h
        cases h
      · exact absurd hn h
  · rcases setSexRatio_cases pop sim id r with ⟨_, he⟩ | ⟨hv, hn, _⟩
    · exact he
    · rcases h with h | h
      · rw [hv] at h
        cases h
      · exact absurd hn h
  · cases hp : pop.SubpopulationWithID id with
    | none =>
      unfold Population.EvolveSubpopulation at hs
      rw [hp] at hs
      cases hs
    | some place =>
      exact ((evolve_writes pop id gen mcb ccb num_migrants matings place hp s
        (by rw [hs]; rfl)).2 hs).1

/-- C28 (witness): in the population `exValid`, whose child generation is valid,
`SetSize(2, 5)` and `SetSexRatio(2, 1/2)` terminate; and after the calls
`SetSelfing(2, 1/2)`, `AddSubpopulation(3, 4)`, `SetSize(2, 5)` and `SetMigration(2, 3, 1/4)`
the child generation is still valid and the child sizes are those of before. -/
theorem set_size_and_sex_ratio_wait_for_the_swap_witness :
    ((∃ e, exValid.SetSize exSim 2 5 = .terminated e exValid) ∧
      (∃ e, exValid.SetSexRatio exSim 2 (frac 1 2) = .terminated e exValid)) ∧
    ∃ after, exValid.calls exSim [.setSelfing 2 (frac 1 2),
        .addSubpopulation 3 4 (Double.ofInt 0), .setSize 2 5,
        .setMigration 2 3 (frac 1 4)] = some after ∧
      after.child_generation_valid = true ∧
      (exValid.subpops.map childSetting).Sublist (after.subpops.map childSetting) := by
  refine ⟨(set_size_and_sex_ratio_wait_for_the_swap exValid exSim).1 2 5 (frac 1 2)
    (Or.inl rfl), ?_⟩
  have hsome : (exValid.calls exSim [.setSelfing 2 (frac 1 2),
      .addSubpopulation 3 4 (Double.ofInt 0), .setSize 2 5,
      .setMigration 2 3 (frac 1 4)]).isSome = true := by decide
  cases h : exValid.calls exSim [.setSelfing 2 (frac 1 2),
      .addSubpopulation 3 4 (Double.ofInt 0), .setSize 2 5,
      .setMigration 2 3 (frac 1 4)] with
  | none => rw [h] at hsome; cases hsome
  | some after =>
    exact ⟨after, rfl,
      (set_size_and_sex_ratio_wait_for_the_swap exValid exSim).2.2 rfl _ after h⟩

/-- C29: `SetMigration(id, src, f)` terminates with an error exactly when `src` names no
subpopulation, `f` is below 0 or above 1, or `id` names no subpopulation, and then the
population is as it was; otherwise it returns, and in the population returned the map
`migrant_fractions_` of the subpopulation `id` has the one entry `(src, f)` for `src` when
`f > 0` and no entry for `src` when it is not, whatever it held for `src` before, its
entries for the other sources are as they were, and so are the other fields of that
subpopulation, every other subpopulation and the rest of the population. -/
theorem set_migration_replaces_the_entry (pop : Population) (id src : Int) (f : Double) :
    ((∃ e s, pop.SetMigration id src f = .terminated e s) ↔
      (¬ pop.Names src ∨ f < Double.ofInt 0 ∨ Double.ofInt 1 < f ∨ ¬ pop.Names id)) ∧
    (∀ e s, pop.SetMigration id src f = .terminated e s → s = pop) ∧
    (¬ (¬ pop.Names src ∨ f < Double.ofInt 0 ∨ Double.ofInt 1 < f ∨ ¬ pop.Names id) →
      ∃ place target fractions after, pop.SubpopulationWithID id = some place ∧
        pop.subpops[place]? = some target ∧ target.1 = id ∧
        pop.SetMigration id src f = .returned after ∧
        after = { pop with
          subpops := pop.subpops.set place
            (target.1, { target.2 with migrant_fractions_ := fractions }) } ∧
        entriesFor src fractions = (if Double.ofInt 0 < f then [(src, f)] else []) ∧
        entriesBeside src fractions = entriesBeside src target.2.migrant_fractions_ ∧
        after.subpops.length = pop.subpops.length ∧
        ∀ i, i ≠ place → after.subpops[i]? = pop.subpops[i]?) := by
  rcases setMigration_cases pop id src f with ⟨hbad, e, he⟩ | ⟨hgood, place, target, hp, ht,
    hk, hr⟩
  · refine ⟨⟨fun _ => hbad, fun _ => ⟨e, pop, he⟩⟩, fun e2 s hs => ?_, fun h => absurd hbad h⟩
    rw [he] at hs
    cases hs
    rfl
  · refine ⟨⟨fun ⟨e, s, hs⟩ => ?_, fun h => absurd h hgood⟩, fun e s hs => ?_, fun _ =>
      ⟨place, target, setFraction src f target.2.migrant_fractions_, _, hp, ht, hk, hr, rfl,
        setFraction_for src f _, setFraction_beside src f _, by simp, fun i hi => ?_⟩⟩
    · rw [hr] at hs
      cases hs
    · rw [hr] at hs
      cases hs
    · simp only
      rw [List.getElem?_set_ne (Ne.symm hi)]

/-- C29 (witness): in the population of `exTwo` whose subpopulation 2 has the migrant
fractions 1/4 from subpopulation 1 and 1/8 from subpopulation 2, `SetMigration(2, 1, 1/2)`
returns, and in the population returned the entry for the source 1 is 1/2. -/
theorem set_migration_replaces_the_entry_witness :
    ∃ place target fractions after,
      (exTwo 3 (Double.ofInt 0) [(1, frac 1 4), (2, frac 1 8)]).SubpopulationWithID 2 =
        some place ∧
      (exTwo 3 (Double.ofInt 0) [(1, frac 1 4), (2, frac 1 8)]).subpops[place]? =
        some target ∧ target.1 = 2 ∧
      (exTwo 3 (Double.ofInt 0) [(1, frac 1 4), (2, frac 1 8)]).SetMigration 2 1 (frac 1 2) =
        .returned after ∧
      after = { exTwo 3 (Double.ofInt 0) [(1, frac 1 4), (2, frac 1 8)] with
        subpops := (exTwo 3 (Double.ofInt 0) [(1, frac 1 4), (2, frac 1 8)]).subpops.set place
          (target.1, { target.2 with migrant_fractions_ := fractions }) } ∧
      entriesFor 1 fractions =
        (if Double.ofInt 0 < frac 1 2 then [((1 : Int), frac 1 2)] else []) ∧
      entriesBeside 1 fractions = entriesBeside 1 target.2.migrant_fractions_ ∧
      after.subpops.length =
        (exTwo 3 (Double.ofInt 0) [(1, frac 1 4), (2, frac 1 8)]).subpops.length ∧
      ∀ i, i ≠ place → after.subpops[i]? =
        (exTwo 3 (Double.ofInt 0) [(1, frac 1 4), (2, frac 1 8)]).subpops[i]? :=
  (set_migration_replaces_the_entry (exTwo 3 (Double.ofInt 0) [(1, frac 1 4), (2, frac 1 8)])
    2 1 (frac 1 2)).2.2 (by decide)

/-- C30 (counterexample): from the population without a subpopulation, the calls
`exCalls`, which add the subpopulations 1, 2 and 3 and call `SetMigration(2, 1, 3/4)` and
`SetMigration(2, 3, 1/2)`, all return, and the migrant fractions of the subpopulation 2 are
then 3/4 and 1/2, whose sum, 5/4, is above 1. -/
theorem migrant_fractions_stay_in_range_counterexample :
    (∀ c ∈ exCalls, c.configures = true) ∧
    ∃ pop, exEmpty.calls exSim exCalls = some pop ∧
      ∃ e ∈ pop.subpops, e.1 = 2 ∧
        e.2.migrant_fractions_ = [(1, frac 3 4), (3, frac 1 2)] ∧
        ¬ migrationRateSum e.2.migrant_fractions_ ≤ Double.ofInt 1 := by
  refine ⟨by decide, ?_⟩
  have hshape : (exEmpty.calls exSim exCalls).map (fun pop =>
      pop.subpops.map (fun e => (e.1, e.2.migrant_fractions_))) =
      some [(1, []), (2, [(1, frac 3 4), (3, frac 1 2)]), (3, [])] := by decide
  cases h : exEmpty.calls exSim exCalls with
  | none => rw [h] at hshape; cases hshape
  | some pop =>
    rw [h] at hshape
    simp only [Option.map_some', Option.some.injEq] at hshape
    have h1 : (pop.subpops.map (fun e => (e.1, e.2.migrant_fractions_)))[1]? =
        some (2, [(1, frac 3 4), (3, frac 1 2)]) := by rw [hshape]; rfl
    rw [List.getElem?_map] at h1
    cases h2 : pop.subpops[1]? with
    | none => rw [h2] at h1; cases h1
    | some e =>
      rw [h2] at h1
      simp only [Option.map_some', Option.some.injEq, Prod.mk.injEq] at h1
      refine ⟨pop, rfl, e, List.getElem?_mem h2, h1.1, h1.2, ?_⟩
      rw [h1.2]
      decide

/-- C30 (amended): in every state reached from a population without a subpopulation by
calls of `AddSubpopulation`, `SetMigration` and `SetSize`, each subpopulation's
`migrant_fractions_` holds only fractions in (0, 1]; these calls do not bound the sum of the
fractions, which `EvolveSubpopulation` checks instead: when the sum that it computes for the
subpopulation (`migrationRateSum`, the fractions added up in map order, each addition
rounded) is not at most 1, it terminates before it writes anything, with the error of line
546 if it has not terminated with that of line 523. -/
theorem migrant_fractions_stay_in_range (sim : SLiMSim) (start : Population)
    (calls : List PopulationCall) (pop : Population) (hstart : start.subpops = [])
    (hcalls : ∀ c ∈ calls, c.configures = true)
    (hreached : start.calls sim calls = some pop) :
    (∀ e ∈ pop.subpops, FractionsInRange e.2.migrant_fractions_) ∧
    (∀ id place subpop gen mcb ccb num_migrants matings,
      pop.SubpopulationWithID id = some place → pop.subpops[place]? = some subpop →
      ¬ migrationRateSum subpop.2.migrant_fractions_ ≤ Double.ofInt 1 →
      pop.EvolveSubpopulation id gen mcb ccb num_migrants matings =
          .terminated .tooManyMigrants (startOf pop) ∨
        pop.EvolveSubpopulation id gen mcb ccb num_migrants matings =
          .terminated .unisexualChildPopulation (startOf pop)) := by
  refine ⟨calls_fractions sim calls start pop hcalls (fun e he => ?_) hreached,
    fun id place subpop gen mcb ccb num_migrants matings hp hs hsum => ?_⟩
  · rw [hstart] at he
    cases he
  · obtain ⟨h1, h2, _⟩ := evolve_start pop id gen mcb ccb num_migrants matings place subpop hp hs
    by_cases hsex : subpop.2.sex_enabled_ = true ∧
        (totalMaleChildren subpop.2 ≤ 0 ∨ totalFemaleChildren subpop.2 ≤ 0)
    · exact Or.inr (h1 hsex)
    · exact Or.inl (h2 hsex hsum)

/-- C30 (witness): after the calls `exCalls` from the population without a subpopulation,
every migrant fraction is in (0, 1]. -/
theorem migrant_fractions_stay_in_range_witness :
    ∃ pop, exEmpty.calls exSim exCalls = some pop ∧
      ∀ e ∈ pop.subpops, FractionsInRange e.2.migrant_fractions_ := by
  have hsome : (exEmpty.calls exSim exCalls).isSome = true := by decide
  cases h : exEmpty.calls exSim exCalls with
  | none => rw [h] at hsome; cases hsome
  | some pop =>
    exact ⟨pop, rfl,
      (migrant_fractions_stay_in_range exSim exEmpty exCalls pop rfl (by decide) h).1⟩

/-! ## The properties of the specification: the other calls that configure the population -/

/-- C31: `SetSelfing(id, f)` terminates with an error exactly when `f` is below 0 or above 1
or `id` names no subpopulation, and then the population is as it was; otherwise it returns,
and the population returned is the one before but for the `selfing_fraction_` of the
subpopulation `id`, which is `f`. -/
theorem set_selfing_stores_the_fraction (pop : Population) (id : Int) (f : Double) :
    ((∃ e s, pop.SetSelfing id f = .terminated e s) ↔
      (f < Double.ofInt 0 ∨ Double.ofInt 1 < f ∨ ¬ pop.Names id)) ∧
    (∀ e s, pop.SetSelfing id f = .terminated e s → s = pop) ∧
    (¬ (f < Double.ofInt 0 ∨ Double.ofInt 1 < f ∨ ¬ pop.Names id) →
      ∃ place target after, pop.SubpopulationWithID id = some place ∧
        pop.subpops[place]? = some target ∧ target.1 = id ∧
        pop.SetSelfing id f = .returned after ∧
        after = { pop with
          subpops := pop.subpops.set place
            (target.1, { target.2 with selfing_fraction_ := f }) } ∧
        after.subpops.length = pop.subpops.length ∧
        ∀ i, i ≠ place → after.subpops[i]? = pop.subpops[i]?) := by
  rcases setSelfing_cases pop id f with ⟨hbad, e, he⟩ | ⟨hgood, place, target, hp, ht, hk, hr⟩
  · refine ⟨⟨fun _ => hbad, fun _ => ⟨e, pop, he⟩⟩, fun e2 s hs => ?_, fun h => absurd hbad h⟩
    rw [he] at hs
    cases hs
    rfl
  · refine ⟨⟨fun ⟨e, s, hs⟩ => ?_, fun h => absurd h hgood⟩, fun e s hs => ?_, fun _ =>
      ⟨place, target, _, hp, ht, hk, hr, rfl, by simp, fun i hi => ?_⟩⟩
    · rw [hr] at hs
      cases hs
    · rw [hr] at hs
      cases hs
    · simp only
      rw [List.getElem?_set_ne (Ne.symm hi)]

/-- C31 (witness): in the population of `exTwo`, `SetSelfing(2, 1/2)` returns and stores
1/2 for the subpopulation 2. -/
theorem set_selfing_stores_the_fraction_witness :
    ∃ place target after,
      (exTwo 3 (Double.ofInt 0) []).SubpopulationWithID 2 = some place ∧
      (exTwo 3 (Double.ofInt 0) []).subpops[place]? = some target ∧ target.1 = 2 ∧
      (exTwo 3 (Double.ofInt 0) []).SetSelfing 2 (frac 1 2) = .returned after ∧
      after = { exTwo 3 (Double.ofInt 0) [] with
        subpops := (exTwo 3 (Double.ofInt 0) []).subpops.set place
          (target.1, { target.2 with selfing_fraction_ := frac 1 2 }) } ∧
      after.subpops.length = (exTwo 3 (Double.ofInt 0) []).subpops.length ∧
      ∀ i, i ≠ place → after.subpops[i]? = (exTwo 3 (Double.ofInt 0) []).subpops[i]? :=
  (set_selfing_stores_the_fraction (exTwo 3 (Double.ofInt 0) []) 2 (frac 1 2)).2.2
    (by decide)

/-- C32 (counterexample): in a simulation with sex, from the population without a
subpopulation, `AddSubpopulation(1, 10, 1/2)` and then `SetSelfing(1, 1/2)` both return,
and the subpopulation 1, for which sex is enabled, has the selfing fraction 1/2. -/
theorem set_selfing_does_not_look_at_sex_counterexample :
    ∃ pop, exEmpty.calls exSimSexed
        [.addSubpopulation 1 10 (frac 1 2), .setSelfing 1 (frac 1 2)] = some pop ∧
      ∃ e ∈ pop.subpops, e.1 = 1 ∧ e.2.sex_enabled_ = true ∧
        e.2.selfing_fraction_ = frac 1 2 ∧ e.2.selfing_fraction_ ≠ Double.ofInt 0 := by
  have hshape : (exEmpty.calls exSimSexed
      [.addSubpopulation 1 10 (frac 1 2), .setSelfing 1 (frac 1 2)]).map (fun pop =>
      pop.subpops.map (fun e => (e.1, e.2.sex_enabled_, e.2.selfing_fraction_))) =
      some [(1, true, frac 1 2)] := by decide
  cases h : exEmpty.calls exSimSexed
      [.addSubpopulation 1 10 (frac 1 2), .setSelfing 1 (frac 1 2)] with
  | none => rw [h] at hshape; cases hshape
  | some pop =>
    rw [h] at hshape
    simp only [Option.map_some', Option.some.injEq] at hshape
    have h1 : (pop.subpops.map (fun e => (e.1, e.2.sex_enabled_, e.2.selfing_fraction_)))[0]? =
        some (1, true, frac 1 2) := by rw [hshape]; rfl
    rw [List.getElem?_map] at h1
    cases h2 : pop.subpops[0]? with
    | none => rw [h2] at h1; cases h1
    | some e =>
      rw [h2] at h1
      simp only [Option.map_some', Option.some.injEq, Prod.mk.injEq] at h1
      refine ⟨pop, rfl, e, List.getElem?_mem h2, h1.1, h1.2.1, h1.2.2, ?_⟩
      rw [h1.2.2]
      decide

/-- C32 (amended): `SetSelfing` does not look at the sex configuration: for a subpopulation
for which sex is enabled and a fraction `f` with `0 ≤ f ≤ 1` it returns, and the population
returned has `f` as the `selfing_fraction_` of that subpopulation, sex still enabled for it,
and every other subpopulation as before. -/
theorem set_selfing_does_not_look_at_sex (pop : Population) (id : Int) (f : Double)
    (place : Nat) (target : Int × Subpopulation)
    (hplace : pop.SubpopulationWithID id = some place)
    (htarget : pop.subpops[place]? = some target) (hsex : target.2.sex_enabled_ = true)
    (h0 : Double.ofInt 0 ≤ f) (h1 : f ≤ Double.ofInt 1) :
    ∃ after entry, pop.SetSelfing id f = .returned after ∧
      after.subpops[place]? = some entry ∧ entry.1 = target.1 ∧
      entry.2.sex_enabled_ = true ∧ entry.2.selfing_fraction_ = f ∧
      ∀ i, i ≠ place → after.subpops[i]? = pop.subpops[i]? := by
  have hf : ¬ (f < Double.ofInt 0 ∨ Double.ofInt 1 < f) := by
    have a0 : (Double.ofInt 0).num * f.den ≤ f.num * (Double.ofInt 0).den := h0
    have a1 : f.num * (Double.ofInt 1).den ≤ (Double.ofInt 1).num * f.den := h1
    rintro (h | h)
    · have : f.num * (Double.ofInt 0).den < (Double.ofInt 0).num * f.den := h
      omega
    · have : (Double.ofInt 1).num * f.den < f.num * (Double.ofInt 1).den := h
      omega
  have hlt : place < pop.subpops.length := getElem?_lt_length _ _ _ htarget
  have hrun : pop.SetSelfing id f = .returned { pop with
      subpops := pop.subpops.set place
        (target.1, { target.2 with selfing_fraction_ := f }) } := by
    unfold Population.SetSelfing
    rw [if_neg hf, hplace]
    simp only
    rw [htarget]
  have hget : (pop.subpops.set place
      (target.1, { target.2 with selfing_fraction_ := f }))[place]? =
        some (target.1, { target.2 with selfing_fraction_ := f }) := by
    simp [hlt]
  exact ⟨_, _, hrun, hget, rfl, hsex, rfl, fun i hi => List.getElem?_set_ne (Ne.symm hi)⟩

/-- C32 (witness): in the population of `exSexed`, where sex is enabled for the subpopulation
2, `SetSelfing(2, 1/4)` returns and stores 1/4. -/
theorem set_selfing_does_not_look_at_sex_witness :
    ∃ after entry, (exSexed (frac 1 2) []).SetSelfing 2 (frac 1 4) = .returned after ∧
      after.subpops[1]? = some entry ∧ entry.1 = 2 ∧
      entry.2.sex_enabled_ = true ∧ entry.2.selfing_fraction_ = frac 1 4 ∧
      ∀ i, i ≠ 1 → after.subpops[i]? = (exSexed (frac 1 2) []).subpops[i]? :=
  set_selfing_does_not_look_at_sex (exSexed (frac 1 2) []) 2 (frac 1 4) 1
    (2, exSexedSubpop (frac 1 2) []) rfl rfl rfl (by decide) (by decide)

/-- C33: `AddSubpopulation(id, size)` terminates with an error exactly when `id` names a
subpopulation already or the size is below 1, and then the population is as it was;
otherwise it returns a population that has one subpopulation more, the one entry for `id`,
its other subpopulations being those of before, unchanged and in their order, and its other
fields those of before; the flag `child_generation_valid` of the new subpopulation is that
of the population. -/
theorem add_subpopulation_adds_one (pop : Population) (sim : SLiMSim) (id : Int) (n : Nat)
    (r : Double) :
    ((∃ e s, pop.AddSubpopulation sim id n r = .terminated e s) ↔ (pop.Names id ∨ n < 1)) ∧
    (∀ e s, pop.AddSubpopulation sim id n r = .terminated e s → s = pop) ∧
    (¬ (pop.Names id ∨ n < 1) →
      ∃ new_subpop after, pop.AddSubpopulation sim id n r = .returned after ∧
        after = { pop with subpops := after.subpops } ∧
        after.subpops.length = pop.subpops.length + 1 ∧
        entriesFor id after.subpops = [(id, new_subpop)] ∧
        entriesBeside id after.subpops = pop.subpops ∧
        new_subpop.child_generation_valid = pop.child_generation_valid) := by
  rcases addSubpopulation_cases pop sim id n r with ⟨hbad, e, he⟩ | ⟨hgood, hr⟩
  · refine ⟨⟨fun _ => hbad, fun _ => ⟨e, pop, he⟩⟩, fun e2 s hs => ?_, fun h => absurd hbad h⟩
    rw [he] at hs
    cases hs
    rfl
  · have habsent : ∀ e ∈ pop.subpops, e.1 ≠ id := fun e he hid =>
      hgood (Or.inl ⟨e, he, hid⟩)
    refine ⟨⟨fun ⟨e, s, hs⟩ => ?_, fun h => absurd h hgood⟩, fun e s hs => ?_, fun _ =>
      ⟨pop.newSubpopulation sim n r, _, hr, rfl,
        length_mapInsert (id, pop.newSubpopulation sim n r) pop.subpops habsent,
        mapInsert_for (id, pop.newSubpopulation sim n r) pop.subpops habsent, ?_,
        (newSubpopulation_fields pop sim n r).2.2.1⟩⟩
    · rw [hr] at hs
      cases hs
    · rw [hr] at hs
      cases hs
    · simp only
      rw [mapInsert_beside (id, pop.newSubpopulation sim n r) pop.subpops]
      exact entriesBeside_absent id pop.subpops habsent

/-- C33 (witness): `AddSubpopulation(3, 4)` in the population `exValid`, whose child
generation is valid, adds the subpopulation 3 with a valid child generation. -/
theorem add_subpopulation_adds_one_witness :
    ∃ new_subpop after,
      exValid.AddSubpopulation exSim 3 4 (Double.ofInt 0) = .returned after ∧
      after = { exValid with subpops := after.subpops } ∧
      after.subpops.length = exValid.subpops.length + 1 ∧
      entriesFor 3 after.subpops = [(3, new_subpop)] ∧
      entriesBeside 3 after.subpops = exValid.subpops ∧
      new_subpop.child_generation_valid = exValid.child_generation_valid :=
  (add_subpopulation_adds_one exValid exSim 3 4 (Double.ofInt 0)).2.2 (by decide)

/-- C34: (1) `AddSubpopulation` from the source `src` terminates with an error, the
population being as it was, when `id` names a subpopulation already, the size is below 1 or
`src` names no subpopulation. (2) Otherwise, when the parent bank made for the new
subpopulation has two genomes for each of its `n` individuals and every draw returns an
individual of the source, the call returns; the population returned has the one new entry
`id` and all the subpopulations of before, the source among them, unchanged; and for every
parent `i` of the new subpopulation there is one individual `m` of the source, returned by
the draw of a female for `i` before `parent_first_male_index_` and by the draw of a male
otherwise when sex is enabled, and by the draw of a parent when it is not, such that the
genomes `2 * i` and `2 * i + 1` of the new parent bank hold the handles of the genomes
`2 * m` and `2 * m + 1` of the source. -/
theorem add_subpopulation_copies_drawn_parents (pop : Population) (sim : SLiMSim)
    (id src : Int) (n : Nat) (r : Double) (draws : ParentDraws) :
    (pop.Names id ∨ n < 1 ∨ ¬ pop.Names src →
      ∃ e, pop.AddSubpopulationFromID sim id src n r draws = .terminated e pop) ∧
    (∀ place source, pop.SubpopulationWithID src = some place →
      pop.subpops[place]? = some source → ¬ (pop.Names id ∨ n < 1) →
      (pop.newSubpopulation sim n r).parent_genomes_.length = 2 * n →
      (∀ i, i < n →
        0 ≤ drawnMigrant sim.SexEnabled draws
          (pop.newSubpopulation sim n r).parent_first_male_index_ i ∧
        2 * (drawnMigrant sim.SexEnabled draws
          (pop.newSubpopulation sim n r).parent_first_male_index_ i).toNat + 1 <
            source.2.parent_genomes_.length) →
      ∃ new_subpop after,
        pop.AddSubpopulationFromID sim id src n r draws = .returned after ∧
        after = { pop with subpops := after.subpops } ∧
        entriesFor id after.subpops = [(id, new_subpop)] ∧
        entriesBeside id after.subpops = pop.subpops ∧
        source ∈ after.subpops ∧
        new_subpop.parent_subpop_size_ = n ∧
        new_subpop.parent_genomes_.length = 2 * n ∧
        new_subpop.child_generation_valid = pop.child_generation_valid ∧
        ∀ i, i < n → ∃ (m : Nat) (first second source_first source_second : Genome),
          (m : Int) = drawnMigrant sim.SexEnabled draws
            new_subpop.parent_first_male_index_ i ∧
          source.2.parent_genomes_[2 * m]? = some source_first ∧
          source.2.parent_genomes_[2 * m + 1]? = some source_second ∧
          new_subpop.parent_genomes_[2 * i]? = some first ∧
          new_subpop.parent_genomes_[2 * i + 1]? = some second ∧
          first.mutations_ = source_first.mutations_ ∧
          second.mutations_ = source_second.mutations_) := by
  refine ⟨addSubpopulationFromID_terminated pop sim id src n r draws,
    fun place source hsrc hsource hgood hbank hdraws => ?_⟩
  have hsize : (pop.newSubpopulation sim n r).parent_subpop_size_ = n :=
    (newSubpopulation_fields pop sim n r).2.2.2.1
  obtain ⟨pg, hloop, hlen, _, hin⟩ := drawParentsLoop_spec sim.SexEnabled draws source.2
    (pop.newSubpopulation sim n r).parent_first_male_index_ n 0
    (pop.newSubpopulation sim n r).parent_genomes_ (by omega)
    (fun i _ hi => hdraws i (by omega))
  have hret := addSubpopulationFromID_returned pop sim id src n r draws place source pg hsrc
    hsource hgood (by rw [hsize]; exact hloop)
  have habsent : ∀ e ∈ pop.subpops, e.1 ≠ id := fun e he hid =>
    hgood (Or.inl ⟨e, he, hid⟩)
  refine ⟨{ pop.newSubpopulation sim n r with parent_genomes_ := pg }, _, hret, rfl,
    mapInsert_for (id, _) pop.subpops habsent, ?_, ?_, hsize, by rw [← hbank]; exact hlen,
    (newSubpopulation_fields pop sim n r).2.2.1, fun i hi => ?_⟩
  · simp only
    rw [mapInsert_beside (id, _) pop.subpops]
    exact entriesBeside_absent id pop.subpops habsent
  · exact (mapInsert_sublist _ pop.subpops).subset (List.getElem?_mem hsource)
  · obtain ⟨a, b, sa, sb, _, _, e3, e4, e5, e6⟩ := hin i (by omega) (by omega)
    obtain ⟨hd0, _⟩ := hdraws i hi
    exact ⟨(drawnMigrant sim.SexEnabled draws
        (pop.newSubpopulation sim n r).parent_first_male_index_ i).toNat,
      a.copy_from_genome sa, b.copy_from_genome sb, sa, sb, Int.toNat_of_nonneg hd0, e3, e4,
      e5, e6, rfl, rfl⟩

/-- C34 (witness): in the population of `exTwo`, `AddSubpopulation(3, 1, 1)` from the
source 1 with every draw returning the individual 1 returns, and the two parent genomes of
the new subpopulation hold the handles of the genomes 2 and 3 of the source. -/
theorem add_subpopulation_copies_drawn_parents_witness :
    ∃ source, (exTwo 3 (Double.ofInt 0) []).subpops[0]? = some source ∧
    ∃ new_subpop after,
      (exTwo 3 (Double.ofInt 0) []).AddSubpopulationFromID exSim 3 1 1 (Double.ofInt 0)
        (exDraws 1) = .returned after ∧
      after = { exTwo 3 (Double.ofInt 0) [] with subpops := after.subpops } ∧
      entriesFor 3 after.subpops = [(3, new_subpop)] ∧
      entriesBeside 3 after.subpops = (exTwo 3 (Double.ofInt 0) []).subpops ∧
      source ∈ after.subpops ∧
      new_subpop.parent_subpop_size_ = 1 ∧
      new_subpop.parent_genomes_.length = 2 * 1 ∧
      new_subpop.child_generation_valid =
        (exTwo 3 (Double.ofInt 0) []).child_generation_valid ∧
      ∀ i, i < 1 → ∃ (m : Nat) (first second source_first source_second : Genome),
        (m : Int) = drawnMigrant exSim.SexEnabled (exDraws 1)
          new_subpop.parent_first_male_index_ i ∧
        source.2.parent_genomes_[2 * m]? = some source_first ∧
        source.2.parent_genomes_[2 * m + 1]? = some source_second ∧
        new_subpop.parent_genomes_[2 * i]? = some first ∧
        new_subpop.parent_genomes_[2 * i + 1]? = some second ∧
        first.mutations_ = source_first.mutations_ ∧
        second.mutations_ = source_second.mutations_ :=
  ⟨_, rfl, (add_subpopulation_copies_drawn_parents (exTwo 3 (Double.ofInt 0) []) exSim 3 1 1
    (Double.ofInt 0) (exDraws 1)).2 0 _ rfl rfl (by decide) (by decide)
    (fun i hi => by
      have : i = 0 := by omega
      subst this
      decide)⟩

/-! ## The properties of the specification: the fitness callbacks of `SwapGenerations` -/

/-- C35: for a population whose subpopulations hold `2 * child_subpop_size_` child genomes,
`SwapGenerations` returns, and with `purged` the population after the tally and the removal
of the fixed mutations: `UpdateFitness` is called once for each subpopulation, in map
order; the callbacks handed to the call for a subpopulation are those of the list that
`ScriptBlocksMatching` returns for the generation plus 1 whose `subpopulation_id_` is -1 or
the id of the subpopulation, in the order of that list; at each call the flag
`child_generation_valid` of the population is false and the subpopulation has its banks
swapped, its parent bank being the child bank of `purged`; and the population returned has
the flag false and the subpopulations that the calls return. -/
theorem fitness_callbacks_are_filtered_after_the_swap (pop : Population) (Generation : Int)
    (ScriptBlocksMatching : Int → List FitnessCallback)
    (UpdateFitness : Subpopulation → List FitnessCallback → Subpopulation)
    (hsize : ChildBanksSized pop) :
    ∃ purged result log,
      pop.tallyAndRemoveFixed Generation = some purged ∧
      pop.SwapGenerations Generation ScriptBlocksMatching UpdateFitness =
        some (result, log) ∧
      log.map (fun u => u.subpop_id) = purged.subpops.map Prod.fst ∧
      (∀ u ∈ log, u.subpop_fitness_callbacks =
        (ScriptBlocksMatching (Generation + 1)).filter
          (FitnessCallback.appliesTo u.subpop_id)) ∧
      (∀ u ∈ log, u.child_generation_valid = false) ∧
      log.map (fun u => (u.subpop_id, u.subpop)) =
        purged.subpops.map (fun subpop_pair =>
          (subpop_pair.1, subpop_pair.2.SwapChildAndParentGenomes)) ∧
      (∀ u ∈ log, ∃ before ∈ purged.subpops, before.1 = u.subpop_id ∧
        u.subpop.parent_genomes_ = before.2.child_genomes_ ∧
        u.subpop.child_genomes_ = before.2.parent_genomes_ ∧
        u.subpop.child_generation_valid = false) ∧
      result.child_generation_valid = false ∧
      result.subpops = log.map (fun u =>
        (u.subpop_id, UpdateFitness u.subpop u.subpop_fitness_callbacks)) := by
  obtain ⟨purged, _, hp, _⟩ := tallyAndRemoveFixed_returns pop Generation hsize
  obtain ⟨h1, h2⟩ := updateFitnessLoop_spec UpdateFitness
    (ScriptBlocksMatching (Generation + 1)) false
    (purged.subpops.map (fun subpop_pair =>
      (subpop_pair.1, subpop_pair.2.SwapChildAndParentGenomes)))
  refine ⟨purged, _, _, hp, by unfold Population.SwapGenerations; rw [hp], ?_, ?_, ?_, ?_, ?_,
    rfl, ?_⟩
  · simp only
    rw [h1]
    simp [List.map_map, Function.comp_def]
  · intro u hu
    simp only at hu
    rw [h1] at hu
    simp only [List.mem_map] at hu
    obtain ⟨x, _, hx⟩ := hu
    rw [← hx]
    rfl
  · intro u hu
    simp only at hu
    rw [h1] at hu
    simp only [List.mem_map] at hu
    obtain ⟨x, _, hx⟩ := hu
    rw [← hx]
  · simp only
    rw [h1]
    simp [List.map_map, Function.comp_def]
  · intro u hu
    simp only at hu
    rw [h1] at hu
    simp only [List.mem_map] at hu
    obtain ⟨x, ⟨y, hy, hyx⟩, hx⟩ := hu
    rw [← hx, ← hyx]
    exact ⟨y, hy, rfl, rfl, rfl, rfl⟩
  · simp only
    rw [h2, h1]
    simp [List.map_map, Function.comp_def, FitnessCallback.appliesTo]

/-- C35 (witness): scenario S1 at the generation 5, with the fitness() callbacks of
`exFitnessCallbacks` and an `UpdateFitness` that leaves the subpopulation as it is:
`SwapGenerations` returns, and the call of `UpdateFitness` for the subpopulation 1 is handed
those of the callbacks of the generation 6 that apply to it. -/
theorem fitness_callbacks_are_filtered_after_the_swap_witness :
    ∃ purged result log,
      (exFixation (autosome [exS])).tallyAndRemoveFixed 5 = some purged ∧
      (exFixation (autosome [exS])).SwapGenerations 5 exFitnessCallbacks
        (fun subpop _ => subpop) = some (result, log) ∧
      log.map (fun u => u.subpop_id) = purged.subpops.map Prod.fst ∧
      (∀ u ∈ log, u.subpop_fitness_callbacks =
        (exFitnessCallbacks (5 + 1)).filter (FitnessCallback.appliesTo u.subpop_id)) ∧
      (∀ u ∈ log, u.child_generation_valid = false) ∧
      log.map (fun u => (u.subpop_id, u.subpop)) =
        purged.subpops.map (fun subpop_pair =>
          (subpop_pair.1, subpop_pair.2.SwapChildAndParentGenomes)) ∧
      (∀ u ∈ log, ∃ before ∈ purged.subpops, before.1 = u.subpop_id ∧
        u.subpop.parent_genomes_ = before.2.child_genomes_ ∧
        u.subpop.child_genomes_ = before.2.parent_genomes_ ∧
        u.subpop.child_generation_valid = false) ∧
      result.child_generation_valid = false ∧
      result.subpops = log.map (fun u =>
        (u.subpop_id, (fun subpop _ => subpop) u.subpop u.subpop_fitness_callbacks)) :=
  fitness_callbacks_are_filtered_after_the_swap (exFixation (autosome [exS])) 5
    exFitnessCallbacks (fun subpop _ => subpop) (by decide)

/-! ## The properties of the specification: the children of each sex -/

/-- C36 (failing input): the subpopulation 2 of `exUnbalanced` has 2 children and the sex
ratio 1/2, so `total_male_children` and `total_female_children` are 1 and
`child_first_male_index_` is 1. When `gsl_ran_multinomial` gives 1 migrant and 1 native,
each group has `lround(1 * 1/2) = 1` male and no female: the child of the migrant group goes
to the place 1 and that of the native group to the place `1 + 1 = 2`, whose genomes 4 and 5
are outside a child bank of 4 genomes, and the call is undefined. With a child bank of 6
genomes the call returns, having generated two males, at the places 1 and 2, and no
female. -/
theorem male_children_overrun_the_child_bank :
    ((exUnbalanced 4).subpops[1]?).map (fun e =>
        (totalMaleChildren e.2, totalFemaleChildren e.2, e.2.child_first_male_index_,
          e.2.child_subpop_size_, e.2.child_genomes_.length)) = some (1, 1, 1, 2, 4) ∧
    ((exUnbalanced 4).EvolveSubpopulation 2 5 [] [] [1, 1]
      [exMating 0 1 .null true, exMating 0 1 .null true]).isUndefined = true ∧
    ((exUnbalanced 6).EvolveSubpopulation 2 5 [] [] [1, 1]
      [exMating 0 1 .null true, exMating 0 1 .null true]).isReturned = true ∧
    (((exUnbalanced 6).EvolveSubpopulation 2 5 [] [] [1, 1]
      [exMating 0 1 .null true, exMating 0 1 .null true]).reached (fun a => a)).map
        (fun s => (childRecords s.events).map (fun r =>
          (r.child_index, r.source_subpop_id, r.sex))) =
      some [(1, 1, IndividualSex.kMale), (2, 2, IndividualSex.kMale)] := by
  refine ⟨by decide, by decide, by decide, by decide⟩

/-! ## The properties of the specification: the two paths of `CrossoverMutation` -/

/-- C37: for position-sorted parental strands that hold no repeated handle, a chromosome
that ends before `INT_MAX` and breakpoints that are not beyond it: (1) when no new mutation
is drawn and breakpoints are, the call returns and the handles of its child are those that
the merge path (`mergePath`) writes for the same strands, the same breakpoints and no new
mutation; (2) the same holds when no breakpoint is drawn either, the breakpoint list being
empty and no handle lying beyond the end of the chromosome; (3) `mergePath` is what the call
runs when new mutations are drawn. -/
theorem plain_copy_agrees_with_the_merge_path (use_only_strand_1 : Bool)
    (child_genome parent_genome_1 parent_genome_2 : Genome) (mutation_registry_ : List Mutation)
    (draws : List Draw) (p_source_subpop_id : Int) (p_chromosome : Chromosome)
    (p_generation : Int)
    (hsorted1 : PosSorted parent_genome_1.mutations_)
    (hsorted2 : PosSorted parent_genome_2.mutations_)
    (hnodup1 : parent_genome_1.mutations_.Nodup) (hnodup2 : parent_genome_2.mutations_.Nodup)
    (hlast : p_chromosome.last_position_ < INT_MAX)
    (hdrawn : ∀ n, ∀ b ∈ p_chromosome.DrawBreakpoints n, b ≤ INT_MAX) :
    (drawnMutationCount use_only_strand_1 p_chromosome = 0 →
      drawnBreakpointCount use_only_strand_1 p_chromosome ≠ 0 →
      ∃ s, buildChild use_only_strand_1 child_genome parent_genome_1 parent_genome_2
          mutation_registry_ draws p_source_subpop_id p_chromosome p_generation =
            .returned s ∧
        mergePath parent_genome_1 parent_genome_2 p_chromosome
          (drawnBreakpointCount use_only_strand_1 p_chromosome) [] =
            some s.child_genome.mutations_) ∧
    (drawnMutationCount use_only_strand_1 p_chromosome = 0 →
      drawnBreakpointCount use_only_strand_1 p_chromosome = 0 →
      p_chromosome.DrawBreakpoints 0 = [] →
      (∀ m ∈ parent_genome_1.mutations_, m.position_ ≤ p_chromosome.last_position_) →
      ∃ s, buildChild use_only_strand_1 child_genome parent_genome_1 parent_genome_2
          mutation_registry_ draws p_source_subpop_id p_chromosome p_generation =
            .returned s ∧
        mergePath parent_genome_1 parent_genome_2 p_chromosome 0 [] =
          some s.child_genome.mutations_) ∧
    (drawnMutationCount use_only_strand_1 p_chromosome ≠ 0 →
      ∀ s, buildChild use_only_strand_1 child_genome parent_genome_1 parent_genome_2
          mutation_registry_ draws p_source_subpop_id p_chromosome p_generation =
            .returned s →
        mergePath parent_genome_1 parent_genome_2 p_chromosome
          (drawnBreakpointCount use_only_strand_1 p_chromosome)
          (drawnMutations p_chromosome (drawnMutationCount use_only_strand_1 p_chromosome)
            p_source_subpop_id p_generation) = some s.child_genome.mutations_) := by
  have hl : ¬ INT_MAX ≤ p_chromosome.last_position_ := by omega
  refine ⟨fun hm hb => ?_, fun hm hb hempty hpos => ?_, fun hm s hs => ?_⟩
  · refine ⟨_, by unfold buildChild; simp only [hm, if_pos, hb, if_neg, hl, if_false]; rfl, ?_⟩
    unfold mergePath
    rw [if_neg hb]
    show mergeLoop _ _ _ [] [] = _
    rw [mergeLoop_plain _ _ _ (all_breakpoints_ne_nil _ _)
      ((all_breakpoints_strict _ _).imp (fun h => le_of_lt h))
      (all_breakpoints_le_max _ _ (hdrawn _) hlast) hsorted1 hsorted2 hnodup1 hnodup2]
    simp [Genome.clear, crossoverLoop_eq]
  · refine ⟨_, by unfold buildChild; simp only [hm, if_pos, hb]; rfl, ?_⟩
    unfold mergePath
    rw [if_pos rfl, hempty]
    show mergeLoop _ _ _ [] [] = _
    rw [mergeLoop_plain _ _ _ (all_breakpoints_ne_nil _ _)
      ((all_breakpoints_strict _ _).imp (fun h => le_of_lt h))
      (all_breakpoints_le_max _ _ (fun b hb => by cases hb) hlast) hsorted1
      (by simp [PosSorted]) hnodup1 (by simp)]
    have hb1 : all_breakpoints [] p_chromosome.last_position_ =
        [p_chromosome.last_position_ + 1] := by
      simp [all_breakpoints, unique]
    rw [hb1]
    simp only [crossSegments, List.append_nil, Genome.copy_from_genome]
    rw [takeWhile_before_all _ _ (fun m hmem => by have := hpos m hmem; omega)]
  · unfold buildChild at hs
    simp only [hm, if_false, hl] at hs
    unfold mergePath
    split at hs
    · cases hs
    · rename_i c hc
      simp only [Outcome.returned.injEq] at hs
      rw [← hs]
      exact hc

/-- C37 (witness): the strands `[m@10, n@20]` and `[m@10, q@30]` with one breakpoint at 25
and no new mutation: the call returns the child `[m@10, n@20, q@30]`, which is what the
merge path writes. -/
theorem plain_copy_agrees_with_the_merge_path_witness :
    ∃ s, buildChild false (autosome []) (autosome [exM, exN]) (autosome [exM, exQ]) [] [] 1
        (exChromosome 0 1) 5 = .returned s ∧
      mergePath (autosome [exM, exN]) (autosome [exM, exQ]) (exChromosome 0 1)
        (drawnBreakpointCount false (exChromosome 0 1)) [] = some s.child_genome.mutations_ :=
  (plain_copy_agrees_with_the_merge_path false (autosome []) (autosome [exM, exN])
    (autosome [exM, exQ]) [] [] 1 (exChromosome 0 1) 5 (by decide) (by decide) (by decide)
    (by decide) (by decide) (fun n b hb => by
      have : b = 25 := List.eq_of_mem_replicate hb
      rw [this]; decide)).1 (by decide) (by decide)

/-! ## The properties of the specification: the cumulative draw -/

/-- C38: in a call of `ApplyMateChoiceCallbacks` whose chain has run to its end and has
replaced the weights, the last vector returned being the valid `weights` of sum `S` with at
least two positive entries, and with `u = gsl_rng_uniform_pos * S`, `0 < u` and `u ≤ S`:
the call returns an index `i` that is at least 0 and below `parent_subpop_size_` of the
source, the weight at `i` is positive, and the loop of lines 384-393 ends with that `i`
found, so that line 397 does not replace a -1 by the last index. -/
theorem cumulative_draw_finds_a_positive_weight (p_parent1_index : Int)
    (p_subpop p_source_subpop : Subpopulation) (p_mate_choice_callbacks : List SLiMScriptBlock)
    (answers : MateChoiceAnswers) (weights : List ScriptFloat)
    (hcompleted : ChainCompleted answers p_source_subpop.parent_subpop_size_
      (ApplyMateChoiceCallbacks id p_parent1_index p_subpop p_source_subpop
        p_mate_choice_callbacks answers).2)
    (hweights : (replacements answers p_source_subpop.parent_subpop_size_
      (ApplyMateChoiceCallbacks id p_parent1_index p_subpop p_source_subpop
        p_mate_choice_callbacks answers).2).getLast? = some weights)
    (hvalid : ¬ InvalidWeights id weights)
    (hmany : 2 ≤ (weights.filter ScriptFloat.positive).length)
    (hpos : Double.ofInt 0 < answers.gsl_rng_uniform_pos * weightsSum id weights)
    (hle : answers.gsl_rng_uniform_pos * weightsSum id weights ≤ weightsSum id weights) :
    ∃ i : Nat,
      (ApplyMateChoiceCallbacks id p_parent1_index p_subpop p_source_subpop
        p_mate_choice_callbacks answers).1 = .returned (i : Int) ∧
      i < p_source_subpop.parent_subpop_size_ ∧
      (∃ w, weights[i]? = some w ∧ w.positive = true) ∧
      roseLoop id (answers.gsl_rng_uniform_pos * weightsSum id weights) weights 0 (Double.ofInt 0) =
        (i : Int) ∧
      roseLoop id (answers.gsl_rng_uniform_pos * weightsSum id weights) weights 0 (Double.ofInt 0) ≠
        -1 := by
  obtain ⟨hres, _⟩ := (applyMateChoice_draw p_parent1_index p_subpop
    p_source_subpop p_mate_choice_callbacks answers hcompleted).1 weights hweights
  obtain ⟨i, hi, hdraw, hrose, hw⟩ := drawFromWeights_found weights
    p_source_subpop.parent_subpop_size_ answers hvalid (by omega) hpos hle
  have hlen : weights.length = p_source_subpop.parent_subpop_size_ :=
    replacements_length answers _ _ weights (List.mem_of_getLast?_eq_some hweights)
  refine ⟨i, by rw [hres, hdraw], by omega, hw, hrose, ?_⟩
  rw [hrose]
  omega

/-- C38 (witness): one active callback for a source of 2 parents returns the weights 1/2 and
3/2, of sum 2; the uniform draw is 1/2, so `u` is 1, and the call returns the index 1, whose
weight 3/2 is positive. -/
theorem cumulative_draw_finds_a_positive_weight_witness :
    ∃ i : Nat,
      (ApplyMateChoiceCallbacks id 0 exSource exSource [⟨true, true⟩, ⟨false, true⟩]
        (exChainAnswers (.float [.finite (frac 1 2), .finite (frac 3 2)]) .null
          (frac 1 2))).1 = .returned (i : Int) ∧
      i < exSource.parent_subpop_size_ ∧
      (∃ w, [ScriptFloat.finite (frac 1 2), .finite (frac 3 2)][i]? = some w ∧
        w.positive = true) ∧
      roseLoop id (frac 1 2 * weightsSum id [.finite (frac 1 2), .finite (frac 3 2)])
        [.finite (frac 1 2), .finite (frac 3 2)] 0 (Double.ofInt 0) = (i : Int) ∧
      roseLoop id (frac 1 2 * weightsSum id [.finite (frac 1 2), .finite (frac 3 2)])
        [.finite (frac 1 2), .finite (frac 3 2)] 0 (Double.ofInt 0) ≠ -1 :=
  cumulative_draw_finds_a_positive_weight 0 exSource exSource [⟨true, true⟩, ⟨false, true⟩]
    (exChainAnswers (.float [.finite (frac 1 2), .finite (frac 3 2)]) .null (frac 1 2))
    [.finite (frac 1 2), .finite (frac 3 2)] (by decide) (by decide) (by decide) (by decide)
    (by decide) (by decide)

/-! ## The properties of the specification: the keys of the migrant fractions -/

/-- C39: in every state reached from a population without a subpopulation by calls of
`AddSubpopulation`, `SetMigration` and `SetSize`, every key of every subpopulation's
`migrant_fractions_` names a subpopulation of the population; `EvolveSubpopulation` called
in such a state for a subpopulation that exists therefore never terminates at a lookup of
`SubpopulationWithID`: a termination of the call is that of line 523, that of line 546, or
one raised while the children of a source are generated. -/
theorem migrant_keys_name_subpopulations (sim : SLiMSim) (start : Population)
    (calls : List PopulationCall) (pop : Population) (hstart : start.subpops = [])
    (hcalls : ∀ c ∈ calls, c.configures = true)
    (hreached : start.calls sim calls = some pop) :
    KeysNamed pop ∧
    (∀ e ∈ pop.subpops, ∀ pair ∈ e.2.migrant_fractions_,
      ∃ place, pop.SubpopulationWithID pair.1 = some place) ∧
    (∀ id gen mcb ccb num_migrants matings e s, pop.Names id →
      pop.EvolveSubpopulation id gen mcb ccb num_migrants matings = .terminated e s →
      e ≠ .noSubpopulation ∧
      (e = .unisexualChildPopulation ∨ e = .tooManyMigrants ∨ e.whileGenerating = true)) := by
  have hkeys : KeysNamed pop := calls_keys sim calls start pop hcalls (fun e he => by
    rw [hstart] at he
    cases he) hreached
  refine ⟨hkeys, fun e he pair hp => ?_, fun id gen mcb ccb num_migrants matings e s hid h => ?_⟩
  · obtain ⟨place, _, hplace, _⟩ := subpopulationWithID_named pop pair.1 (hkeys e he pair hp)
    exact ⟨place, hplace⟩
  · have hl := evolve_lookup pop id gen mcb ccb num_migrants matings e s hid hkeys h
    refine ⟨?_, hl⟩
    rcases hl with h1 | h1 | h1
    · rw [h1]; decide
    · rw [h1]; decide
    · intro h2
      rw [h2] at h1
      cases h1

/-- C39 (witness): after the calls `exCalls` from the population without a subpopulation,
the keys 1 and 3 of the migrant fractions of the subpopulation 2 name subpopulations. -/
theorem migrant_keys_name_subpopulations_witness :
    ∃ pop, exEmpty.calls exSim exCalls = some pop ∧ KeysNamed pop := by
  have hsome : (exEmpty.calls exSim exCalls).isSome = true := by decide
  cases h : exEmpty.calls exSim exCalls with
  | none => rw [h] at hsome; cases hsome
  | some pop =>
    exact ⟨pop, rfl,
      (migrant_keys_name_subpopulations exSim exEmpty exCalls pop rfl (by decide) h).1⟩

/-! ## The properties of the specification: the compaction of the registry -/

/-- C40: for a registry without repeated entries, the loop of lines 1388-1452 ends after at
most one pass more than the registry has entries, with the registry `kept`, the list `fixed`
and the list `removed`; every entry of the registry before is either in `kept` or in
`removed` and not in both, neither list holds an entry twice or an entry that the registry
did not hold, `kept` holds the entries that are neither lost nor fixed, the size of the
registry before is the size of `kept` plus the number of lost entries plus the number of
fixed ones, and the loop of lines 1475-1489 deletes the entries of `removed`, each once.
`kept` is the registry that `RemoveFixedMutations` leaves. -/
theorem compaction_classifies_each_entry_once (pop : Population)
    (hnodup : pop.mutation_registry_.Nodup) :
    ∃ kept fixed removed,
      registryLoop pop.reference_count_ pop.total_genome_count_
        (pop.mutation_registry_.length + 1) pop.mutation_registry_ 0 [] [] =
          some (kept, fixed, removed) ∧
      (∀ m ∈ pop.mutation_registry_, (m ∈ kept ∧ m ∉ removed) ∨ (m ∉ kept ∧ m ∈ removed)) ∧
      (∀ m, m ∈ kept ∨ m ∈ removed → m ∈ pop.mutation_registry_) ∧
      kept.Nodup ∧ removed.Nodup ∧
      (∀ m ∈ kept, leavesRegistry pop.reference_count_ pop.total_genome_count_ m = false) ∧
      (∀ m ∈ removed, leavesRegistry pop.reference_count_ pop.total_genome_count_ m = true) ∧
      fixed.Perm (removed.filter (isFixed pop.reference_count_ pop.total_genome_count_)) ∧
      pop.mutation_registry_.length =
        kept.length + (removed.filter (isLost pop.reference_count_)).length + fixed.length ∧
      deletedMutations removed = removed ∧ (deletedMutations removed).Nodup ∧
      ∀ generation result, pop.RemoveFixedMutations generation = some result →
        result.mutation_registry_ = kept := by
  obtain ⟨kept, fx, rm, e, hp, hk, hr, hf, _⟩ :=
    registryLoop_spec pop.reference_count_ pop.total_genome_count_
      (pop.mutation_registry_.length + 1) [] pop.mutation_registry_ [] [] (by omega)
  simp only [List.nil_append, List.length_nil] at e hf
  have hnd : (kept ++ rm).Nodup := hp.nodup_iff.mpr hnodup
  obtain ⟨hnk, hnr, hdis⟩ := List.nodup_append.mp hnd
  refine ⟨kept, fx, rm, e, fun m hm => ?_, fun m hm => ?_, hnk, hnr, hk, hr, hf, ?_,
    deletedMutations_eq rm, by rw [deletedMutations_eq]; exact hnr,
    fun generation result hres => ?_⟩
  · rcases List.mem_append.mp (hp.symm.subset hm) with h | h
    · exact Or.inl ⟨h, fun h2 => hdis h h2⟩
    · exact Or.inr ⟨fun h2 => hdis h2 h, h⟩
  · exact hp.subset (List.mem_append.mpr hm)
  · have hlen := hp.length_eq
    rw [List.length_append] at hlen
    have hsplit := filter_lost_fixed pop.reference_count_ pop.total_genome_count_ rm hr
    have hfl := hf.length_eq
    omega
  · unfold Population.RemoveFixedMutations at hres
    rw [e] at hres
    simp only at hres
    split at hres
    · split at hres
      · cases hres
      · simp only [Option.some.injEq] at hres
        rw [← hres]
    · simp only [Option.some.injEq] at hres
      rw [← hres]

/-- C40 (witness): a registry of four mutations after the tally of 2 genomes, `m` lost, `n`
and `s` fixed, `q` in one genome: `m` leaves first and the last entry `s` takes its place and
is classified in the same place, then `q` stays and `n` leaves, so the registry is left with
`q`, the removed list is `m`, `s`, `n` and the fixed list `n`, `s` in the order of the
positions. -/
theorem compaction_classifies_each_entry_once_witness :
    (∃ kept fixed removed,
      registryLoop exMixedRegistry.reference_count_ exMixedRegistry.total_genome_count_
        (exMixedRegistry.mutation_registry_.length + 1) exMixedRegistry.mutation_registry_
          0 [] [] = some (kept, fixed, removed) ∧
      (∀ m ∈ exMixedRegistry.mutation_registry_,
        (m ∈ kept ∧ m ∉ removed) ∨ (m ∉ kept ∧ m ∈ removed)) ∧
      (∀ m, m ∈ kept ∨ m ∈ removed → m ∈ exMixedRegistry.mutation_registry_) ∧
      kept.Nodup ∧ removed.Nodup ∧
      (∀ m ∈ kept, leavesRegistry exMixedRegistry.reference_count_
        exMixedRegistry.total_genome_count_ m = false) ∧
      (∀ m ∈ removed, leavesRegistry exMixedRegistry.reference_count_
        exMixedRegistry.total_genome_count_ m = true) ∧
      fixed.Perm (removed.filter
        (isFixed exMixedRegistry.reference_count_ exMixedRegistry.total_genome_count_)) ∧
      exMixedRegistry.mutation_registry_.length =
        kept.length + (removed.filter (isLost exMixedRegistry.reference_count_)).length +
          fixed.length ∧
      deletedMutations removed = removed ∧ (deletedMutations removed).Nodup ∧
      ∀ generation result, exMixedRegistry.RemoveFixedMutations generation = some result →
        result.mutation_registry_ = kept) ∧
    registryLoop exMixedRegistry.reference_count_ exMixedRegistry.total_genome_count_
      (exMixedRegistry.mutation_registry_.length + 1) exMixedRegistry.mutation_registry_
        0 [] [] = some ([exQ], [exN, exS], [exM, exS, exN]) :=
  ⟨compaction_classifies_each_entry_once exMixedRegistry (by decide), by decide⟩

end SLiM
